import Mathlib

/-!
# SGL-lite: geometry, scene graph, rasterizer and UTF-8 decoding

A shallow embedding of parts of the SGL-lite embedded UI engine
(`source/sgl_core.c`, `source/core/sgl_core.c`, `source/sgl_draw.c`,
`source/include/sgl_core.h`) together with theorems about them.

Conventions of the embedding:
* C `int16_t` coordinates are `Int`; where the C code stores the result of an
  arithmetic expression back into an `int16_t`, the embedding applies `wrap16`.
* pointers to objects are `Option Nat` (`none` is `NULL`), the heap is a
  function from addresses to objects;
* a function writing through an out-pointer returns the new value of the
  pointee next to its C return value.
-/

namespace SglLite

/-! ## Definitions -/

/-- Modelled from the spec: the `sgl_min` macro of the absent `sgl_types.h`,
the smaller of two values. -/
def sgl_min (a b : Int) : Int := min a b

/-- Modelled from the spec: the `sgl_max` macro of the absent `sgl_types.h`,
the larger of two values. -/
def sgl_max (a b : Int) : Int := max a b

/-- The struct `sgl_area_t` of `sgl_core.h`: an inclusive rectangle. -/
structure sgl_area where
  x1 : Int
  y1 : Int
  x2 : Int
  y2 : Int
  deriving DecidableEq, Repr

/-- A well-formed area has `x1 ≤ x2` and `y1 ≤ y2`. -/
def sgl_area.wf (a : sgl_area) : Prop := a.x1 ≤ a.x2 ∧ a.y1 ≤ a.y2

instance (a : sgl_area) : Decidable a.wf := by
  unfold sgl_area.wf; exact inferInstance

/-- The integer point `(x, y)` lies in the inclusive rectangle `a`. -/
def sgl_area.contains (a : sgl_area) (x y : Int) : Prop :=
  a.x1 ≤ x ∧ x ≤ a.x2 ∧ a.y1 ≤ y ∧ y ≤ a.y2

instance (a : sgl_area) (x y : Int) : Decidable (a.contains x y) := by
  unfold sgl_area.contains; exact inferInstance

/-- Every integer point of `inner` is a point of `outer`. -/
def sgl_area.encloses (outer inner : sgl_area) : Prop :=
  ∀ x y : Int, inner.contains x y → outer.contains x y

/-- The function `sgl_area_clip` of `sgl_core.c`: the C return value and the
value of `*clip` on return. -/
def sgl_area_clip (area_a area_b clip : sgl_area) : Bool × sgl_area :=
  if area_b.y1 > area_a.y2 ∨ area_b.y2 < area_a.y1 ∨
      area_b.x1 > area_a.x2 ∨ area_b.x2 < area_a.x1 then
    (false, clip)
  else
    (true,
      { x1 := sgl_max area_a.x1 area_b.x1
        x2 := sgl_min area_a.x2 area_b.x2
        y1 := sgl_max area_a.y1 area_b.y1
        y2 := sgl_min area_a.y2 area_b.y2 })

/-- The function `sgl_area_selfclip` of `sgl_core.c`: the C return value and
the value of `*clip` on return. -/
def sgl_area_selfclip (clip area : sgl_area) : Bool × sgl_area :=
  if area.y1 > clip.y2 ∨ area.y2 < clip.y1 ∨
      area.x1 > clip.x2 ∨ area.x2 < clip.x1 then
    (false, clip)
  else
    (true,
      { x1 := sgl_max clip.x1 area.x1
        x2 := sgl_min clip.x2 area.x2
        y1 := sgl_max clip.y1 area.y1
        y2 := sgl_min clip.y2 area.y2 })

/-- The function `sgl_area_merge` of `core/sgl_core.c`: the value of `*merge`
on return. -/
def sgl_area_merge (area_a area_b : sgl_area) : sgl_area :=
  { x1 := sgl_min area_a.x1 area_b.x1
    x2 := sgl_max area_a.x2 area_b.x2
    y1 := sgl_min area_a.y1 area_b.y1
    y2 := sgl_max area_a.y2 area_b.y2 }

/-- The function `sgl_area_selfmerge` of `core/sgl_core.c`: the value of
`*merge` on return. -/
def sgl_area_selfmerge (merge area : sgl_area) : sgl_area :=
  { x1 := sgl_min merge.x1 area.x1
    x2 := sgl_max merge.x2 area.x2
    y1 := sgl_min merge.y1 area.y1
    y2 := sgl_max merge.y2 area.y2 }

/-- The inline function `sgl_area_init` of `sgl_core.h`. The constants
`SGL_POS_MAX` and `SGL_POS_MIN` come from the absent `sgl_types.h` and are
parameters here. -/
def sgl_area_init (SGL_POS_MAX SGL_POS_MIN : Int) : sgl_area :=
  { x1 := SGL_POS_MAX, y1 := SGL_POS_MAX, x2 := SGL_POS_MIN, y2 := SGL_POS_MIN }

/-- The function `sgl_dirty_area_push` of `sgl_core.c`, on the dirty
accumulator `sgl_system.fbdev.dirty` passed explicitly. -/
def sgl_dirty_area_push (dirty area : sgl_area) : sgl_area :=
  sgl_area_selfmerge dirty area

/-- The dirty accumulator after `sgl_dirty_area_init` followed by one
`sgl_dirty_area_push` per element of `rs`, in list order. -/
def dirty_after_pushes (SGL_POS_MAX SGL_POS_MIN : Int) (rs : List sgl_area) : sgl_area :=
  rs.foldl sgl_dirty_area_push (sgl_area_init SGL_POS_MAX SGL_POS_MIN)

/-- All four bounds of the area lie between `SGL_POS_MIN` and `SGL_POS_MAX`. -/
def sgl_area.in_pos_range (SGL_POS_MAX SGL_POS_MIN : Int) (a : sgl_area) : Prop :=
  SGL_POS_MIN ≤ a.x1 ∧ a.x1 ≤ SGL_POS_MAX ∧ SGL_POS_MIN ≤ a.y1 ∧ a.y1 ≤ SGL_POS_MAX ∧
  SGL_POS_MIN ≤ a.x2 ∧ a.x2 ≤ SGL_POS_MAX ∧ SGL_POS_MIN ≤ a.y2 ∧ a.y2 ≤ SGL_POS_MAX

instance (M m : Int) (a : sgl_area) : Decidable (a.in_pos_range M m) := by
  unfold sgl_area.in_pos_range; exact inferInstance

/-! ### UTF-8 -/

/-- The function `sgl_utf8_to_unicode` of `sgl_core.c`: the returned byte
count and the value of `*p_unicode_buffer` on return. The string is the list
of its bytes as unsigned values (the C code masks every byte it combines, so
the signedness of `char` does not show); `utf8_str[i]` is `utf8_str.getD i 0`. -/
def sgl_utf8_to_unicode (utf8_str : List Nat) (p_unicode_buffer : Nat) : Nat × Nat :=
  if utf8_str.getD 0 0 < 0x80 then
    (1, utf8_str.getD 0 0)
  else if utf8_str.getD 0 0 &&& 0xE0 = 0xC0 then
    (2, ((utf8_str.getD 0 0 &&& 0x1F) <<< 6) ||| (utf8_str.getD 1 0 &&& 0x3F))
  else if utf8_str.getD 0 0 &&& 0xF0 = 0xE0 then
    (3, (((utf8_str.getD 0 0 &&& 0x0F) <<< 12) ||| ((utf8_str.getD 1 0 &&& 0x3F) <<< 6))
          ||| (utf8_str.getD 2 0 &&& 0x3F))
  else if utf8_str.getD 0 0 &&& 0xF8 = 0xF0 then
    (4, ((((utf8_str.getD 0 0 &&& 0x07) <<< 18) ||| ((utf8_str.getD 2 0 &&& 0x3F) <<< 6))
          ||| ((utf8_str.getD 1 0 &&& 0x3F) <<< 12)) ||| (utf8_str.getD 3 0 &&& 0x3F))
  else
    (0, p_unicode_buffer)

/-! ### Scene graph -/

/-- C conversion of an `int` value to `int16_t` (two's complement wrap). -/
def wrap16 (v : Int) : Int := (v + 32768) % 65536 - 32768

/-- The value is representable as `int16_t`. -/
def is_int16 (v : Int) : Prop := -32768 ≤ v ∧ v ≤ 32767

instance (v : Int) : Decidable (is_int16 v) := by
  unfold is_int16; exact inferInstance

/-- The constant `SGL_OBJ_DEPTH_MAX` of `sgl_core.h`. -/
def SGL_OBJ_DEPTH_MAX : Nat := 16

/-- The struct `sgl_obj_t` of `sgl_core.h`; object pointers are addresses,
`none` is `NULL`. The draw callback is not a field: the compositor takes the
callbacks of the objects as one function of the object address. -/
structure sgl_obj where
  coords : sgl_area := ⟨0, 0, 0, 0⟩
  parent : Option Nat := none
  child : Option Nat := none
  sibling : Option Nat := none
  dirty : Bool := false
  hide : Bool := false
  radius : Nat := 0
  destroyed : Bool := false
  page : Bool := false
  deriving DecidableEq, Repr

/-- The object memory: the object stored at each address. -/
abbrev Heap := Nat → sgl_obj

/-- Store `o` at address `p`. -/
def Heap.set (h : Heap) (p : Nat) (o : sgl_obj) : Heap :=
  fun q => if q = p then o else h q

/-- The inline function `sgl_obj_set_dirty` of `sgl_core.h`. -/
def sgl_obj_set_dirty (h : Heap) (obj : Nat) : Heap :=
  h.set obj { h obj with dirty := true }

/-- The sibling chain starting at pointer `p`, followed until `NULL`; `none`
when `NULL` is not reached within `fuel` steps. -/
def sibling_chain (h : Heap) : Nat → Option Nat → Option (List Nat)
  | _, none => some []
  | 0, some _ => none
  | fuel + 1, some p => (sibling_chain h fuel (h p).sibling).map (fun l => p :: l)

/-- The child list of `parent`, as `sgl_obj_for_each_child` enumerates it. -/
def sgl_obj_children (h : Heap) (fuel : Nat) (parent : Nat) : Option (List Nat) :=
  sibling_chain h fuel (h parent).child

/-- The `sgl_obj_for_each_child (prev, parent)` loop of `sgl_obj_move_up`,
from the current value of `prev`. -/
def move_up_loop (h : Heap) (obj : Nat) : Nat → Option Nat → Option Heap
  | _, none => some h
  | 0, some _ => none
  | fuel + 1, some prev =>
    if (h prev).sibling = some obj then
      match (h obj).sibling with
      | none => none
      | some next =>
        let h1 := h.set obj { h obj with sibling := (h next).sibling }
        let h2 := h1.set prev { h1 prev with sibling := some next }
        let h3 := h2.set next { h2 next with sibling := some obj }
        some (sgl_obj_set_dirty h3 obj)
    else move_up_loop h obj fuel (h prev).sibling

/-- The function `sgl_obj_move_up` of `sgl_core.c`. The result is `none` when
the C code dereferences `NULL` or the sibling walk does not end within `fuel`
steps. -/
def sgl_obj_move_up (fuel : Nat) (h : Heap) (obj : Nat) : Option Heap :=
  match (h obj).parent with
  | none => none
  | some parent =>
    match (h obj).sibling with
    | none => some h
    | some next =>
      if (h parent).child = some obj then
        let h1 := h.set parent { h parent with child := (h obj).sibling }
        let h2 := h1.set obj { h1 obj with sibling := (h1 next).sibling }
        some (sgl_obj_set_dirty h2 obj)
      else move_up_loop h obj fuel (h parent).child

/-- The `sgl_obj_for_each_child (gprev, parent)` loop of `sgl_obj_move_down`,
from the current value of `gprev`. -/
def move_down_loop (h : Heap) (obj : Nat) : Nat → Option Nat → Option Heap
  | _, none => some h
  | 0, some _ => none
  | fuel + 1, some gprev =>
    match (h gprev).sibling with
    | none => none
    | some prev =>
      if (h prev).sibling = some obj then
        let h1 := h.set prev { h prev with sibling := (h obj).sibling }
        let h2 := h1.set gprev { h1 gprev with sibling := some obj }
        let h3 := h2.set obj { h2 obj with sibling := some prev }
        some (sgl_obj_set_dirty h3 obj)
      else move_down_loop h obj fuel (h gprev).sibling

/-- The function `sgl_obj_move_down` of `sgl_core.c`. -/
def sgl_obj_move_down (fuel : Nat) (h : Heap) (obj : Nat) : Option Heap :=
  match (h obj).parent with
  | none => none
  | some parent =>
    if (h parent).child = some obj ∨ (h obj).sibling = none then some h
    else
      match (h parent).child with
      | none => none
      | some first =>
        if (h first).sibling = some obj then
          let h1 := h.set first { h first with sibling := (h obj).sibling }
          let h2 := h1.set obj { h1 obj with sibling := (h1 parent).child }
          let h3 := h2.set parent { h2 parent with child := some obj }
          some (sgl_obj_set_dirty h3 obj)
        else move_down_loop h obj fuel (h parent).child

/-- The loop `while (curr != NULL && curr != obj)` of `sgl_obj_move_top`: the
final value of `prev`. -/
def move_top_find (h : Heap) (obj : Nat) : Nat → Option Nat → Option Nat → Option (Option Nat)
  | _, prev, none => some prev
  | 0, _, some _ => none
  | fuel + 1, prev, some curr =>
    if curr = obj then some prev else move_top_find h obj fuel (some curr) (h curr).sibling

/-- The loop `while (last->sibling != NULL)` of `sgl_obj_move_top`: the final
value of `last`. -/
def move_top_last (h : Heap) : Nat → Nat → Option Nat
  | 0, _ => none
  | fuel + 1, last =>
    match (h last).sibling with
    | none => some last
    | some n => move_top_last h fuel n

/-- The function `sgl_obj_move_top` of `sgl_core.c`. -/
def sgl_obj_move_top (fuel : Nat) (h : Heap) (obj : Nat) : Option Heap :=
  match (h obj).parent with
  | none => none
  | some parent =>
    if (h obj).sibling = none then some h
    else
      match move_top_find h obj fuel none (h parent).child with
      | none => none
      | some prev =>
        let h1 : Heap :=
          match prev with
          | none => h.set parent { h parent with child := (h obj).sibling }
          | some pv => h.set pv { h pv with sibling := (h obj).sibling }
        match (h1 parent).child with
        | none =>
          let h2 := h1.set parent { h1 parent with child := some obj }
          let h3 := h2.set obj { h2 obj with sibling := none }
          some (sgl_obj_set_dirty h3 obj)
        | some first =>
          match move_top_last h1 fuel first with
          | none => none
          | some last =>
            let h2 := h1.set last { h1 last with sibling := some obj }
            let h3 := h2.set obj { h2 obj with sibling := none }
            some (sgl_obj_set_dirty h3 obj)

/-- The `sgl_obj_for_each_child (prev, parent)` loop of `sgl_obj_move_bottom`:
the value of `prev` when the loop ends (`NULL` when no child precedes `obj`). -/
def move_bottom_find (h : Heap) (obj : Nat) : Nat → Option Nat → Option (Option Nat)
  | _, none => some none
  | 0, some _ => none
  | fuel + 1, some prev =>
    if (h prev).sibling = some obj then some (some prev)
    else move_bottom_find h obj fuel (h prev).sibling

/-- The function `sgl_obj_move_bottom` of `sgl_core.c`. -/
def sgl_obj_move_bottom (fuel : Nat) (h : Heap) (obj : Nat) : Option Heap :=
  match (h obj).parent with
  | none => none
  | some parent =>
    if (h parent).child = some obj then some h
    else
      match move_bottom_find h obj fuel (h parent).child with
      | none => none
      | some none => none
      | some (some prev) =>
        let h1 := h.set prev { h prev with sibling := (h obj).sibling }
        let h2 := h1.set obj { h1 obj with sibling := (h1 parent).child }
        let h3 := h2.set parent { h2 parent with child := some obj }
        some (sgl_obj_set_dirty h3 obj)

/-- A parent at address 0 with the children 1, 2, 3 in this order. -/
def three_children : Heap := fun p =>
  match p with
  | 0 => { child := some 1 }
  | 1 => { parent := some 0, sibling := some 2 }
  | 2 => { parent := some 0, sibling := some 3 }
  | 3 => { parent := some 0 }
  | _ => {}

/-- The body of the loop of `sgl_obj_move_child_pos` on one object: the dirty
flag is set and the four coordinates are moved, each stored back as
`int16_t`. -/
def shift_obj (ofs_x ofs_y : Int) (o : sgl_obj) : sgl_obj :=
  { o with
    dirty := true
    coords :=
      { x1 := wrap16 (o.coords.x1 + ofs_x)
        x2 := wrap16 (o.coords.x2 + ofs_x)
        y1 := wrap16 (o.coords.y1 + ofs_y)
        y2 := wrap16 (o.coords.y2 + ofs_y) } }

/-- The statement `if (ptr != NULL) stack[top++] = ptr;`, the stack being a
list whose head is `stack[top - 1]`. -/
def push_ptr (ptr : Option Nat) (stack : List Nat) : List Nat :=
  match ptr with
  | some q => q :: stack
  | none => stack

/-- The `while (top > 0)` loop of `sgl_obj_move_child_pos` in `sgl_core.c`.
The result is `none` when `SGL_ASSERT(top < SGL_OBJ_DEPTH_MAX)` fails (the
assert handler never returns) or when the loop does not end within `fuel`
iterations. -/
def move_child_pos_loop (ofs_x ofs_y : Int) : Nat → Heap → List Nat → Option Heap
  | _, h, [] => some h
  | 0, _, _ :: _ => none
  | fuel + 1, h, p :: stack =>
    if (p :: stack).length < SGL_OBJ_DEPTH_MAX then
      let h1 := h.set p (shift_obj ofs_x ofs_y (h p))
      move_child_pos_loop ofs_x ofs_y fuel h1
        (push_ptr (h1 p).child (push_ptr (h1 p).sibling stack))
    else none

/-- The function `sgl_obj_move_child_pos` of `sgl_core.c`. -/
def sgl_obj_move_child_pos (fuel : Nat) (h : Heap) (obj : Nat) (ofs_x ofs_y : Int) :
    Option Heap :=
  match (h obj).child with
  | none => some h
  | some c => move_child_pos_loop ofs_x ofs_y fuel h [c]

/-- The function `sgl_obj_set_abs_pos` of `sgl_core.c`. -/
def sgl_obj_set_abs_pos (fuel : Nat) (h : Heap) (obj : Nat) (abs_x abs_y : Int) :
    Option Heap :=
  let x_diff := wrap16 (abs_x - (h obj).coords.x1)
  let y_diff := wrap16 (abs_y - (h obj).coords.y1)
  let h1 := h.set obj
    { h obj with
      dirty := true
      coords :=
        { x1 := wrap16 ((h obj).coords.x1 + x_diff)
          x2 := wrap16 ((h obj).coords.x2 + x_diff)
          y1 := wrap16 ((h obj).coords.y1 + y_diff)
          y2 := wrap16 ((h obj).coords.y2 + y_diff) } }
  sgl_obj_move_child_pos fuel h1 obj x_diff y_diff

/-- The sequence of objects the loop of `sgl_obj_move_child_pos` visits from a
given stack; it depends on the `child` and `sibling` links only. -/
def visit_order : Nat → Heap → List Nat → Option (List Nat)
  | _, _, [] => some []
  | 0, _, _ :: _ => none
  | fuel + 1, h, p :: stack =>
    if (p :: stack).length < SGL_OBJ_DEPTH_MAX then
      (visit_order fuel h (push_ptr (h p).child (push_ptr (h p).sibling stack))).map
        (fun vs => p :: vs)
    else none

/-- The heap after the loop body of `sgl_obj_move_child_pos` ran on each
object of `vs` in turn. -/
def apply_visits (ofs_x ofs_y : Int) (h : Heap) (vs : List Nat) : Heap :=
  vs.foldl (fun g p => g.set p (shift_obj ofs_x ofs_y (g p))) h

/-- The shape of a forest in first-child / next-sibling form: `nil` for a
`NULL` pointer, `node p c s` for the object at `p` with the forest `c` of its
children and the forest `s` of its following siblings. -/
inductive Shape where
  | nil : Shape
  | node (p : Nat) (child sibling : Shape) : Shape
  deriving DecidableEq, Repr

/-- The pointer `ptr` is the root of a forest of the given shape in `h`. -/
def Represents (h : Heap) : Option Nat → Shape → Prop
  | ptr, Shape.nil => ptr = none
  | ptr, Shape.node p c s =>
    ptr = some p ∧ Represents h (h p).child c ∧ Represents h (h p).sibling s

instance Represents.decidable (h : Heap) : (ptr : Option Nat) → (t : Shape) →
    Decidable (Represents h ptr t)
  | ptr, Shape.nil => by unfold Represents; exact inferInstance
  | ptr, Shape.node p c s => by
    unfold Represents
    have := Represents.decidable h (h p).child c
    have := Represents.decidable h (h p).sibling s
    exact inferInstance

/-- Number of levels of the forest: 0 for `NULL`, children are one level below
their parent, siblings are on the same level. -/
def Shape.depth : Shape → Nat
  | Shape.nil => 0
  | Shape.node _ c s => max (c.depth + 1) s.depth

/-- Number of objects of the forest. -/
def Shape.size : Shape → Nat
  | Shape.nil => 0
  | Shape.node _ c s => 1 + c.size + s.size

/-- The objects of the forest in pre-order. -/
def Shape.preorder : Shape → List Nat
  | Shape.nil => []
  | Shape.node p c s => p :: (c.preorder ++ s.preorder)

/-- Every coordinate of every object of the heap is an `int16_t` value. -/
def Heap.coords_int16 (h : Heap) : Prop :=
  ∀ p : Nat, is_int16 (h p).coords.x1 ∧ is_int16 (h p).coords.y1 ∧
    is_int16 (h p).coords.x2 ∧ is_int16 (h p).coords.y2

/-- An object at address 0 with the children 1 and 2, the object 1 having
the child 3. -/
def small_tree : Heap := fun p =>
  match p with
  | 0 => { coords := ⟨10, 10, 200, 100⟩, child := some 1 }
  | 1 => { coords := ⟨20, 20, 90, 60⟩, parent := some 0, child := some 3, sibling := some 2 }
  | 2 => { coords := ⟨100, 20, 190, 60⟩, parent := some 0 }
  | 3 => { coords := ⟨30, 30, 50, 40⟩, parent := some 1 }
  | _ => {}

/-- The forest pushed on the stack of shapes next to `push_ptr`: nothing for
a `NULL` pointer. -/
def push_shape (t : Shape) (ts : List Shape) : List Shape :=
  match t with
  | Shape.nil => ts
  | Shape.node p c s => Shape.node p c s :: ts

/-- Each pointer of the stack is the root of the forest at the same position
of the list of shapes. -/
def StackRep (h : Heap) : List Nat → List Shape → Prop
  | [], [] => True
  | p :: st, t :: ts => Represents h (some p) t ∧ StackRep h st ts
  | _, _ => False

/-- Each forest of the stack, together with the entries below it, stays
below `SGL_OBJ_DEPTH_MAX`. -/
def StackFits : List Shape → Prop
  | [] => True
  | t :: ts => ts.length + t.depth < SGL_OBJ_DEPTH_MAX ∧ StackFits ts

/-- Total number of objects of the forests of the stack. -/
def stack_size : List Shape → Nat
  | [] => 0
  | t :: ts => t.size + stack_size ts

/-- The objects of the forests of the stack, top first, each in pre-order. -/
def stack_preorder : List Shape → List Nat
  | [] => []
  | t :: ts => t.preorder ++ stack_preorder ts

/-! ### Colors -/

/-- The configured pixel format (`CONFIG_SGL_PANEL_PIXEL_DEPTH`), which selects
the type `sgl_color_t` and the branch of `sgl_color_mixer`. -/
inductive sgl_pixel_depth where
  | RGB233 : sgl_pixel_depth
  | RGB565 : sgl_pixel_depth
  | RGB888 : sgl_pixel_depth
  | ARGB8888 : sgl_pixel_depth
  deriving DecidableEq, Repr

/-- Number of bits of `sgl_color_t`. A color is the number formed by its
channels in the order of the structs of `sgl_core.h`, blue lowest. -/
def sgl_pixel_depth.bits : sgl_pixel_depth → Nat
  | sgl_pixel_depth.RGB233 => 8
  | sgl_pixel_depth.RGB565 => 16
  | sgl_pixel_depth.RGB888 => 24
  | sgl_pixel_depth.ARGB8888 => 32

/-- The number is a value of the type `sgl_color_t`. -/
def is_color (d : sgl_pixel_depth) (c : Nat) : Prop := c < 2 ^ d.bits

instance (d : sgl_pixel_depth) (c : Nat) : Decidable (is_color d c) := by
  unfold is_color; exact inferInstance

/-- One channel of the channel-wise branches of `sgl_color_mixer`:
`bg + ((fg - bg) * k >> shift)` in `int`, stored in a field of `bits` bits. -/
def mix_channel (bits shift : Nat) (fg bg k : Nat) : Nat :=
  (((bg : Int) + (((fg : Int) - (bg : Int)) * (k : Int)) / (2 ^ shift : Int)) %
    (2 ^ bits : Int)).toNat

/-- The function `sgl_color_mixer` of `core/sgl_core.c`, one branch per pixel
format. -/
def sgl_color_mixer (d : sgl_pixel_depth) (fg_color bg_color factor : Nat) : Nat :=
  match d with
  | sgl_pixel_depth.RGB233 =>
    let red := mix_channel 3 3 (fg_color / 32 % 8) (bg_color / 32 % 8) (factor >>> 5)
    let green := mix_channel 3 3 (fg_color / 4 % 8) (bg_color / 4 % 8) (factor >>> 5)
    let blue := mix_channel 2 2 (fg_color % 4) (bg_color % 4) (factor >>> 6)
    blue + green * 4 + red * 32
  | sgl_pixel_depth.RGB565 =>
    let _alpha := factor >>> 3
    let fg := (fg_color ||| (fg_color <<< 16) % 2 ^ 32) &&& 0x07e0f81f
    let bg := (bg_color ||| (bg_color <<< 16) % 2 ^ 32) &&& 0x07e0f81f
    let bg := (bg + (((fg + 2 ^ 32 - bg) % 2 ^ 32 * _alpha) % 2 ^ 32) >>> 5) % 2 ^ 32
    let bg := bg &&& 0x07e0f81f
    (bg ||| bg >>> 16) % 2 ^ 16
  | sgl_pixel_depth.RGB888 =>
    let red := mix_channel 8 8 (fg_color / 65536 % 256) (bg_color / 65536 % 256) factor
    let green := mix_channel 8 8 (fg_color / 256 % 256) (bg_color / 256 % 256) factor
    let blue := mix_channel 8 8 (fg_color % 256) (bg_color % 256) factor
    blue + green * 256 + red * 65536
  | sgl_pixel_depth.ARGB8888 =>
    let alpha := mix_channel 8 8 (fg_color / 16777216 % 256) (bg_color / 16777216 % 256) factor
    let red := mix_channel 8 8 (fg_color / 65536 % 256) (bg_color / 65536 % 256) factor
    let green := mix_channel 8 8 (fg_color / 256 % 256) (bg_color / 256 % 256) factor
    let blue := mix_channel 8 8 (fg_color % 256) (bg_color % 256) factor
    blue + green * 256 + red * 65536 + alpha * 16777216

/-- Modelled from the spec: the constant `SGL_ALPHA_MAX` of the absent
`sgl_types.h`, the alpha at which the source is stored directly. -/
def SGL_ALPHA_MAX : Nat := 255

/-- Modelled from the spec: the constant `SGL_ALPHA_MIN` of the absent
`sgl_types.h`, the alpha at which drawing is a no-op. -/
def SGL_ALPHA_MIN : Nat := 0

/-! ### Square-root error -/

/-- The table `sqrt_error_table` of `sgl_core.c`. -/
def sqrt_error_table : List Nat := [
    0, 0, 106, 187, 0, 60, 115, 165, 212, 0, 41, 81, 118, 155, 189, 223,
    0, 31, 62, 91, 120, 149, 176, 203, 230, 0, 25, 50, 74, 98, 122, 145,
    168, 190, 212, 234, 0, 21, 42, 62, 83, 103, 123, 142, 162, 181, 200, 219,
    237, 0, 18, 36, 54, 71, 89, 106, 123, 140, 157, 174, 190, 207, 223, 239,
    0, 15, 31, 47, 63, 78, 93, 109, 124, 139, 154, 169, 183, 198, 212, 227,
    241, 0, 14, 28, 42, 56, 70, 83, 97, 111, 124, 138, 151, 164, 178, 191,
    204, 217, 230, 243, 0, 12, 25, 38, 50, 63, 75, 88, 100, 112, 124, 137,
    149, 161, 173, 185, 197, 209, 220, 232, 244, 0, 11, 23, 34, 46, 57, 68,
    80, 91, 102, 114, 125, 136, 147, 158, 169, 180, 191, 202, 213, 223, 234, 245,
    0, 10, 21, 31, 42, 52, 63, 73, 84, 94, 104, 115, 125, 135, 145, 156,
    166, 176, 186, 196, 206, 216, 226, 236, 246, 0, 9, 19, 29, 39, 48, 58,
    68, 77, 87, 97, 106, 116, 125, 135, 144, 153, 163, 172, 182, 191, 200, 209,
    219, 228, 237, 246, 0, 9, 18, 27, 36, 45, 54, 63, 72, 81, 90, 99,
    108, 116, 125, 134, 143, 152, 160, 169, 178, 187, 195, 204, 213, 221, 230, 238,
    247, 0, 8, 17, 25, 33, 42, 50, 59, 67, 76, 84, 92, 101, 109, 117,
    125, 134, 142, 150, 158, 167, 175, 183, 191, 199, 207, 215, 223, 231, 239, 247,
    0, 7, 15, 23, 31, 39, 47, 55, 63, 71, 79, 87, 94, 102, 110, 118,
    126, 133, 141, 149, 156, 164, 172, 180, 187, 195, 202, 210, 218, 225, 233, 240,
    248, 0, 7, 15, 22, 30, 37, 44, 52, 59, 67, 74, 82, 89, 96, 104,
    111, 118, 126, 133, 140, 148, 155, 162, 169, 177, 184, 191, 198, 205, 213, 220,
    227, 234, 241, 248, 0, 7, 14, 21, 28, 35, 42, 49, 56, 63, 70, 77,
    84, 91, 98, 105, 112, 119, 126, 133, 140, 146, 153, 160, 167, 174, 181, 188,
    194, 201, 208, 215, 222, 228, 235, 242, 249, 0, 6, 13, 20, 26, 33, 40,
    46, 53, 60, 66, 73, 80, 86, 93, 100, 106, 113, 119, 126, 132, 139, 146,
    152, 159, 165, 172, 178, 185, 191, 198, 204, 211, 217, 223, 230, 236, 243, 249,
    0, 6, 12, 19, 25, 31, 38, 44, 50, 57, 63, 69, 76, 82, 88, 95,
    101, 107, 113, 120, 126, 132, 138, 145, 151, 157, 163, 169, 176, 182, 188, 194,
    200, 207, 213, 219, 225, 231, 237, 243, 249, 0, 6, 12, 18, 24, 30, 36,
    42, 48, 54, 60, 66, 72, 78, 84, 90, 96, 102, 108, 114, 120, 126, 132,
    138, 144, 150, 156, 162, 168, 173, 179, 185, 191, 197, 203, 209, 215, 220, 226,
    232, 238, 244, 250, 0, 5, 11, 17, 23, 29, 34, 40, 46, 52, 57, 63,
    69, 75, 80, 86, 92, 98, 103, 109, 115, 120, 126, 132, 137, 143, 149, 154,
    160, 166, 171, 177, 183, 188, 194, 200, 205, 211, 216, 222, 228, 233, 239, 244,
    250, 0, 5, 11, 16, 22, 27, 33, 38, 44, 49, 55, 60, 66, 71, 77,
    82, 88, 93, 99, 104, 110, 115, 121, 126, 132, 137, 142, 148, 153, 159, 164,
    170, 175, 180, 186, 191, 197, 202, 207, 213, 218, 223, 229, 234, 239, 245, 250,
    0, 5, 10, 15, 21, 26, 31, 37, 42, 47, 53, 58, 63, 68, 74, 79,
    84, 90, 95, 100, 105, 110, 116, 121, 126, 131, 137, 142, 147, 152, 157, 163,
    168, 173, 178, 183, 189, 194, 199, 204, 209, 214, 220, 225, 230, 235, 240, 245,
    250, 0, 5, 10, 15, 20, 25, 30, 35, 40, 45, 50, 56, 61, 66, 71,
    76, 81, 86, 91, 96, 101, 106, 111, 116, 121, 126, 131, 136, 141, 146, 151,
    156, 161, 166, 171, 176, 181, 186, 191, 196, 201, 206, 211, 216, 221, 226, 231,
    236, 241, 246, 251, 0, 4, 9, 14, 19, 24, 29, 34, 39, 44, 49, 53,
    58, 63, 68, 73, 78, 83, 88, 92, 97, 102, 107, 112, 117, 121, 126, 131,
    136, 141, 146, 150, 155, 160, 165, 170, 174, 179, 184, 189, 194, 198, 203, 208,
    213, 217, 222, 227, 232, 237, 241, 246, 251, 0, 4, 9, 14, 18, 23, 28,
    33, 37, 42, 47, 51, 56, 61, 66, 70, 75, 80, 84, 89, 94, 98, 103,
    108, 112, 117, 122, 126, 131, 136, 140, 145, 150, 154, 159, 163, 168, 173, 177,
    182, 187, 191, 196, 200, 205, 210, 214, 219, 223, 228, 233, 237, 242, 246, 251,
    0, 4, 9, 13, 18, 22, 27, 31, 36, 41, 45, 50, 54, 59, 63, 68,
    72, 77, 81, 86, 90, 95, 99, 104, 108, 113, 117, 122, 126, 131, 135, 140,
    144, 149, 153, 158, 162, 167, 171, 176, 180, 185, 189, 193, 198, 202, 207, 211,
    216, 220, 225, 229, 233, 238, 242, 247, 251, 0, 4, 8, 13, 17, 22, 26,
    30, 35, 39, 44, 48, 52, 57, 61, 65, 70, 74, 79, 83, 87, 92, 96,
    100, 105, 109, 113, 118, 122, 126, 131, 135, 139, 144, 148, 152, 157, 161, 165,
    170, 174, 178, 183, 187, 191, 196, 200, 204, 208, 213, 217, 221, 226, 230, 234,
    238, 243, 247, 251, 0, 4, 8, 12, 17, 21, 25, 29, 34, 38, 42, 46,
    51, 55, 59, 63, 67, 72, 76, 80, 84, 89, 93, 97, 101, 105, 110, 114,
    118, 122, 126, 131, 135, 139, 143, 147, 152, 156, 160, 164, 168, 172, 177, 181,
    185, 189, 193, 197, 202, 206, 210, 214, 218, 222, 227, 231, 235, 239, 243, 247,
    251, 0, 4, 8, 12, 16, 20, 24, 28, 32, 37, 41, 45, 49, 53, 57,
    61, 65, 69, 73, 78, 82, 86, 90, 94, 98, 102, 106, 110, 114, 118, 122,
    126, 131, 135, 139, 143, 147, 151, 155, 159, 163, 167, 171, 175, 179, 183, 187,
    191, 195, 199, 203, 207, 211, 215, 219, 223, 227, 231, 235, 239, 243, 247, 251,
    0
  ]

/-- The table `sqrt_error_init_table` of `sgl_core.c`. -/
def sqrt_error_init_table : List Nat := [
    0, 1, 1, 2, 2, 2, 3, 3, 3, 3, 4, 4, 4, 4, 4, 5,
    5, 5, 5, 5, 5, 6, 6, 6, 6, 6, 6, 6, 7, 7, 7, 7
  ]

/-- The `do ... while (bsh >>= 1)` loop of `sgl_sqrt_error`, on `uint32_t`
values: the final value of `fpr`. It ends within 32 iterations; `0` when the
fuel runs out. -/
def sqrt_error_loop : Nat → Nat → Nat → Nat → Nat
  | 0, _, _, _ => 0
  | fuel + 1, x, fpr, bsh =>
    let bod := (bsh + fpr) % 2 ^ 32
    let x1 := if x ≥ bod then (x + 2 ^ 32 - bod) % 2 ^ 32 else x
    let fpr1 := if x ≥ bod then (bsh + bod) % 2 ^ 32 else fpr
    let x2 := (x1 <<< 1) % 2 ^ 32
    if bsh >>> 1 = 0 then fpr1 else sqrt_error_loop fuel x2 fpr1 (bsh >>> 1)

/-- The function `sgl_sqrt_error` of `sgl_core.c`, on a `uint32_t` argument,
with its `uint8_t` result. -/
def sgl_sqrt_error (x : Nat) : Nat :=
  if x < 1025 then sqrt_error_table.getD x 0
  else if x > 2 ^ 30 then 0
  else
    let index0 : Nat := 0
    let xp0 := x
    let index1 := if xp0 &&& 0xFFFF0000 = 0 then index0 + 16 else index0
    let xp1 := if xp0 &&& 0xFFFF0000 = 0 then (xp0 <<< 16) % 2 ^ 32 else xp0
    let index2 := if xp1 &&& 0xFF000000 = 0 then index1 + 8 else index1
    let xp2 := if xp1 &&& 0xFF000000 = 0 then (xp1 <<< 8) % 2 ^ 32 else xp1
    let index3 := if xp2 &&& 0xF0000000 = 0 then index2 + 4 else index2
    let xp3 := if xp2 &&& 0xF0000000 = 0 then (xp2 <<< 4) % 2 ^ 32 else xp2
    let index4 := if xp3 &&& 0xC0000000 = 0 then index3 + 2 else index3
    let xp4 := if xp3 &&& 0xC0000000 = 0 then (xp3 <<< 2) % 2 ^ 32 else xp3
    let index5 := if xp4 &&& 0x80000000 = 0 then index4 + 1 else index4
    let osh := sqrt_error_init_table.getD (31 - index5) 0
    let bsh := (1 <<< (2 * osh + 14)) % 2 ^ 32
    (sqrt_error_loop 32 x 0 bsh >>> osh) % 256

/-- Modelled from the spec: the macro `sgl_pow2` of the absent headers, the
square of an `int`. -/
def sgl_pow2 (x : Int) : Int := x * x

/-! ### Surfaces and the fill primitives -/

/-- The struct `sgl_surf_t` of `sgl_core.h`: the pixel buffer, as the pixel
stored at each offset from the buffer pointer, and the position and size of
the surface. `sgl_draw.c` names the position fields `x1`, `y1`. The fields
`x2` and `y2` are those the draw task of `sgl_core.c` keeps next to `x1` and
`y1` and hands to the flush as the last two fields of an area; `size` is the
capacity of the buffer in pixels. -/
structure sgl_surf where
  buffer : Int → Nat
  x : Int
  y : Int
  w : Int
  h : Int
  x2 : Int := 0
  y2 : Int := 0
  size : Nat := 0

/-- The function `sgl_surf_clip` of `core/sgl_core.c`: the C return value and
the value of `*clip` on return. -/
def sgl_surf_clip (surf : sgl_surf) (area clip : sgl_area) : Bool × sgl_area :=
  let h_pos := wrap16 (surf.y + surf.h - 1)
  let w_pos := wrap16 (surf.x + surf.w - 1)
  if area.y1 > h_pos ∨ area.y2 < surf.y ∨ area.x1 > w_pos ∨ area.x2 < surf.x then
    (false, clip)
  else
    (true,
      { x1 := sgl_max surf.x area.x1
        x2 := sgl_min w_pos area.x2
        y1 := sgl_max surf.y area.y1
        y2 := sgl_min h_pos area.y2 })

/-- Modelled from the spec: the inline function `sgl_surf_get_buf` of the
absent `sgl_draw.h`, the offset in the buffer of the pixel at column `x` and
row `y` of the surface, rows being `surf->w` pixels apart. -/
def sgl_surf_get_buf (surf : sgl_surf) (x y : Int) : Int := y * surf.w + x

/-- The assignment `*buf = v` for `buf` at offset `i`. -/
def buf_set (b : Int → Nat) (i : Int) (v : Nat) : Int → Nat :=
  fun j => if j = i then v else b j

/-- The loop `for (int x = ...; x <= clip.x2; x++, buf++)` of the fill
primitives with `n` iterations left, `x` the current column and `buf` the
current offset; `body x old` is the pixel the loop body leaves in `*buf` when
it finds `old` there. -/
def for_x (body : Int → Nat → Nat) : Nat → Int → Int → (Int → Nat) → (Int → Nat)
  | 0, _, _, b => b
  | n + 1, x, buf, b => for_x body n (x + 1) (buf + 1) (buf_set b buf (body x (b buf)))

/-- The loop `for (int y = ...; y <= clip.y2; y++)` of the fill primitives
with `n` iterations left. -/
def for_y (row : Int → (Int → Nat) → (Int → Nat)) : Nat → Int → (Int → Nat) → (Int → Nat)
  | 0, _, b => b
  | n + 1, y, b => for_y row n (y + 1) (row y b)

/-- The two nested loops shared by the fill primitives of `sgl_draw.c`:
for each row `y` of `clip`, `buf = sgl_surf_get_buf(surf, clip.x1 - surf->x1,
y - surf->y1)` and then the loop over the columns of `clip` with the body
`row y x`. -/
def draw_rows (surf : sgl_surf) (clip : sgl_area) (row : Int → Int → Nat → Nat)
    (b : Int → Nat) : Int → Nat :=
  for_y
    (fun y b1 =>
      for_x (row y) (clip.x2 - clip.x1 + 1).toNat clip.x1
        (sgl_surf_get_buf surf (clip.x1 - surf.x) (y - surf.y)) b1)
    (clip.y2 - clip.y1 + 1).toNat clip.y1 b

/-- The expression `alpha == SGL_ALPHA_MAX ? c : sgl_color_mixer(c, *buf, alpha)`. -/
def blend (d : sgl_pixel_depth) (c old alpha : Nat) : Nat :=
  if alpha = SGL_ALPHA_MAX then c else sgl_color_mixer d c old alpha

/-- The function `sgl_draw_fill_rect` of `sgl_draw.c`: the buffer of the
surface on return. -/
def sgl_draw_fill_rect (d : sgl_pixel_depth) (surf : sgl_surf) (area rect : sgl_area)
    (color alpha : Nat) : Int → Nat :=
  if (sgl_surf_clip surf rect ⟨0, 0, 0, 0⟩).1 = false then surf.buffer
  else if (sgl_area_selfclip (sgl_surf_clip surf rect ⟨0, 0, 0, 0⟩).2 area).1 = false then
    surf.buffer
  else
    draw_rows surf (sgl_area_selfclip (sgl_surf_clip surf rect ⟨0, 0, 0, 0⟩).2 area).2
      (fun _ _ old =>
        if alpha = SGL_ALPHA_MAX then color
        else if alpha > SGL_ALPHA_MIN then sgl_color_mixer d color old alpha
        else old)
      surf.buffer

/-- The function `sgl_draw_fill_rect_with_border` of `sgl_draw.c`. -/
def sgl_draw_fill_rect_with_border (d : sgl_pixel_depth) (surf : sgl_surf)
    (area rect : sgl_area) (color border_color : Nat) (border_width : Int) (alpha : Nat) :
    Int → Nat :=
  let b_x1 := wrap16 (rect.x1 + border_width - 1)
  let b_x2 := wrap16 (rect.x2 - border_width + 1)
  let b_y1 := wrap16 (rect.y1 + border_width - 1)
  let b_y2 := wrap16 (rect.y2 - border_width + 1)
  if (sgl_surf_clip surf rect ⟨0, 0, 0, 0⟩).1 = false then surf.buffer
  else if (sgl_area_selfclip (sgl_surf_clip surf rect ⟨0, 0, 0, 0⟩).2 area).1 = false then
    surf.buffer
  else
    draw_rows surf (sgl_area_selfclip (sgl_surf_clip surf rect ⟨0, 0, 0, 0⟩).2 area).2
      (fun y x old =>
        if x > b_x1 ∧ x < b_x2 ∧ y > b_y1 ∧ y < b_y2 then blend d color old alpha
        else blend d border_color old alpha)
      surf.buffer

/-- The function `sgl_draw_fill_round_rect` of `sgl_draw.c`. -/
def sgl_draw_fill_round_rect (d : sgl_pixel_depth) (surf : sgl_surf) (area rect : sgl_area)
    (radius : Int) (color alpha : Nat) : Int → Nat :=
  let cx1 := rect.x1 + radius
  let cx2 := rect.x2 - radius
  let cy1 := rect.y1 + radius
  let cy2 := rect.y2 - radius
  if (sgl_surf_clip surf area ⟨0, 0, 0, 0⟩).1 = false then surf.buffer
  else if (sgl_area_selfclip (sgl_surf_clip surf area ⟨0, 0, 0, 0⟩).2 rect).1 = false then
    surf.buffer
  else
    let r2 := sgl_pow2 radius
    let r2_edge := sgl_pow2 (radius + 1)
    draw_rows surf (sgl_area_selfclip (sgl_surf_clip surf area ⟨0, 0, 0, 0⟩).2 rect).2
      (fun y =>
        if y > cy1 ∧ y < cy2 then
          fun _ old => blend d color old alpha
        else
          let cy_tmp := if y > cy1 then cy2 else cy1
          let y2 := sgl_pow2 (y - cy_tmp)
          fun x old =>
            if x > cx1 ∧ x < cx2 then blend d color old alpha
            else
              let cx_tmp := if x > cx1 then cx2 else cx1
              let real_r2 := sgl_pow2 (x - cx_tmp) + y2
              if real_r2 ≥ r2_edge then old
              else if real_r2 ≥ r2 then
                let edge_alpha := (SGL_ALPHA_MAX - sgl_sqrt_error real_r2.toNat) % 256
                if alpha = SGL_ALPHA_MAX then sgl_color_mixer d color old edge_alpha
                else sgl_color_mixer d (sgl_color_mixer d color old edge_alpha) old alpha
              else blend d color old alpha)
      surf.buffer

/-- The function `sgl_draw_fill_round_rect_with_border` of `sgl_draw.c`. -/
def sgl_draw_fill_round_rect_with_border (d : sgl_pixel_depth) (surf : sgl_surf)
    (area rect : sgl_area) (radius : Int) (color border_color : Nat) (border_width : Int)
    (alpha : Nat) : Int → Nat :=
  let radius_in := sgl_max (radius - border_width + 1) 0
  let in_r2 := sgl_pow2 radius_in
  let out_r2 := sgl_pow2 radius
  let cx1 := rect.x1 + radius
  let cx2 := rect.x2 - radius
  let cy1 := rect.y1 + radius
  let cy2 := rect.y2 - radius
  let cx1i := rect.x1 + border_width
  let cx2i := rect.x2 - border_width
  let cyi1 := rect.y1 + border_width
  let cyi2 := rect.y2 - border_width
  let in_r2_max := sgl_pow2 (radius_in - 1)
  let out_r2_max := sgl_pow2 (radius + 1)
  if (sgl_surf_clip surf area ⟨0, 0, 0, 0⟩).1 = false then surf.buffer
  else if (sgl_area_selfclip (sgl_surf_clip surf area ⟨0, 0, 0, 0⟩).2 rect).1 = false then
    surf.buffer
  else
    draw_rows surf (sgl_area_selfclip (sgl_surf_clip surf area ⟨0, 0, 0, 0⟩).2 rect).2
      (fun y =>
        if y > cy1 ∧ y < cy2 then
          fun x old =>
            if x < cx1i ∨ x > cx2i then blend d border_color old alpha
            else blend d color old alpha
        else
          let cy_tmp := if y > cy1 then cy2 else cy1
          let y2 := sgl_pow2 (y - cy_tmp)
          fun x old =>
            if x > cx1 ∧ x < cx2 then
              if y < cyi1 ∨ y > cyi2 then blend d border_color old alpha
              else blend d color old alpha
            else
              let cx_tmp := if x > cx1 then cx2 else cx1
              let real_r2 := sgl_pow2 (x - cx_tmp) + y2
              if real_r2 ≥ out_r2_max then old
              else if real_r2 < in_r2_max then blend d color old alpha
              else if real_r2 < in_r2 then
                let edge_alpha := sgl_sqrt_error real_r2.toNat
                if alpha = SGL_ALPHA_MAX then sgl_color_mixer d border_color color edge_alpha
                else sgl_color_mixer d (sgl_color_mixer d border_color color edge_alpha) old alpha
              else if real_r2 > out_r2 then
                let edge_alpha := (SGL_ALPHA_MAX - sgl_sqrt_error real_r2.toNat) % 256
                if alpha = SGL_ALPHA_MAX then sgl_color_mixer d border_color old edge_alpha
                else sgl_color_mixer d (sgl_color_mixer d border_color old edge_alpha) old alpha
              else blend d border_color old alpha)
      surf.buffer

/-- The rectangle of the positions of the pixels of the surface in unbounded
integers: columns `x .. x + w - 1`, rows `y .. y + h - 1`. -/
def sgl_surf.extent (surf : sgl_surf) : sgl_area :=
  { x1 := surf.x, y1 := surf.y, x2 := surf.x + surf.w - 1, y2 := surf.y + surf.h - 1 }

/-- The right and the bottom edge of the surface are `int16_t` positions. -/
def sgl_surf.wf (surf : sgl_surf) : Prop :=
  is_int16 (surf.x + surf.w - 1) ∧ is_int16 (surf.y + surf.h - 1)

instance (surf : sgl_surf) : Decidable surf.wf := by
  unfold sgl_surf.wf; exact inferInstance

/-- The offset in the buffer of the pixel at the absolute position `(x, y)`. -/
def sgl_surf.offset (surf : sgl_surf) (x y : Int) : Int :=
  sgl_surf_get_buf surf (x - surf.x) (y - surf.y)

/-- A surface of one pixel at the origin, holding the color 0. -/
def one_pixel_surf : sgl_surf := { buffer := fun _ => 0, x := 0, y := 0, w := 1, h := 1 }

/-- The clip rectangle the fill primitives compute before their loops:
`sgl_surf_clip` of the surface with `first`, then `sgl_area_selfclip` with
`second`; `none` when one of the two returns false. -/
def fill_clip (surf : sgl_surf) (first second : sgl_area) : Option sgl_area :=
  if (sgl_surf_clip surf first ⟨0, 0, 0, 0⟩).1 = false then none
  else if (sgl_area_selfclip (sgl_surf_clip surf first ⟨0, 0, 0, 0⟩).2 second).1 = false then
    none
  else some (sgl_area_selfclip (sgl_surf_clip surf first ⟨0, 0, 0, 0⟩).2 second).2

/-- The bounds of the surface as `sgl_surf_clip` takes them: from the position
of the surface to its right edge `x + w - 1` and bottom edge `y + h - 1`, both
edges stored in `int16_t`. -/
def sgl_surf.bounds (surf : sgl_surf) : sgl_area :=
  { x1 := surf.x, y1 := surf.y
    x2 := wrap16 (surf.x + surf.w - 1), y2 := wrap16 (surf.y + surf.h - 1) }

/-- A fill primitive with the row bodies `row`: the buffer is returned as it
is when there is no clip rectangle, and after the loops over the clip
rectangle otherwise. -/
def fill_with (surf : sgl_surf) (first second : sgl_area) (row : Int → Int → Nat → Nat) :
    Int → Nat :=
  match fill_clip surf first second with
  | none => surf.buffer
  | some clip => draw_rows surf clip row surf.buffer

/-- The buffer pixel at the offset `j` is a corner pixel of `rect`: the pixel
of one of the four corner positions of `rect`, for a corner that lies in the
surface and in `area`. -/
def is_corner_offset (surf : sgl_surf) (area rect : sgl_area) (j : Int) : Prop :=
  ∃ x y : Int, (x = rect.x1 ∨ x = rect.x2) ∧ (y = rect.y1 ∨ y = rect.y2) ∧
    surf.bounds.contains x y ∧ area.contains x y ∧ j = surf.offset x y

/-- The buffer `out` differs from the buffer of the surface only at pixels
whose position lies in the surface, in `area` and in `rect`; when there is no
such position it is the buffer of the surface. -/
def changes_only_within (surf : sgl_surf) (area rect : sgl_area) (out : Int → Nat) : Prop :=
  (∀ j : Int, out j ≠ surf.buffer j →
    ∃ x y : Int, surf.bounds.contains x y ∧ area.contains x y ∧ rect.contains x y ∧
      j = surf.offset x y) ∧
  ((¬ ∃ x y : Int, surf.bounds.contains x y ∧ area.contains x y ∧ rect.contains x y) →
    out = surf.buffer)

/-- The loop body of `sgl_draw_fill_round_rect` as a function of the row, the
column and the pixel found. -/
def fill_round_rect_row (d : sgl_pixel_depth) (rect : sgl_area) (radius : Int)
    (color alpha : Nat) : Int → Int → Nat → Nat :=
  fun y =>
    if y > rect.y1 + radius ∧ y < rect.y2 - radius then
      fun _ old => blend d color old alpha
    else
      fun x old =>
        if x > rect.x1 + radius ∧ x < rect.x2 - radius then blend d color old alpha
        else
          if sgl_pow2 (x - (if x > rect.x1 + radius then rect.x2 - radius else rect.x1 + radius))
              + sgl_pow2 (y - (if y > rect.y1 + radius then rect.y2 - radius
                else rect.y1 + radius)) ≥ sgl_pow2 (radius + 1) then old
          else if sgl_pow2 (x - (if x > rect.x1 + radius then rect.x2 - radius
                else rect.x1 + radius))
              + sgl_pow2 (y - (if y > rect.y1 + radius then rect.y2 - radius
                else rect.y1 + radius)) ≥ sgl_pow2 radius then
            if alpha = SGL_ALPHA_MAX then
              sgl_color_mixer d color old
                ((SGL_ALPHA_MAX - sgl_sqrt_error
                  (sgl_pow2 (x - (if x > rect.x1 + radius then rect.x2 - radius
                      else rect.x1 + radius))
                    + sgl_pow2 (y - (if y > rect.y1 + radius then rect.y2 - radius
                      else rect.y1 + radius))).toNat) % 256)
            else
              sgl_color_mixer d
                (sgl_color_mixer d color old
                  ((SGL_ALPHA_MAX - sgl_sqrt_error
                    (sgl_pow2 (x - (if x > rect.x1 + radius then rect.x2 - radius
                        else rect.x1 + radius))
                      + sgl_pow2 (y - (if y > rect.y1 + radius then rect.y2 - radius
                        else rect.y1 + radius))).toNat) % 256))
                old alpha
          else blend d color old alpha

/-! ### Font unicode index -/

/-- The struct `sgl_font_unicode_t` of `sgl_core.h`: one range of the unicode
index of a font. `list` is `none` for a `NULL` pointer (a dense range) and the
array it points to otherwise (a sparse range). -/
structure sgl_font_unicode where
  offset : Nat
  len : Nat
  list : Option (List Nat)
  tab_offset : Nat
  deriving DecidableEq, Repr

/-- The struct `sgl_font_table_t` of `include/sgl_core.h`: the entry of one
glyph in the table of a font. -/
structure sgl_font_table where
  bitmap_index : Nat := 0
  adv_w : Nat := 0
  box_h : Nat := 0
  box_w : Nat := 0
  ofs_x : Int := 0
  ofs_y : Int := 0
  deriving DecidableEq, Repr

/-- The struct `sgl_font_t` of `include/sgl_core.h`: the array `unicode` and
the count `unicode_num` that the glyph index search reads, and the arrays
`bitmap` and `table`, the height, the bits per pixel and the base line that
the text functions read. -/
structure sgl_font where
  unicode : List sgl_font_unicode
  unicode_num : Nat
  bitmap : List Nat := []
  table : List sgl_font_table := []
  font_height : Nat := 0
  bpp : Nat := 0
  compress : Nat := 0
  base_line : Int := 0
  deriving DecidableEq, Repr

/-- What a run of `sgl_search_unicode_ch_index` comes to: the returned glyph
index, a read outside the array of ranges, a read of the sparse list at an
index outside the list, or no result within the given number of iterations
of the binary search. -/
inductive lookup_result where
  | value (v : Nat) : lookup_result
  | range_out_of_bounds : lookup_result
  | list_out_of_bounds (index : Nat) : lookup_result
  | no_fuel : lookup_result
  deriving DecidableEq, Repr

/-- The loop `for (i = 1; i < font->unicode_num; i++)` of
`sgl_search_unicode_ch_index` with `n` iterations left and `code` pointing at
the range of index `c`: the index of the range `code` points at after the
loop, `none` when the loop reads a range outside the array. -/
def scan_ranges (ranges : List sgl_font_unicode) (target : Nat) : Nat → Nat → Option Nat
  | 0, c => some c
  | n + 1, c =>
    match ranges[c]? with
    | none => none
    | some code =>
      if target < (code.offset + code.len) % 2 ^ 32 then some c
      else scan_ranges ranges target n (c + 1)

/-- The loop `while (left <= right)` of `sgl_search_unicode_ch_index` on
`uint32_t` values. -/
def search_list (list : List Nat) (target tab_offset : Nat) : Nat → Nat → Nat → lookup_result
  | 0, left, right => if left ≤ right then lookup_result.no_fuel else lookup_result.value 0
  | fuel + 1, left, right =>
    if left ≤ right then
      match list[(left + (right - left) / 2) % 2 ^ 32]? with
      | none => lookup_result.list_out_of_bounds ((left + (right - left) / 2) % 2 ^ 32)
      | some v =>
        if v = target then
          lookup_result.value (((left + (right - left) / 2) % 2 ^ 32 + tab_offset) % 2 ^ 32)
        else if v < target then
          search_list list target tab_offset fuel
            (((left + (right - left) / 2) % 2 ^ 32 + 1) % 2 ^ 32) right
        else
          search_list list target tab_offset fuel left
            (((left + (right - left) / 2) % 2 ^ 32 + 2 ^ 32 - 1) % 2 ^ 32)
    else lookup_result.value 0

/-- The function `sgl_search_unicode_ch_index` of `sgl_core.c`, on `uint32_t`
values; the warning it logs on a miss is not modelled. `fuel` bounds the
iterations of the binary search. -/
def sgl_search_unicode_ch_index (fuel : Nat) (font : sgl_font) (unicode : Nat) :
    lookup_result :=
  match scan_ranges font.unicode unicode (font.unicode_num - 1) 0 with
  | none => lookup_result.range_out_of_bounds
  | some c =>
    match font.unicode[c]? with
    | none => lookup_result.range_out_of_bounds
    | some code =>
      match code.list with
      | none =>
        if (unicode + 2 ^ 32 - code.offset) % 2 ^ 32 ≥ code.len then lookup_result.value 0
        else lookup_result.value (((unicode + 2 ^ 32 - code.offset) % 2 ^ 32 + code.tab_offset) % 2 ^ 32)
      | some list =>
        search_list list ((unicode + 2 ^ 32 - code.offset) % 2 ^ 32) code.tab_offset fuel 0
          ((code.len + 2 ^ 32 - 1) % 2 ^ 32)

/-- One past the largest code point of the range: `offset + len` for a dense
range, `offset + (last entry of the list) + 1` for a sparse one. -/
def sgl_font_unicode.upper (r : sgl_font_unicode) : Nat :=
  match r.list with
  | none => r.offset + r.len
  | some l => r.offset + l.getLast?.getD 0 + 1

/-- A well-formed range: the numbers fit their C types, and a sparse list
has `len` entries, at least one, strictly increasing, each a `uint16_t`. -/
def sgl_font_unicode.wf (r : sgl_font_unicode) : Prop :=
  r.offset + r.len < 2 ^ 32 ∧ r.tab_offset + r.len < 2 ^ 32 ∧
  match r.list with
  | none => True
  | some l => l.length = r.len ∧ 0 < r.len ∧ l.Pairwise (fun a b => a < b) ∧
      (∀ v ∈ l, v < 2 ^ 16) ∧ r.upper < 2 ^ 32

/-- A well-formed font: `unicode_num` is the number of ranges, at least one,
every range is well-formed and the ranges are sorted: every code point of a
range is below the offset of every later range. -/
def sgl_font.wf (font : sgl_font) : Prop :=
  font.unicode_num = font.unicode.length ∧ 0 < font.unicode.length ∧
  (∀ r ∈ font.unicode, r.wf) ∧
  font.unicode.Pairwise (fun a b => a.upper ≤ b.offset)

/-- A font of a sparse range followed by a dense range. -/
def two_range_font : sgl_font :=
  { unicode := [{ offset := 0, len := 2, list := some [0, 10], tab_offset := 0 },
                { offset := 100, len := 5, list := none, tab_offset := 2 }]
    unicode_num := 2 }

/-- A font of one sparse range holding the single code point 5. -/
def one_glyph_font : sgl_font :=
  { unicode := [{ offset := 0, len := 1, list := some [5], tab_offset := 0 }]
    unicode_num := 1 }

/-- Modelled from the spec: the glyph index of a code point in a list of
ranges, in the words of the specification: in the first range that holds the
code point, `(unicode - offset) + tab_offset` for a dense range and
`(position of unicode - offset in the list) + tab_offset` for a sparse one;
`none` when no range holds the code point. -/
def glyph_index_spec : List sgl_font_unicode → Nat → Option Nat
  | [], _ => none
  | r :: rest, unicode =>
    match r.list with
    | none =>
      if r.offset ≤ unicode ∧ unicode < r.offset + r.len then
        some (unicode - r.offset + r.tab_offset)
      else glyph_index_spec rest unicode
    | some l =>
      if r.offset ≤ unicode ∧ unicode - r.offset ∈ l then
        some (l.indexOf (unicode - r.offset) + r.tab_offset)
      else glyph_index_spec rest unicode

instance (r : sgl_font_unicode) : Decidable r.wf := by
  unfold sgl_font_unicode.wf
  cases r.list <;> exact inferInstance

instance (font : sgl_font) : Decidable font.wf := by
  unfold sgl_font.wf; exact inferInstance

/-! ### Corner radius -/

/-- Modelled from the spec: the macro `sgl_is_odd`, whose header is not part
of the sources: the lowest bit of the value is set. -/
def sgl_is_odd (x : Int) : Bool := x % 2 = 1

/-- The function `sgl_obj_set_radius` of `sgl_core.c`. `w`, `h` and `d_min`
are `int16_t`, the request is cast to `int16_t` for the comparison, the
division is the truncating division of C, and the store keeps the low 12
bits of the value (`radius & 0xFFF`; for a value converted from a negative
`int` to `size_t` these are the low 12 bits of the two's complement). -/
def sgl_obj_set_radius (h : Heap) (obj : Nat) (radius : Nat) : Heap :=
  let w := wrap16 ((h obj).coords.x2 - (h obj).coords.x1 + 1)
  let hh := wrap16 ((h obj).coords.y2 - (h obj).coords.y1 + 1)
  let d_min := if w > hh then hh else w
  let fixed : Int :=
    if wrap16 radius ≥ Int.tdiv d_min 2 then
      (if sgl_is_odd d_min then Int.tdiv d_min 2 else Int.tdiv (d_min - 1) 2)
    else radius
  h.set obj { h obj with radius := (fixed % 4096).toNat }

/-- A heap whose object 0 has a rect of 10 by 10 pixels. -/
def square_heap : Heap := fun p =>
  match p with
  | 0 => { coords := ⟨0, 0, 9, 9⟩ }
  | _ => {}

/-- A heap whose object 0 has a rect of 10000 by 10000 pixels. -/
def wide_heap : Heap := fun p =>
  match p with
  | 0 => { coords := ⟨0, 0, 9999, 9999⟩ }
  | _ => {}

/-! ### Outcome of the subtree move -/

/-- How a run of a stack traversal ends: the function returns, the handler of
`SGL_ASSERT` is entered (it never returns), the model has no iterations
left, or the C code has no defined behaviour (a `NULL` pointer is
dereferenced, a division is by zero). -/
inductive walk_status where
  | returned : walk_status
  | assert_failed : walk_status
  | out_of_fuel : walk_status
  | fault : walk_status
  deriving DecidableEq, Repr

/-- The `while (top > 0)` loop of `sgl_obj_move_child_pos` in `sgl_core.c`,
with the object memory at the moment the run ends, also when
`SGL_ASSERT(top < SGL_OBJ_DEPTH_MAX)` fails. -/
def move_child_pos_run (ofs_x ofs_y : Int) : Nat → Heap → List Nat → walk_status × Heap
  | _, h, [] => (walk_status.returned, h)
  | 0, h, _ :: _ => (walk_status.out_of_fuel, h)
  | fuel + 1, h, p :: stack =>
    if (p :: stack).length < SGL_OBJ_DEPTH_MAX then
      let h1 := h.set p (shift_obj ofs_x ofs_y (h p))
      move_child_pos_run ofs_x ofs_y fuel h1
        (push_ptr (h1 p).child (push_ptr (h1 p).sibling stack))
    else (walk_status.assert_failed, h)

/-- The function `sgl_obj_move_child_pos` of `sgl_core.c`, with the object
memory at the moment the run ends. -/
def sgl_obj_move_child_pos_run (fuel : Nat) (h : Heap) (obj : Nat) (ofs_x ofs_y : Int) :
    walk_status × Heap :=
  match (h obj).child with
  | none => (walk_status.returned, h)
  | some c => move_child_pos_run ofs_x ofs_y fuel h [c]

/-- A parent 0 over a chain 1, 2, 3, ... in which each object `p` has the
child `p + 1` and the childless sibling `p + 100`. -/
def comb_heap : Heap := fun p =>
  if p = 0 then { child := some 1 }
  else if p ≤ 20 then { parent := some (p - 1), child := some (p + 1), sibling := some (p + 100) }
  else if 100 < p ∧ p ≤ 120 then { parent := some (p - 101) }
  else {}

/-! ### Child list surgery -/

/-- The loop `while (tail->sibling != NULL) tail = tail->sibling;` of
`sgl_obj_add_child`: the final value of `tail`, `none` when the loop does not
end within `fuel` iterations. -/
def add_child_tail (h : Heap) : Nat → Nat → Option Nat
  | 0, _ => none
  | fuel + 1, tail =>
    match (h tail).sibling with
    | none => some tail
    | some next => add_child_tail h fuel next

/-- The function `sgl_obj_add_child` of `sgl_core.c`. -/
def sgl_obj_add_child (fuel : Nat) (h : Heap) (parent obj : Nat) : Option Heap :=
  match (h parent).child with
  | some first =>
    match add_child_tail h fuel first with
    | none => none
    | some tail =>
      let h1 := h.set tail { h tail with sibling := some obj }
      some (h1.set obj { h1 obj with parent := some parent })
  | none =>
    let h1 := h.set parent { h parent with child := some obj }
    some (h1.set obj { h1 obj with parent := some parent })

/-- The loop `while (pos->sibling != obj) pos = pos->sibling;` of
`sgl_obj_remove`: the final value of `pos`, `none` when `pos` becomes `NULL`
(the next test dereferences it) or the loop does not end within `fuel`
iterations. -/
def remove_find (h : Heap) (obj : Nat) : Nat → Nat → Option Nat
  | 0, _ => none
  | fuel + 1, pos =>
    if (h pos).sibling = some obj then some pos
    else
      match (h pos).sibling with
      | none => none
      | some next => remove_find h obj fuel next

/-- The function `sgl_obj_remove` of `sgl_core.c`; `none` when the C code
dereferences `NULL` or the search does not end within `fuel` iterations. -/
def sgl_obj_remove (fuel : Nat) (h : Heap) (obj : Nat) : Option Heap :=
  match (h obj).parent with
  | none => none
  | some parent =>
    if (h parent).child ≠ some obj then
      match (h parent).child with
      | none => none
      | some first =>
        match remove_find h obj fuel first with
        | none => none
        | some pos =>
          let h1 := h.set pos { h pos with sibling := (h obj).sibling }
          some (h1.set obj { h1 obj with sibling := none })
    else
      let h1 := h.set parent { h parent with child := (h obj).sibling }
      some (h1.set obj { h1 obj with sibling := none })

/-- The `while (top > 0)` loop of `sgl_obj_free` in `sgl_core.c`: how the run
ends and the objects handed to `sgl_free`, in order. -/
def free_loop (h : Heap) : Nat → List Nat → List Nat → walk_status × List Nat
  | _, [], freed => (walk_status.returned, freed)
  | 0, _ :: _, freed => (walk_status.out_of_fuel, freed)
  | fuel + 1, p :: stack, freed =>
    if (p :: stack).length < SGL_OBJ_DEPTH_MAX then
      free_loop h fuel (push_ptr (h p).child (push_ptr (h p).sibling stack)) (freed ++ [p])
    else (walk_status.assert_failed, freed)

/-- The function `sgl_obj_free` of `sgl_core.c`. -/
def sgl_obj_free (fuel : Nat) (h : Heap) (obj : Nat) (freed : List Nat) :
    walk_status × List Nat :=
  free_loop h fuel [obj] freed

/-- The last two statements of `sgl_obj_delete` in `sgl_core.c`, which the
function reaches for an object that is neither `NULL` nor a page:
`sgl_obj_set_destroyed(obj); sgl_obj_set_dirty(obj);`. -/
def sgl_obj_delete (h : Heap) (obj : Nat) : Heap :=
  sgl_obj_set_dirty (h.set obj { h obj with destroyed := true }) obj

/-! ### The dirty walk -/

/-- The state the dirty walk works on: the object memory, the dirty
accumulator `sgl_system.fbdev.dirty`, the local `changed` and the objects
freed so far. -/
structure walk_state where
  heap : Heap
  dirty : sgl_area
  changed : Bool
  freed : List Nat

/-- The `while (top > 0)` loop of `sgl_dirty_area_calculate` in `sgl_core.c`.
`n` bounds the iterations of the loops of `sgl_obj_remove` and
`sgl_obj_free`. -/
def dirty_area_calculate_loop (n : Nat) : Nat → walk_state → List Nat → walk_status × walk_state
  | _, s, [] => (walk_status.returned, s)
  | 0, s, _ :: _ => (walk_status.out_of_fuel, s)
  | fuel + 1, s, p :: stack =>
    if (p :: stack).length < SGL_OBJ_DEPTH_MAX then
      if (s.heap p).hide then
        dirty_area_calculate_loop n fuel s (push_ptr (s.heap p).sibling stack)
      else if (s.heap p).destroyed then
        match sgl_obj_remove n s.heap p with
        | none =>
          (walk_status.fault, { s with dirty := sgl_dirty_area_push s.dirty (s.heap p).coords })
        | some h1 =>
          if (sgl_obj_free n h1 p s.freed).1 = walk_status.returned then
            dirty_area_calculate_loop n fuel
              { heap := h1
                dirty := sgl_dirty_area_push s.dirty (s.heap p).coords
                changed := true
                freed := (sgl_obj_free n h1 p s.freed).2 }
              (push_ptr (s.heap p).sibling stack)
          else
            ((sgl_obj_free n h1 p s.freed).1,
              { heap := h1
                dirty := sgl_dirty_area_push s.dirty (s.heap p).coords
                changed := s.changed
                freed := (sgl_obj_free n h1 p s.freed).2 })
      else if (s.heap p).dirty then
        dirty_area_calculate_loop n fuel
          { heap := s.heap.set p { s.heap p with dirty := false }
            dirty := sgl_dirty_area_push s.dirty (s.heap p).coords
            changed := true
            freed := s.freed }
          (push_ptr (s.heap p).child (push_ptr (s.heap p).sibling stack))
      else
        dirty_area_calculate_loop n fuel s
          (push_ptr (s.heap p).child (push_ptr (s.heap p).sibling stack))
    else (walk_status.assert_failed, s)

/-- The function `sgl_dirty_area_calculate` of `sgl_core.c`, from the object
memory, the dirty accumulator and the list of freed objects: how the run
ends and the state it leaves, the field `changed` being the C return value
when the run returns. -/
def sgl_dirty_area_calculate (n fuel : Nat) (heap : Heap) (dirty : sgl_area)
    (freed : List Nat) (obj : Nat) : walk_status × walk_state :=
  dirty_area_calculate_loop n fuel
    { heap := heap, dirty := dirty, changed := false, freed := freed } [obj]

/-! ### The draw pass -/

/-- One call of a draw callback `construct_fn(surf, obj, area)`: the object,
the slice the surface stands for at the call (`x1, y1, x2, y2` of `surf`) and
the area argument. -/
structure draw_call where
  obj : Nat
  slice : sgl_area
  area : sgl_area
  deriving DecidableEq, Repr

/-- One call of `sgl_fbdev_flush_area(area, buffer)`: the area and the
content of the buffer at the call. -/
structure flush_call where
  area : sgl_area
  pixels : Int → Nat

/-- The draw callback of an object: the content of the buffer of the surface
after the call `construct_fn(surf, obj, area)`. -/
abbrev construct_cb := sgl_surf → sgl_obj → sgl_area → (Int → Nat)

/-- The function `sgl_surf_area_is_overlap` of `include/sgl_core.h`. -/
def sgl_surf_area_is_overlap (surf : sgl_surf) (area : sgl_area) : Bool :=
  let h_pos := wrap16 (surf.y + surf.h - 1)
  let w_pos := wrap16 (surf.x + surf.w - 1)
  if area.y1 > h_pos ∨ area.y2 < surf.y ∨ area.x1 > w_pos ∨ area.x2 < surf.x then false
  else true

/-- The state of the draw pass: the surface of the frame buffer device, the
field `fb_status`, and the calls of draw callbacks and of the flush made so
far. The last two fields stand for the flush consumer, which is outside the
program: `busy k` is the value the call number `k` of
`sgl_fbdev_flush_wait_ready` returns (true while the frame buffer is not
ready), and `polls` is the number of calls made so far. A consumer that is
always ready is `busy = fun _ => false`. -/
structure draw_state where
  surf : sgl_surf
  fb_status : Nat
  calls : List draw_call
  flushes : List flush_call
  busy : Nat → Bool := fun _ => false
  polls : Nat := 0

/-- Modelled from the spec: the function `sgl_fbdev_flush_wait_ready`, whose
definition is not part of the sources: one poll of the ready flag of the
target frame buffer, which the flush consumer sets. The result is true while
the frame buffer is not ready. -/
def sgl_fbdev_flush_wait_ready (s : draw_state) : Bool × draw_state :=
  (s.busy s.polls, { s with polls := s.polls + 1 })

/-- The loop `while (sgl_fbdev_flush_wait_ready(fbdev));` of `sgl_draw_task`
in `sgl_core.c`, with `fuel` polls left: the wait has no timeout, it ends
with the first poll that finds the frame buffer ready. -/
def flush_wait_loop : Nat → draw_state → walk_status × draw_state
  | 0, s => (walk_status.out_of_fuel, s)
  | fuel + 1, s =>
    if (sgl_fbdev_flush_wait_ready s).1 then flush_wait_loop fuel (sgl_fbdev_flush_wait_ready s).2
    else (walk_status.returned, (sgl_fbdev_flush_wait_ready s).2)

/-- The `while (top > 0)` loop of `draw_obj_slice` in `sgl_core.c`.
`construct p` is the field `construct_fn` of the object at `p`, `none` for
`NULL`. -/
def draw_obj_slice_loop (construct : Nat → Option construct_cb) (h : Heap) (area : sgl_area) :
    Nat → draw_state → List Nat → walk_status × draw_state
  | _, s, [] => (walk_status.returned, s)
  | 0, s, _ :: _ => (walk_status.out_of_fuel, s)
  | fuel + 1, s, p :: stack =>
    if (p :: stack).length < SGL_OBJ_DEPTH_MAX then
      if (h p).hide then
        draw_obj_slice_loop construct h area fuel s (push_ptr (h p).sibling stack)
      else if sgl_surf_area_is_overlap s.surf (h p).coords then
        match construct p with
        | none => (walk_status.assert_failed, s)
        | some cb =>
          draw_obj_slice_loop construct h area fuel
            { s with
              surf := { s.surf with buffer := cb s.surf (h p) area }
              calls := s.calls ++
                [{ obj := p, slice := ⟨s.surf.x, s.surf.y, s.surf.x2, s.surf.y2⟩, area := area }] }
            (push_ptr (h p).child (push_ptr (h p).sibling stack))
      else
        draw_obj_slice_loop construct h area fuel s (push_ptr (h p).sibling stack)
    else (walk_status.assert_failed, s)

/-- Modelled from the spec: the function `sgl_fbdev_flush_area`, whose header
is not part of the sources: the area and the buffer are handed to the flush
callback of the display driver. -/
def sgl_fbdev_flush_area (s : draw_state) (area : sgl_area) (buffer : Int → Nat) : draw_state :=
  { s with flushes := s.flushes ++ [{ area := area, pixels := buffer }] }

/-- The function `draw_obj_slice` of `sgl_core.c`. -/
def draw_obj_slice (construct : Nat → Option construct_cb) (h : Heap) (fuel : Nat) (obj : Nat)
    (s : draw_state) (area : sgl_area) : walk_status × draw_state :=
  let r := draw_obj_slice_loop construct h area fuel s [obj]
  if r.1 = walk_status.returned then
    (walk_status.returned,
      sgl_fbdev_flush_area r.2 ⟨r.2.surf.x, r.2.surf.y, r.2.surf.x2, r.2.surf.y2⟩ r.2.surf.buffer)
  else r

/-- The loop `while (surf->y1 <= dirty->y2)` of `sgl_draw_task` in
`sgl_core.c`, with `rows` iterations left; `fuel` bounds the iterations of
the walk of `draw_obj_slice` and the polls of each wait. A wait that does
not end within `fuel` polls ends the run with `out_of_fuel`; `fb_swap` is the
field of that name. -/
def draw_task_loop (construct : Nat → Option construct_cb) (h : Heap) (fuel : Nat) (head : Nat)
    (dirty : sgl_area) (fb_swap : Nat) : Nat → draw_state → walk_status × draw_state
  | 0, s => if s.surf.y ≤ dirty.y2 then (walk_status.out_of_fuel, s) else (walk_status.returned, s)
  | rows + 1, s =>
    if s.surf.y ≤ dirty.y2 then
      let draw_h := sgl_min (dirty.y2 - s.surf.y + 1) s.surf.h
      let w := flush_wait_loop fuel
        { s with surf := { s.surf with y2 := wrap16 (s.surf.y + draw_h - 1) } }
      if w.1 = walk_status.returned then
        let r := draw_obj_slice construct h fuel head
          { w.2 with fb_status := w.2.fb_status &&& (2 - fb_swap) } dirty
        if r.1 = walk_status.returned then
          draw_task_loop construct h fuel head dirty fb_swap rows
            { r.2 with surf := { r.2.surf with y := wrap16 (r.2.surf.y + draw_h) } }
        else r
      else w
    else (walk_status.returned, s)

/-- The global `sgl_system` of `sgl_core.c`, as far as the task handler uses
it: the object memory, the active page `fbdev.active`, the dirty accumulator
`fbdev.dirty`, the surface and the flags of the frame buffer device, the
resolution `fbdev.fbinfo.xres`, `yres`, and the record of the objects freed
and of the calls of draw callbacks and of the flush. -/
structure sgl_system where
  heap : Heap
  active : Nat
  dirty : sgl_area
  fb_swap : Nat
  xres : Int
  yres : Int
  freed : List Nat
  draw : draw_state

/-- The function `sgl_draw_task` of `sgl_core.c`. `SGL_SCREEN_WIDTH` and
`SGL_SCREEN_HEIGHT` are the resolution of the device; `SGL_POS_MAX` and
`SGL_POS_MIN` are the constants of the empty area. A width
`surf->x2 - surf->x1 + 1` that is not positive is a fault (the division
`surf->size / surf->w` is by zero or by a wrapped value). `rows` bounds the
iterations of the loop over the slices, `fuel` the walk of each slice and the
polls of each wait. -/
def sgl_draw_task (construct : Nat → Option construct_cb) (SGL_POS_MAX SGL_POS_MIN : Int)
    (fuel rows : Nat) (s : sgl_system) : walk_status × sgl_system :=
  let dirty := (sgl_area_selfclip s.dirty (s.heap s.active).coords).2
  if 0 ≤ dirty.x1 ∧ 0 ≤ dirty.y1 ∧ dirty.x2 < s.xres ∧ dirty.y2 < s.yres then
    if 0 < dirty.x2 - dirty.x1 + 1 then
      let surf : sgl_surf :=
        { s.draw.surf with
          x := dirty.x1
          y := dirty.y1
          x2 := dirty.x2
          w := dirty.x2 - dirty.x1 + 1
          h := sgl_min ((s.draw.surf.size : Int) / (dirty.x2 - dirty.x1 + 1))
            ((dirty.y2 - dirty.y1 + 1) % 2 ^ 32) }
      let r := draw_task_loop construct s.heap fuel s.active dirty s.fb_swap rows
        { s.draw with surf := surf }
      if r.1 = walk_status.returned then
        (walk_status.returned,
          { s with dirty := sgl_area_init SGL_POS_MAX SGL_POS_MIN, draw := r.2 })
      else (r.1, { s with dirty := dirty, draw := r.2 })
    else (walk_status.fault, { s with dirty := dirty })
  else (walk_status.assert_failed, { s with dirty := dirty })

/-- The function `sgl_task_handle_sync` of `sgl_core.c`, without the
animation task (`CONFIG_SGL_ANIMATION` is not set) and without the tick
counter that `sgl_tick_reset` clears. -/
def sgl_task_handle_sync (construct : Nat → Option construct_cb)
    (SGL_POS_MAX SGL_POS_MIN : Int) (n fuel rows : Nat) (s : sgl_system) :
    walk_status × sgl_system :=
  let r := sgl_dirty_area_calculate n fuel s.heap s.dirty s.freed s.active
  if r.1 = walk_status.returned then
    if r.2.changed then
      sgl_draw_task construct SGL_POS_MAX SGL_POS_MIN fuel rows
        { s with heap := r.2.heap, dirty := r.2.dirty, freed := r.2.freed }
    else (walk_status.returned, { s with heap := r.2.heap, dirty := r.2.dirty, freed := r.2.freed })
  else (r.1, { s with heap := r.2.heap, dirty := r.2.dirty, freed := r.2.freed })

/-! ### Scenes -/

/-- The pixmap-free case of the function `sgl_page_construct_cb` of
`sgl_core.c` for a page of the given color. -/
def sgl_page_construct_cb (d : sgl_pixel_depth) (color : Nat) : construct_cb :=
  fun surf obj area => sgl_draw_fill_rect d surf area obj.coords color SGL_ALPHA_MAX

/-- The struct `sgl_draw_rect_t` that `sgl_draw_rect` reads, for a rectangle
without a pixmap (`desc->pixmap == NULL`). -/
structure sgl_draw_rect_t where
  color : Nat
  alpha : Nat
  radius : Int := 0
  border : Int := 0
  border_color : Nat := 0
  deriving DecidableEq, Repr

/-- The function `sgl_draw_rect` of `sgl_draw.c` for a description without a
pixmap. -/
def sgl_draw_rect (d : sgl_pixel_depth) (surf : sgl_surf) (area rect : sgl_area)
    (desc : sgl_draw_rect_t) : Int → Nat :=
  if desc.radius = 0 then
    if desc.border = 0 then sgl_draw_fill_rect d surf area rect desc.color desc.alpha
    else
      sgl_draw_fill_rect_with_border d surf area rect desc.color desc.border_color
        desc.border desc.alpha
  else
    if desc.border = 0 then
      sgl_draw_fill_round_rect d surf area rect desc.radius desc.color desc.alpha
    else
      sgl_draw_fill_round_rect_with_border d surf area rect desc.radius desc.color
        desc.border_color desc.border desc.alpha

/-- The function `sgl_rectangle_construct_cb` of `sgl_widget.c` for a
rectangle of the given description. -/
def sgl_rectangle_construct_cb (d : sgl_pixel_depth) (desc : sgl_draw_rect_t) : construct_cb :=
  fun surf obj area => sgl_draw_rect d surf area obj.coords desc

/-- The state `sgl_fbdev_register` and `sgl_init` leave for a display of
`xres` by `yres` pixels and a buffer of `buffer_size` pixels, with the given
object memory and the page at address 0 active, and a flush consumer that
reports the frame buffer ready at every poll. -/
def sgl_system.start (heap : Heap) (xres yres : Int) (buffer_size : Nat) : sgl_system :=
  { heap := heap
    active := 0
    dirty := sgl_area_init 32767 (-32768)
    fb_swap := 0
    xres := xres
    yres := yres
    freed := []
    draw :=
      { surf :=
          { buffer := fun _ => 0, x := 0, y := 0, w := xres, h := 0
            x2 := xres - 1, y2 := yres - 1, size := buffer_size }
        fb_status := 3
        calls := []
        flushes := [] } }

/-- A page of 4 by 4 pixels at address 0 with the children 1, hidden, and 2. -/
def hidden_scene : Heap := fun p =>
  match p with
  | 0 => { coords := ⟨0, 0, 3, 3⟩, parent := some 0, child := some 1, page := true }
  | 1 => { coords := ⟨0, 0, 1, 1⟩, parent := some 0, sibling := some 2, hide := true }
  | 2 => { coords := ⟨2, 2, 3, 3⟩, parent := some 0 }
  | _ => {}

/-- A dirty page of 4 by 4 pixels at address 0 with the child 1 on the row 0,
which has the child 2 on the column 1, reaching below its parent. -/
def overhang_scene : Heap := fun p =>
  match p with
  | 0 => { coords := ⟨0, 0, 3, 3⟩, parent := some 0, child := some 1, page := true,
           dirty := true }
  | 1 => { coords := ⟨0, 0, 3, 0⟩, parent := some 0, child := some 2 }
  | 2 => { coords := ⟨1, 0, 1, 3⟩, parent := some 1 }
  | _ => {}

/-- The draw callbacks of `overhang_scene`: a page of color 7 and two opaque
rectangles of the colors 1 and 2. -/
def overhang_construct (p : Nat) : Option construct_cb :=
  match p with
  | 0 => some (sgl_page_construct_cb sgl_pixel_depth.RGB565 7)
  | 1 => some (sgl_rectangle_construct_cb sgl_pixel_depth.RGB565 { color := 1, alpha := 255 })
  | 2 => some (sgl_rectangle_construct_cb sgl_pixel_depth.RGB565 { color := 2, alpha := 255 })
  | _ => none

/-- A clean page of 4 by 4 pixels at address 0 whose only child 1 is dirty and
lies outside the screen. -/
def offscreen_scene : Heap := fun p =>
  match p with
  | 0 => { coords := ⟨0, 0, 3, 3⟩, parent := some 0, child := some 1, page := true }
  | 1 => { coords := ⟨10, 10, 11, 11⟩, parent := some 0, dirty := true }
  | _ => {}

/-- The pixel handed to the flush for the absolute coordinate `(x, y)`: the
pixel at the place of `(x, y)` in the buffer of the last flush whose area
holds `(x, y)`, rows being as wide as the area. -/
def flushed_pixel : List flush_call → Int → Int → Option Nat
  | [], _, _ => none
  | f :: rest, x, y =>
    match flushed_pixel rest x y with
    | some v => some v
    | none =>
      if f.area.contains x y then
        some (f.pixels ((y - f.area.y1) * (f.area.x2 - f.area.x1 + 1) + (x - f.area.x1)))
      else none

/-! ### Shapes and the dirty walk -/

/-- The sibling chain from `ptr` runs through the objects of `l` in order and
then arrives at `last`. -/
def lseg (h : Heap) : Option Nat → List Nat → Option Nat → Prop
  | ptr, [], last => ptr = last
  | ptr, q :: l, last => ptr = some q ∧ lseg h (h q).sibling l last

/-- The objects at the top level of the forest have the parent `P`, and each
object of the forest is the parent of its children. -/
def Parents (h : Heap) (P : Nat) : Shape → Prop
  | Shape.nil => True
  | Shape.node p c s => (h p).parent = some P ∧ Parents h p c ∧ Parents h P s

/-- Some object of the forest that is not hidden and has no hidden ancestor
in the forest is dirty or destroyed. -/
def any_flagged (h : Heap) : Shape → Bool
  | Shape.nil => false
  | Shape.node p c s =>
    (!(h p).hide && ((h p).destroyed || (h p).dirty || any_flagged h c)) || any_flagged h s

/-- The rects the dirty walk unions into the accumulator on the forest, in
order. -/
def pushed (h : Heap) : Shape → List sgl_area
  | Shape.nil => []
  | Shape.node p c s =>
    (if (h p).hide then []
      else if (h p).destroyed then [(h p).coords]
      else (if (h p).dirty then [(h p).coords] else []) ++ pushed h c) ++ pushed h s

/-- The forest the dirty walk leaves of a forest of shape `t` with the flags
of `h`: in the object memory `g` the chain from `ptr` holds the top-level
objects that are not removed; a hidden object keeps its subtree, a destroyed
visible object is gone, another object is clean and its children are treated
the same way. -/
def Pruned (h g : Heap) : Option Nat → Shape → Prop
  | ptr, Shape.nil => ptr = none
  | ptr, Shape.node p c s =>
    ((h p).hide = true ∧ ptr = some p ∧ (g p).hide = true ∧ (g p).child = (h p).child ∧
      (∀ q ∈ c.preorder, g q = h q) ∧ Pruned h g (g p).sibling s) ∨
    ((h p).hide = false ∧ (h p).destroyed = true ∧ Pruned h g ptr s) ∨
    ((h p).hide = false ∧ (h p).destroyed = false ∧ ptr = some p ∧ (g p).hide = false ∧
      (g p).dirty = false ∧ Pruned h g (g p).child c ∧ Pruned h g (g p).sibling s)

/-- Every object of the forest that is not hidden and has no hidden ancestor
in the forest has its dirty flag clear. -/
def all_visible_clean (g : Heap) : Shape → Prop
  | Shape.nil => True
  | Shape.node p c s =>
    ((g p).hide = true ∨ ((g p).dirty = false ∧ all_visible_clean g c)) ∧ all_visible_clean g s

/-- What the dirty walk on a forest may change of the parent of the forest:
the field `child` (and no field the walk reads later). -/
def frame_parent (a b : sgl_obj) : Prop :=
  b.sibling = a.sibling ∧ b.dirty = a.dirty ∧ b.hide = a.hide ∧ b.coords = a.coords

/-- What the dirty walk on a forest may change of the earlier siblings of the
forest: the field `sibling`. -/
def frame_sibling (a b : sgl_obj) : Prop :=
  b.child = a.child ∧ b.dirty = a.dirty ∧ b.hide = a.hide

/-- The object `q` belongs to the forest and neither `q` nor any of its
ancestors in the forest is hidden: the walk from the root of the forest
comes to `q` without meeting a hidden object. -/
def visible_in (h : Heap) : Shape → Nat → Prop
  | Shape.nil, _ => False
  | Shape.node p c s, q => ((h p).hide = false ∧ (q = p ∨ visible_in h c q)) ∨ visible_in h s q

instance Parents.decidable (h : Heap) : (P : Nat) → (t : Shape) → Decidable (Parents h P t)
  | _, Shape.nil => by unfold Parents; exact inferInstance
  | P, Shape.node p c s => by
    unfold Parents
    have := Parents.decidable h p c
    have := Parents.decidable h P s
    exact inferInstance

/-- The area lies on a screen of `xres` by `yres` pixels, as the assertion
of `sgl_draw_task` demands. -/
def sgl_area.on_screen (a : sgl_area) (xres yres : Int) : Prop :=
  0 ≤ a.x1 ∧ 0 ≤ a.y1 ∧ a.x2 < xres ∧ a.y2 < yres

instance (a : sgl_area) (xres yres : Int) : Decidable (a.on_screen xres yres) := by
  unfold sgl_area.on_screen; exact inferInstance

/-- The two surfaces differ in the content of the buffer at most. -/
def same_geometry (a b : sgl_surf) : Prop :=
  b.x = a.x ∧ b.y = a.y ∧ b.w = a.w ∧ b.h = a.h ∧ b.x2 = a.x2 ∧ b.y2 = a.y2 ∧ b.size = a.size

/-- A surface of 240 by 284 pixels at the origin, holding the color 0. -/
def demo_surf : sgl_surf := { buffer := fun _ => 0, x := 0, y := 0, w := 240, h := 284 }

/-! ### The task handler of `core/sgl_core.c` -/

/-- The function `sgl_obj_dirty_merge` of `core/sgl_core.c`, on the dirty
accumulator `sgl_ctx.dirty` passed explicitly. -/
def core.sgl_obj_dirty_merge (dirty : sgl_area) (obj : sgl_obj) : sgl_area :=
  if obj.coords.x1 > obj.coords.x2 ∨ obj.coords.y1 > obj.coords.y2 then dirty
  else
    { x1 := sgl_min dirty.x1 obj.coords.x1
      x2 := sgl_max dirty.x2 obj.coords.x2
      y1 := sgl_min dirty.y1 obj.coords.y1
      y2 := sgl_max dirty.y2 obj.coords.y2 }

/-- The inline function `sgl_obj_set_hidden` of `include/sgl_core.h`: the
object memory and the dirty accumulator on return. -/
def core.sgl_obj_set_hidden (h : Heap) (dirty : sgl_area) (obj : Nat) : Heap × sgl_area :=
  (h.set obj { h obj with hide := true },
    core.sgl_obj_dirty_merge dirty (h.set obj { h obj with hide := true } obj))

/-- The `while (top > 0)` loop of `sgl_dirty_area_calculate` in
`core/sgl_core.c`; the field `changed` is the local `need_update`. -/
def core.dirty_area_calculate_loop : Nat → walk_state → List Nat → walk_status × walk_state
  | _, s, [] => (walk_status.returned, s)
  | 0, s, _ :: _ => (walk_status.out_of_fuel, s)
  | fuel + 1, s, p :: stack =>
    if (p :: stack).length < SGL_OBJ_DEPTH_MAX then
      if (s.heap p).hide then
        core.dirty_area_calculate_loop fuel s (push_ptr (s.heap p).sibling stack)
      else if (s.heap p).dirty then
        core.dirty_area_calculate_loop fuel
          { heap := s.heap.set p { s.heap p with dirty := false }
            dirty := core.sgl_obj_dirty_merge s.dirty (s.heap p)
            changed := true
            freed := s.freed }
          (push_ptr (s.heap p).child (push_ptr (s.heap p).sibling stack))
      else
        core.dirty_area_calculate_loop fuel s
          (push_ptr (s.heap p).child (push_ptr (s.heap p).sibling stack))
    else (walk_status.assert_failed, s)

/-- The function `sgl_dirty_area_calculate` of `core/sgl_core.c`. -/
def core.sgl_dirty_area_calculate (fuel : Nat) (heap : Heap) (dirty : sgl_area) (obj : Nat) :
    walk_status × walk_state :=
  core.dirty_area_calculate_loop fuel
    { heap := heap, dirty := dirty, changed := false, freed := [] } [obj]

/-- The global `sgl_ctx` of `core/sgl_core.c`, as far as the task handler
uses it: the object memory, the root object `&sgl_ctx.page->obj`, the dirty
accumulator, and the record of the calls of draw callbacks and of the flush. -/
structure sgl_ctx where
  heap : Heap
  page : Nat
  dirty : sgl_area
  draw : draw_state

/-- The function `sgl_task_handle` of `core/sgl_core.c`, without the
animation task. `tick` is the value of `sgl_tick_get()`; the tick counter
that `sgl_tick_reset` clears is not part of the state. `draw_task` stands for
the function `sgl_draw_task`, which the handler calls on the dirty
accumulator when the walk returns true. -/
def core.sgl_task_handle (draw_task : sgl_ctx → walk_status × sgl_ctx)
    (SGL_POS_MAX SGL_POS_MIN : Int) (SGL_SYSTEM_TICK_MS tick fuel : Nat) (s : sgl_ctx) :
    walk_status × sgl_ctx :=
  if tick < SGL_SYSTEM_TICK_MS then (walk_status.returned, s)
  else
    let r := core.sgl_dirty_area_calculate fuel s.heap s.dirty s.page
    if r.1 = walk_status.returned then
      if r.2.changed then
        let d := draw_task { s with heap := r.2.heap, dirty := r.2.dirty }
        if d.1 = walk_status.returned then
          (walk_status.returned, { d.2 with dirty := sgl_area_init SGL_POS_MAX SGL_POS_MIN })
        else d
      else (walk_status.returned, { s with heap := r.2.heap, dirty := r.2.dirty })
    else (r.1, { s with heap := r.2.heap, dirty := r.2.dirty })

/-- A clean page of 4 by 4 pixels at address 0 with the clean visible
children 1 and 2. -/
def clean_scene : Heap := fun p =>
  match p with
  | 0 => { coords := ⟨0, 0, 3, 3⟩, parent := some 0, child := some 1, page := true }
  | 1 => { coords := ⟨0, 0, 1, 1⟩, parent := some 0, sibling := some 2 }
  | 2 => { coords := ⟨2, 2, 3, 3⟩, parent := some 0 }
  | _ => {}

/-- The context of `clean_scene` with an empty dirty accumulator and an empty
record, after `sgl_obj_set_hidden` on the object 1. -/
def hidden_ctx : sgl_ctx :=
  { heap := (core.sgl_obj_set_hidden clean_scene (sgl_area_init 32767 (-32768)) 1).1
    page := 0
    dirty := (core.sgl_obj_set_hidden clean_scene (sgl_area_init 32767 (-32768)) 1).2
    draw := { surf := { buffer := fun _ => 0, x := 0, y := 0, w := 4, h := 4 }
              fb_status := 0, calls := [], flushes := [] } }

/-! ### Zoom and alignment -/

/-- The function `sgl_obj_size_zoom` of `sgl_core.c`; `zoom` is an `int16_t`
and each coordinate is stored back as `int16_t`. -/
def sgl_obj_size_zoom (h : Heap) (obj : Nat) (zoom : Int) : Heap :=
  h.set obj
    { h obj with
      coords :=
        { x1 := wrap16 ((h obj).coords.x1 - zoom)
          x2 := wrap16 ((h obj).coords.x2 + zoom)
          y1 := wrap16 ((h obj).coords.y1 - zoom)
          y2 := wrap16 ((h obj).coords.y2 + zoom) } }

/-- The enum `sgl_align_type_t` of `include/sgl_core.h`. -/
inductive sgl_align_type where
  | SGL_ALIGN_CENTER
  | SGL_ALIGN_TOP_MID
  | SGL_ALIGN_TOP_LEFT
  | SGL_ALIGN_TOP_RIGHT
  | SGL_ALIGN_BOT_MID
  | SGL_ALIGN_BOT_LEFT
  | SGL_ALIGN_BOT_RIGHT
  | SGL_ALIGN_LEFT_MID
  | SGL_ALIGN_RIGHT_MID
  | SGL_ALIGN_VERT_LEFT
  | SGL_ALIGN_VERT_RIGHT
  | SGL_ALIGN_VERT_MID
  | SGL_ALIGN_HORIZ_TOP
  | SGL_ALIGN_HORIZ_BOT
  | SGL_ALIGN_HORIZ_MID
  | SGL_ALIGN_NUM
  deriving DecidableEq, Repr

/-- The function `sgl_get_align_pos` of `sgl_core.c`: the fields `x` and `y`
of the result, for a parent of `pw` by `ph` pixels and an object of `w` by
`hh` pixels. The division is the truncating division of C and the fields are
`int16_t`. -/
def sgl_get_align_pos (pw ph w hh : Int) (type : sgl_align_type) : Int × Int :=
  match type with
  | sgl_align_type.SGL_ALIGN_CENTER =>
    (wrap16 (Int.tdiv (pw - w) 2), wrap16 (Int.tdiv (ph - hh) 2))
  | sgl_align_type.SGL_ALIGN_TOP_MID => (wrap16 (Int.tdiv (pw - w) 2), 0)
  | sgl_align_type.SGL_ALIGN_TOP_LEFT => (0, 0)
  | sgl_align_type.SGL_ALIGN_TOP_RIGHT => (wrap16 (pw - w), 0)
  | sgl_align_type.SGL_ALIGN_BOT_MID => (wrap16 (Int.tdiv (pw - w) 2), wrap16 (ph - hh))
  | sgl_align_type.SGL_ALIGN_BOT_LEFT => (0, wrap16 (ph - hh))
  | sgl_align_type.SGL_ALIGN_BOT_RIGHT => (wrap16 (pw - w), wrap16 (ph - hh))
  | sgl_align_type.SGL_ALIGN_LEFT_MID => (0, wrap16 (Int.tdiv (ph - hh) 2))
  | sgl_align_type.SGL_ALIGN_RIGHT_MID => (wrap16 (pw - w), wrap16 (Int.tdiv (ph - hh) 2))
  | _ => (0, 0)

/-- The function `sgl_obj_set_pos_align` of `sgl_core.c`; `none` when
`obj->parent` is `NULL` (the code reads its rect) or the subtree move gives
no result. -/
def sgl_obj_set_pos_align (fuel : Nat) (h : Heap) (obj : Nat) (type : sgl_align_type) :
    Option Heap :=
  match (h obj).parent with
  | none => none
  | some parent =>
    let obj_w := wrap16 ((h obj).coords.x2 - (h obj).coords.x1 + 1)
    let obj_h := wrap16 ((h obj).coords.y2 - (h obj).coords.y1 + 1)
    let p_w := wrap16 ((h parent).coords.x2 - (h parent).coords.x1 + 1)
    let p_h := wrap16 ((h parent).coords.y2 - (h parent).coords.y1 + 1)
    let obj_pos := sgl_get_align_pos p_w p_h obj_w obj_h type
    sgl_obj_set_abs_pos fuel h obj (wrap16 ((h parent).coords.x1 + obj_pos.1))
      (wrap16 ((h parent).coords.y1 + obj_pos.2))

/-- The function `sgl_obj_set_pos_align_ref` of `sgl_core.c`. The widths and
heights are `int16_t` locals, the division is the truncating division of C,
and each coordinate is stored back as `int16_t`. The `default` branch only
logs a warning. -/
def sgl_obj_set_pos_align_ref (fuel : Nat) (h : Heap) (ref obj : Nat) (type : sgl_align_type) :
    Option Heap :=
  if (h obj).parent = some ref then sgl_obj_set_pos_align fuel h obj type
  else
    let ref_w := wrap16 ((h ref).coords.x2 - (h ref).coords.x1 + 1)
    let obj_w := wrap16 ((h obj).coords.x2 - (h obj).coords.x1 + 1)
    let ref_h := wrap16 ((h ref).coords.y2 - (h ref).coords.y1 + 1)
    let obj_h := wrap16 ((h obj).coords.y2 - (h obj).coords.y1 + 1)
    let set_x (x1 : Int) : Heap :=
      h.set obj { h obj with
        coords := { (h obj).coords with x1 := x1, x2 := wrap16 (x1 + obj_w - 1) } }
    let set_y (y1 : Int) : Heap :=
      h.set obj { h obj with
        coords := { (h obj).coords with y1 := y1, y2 := wrap16 (y1 + obj_h - 1) } }
    match type with
    | sgl_align_type.SGL_ALIGN_VERT_MID =>
      some (set_x (wrap16 ((h ref).coords.x1 + Int.tdiv (ref_w - obj_w) 2)))
    | sgl_align_type.SGL_ALIGN_VERT_LEFT => some (set_x (h ref).coords.x1)
    | sgl_align_type.SGL_ALIGN_VERT_RIGHT => some (set_x (wrap16 ((h ref).coords.x2 - obj_w)))
    | sgl_align_type.SGL_ALIGN_HORIZ_MID =>
      some (set_y (wrap16 ((h ref).coords.y1 + Int.tdiv (ref_h - obj_h) 2)))
    | sgl_align_type.SGL_ALIGN_HORIZ_TOP => some (set_y (h ref).coords.y1)
    | sgl_align_type.SGL_ALIGN_HORIZ_BOT => some (set_y (wrap16 ((h ref).coords.y2 - obj_h)))
    | _ => some h

/-- A clean parent at address 0 with the rect `(0, 0, 99, 99)` and its clean
children 1, with the rect `(10, 10, 29, 29)`, and 2, with the rect
`(0, 0, 4, 4)`. -/
def align_heap : Heap := fun p =>
  match p with
  | 0 => { coords := ⟨0, 0, 99, 99⟩, child := some 1 }
  | 1 => { coords := ⟨10, 10, 29, 29⟩, parent := some 0, sibling := some 2 }
  | 2 => { coords := ⟨0, 0, 4, 4⟩, parent := some 0 }
  | _ => {}

instance lseg.decidable (h : Heap) : (ptr : Option Nat) → (l : List Nat) → (last : Option Nat) →
    Decidable (lseg h ptr l last)
  | ptr, [], last => by unfold lseg; exact inferInstance
  | ptr, q :: l, last => by
    unfold lseg
    have := lseg.decidable h (h q).sibling l last
    exact inferInstance

/-! ### Registration of the frame buffer device -/

/-- Modelled from the spec: the struct `sgl_fbinfo_t` of the absent
`sgl_core.h`, as far as `sgl_fbdev_register` reads it: the content of the
first buffer (`none` for a `NULL` pointer `buffer[0]`), whether the callback
`flush_area` is set, the capacity `buffer_size` of a buffer in pixels and the
resolution `xres`, `yres`. -/
structure sgl_fbinfo where
  buffer0 : Option (Int → Nat)
  flush_area : Bool
  buffer_size : Nat
  xres : Int
  yres : Int

/-- Modelled from the spec: the macro `SGL_ASSERT` of the absent `sgl_log.h`.
With `CONFIG_SGL_DEBUG` set a false condition enters `sgl_assert_handler` of
`sgl_core.c`, which logs and then loops for ever; without it the macro
expands to nothing. The result tells whether execution goes on after the
macro. -/
def SGL_ASSERT (CONFIG_SGL_DEBUG : Bool) (cond : Bool) : Bool :=
  !CONFIG_SGL_DEBUG || cond

/-- The function `sgl_fbdev_register` of `sgl_core.c`: the return value,
`none` when the call does not return, and the global `sgl_system` afterwards.
Of the copy `fbdev.fbinfo` the state keeps the resolution; `tick_ms` is not
part of the state. The edges `x2`, `y2` are stored as `int16_t`. -/
def sgl_fbdev_register (CONFIG_SGL_DEBUG : Bool) (s : sgl_system) (fbinfo : Option sgl_fbinfo) :
    Option Int × sgl_system :=
  let fail : Option Int × sgl_system :=
    if SGL_ASSERT CONFIG_SGL_DEBUG false then (some (-1), s) else (none, s)
  match fbinfo with
  | none => fail
  | some f =>
    match f.buffer0 with
    | none => fail
    | some buf =>
      if f.flush_area = false then fail
      else if f.buffer_size = 0 then fail
      else
        (some 0,
          { s with
            xres := f.xres
            yres := f.yres
            fb_swap := 0
            draw :=
              { s.draw with
                fb_status := 3
                surf :=
                  { s.draw.surf with
                    buffer := buf
                    x := 0
                    y := 0
                    x2 := wrap16 (f.xres - 1)
                    y2 := wrap16 (f.yres - 1)
                    size := f.buffer_size
                    w := f.xres } } })

/-- A descriptor of a display of 4 by 4 pixels with a buffer of 16 pixels. -/
def demo_fbinfo : sgl_fbinfo :=
  { buffer0 := some (fun _ => 0), flush_area := true, buffer_size := 16, xres := 4, yres := 4 }

/-! ### Pixmap fill -/

/-- The struct `sgl_pixmap_t` of `include/sgl_core.h`: the width and height
and the pixel stored at each index of the array `bitmap`. -/
structure sgl_pixmap where
  width : Nat
  height : Nat
  bitmap : Nat → Nat

/-- The inline function `sgl_pixmap_get_buf` of `include/sgl_core.h`
(`CONFIG_SGL_EXTERNAL_PIXMAP` is not set): the index in `bitmap` the returned
pointer points at. `x` and `y` are `int16_t` parameters and `pos` is a
`uint32_t`. -/
def sgl_pixmap_get_buf (pixmap : sgl_pixmap) (x y : Int) : Nat :=
  ((wrap16 y * pixmap.width + wrap16 x) % 2 ^ 32).toNat

/-- The function `sgl_draw_fill_rect_pixmap` of `sgl_draw.c`: the buffer of
the surface on return. In the row `y` the pointer `pbuf` starts at the index
`sgl_pixmap_get_buf` gives and moves on by one with each column. -/
def sgl_draw_fill_rect_pixmap (d : sgl_pixel_depth) (surf : sgl_surf) (area rect : sgl_area)
    (pixmap : sgl_pixmap) (alpha : Nat) : Int → Nat :=
  if (sgl_surf_clip surf rect ⟨0, 0, 0, 0⟩).1 = false then surf.buffer
  else if (sgl_area_selfclip (sgl_surf_clip surf rect ⟨0, 0, 0, 0⟩).2 area).1 = false then
    surf.buffer
  else
    let clip := (sgl_area_selfclip (sgl_surf_clip surf rect ⟨0, 0, 0, 0⟩).2 area).2
    let cx := Int.tdiv (rect.x1 + rect.x2) 2
    let cy := Int.tdiv (rect.y1 + rect.y2) 2
    let pick_cx : Int := pixmap.width / 2
    let pick_cy : Int := pixmap.height / 2
    draw_rows surf clip
      (fun y x old =>
        let p := pixmap.bitmap
          (sgl_pixmap_get_buf pixmap (pick_cx - (cx - clip.x1 + 1)) (pick_cy - (cy - y + 1)) +
            (x - clip.x1).toNat)
        if alpha = SGL_ALPHA_MAX then p else sgl_color_mixer d p old alpha)
      surf.buffer

/-- A pixmap of 3 by 3 pixels holding the values 1 to 9 row by row. -/
def pixmap3 : sgl_pixmap :=
  { width := 3, height := 3, bitmap := fun i => if i < 9 then i + 1 else 0 }

/-- A surface of 3 by 3 pixels at the origin, holding the color 0. -/
def surf3 : sgl_surf := { buffer := fun _ => 0, x := 0, y := 0, w := 3, h := 3 }

/-! ### Angle of a vector -/

/-- The function `sgl_atan2_angle` of `sgl_core.c`. `ux`, `uy` and `degree`
are `unsigned int`, `tempdegree` is an `unsigned char`, the result is a
`uint16_t`; the negations `0 - x`, `0 - y` are taken without overflow. The
result is `none` when the code divides by zero, in `(ux * 45) / uy` with
`uy = 0`, which is the case of `x = 0` and `y = 0`. -/
def sgl_atan2_angle (x y : Int) : Option Nat :=
  let negflag0 : Nat := if x < 0 then 1 else 0
  let ux : Nat := (if x < 0 then 0 - x else x).toNat % 2 ^ 32
  let negflag1 : Nat := if y < 0 then negflag0 + 2 else negflag0
  let uy : Nat := (if y < 0 then 0 - y else y).toNat % 2 ^ 32
  if ¬ ux > uy ∧ uy = 0 then none else
  let degree0 : Nat := if ux > uy then (uy * 45) % 2 ^ 32 / ux else (ux * 45) % 2 ^ 32 / uy
  let negflag : Nat := if ux > uy then negflag1 + 0x10 else negflag1
  let tempdegree : Nat := degree0 % 256
  let comp : Nat :=
    if tempdegree > 22 then
      (if tempdegree ≤ 44 then 1 else 0) + (if tempdegree ≤ 41 then 1 else 0) +
        (if tempdegree ≤ 37 then 1 else 0) + (if tempdegree ≤ 32 then 1 else 0)
    else
      (if tempdegree ≥ 2 then 1 else 0) + (if tempdegree ≥ 6 then 1 else 0) +
        (if tempdegree ≥ 10 then 1 else 0) + (if tempdegree ≥ 15 then 1 else 0)
  let degree1 : Nat := (degree0 + comp) % 2 ^ 32
  let degree2 : Nat := if negflag &&& 0x10 ≠ 0 then (90 + 2 ^ 32 - degree1) % 2 ^ 32 else degree1
  let degree3 : Nat :=
    if negflag &&& 0x02 ≠ 0 then
      if negflag &&& 0x01 ≠ 0 then (180 + degree2) % 2 ^ 32
      else (180 + 2 ^ 32 - degree2) % 2 ^ 32
    else
      if negflag &&& 0x01 ≠ 0 then (360 + 2 ^ 32 - degree2) % 2 ^ 32 else degree2
  some (degree3 % 65536)

/-! ### Drawing a character -/

/-- The table `opa4_table` of `sgl_draw.c`. -/
def opa4_table : List Nat :=
  [0, 17, 34, 51, 68, 85, 102, 119, 136, 153, 170, 187, 204, 221, 238, 255]

/-- The table `opa2_table` of `sgl_draw.c`. -/
def opa2_table : List Nat := [0, 85, 170, 255]

/-- The local `text_rect` of `sgl_draw_character` for the glyph entry `g`,
with `font_w` and `font_h` the `uint8_t` copies of `box_w` and `box_h`; the
four fields are `int16_t`. -/
def glyph_text_rect (font : sgl_font) (g : sgl_font_table) (x y : Int) : sgl_area :=
  let offset_y2 : Int := font.font_height - g.ofs_y - font.base_line
  let font_w : Int := (g.box_w % 256 : Nat)
  let font_h : Int := (g.box_h % 256 : Nat)
  { x1 := wrap16 (x + g.ofs_x)
    x2 := wrap16 (x + g.ofs_x + font_w - 1)
    y1 := wrap16 (y + offset_y2 - font_h)
    y2 := wrap16 (y + offset_y2 - 1) }

/-- The value of `alpha_dot` the loop body of `sgl_draw_character` computes
for the pixel of index `pixel_index` of the glyph `g`: `byte_index` is a
`uint16_t`, `shift` a `uint8_t`, `dot` points at
`font->bitmap[bitmap_index]`; for a font of neither 4 nor 2 bits per pixel
`alpha_dot` keeps its initial value 0. A read outside the list `bitmap`
gives 0. -/
def character_alpha_dot (font : sgl_font) (g : sgl_font_table) (pixel_index : Nat) : Nat :=
  if font.bpp = 4 then
    let byte_index := (pixel_index >>> 1) % 65536
    let dot := font.bitmap.getD (g.bitmap_index + byte_index) 0 % 256
    opa4_table.getD (if pixel_index &&& 1 ≠ 0 then dot &&& 0x0F else dot >>> 4) 0
  else if font.bpp = 2 then
    let byte_index := (pixel_index >>> 2) % 65536
    let shift := ((3 - (pixel_index &&& 0x3)) * 2) % 256
    let dot := font.bitmap.getD (g.bitmap_index + byte_index) 0 % 256
    opa2_table.getD ((dot >>> shift) &&& 0x03) 0
  else 0

/-- The function `sgl_draw_character` of `sgl_draw.c` with
`CONFIG_SGL_FONT_COMPRESSED` not set, as in `sgl_config.h`: the buffer of the
surface on return, `none` when `ch_index` is outside the table of the font.
`rel_x`, `rel_y` and `pixel_index` are `uint32_t`. -/
def sgl_draw_character (d : sgl_pixel_depth) (surf : sgl_surf) (area : sgl_area) (x y : Int)
    (ch_index : Nat) (color alpha : Nat) (font : sgl_font) : Option (Int → Nat) :=
  match font.table[ch_index]? with
  | none => none
  | some g =>
    let text_rect := glyph_text_rect font g x y
    let font_w := g.box_w % 256
    some
      (if (sgl_surf_clip surf text_rect ⟨0, 0, 0, 0⟩).1 = false then surf.buffer
      else if (sgl_area_selfclip (sgl_surf_clip surf text_rect ⟨0, 0, 0, 0⟩).2 area).1 = false
        then surf.buffer
      else
        draw_rows surf (sgl_area_selfclip (sgl_surf_clip surf text_rect ⟨0, 0, 0, 0⟩).2 area).2
          (fun yy xx old =>
            let rel_y := ((yy - text_rect.y1) % 2 ^ 32).toNat
            let rel_x := ((xx - text_rect.x1) % 2 ^ 32).toNat
            let pixel_index := (rel_y * font_w + rel_x) % 2 ^ 32
            let alpha_dot := character_alpha_dot font g pixel_index
            sgl_color_mixer d (sgl_color_mixer d color old alpha_dot) old alpha)
          surf.buffer)

/-- The box of the glyph `g` drawn at `(x, y)`: `box_w` columns from
`x + ofs_x` and `box_h` rows ending above the row
`y + font_height - ofs_y - base_line`. -/
def glyph_box (font : sgl_font) (g : sgl_font_table) (x y : Int) : sgl_area :=
  { x1 := x + g.ofs_x
    x2 := x + g.ofs_x + g.box_w - 1
    y1 := y + (font.font_height - g.ofs_y - font.base_line) - g.box_h
    y2 := y + (font.font_height - g.ofs_y - font.base_line) - 1 }

/-- The coverage value of the pixel of index `i` of a glyph whose bitmap
starts at the byte `start`, in the words of the specification: the values of
`bpp` bits are packed row by row, the first of a byte in its top bits. -/
def glyph_coverage (bitmap : List Nat) (start bpp i : Nat) : Nat :=
  (bitmap.getD (start + i * bpp / 8) 0 % 256) / 2 ^ (8 - bpp - i * bpp % 8) % 2 ^ bpp

/-- The 8-bit alpha of a coverage value, in the words of the specification:
`17 * v` for 4 bits per pixel and `85 * v` for 2. -/
def coverage_alpha (bpp v : Nat) : Nat := if bpp = 4 then 17 * v else 85 * v

/-- A font of 4 bits per pixel and height 4 with one glyph of 3 by 2 pixels
whose coverage values are 1, 2, 3 and 4, 5, 6. -/
def tiny_font : sgl_font :=
  { unicode := [], unicode_num := 0
    bitmap := [0x12, 0x34, 0x56]
    table := [{ bitmap_index := 0, adv_w := 64, box_h := 2, box_w := 3, ofs_x := 0, ofs_y := 0 }]
    font_height := 4, bpp := 4, base_line := 0 }

/-! ### Slices and the order of the draw callbacks -/

/-- The areas are slices of the columns `x1 .. x2` that follow each other
from the row `y` to the row `y2`: each starts on the row after the one
before, has at least one row, and holds at most `size` pixels. -/
def slices (x1 x2 size : Int) : Int → Int → List sgl_area → Prop
  | y, y2, [] => y = y2 + 1
  | y, y2, a :: rest =>
    a.x1 = x1 ∧ a.x2 = x2 ∧ a.y1 = y ∧ a.y1 ≤ a.y2 ∧ a.y2 ≤ y2 ∧
    (x2 - x1 + 1) * (a.y2 - a.y1 + 1) ≤ size ∧ slices x1 x2 size (a.y2 + 1) y2 rest

/-- The objects of the forest reached without passing a hidden object or an
object whose rect fails the test `ov`, in pre-order: such an object is left
out together with its descendants. -/
def drawn (h : Heap) (ov : sgl_area → Bool) : Shape → List Nat
  | Shape.nil => []
  | Shape.node p c s =>
    (if (h p).hide = true ∨ ov (h p).coords = false then [] else p :: drawn h ov c) ++
      drawn h ov s

/-- The list `drawn` of the forests of the stack, top first. -/
def stack_drawn (h : Heap) (ov : sgl_area → Bool) : List Shape → List Nat
  | [] => []
  | t :: ts => drawn h ov t ++ stack_drawn h ov ts

/-- The record of the call `construct_fn(surf, obj, area)` for the object
`p`. -/
def slice_call (surf : sgl_surf) (area : sgl_area) (p : Nat) : draw_call :=
  { obj := p, slice := ⟨surf.x, surf.y, surf.x2, surf.y2⟩, area := area }

/-- The tree of a page: `c` is the forest of the children of `root`, the root
has no sibling and is not flagged destroyed, every object names its parent,
no object occurs twice, and the forest has at most `SGL_OBJ_DEPTH_MAX - 1`
levels, that is every object is at depth 15 at most, the root being at
depth 0. -/
def page_tree (h : Heap) (root : Nat) (c : Shape) : Prop :=
  Represents h (h root).child c ∧ (h root).sibling = none ∧ Parents h root c ∧
  (root :: c.preorder).Nodup ∧ c.depth < SGL_OBJ_DEPTH_MAX ∧ (h root).destroyed = false

instance (h : Heap) (root : Nat) (c : Shape) : Decidable (page_tree h root c) := by
  unfold page_tree; exact inferInstance

/-- A chain of `n` objects at the addresses `k + 1 .. k + n`, each the only
child of the one before, as the forest below the object `k`. -/
def chain_shape : Nat → Nat → Shape
  | 0, _ => Shape.nil
  | n + 1, k => Shape.node (k + 1) (chain_shape n (k + 1)) Shape.nil

/-- A page at address 0 and below it a chain of 15 objects, each the only
child of the one before: the object `p` is at depth `p`. -/
def deep_heap : Heap := fun p =>
  if p = 0 then { coords := ⟨0, 0, 3, 3⟩, child := some 1, page := true }
  else if p < 15 then { coords := ⟨0, 0, 3, 3⟩, parent := some (p - 1), child := some (p + 1) }
  else if p = 15 then { coords := ⟨0, 0, 3, 3⟩, parent := some 14 }
  else {}

instance StackFits.decidable : (ts : List Shape) → Decidable (StackFits ts)
  | [] => by unfold StackFits; exact inferInstance
  | t :: ts => by
    unfold StackFits
    have := StackFits.decidable ts
    exact inferInstance

/-- Draw callbacks that leave the buffer as it is, one for every object. -/
def plain_construct : Nat → Option construct_cb := fun _ => some (fun surf _ _ => surf.buffer)

/-- The state of a display of 4 by 4 pixels with a buffer of 8 pixels, the
scene `overhang_scene` and the dirty rect `(0, 0, 3, 2)`. -/
def slice_system : sgl_system :=
  { sgl_system.start overhang_scene 4 4 8 with dirty := ⟨0, 0, 3, 2⟩ }

/-! ### The draw pass of `core/sgl_core.c` -/

/-- The `while (top > 0)` loop of `draw_obj_slice` in `core/sgl_core.c`. The
overlap test is made on the dirty rect `sgl_ctx.dirty`; `area` is the local
of that name, which `sgl_area_clip` writes only when the rect of the parent
and the dirty rect overlap. A `NULL` parent is a fault. The call of the
callback is recorded with the rows and columns of the surface as the
slice. -/
def core.draw_obj_slice_loop (construct : Nat → Option construct_cb) (h : Heap)
    (dirty : sgl_area) : Nat → draw_state → sgl_area → List Nat → walk_status × draw_state
  | _, s, _, [] => (walk_status.returned, s)
  | 0, s, _, _ :: _ => (walk_status.out_of_fuel, s)
  | fuel + 1, s, area, p :: stack =>
    if (p :: stack).length < SGL_OBJ_DEPTH_MAX then
      if (h p).hide then
        core.draw_obj_slice_loop construct h dirty fuel s area (push_ptr (h p).sibling stack)
      else if sgl_surf_area_is_overlap s.surf dirty then
        match construct p with
        | none => (walk_status.assert_failed, s)
        | some cb =>
          match (h p).parent with
          | none => (walk_status.fault, s)
          | some parent =>
            core.draw_obj_slice_loop construct h dirty fuel
              { s with
                surf :=
                  { s.surf with
                    buffer := cb s.surf (h p) (sgl_area_clip (h parent).coords dirty area).2 }
                calls := s.calls ++
                  [{ obj := p
                     slice := ⟨s.surf.x, s.surf.y, s.surf.x + s.surf.w - 1,
                       s.surf.y + s.surf.h - 1⟩
                     area := (sgl_area_clip (h parent).coords dirty area).2 }] }
              (sgl_area_clip (h parent).coords dirty area).2
              (push_ptr (h p).child (push_ptr (h p).sibling stack))
      else
        core.draw_obj_slice_loop construct h dirty fuel s area (push_ptr (h p).sibling stack)
    else (walk_status.assert_failed, s)

/-- The function `draw_obj_slice` of `core/sgl_core.c`. `SGL_AREA_INVALID` is
the constant of that name, whose definition is not part of the sources. The
call `sgl_panel_flush_area(x, y, w, dirty_h, buffer)` is recorded as the
flush of the columns `x .. x + w - 1` and the rows `y .. y + dirty_h - 1`,
the four arguments being `int16_t`. -/
def core.draw_obj_slice (construct : Nat → Option construct_cb) (h : Heap)
    (SGL_AREA_INVALID : sgl_area) (fuel : Nat) (obj : Nat) (s : draw_state) (dirty : sgl_area)
    (dirty_h : Int) : walk_status × draw_state :=
  let r := core.draw_obj_slice_loop construct h dirty fuel s SGL_AREA_INVALID [obj]
  if r.1 = walk_status.returned then
    (walk_status.returned,
      sgl_fbdev_flush_area r.2
        ⟨wrap16 r.2.surf.x, wrap16 r.2.surf.y, wrap16 r.2.surf.x + wrap16 r.2.surf.w - 1,
          wrap16 r.2.surf.y + wrap16 dirty_h - 1⟩
        r.2.surf.buffer)
  else r

/-- The loop `while (surf->y < dirty->y2)` of `sgl_draw_task` in
`core/sgl_core.c`, with `rows` iterations left. `remaining` and `draw_h` are
`uint16_t`, `surf->y` is an `int16_t`; there is one buffer, so that
`sgl_surf_buffer_swap` does nothing. -/
def core.draw_task_loop (construct : Nat → Option construct_cb) (h : Heap)
    (SGL_AREA_INVALID : sgl_area) (fuel : Nat) (head : Nat) (dirty : sgl_area) :
    Nat → draw_state → walk_status × draw_state
  | 0, s => if s.surf.y < dirty.y2 then (walk_status.out_of_fuel, s) else (walk_status.returned, s)
  | rows + 1, s =>
    if s.surf.y < dirty.y2 then
      let remaining := (dirty.y2 - s.surf.y + 1) % 65536
      let draw_h := (if remaining < s.surf.h then remaining else s.surf.h) % 65536
      let r := core.draw_obj_slice construct h SGL_AREA_INVALID fuel head s dirty (wrap16 draw_h)
      if r.1 = walk_status.returned then
        core.draw_task_loop construct h SGL_AREA_INVALID fuel head dirty rows
          { r.2 with surf := { r.2.surf with y := wrap16 (r.2.surf.y + draw_h) } }
      else r
    else (walk_status.returned, s)

/-- The function `sgl_draw_task` of `core/sgl_core.c`, called on
`&sgl_ctx.dirty`; `xres` and `yres` are the values of
`sgl_panel_resolution_width()` and `sgl_panel_resolution_height()`.
`dirty_w`, `dirty_h` and `max_h` are `uint16_t` and `surf->h` is an
`int16_t`; a `dirty_w` of 0 fails the assertion. -/
def core.sgl_draw_task (construct : Nat → Option construct_cb) (xres yres : Int)
    (SGL_AREA_INVALID : sgl_area) (fuel rows : Nat) (s : sgl_ctx) : walk_status × sgl_ctx :=
  let dirty : sgl_area :=
    { x1 := sgl_max s.dirty.x1 0
      x2 := sgl_min s.dirty.x2 (xres - 1)
      y1 := sgl_max s.dirty.y1 0
      y2 := sgl_min s.dirty.y2 (yres - 1) }
  let dirty_w := (dirty.x2 - dirty.x1 + 1) % 65536
  let dirty_h := (dirty.y2 - dirty.y1 + 1) % 65536
  if 0 < dirty_w then
    let max_h := ((s.draw.surf.size : Int) / dirty_w) % 65536
    let surf : sgl_surf :=
      { s.draw.surf with
        x := dirty.x1
        y := dirty.y1
        w := dirty_w
        h := wrap16 (sgl_min max_h dirty_h % 65536) }
    let r := core.draw_task_loop construct s.heap SGL_AREA_INVALID fuel s.page dirty rows
      { s.draw with surf := surf }
    (r.1, { s with dirty := dirty, draw := r.2 })
  else (walk_status.assert_failed, { s with dirty := dirty })

/-- The context of a display of 4 by 4 pixels with the scene `clean_scene`,
a buffer of `size` pixels and the dirty rect `dirty`. -/
def row_ctx (dirty : sgl_area) (size : Nat) : sgl_ctx :=
  { heap := clean_scene
    page := 0
    dirty := dirty
    draw := { surf := { buffer := fun _ => 0, x := 0, y := 0, w := 4, h := 4, size := size }
              fb_status := 0, calls := [], flushes := [] } }

/-! ### Integer square root -/

/-- The loop `for (int i=0; i<16; i++)` of `sgl_sqrt` in `sgl_core.c` with `n`
iterations left, on `uint32_t` values: the final value of `root`. -/
def sqrt_loop : Nat → Nat → Nat → Nat → Nat
  | 0, _, _, root => root
  | n + 1, x, rem, root =>
    let root1 := (root <<< 1) % 2 ^ 32
    let rem1 := ((rem <<< 2) % 2 ^ 32 + x >>> 30) % 2 ^ 32
    let x1 := (x <<< 2) % 2 ^ 32
    let divisor := ((root1 <<< 1) % 2 ^ 32 + 1) % 2 ^ 32
    if divisor ≤ rem1 then
      sqrt_loop n x1 ((rem1 + 2 ^ 32 - divisor) % 2 ^ 32) ((root1 + 1) % 2 ^ 32)
    else sqrt_loop n x1 rem1 root1

/-- The function `sgl_sqrt` of `sgl_core.c`; the result is a `uint16_t`. -/
def sgl_sqrt (x : Nat) : Nat := sqrt_loop 16 x 0 0 % 65536

/-- Check of a part of the table of `sgl_sqrt_error` that starts at the entry
`x`, with `k` the integer square root of `x - 1` (0 for `x = 0`): each entry
`v` is a byte and `256 * isqrt(x) + v` is the integer square root of
`65536 * x`. -/
def sqrt_error_entries_ok : List Nat → Nat → Nat → Bool
  | [], _, _ => true
  | v :: rest, x, k =>
    let k1 := if (k + 1) * (k + 1) ≤ x then k + 1 else k
    (decide (v < 256) && decide ((256 * k1 + v) * (256 * k1 + v) ≤ 65536 * x) &&
      decide (65536 * x < (256 * k1 + v + 1) * (256 * k1 + v + 1))) &&
      sqrt_error_entries_ok rest (x + 1) k1

/-! ### Strings -/

/-- The two statements `str += sgl_utf8_to_unicode(str, &unicode);` and
`ch_index = sgl_search_unicode_ch_index(font, unicode);` of the string loops:
the rest of the string, the code point and the glyph index. The result is
`none` when the byte count leads past the end of the string or the search
reads outside the font or does not end within `n` iterations. -/
def next_glyph (n : Nat) (font : sgl_font) (str : List Nat) (unicode : Nat) :
    Option (List Nat × Nat × Nat) :=
  if (sgl_utf8_to_unicode str unicode).1 > str.length then none
  else
    match sgl_search_unicode_ch_index n font (sgl_utf8_to_unicode str unicode).2 with
    | lookup_result.value v =>
      some (str.drop (sgl_utf8_to_unicode str unicode).1, (sgl_utf8_to_unicode str unicode).2, v)
    | _ => none

/-- The loop `while (*str)` of `sgl_font_get_string_width` in `sgl_core.c`:
how the run ends, the rest of the string and the value of `len`, taken
without overflow. The string is the list of its bytes before the terminator;
a read of the table outside its entries is a fault. -/
def string_width_loop (n : Nat) (font : sgl_font) :
    Nat → List Nat → Nat → Int → walk_status × List Nat × Int
  | 0, str, _, len =>
    if str.getD 0 0 = 0 then (walk_status.returned, str, len)
    else (walk_status.out_of_fuel, str, len)
  | fuel + 1, str, unicode, len =>
    if str.getD 0 0 = 0 then (walk_status.returned, str, len)
    else
      match next_glyph n font str unicode with
      | none => (walk_status.fault, str, len)
      | some (str1, unicode1, ch_index) =>
        match font.table[ch_index]? with
        | none => (walk_status.fault, str1, len)
        | some g => string_width_loop n font fuel str1 unicode1 (len + (g.adv_w >>> 4 : Nat))

/-- The function `sgl_font_get_string_width` of `sgl_core.c`. -/
def sgl_font_get_string_width (n fuel : Nat) (str : List Nat) (font : sgl_font) :
    walk_status × List Nat × Int :=
  string_width_loop n font fuel str 0 0

/-- The loop `while (*str)` of `sgl_draw_string` in `sgl_draw.c`: how the run
ends, the rest of the string, the value of `x` and the surface. `x` is an
`int16_t`. -/
def draw_string_loop (d : sgl_pixel_depth) (n : Nat) (font : sgl_font) (area : sgl_area)
    (y : Int) (color alpha : Nat) :
    Nat → List Nat → Nat → Int → sgl_surf → walk_status × List Nat × Int × sgl_surf
  | 0, str, _, x, surf =>
    if str.getD 0 0 = 0 then (walk_status.returned, str, x, surf)
    else (walk_status.out_of_fuel, str, x, surf)
  | fuel + 1, str, unicode, x, surf =>
    if str.getD 0 0 = 0 then (walk_status.returned, str, x, surf)
    else
      match next_glyph n font str unicode with
      | none => (walk_status.fault, str, x, surf)
      | some (str1, unicode1, ch_index) =>
        match sgl_draw_character d surf area x y ch_index color alpha font with
        | none => (walk_status.fault, str1, x, surf)
        | some out =>
          match font.table[ch_index]? with
          | none => (walk_status.fault, str1, x, surf)
          | some g =>
            draw_string_loop d n font area y color alpha fuel str1 unicode1
              (wrap16 (x + (g.adv_w >>> 4 : Nat))) { surf with buffer := out }

/-- The function `sgl_draw_string` of `sgl_draw.c`. -/
def sgl_draw_string (d : sgl_pixel_depth) (n fuel : Nat) (surf : sgl_surf) (area : sgl_area)
    (x y : Int) (str : List Nat) (color alpha : Nat) (font : sgl_font) :
    walk_status × List Nat × Int × sgl_surf :=
  draw_string_loop d n font area y color alpha fuel str 0 x surf

/-! ### Compressed glyphs -/

/-- The enum `sgl_font_rle_state_t` of `sgl_draw.c`. -/
inductive sgl_font_rle_state where
  | RLE_STATE_SINGLE
  | RLE_STATE_REPEATED
  | RLE_STATE_COUNTER
  deriving DecidableEq, Repr

/-- The struct `sgl_font_rle_t` of `sgl_draw.c`; the field `in` is the list
`input` of the bytes it points at. -/
structure sgl_font_rle where
  rdp : Nat
  input : List Nat
  bpp : Nat
  prev_v : Nat
  count : Nat
  state : sgl_font_rle_state
  deriving DecidableEq, Repr

/-- The function `get_bits` of `sgl_draw.c`: `bit_pos` is a `uint32_t`, `len`
and the result are `uint8_t`, `in16` is a `uint16_t`. A read outside the list
gives 0. -/
def get_bits (input : List Nat) (bit_pos len : Nat) : Nat :=
  let bit_mask : Nat :=
    match len with
    | 2 => 0x3
    | 4 => 0xF
    | _ => ((((1 <<< len) % 65536 : Nat) : Int) - 1).toNat % 256
  let byte_pos := bit_pos >>> 3
  let bit_pos := bit_pos &&& 0x7
  if bit_pos + len ≥ 8 then
    let in16 := (((input.getD byte_pos 0 % 256) <<< 8) + input.getD (byte_pos + 1) 0 % 256) % 65536
    ((in16 >>> (16 - bit_pos - len)) &&& bit_mask) % 256
  else
    ((input.getD byte_pos 0 % 256) >>> (8 - bit_pos - len)) &&& bit_mask

/-- The body of the loop of `decompress_line` in `sgl_draw.c`: the state
`font_rle` and the local `ret` after one iteration (every branch assigns
`ret`). `rdp` is a `uint32_t`, `count`, `prev_v` and `ret` are `uint8_t`. -/
def decompress_step (rle : sgl_font_rle) : sgl_font_rle × Nat :=
  match rle.state with
  | sgl_font_rle_state.RLE_STATE_SINGLE =>
    let ret1 := get_bits rle.input rle.rdp rle.bpp
    let rle1 :=
      if rle.rdp ≠ 0 ∧ rle.prev_v = ret1 then
        { rle with count := 0, state := sgl_font_rle_state.RLE_STATE_REPEATED }
      else rle
    ({ rle1 with prev_v := ret1, rdp := (rle1.rdp + rle1.bpp) % 2 ^ 32 }, ret1)
  | sgl_font_rle_state.RLE_STATE_REPEATED =>
    let v := get_bits rle.input rle.rdp 1
    let rle1 := { rle with count := (rle.count + 1) % 256, rdp := (rle.rdp + 1) % 2 ^ 32 }
    if v = 1 then
      if rle1.count = 11 then
        let rle2 :=
          { rle1 with count := get_bits rle1.input rle1.rdp 6, rdp := (rle1.rdp + 6) % 2 ^ 32 }
        if rle2.count ≠ 0 then
          ({ rle2 with state := sgl_font_rle_state.RLE_STATE_COUNTER }, rle.prev_v)
        else
          ({ rle2 with
              prev_v := get_bits rle2.input rle2.rdp rle2.bpp
              rdp := (rle2.rdp + rle2.bpp) % 2 ^ 32
              state := sgl_font_rle_state.RLE_STATE_SINGLE },
            get_bits rle2.input rle2.rdp rle2.bpp)
      else (rle1, rle.prev_v)
    else
      ({ rle1 with
          prev_v := get_bits rle1.input rle1.rdp rle1.bpp
          rdp := (rle1.rdp + rle1.bpp) % 2 ^ 32
          state := sgl_font_rle_state.RLE_STATE_SINGLE },
        get_bits rle1.input rle1.rdp rle1.bpp)
  | sgl_font_rle_state.RLE_STATE_COUNTER =>
    let rle1 := { rle with count := (rle.count + 255) % 256 }
    if rle1.count = 0 then
      ({ rle1 with
          prev_v := get_bits rle1.input rle1.rdp rle1.bpp
          rdp := (rle1.rdp + rle1.bpp) % 2 ^ 32
          state := sgl_font_rle_state.RLE_STATE_SINGLE },
        get_bits rle1.input rle1.rdp rle1.bpp)
    else (rle1, rle.prev_v)

/-- The loop `for(i = 0; i < w; i++)` of `decompress_line` with `n`
iterations left, for an `out` that is not `NULL`: the state and the values
written to `out` so far. -/
def decompress_line_loop : Nat → sgl_font_rle → List Nat → sgl_font_rle × List Nat
  | 0, rle, out => (rle, out)
  | n + 1, rle, out =>
    decompress_line_loop n (decompress_step rle).1 (out ++ [(decompress_step rle).2])

/-- The function `decompress_line` of `sgl_draw.c` for an `out` that is not
`NULL`: the state `font_rle` on return and the `w` values written to `out`. -/
def decompress_line (rle : sgl_font_rle) (w : Int) : sgl_font_rle × List Nat :=
  decompress_line_loop w.toNat rle []

/-- The function `font_rle_init` of `sgl_draw.c`: the state `font_rle` it
leaves. -/
def font_rle_init (input : List Nat) (bpp : Nat) : sgl_font_rle :=
  { rdp := 0, input := input, bpp := bpp % 256, prev_v := 0, count := 0
    state := sgl_font_rle_state.RLE_STATE_SINGLE }

/-! ### Channels of a 16 bit color -/

/-- The field `ch.blue` of `sgl_color16_t`: the bits 0 to 4 of `full`. -/
def color16_blue (c : Nat) : Nat := c % 32

/-- The field `ch.green` of `sgl_color16_t`: the bits 5 to 10 of `full`. -/
def color16_green (c : Nat) : Nat := c / 32 % 64

/-- The field `ch.red` of `sgl_color16_t`: the bits 11 to 15 of `full`. -/
def color16_red (c : Nat) : Nat := c / 2048 % 32

/-! ### Lines of a string -/

/-- The loop `while (*str)` of `sgl_font_get_string_height` in `sgl_core.c`:
how the run ends, the rest of the string and the values of `offset_x` and
`lines`. `offset_x`, `ch_index`, `ch_width` and `lines` are `int16_t`; a read
of the table outside its entries is a fault. -/
def string_height_loop (n : Nat) (font : sgl_font) (width : Int) :
    Nat → List Nat → Nat → Int → Int → walk_status × List Nat × Int × Int
  | 0, str, _, offset_x, lines =>
    if str.getD 0 0 = 0 then (walk_status.returned, str, offset_x, lines)
    else (walk_status.out_of_fuel, str, offset_x, lines)
  | fuel + 1, str, unicode, offset_x, lines =>
    if str.getD 0 0 = 0 then (walk_status.returned, str, offset_x, lines)
    else if str.getD 0 0 = 10 then
      string_height_loop n font width fuel (str.drop 1) unicode 0 (wrap16 (lines + 1))
    else
      match next_glyph n font str unicode with
      | none => (walk_status.fault, str, offset_x, lines)
      | some (str1, unicode1, v) =>
        if wrap16 v < 0 then (walk_status.fault, str1, offset_x, lines)
        else
          match font.table[(wrap16 v).toNat]? with
          | none => (walk_status.fault, str1, offset_x, lines)
          | some g =>
            if offset_x + wrap16 ((g.adv_w >>> 4 : Nat)) ≥ width then
              string_height_loop n font width fuel str1 unicode1
                (wrap16 ((0 : Int) + wrap16 ((g.adv_w >>> 4 : Nat)))) (wrap16 (lines + 1))
            else
              string_height_loop n font width fuel str1 unicode1
                (wrap16 (offset_x + wrap16 ((g.adv_w >>> 4 : Nat)))) lines

/-- The function `sgl_font_get_string_height` of `sgl_core.c`: how the run
ends, the value of `lines` at the end of the loop and the returned value
`lines * (font->font_height + line_space)`. -/
def sgl_font_get_string_height (n fuel : Nat) (width : Int) (str : List Nat) (font : sgl_font)
    (line_space : Nat) : walk_status × Int × Int :=
  ((string_height_loop n font width fuel str 0 0 1).1,
    (string_height_loop n font width fuel str 0 0 1).2.2.2,
    (string_height_loop n font width fuel str 0 0 1).2.2.2 * (font.font_height + line_space))

/-- The loop `while (*str)` of `sgl_draw_string_mult_line` in `sgl_draw.c`:
how the run ends, the rest of the string, the values of `x_off` and `y`, the
surface, and the number `breaks` of executions of
`y += (font->font_height + line_margin)`, which is a counter of this model
and not a variable of the code. `ch_index`, `ch_width`, `x_off` and `y` are
`int16_t`. -/
def draw_string_mult_line_loop (d : sgl_pixel_depth) (n : Nat) (font : sgl_font)
    (area : sgl_area) (x : Int) (color alpha line_margin : Nat) :
    Nat → List Nat → Nat → Int → Int → sgl_surf → Nat →
      walk_status × List Nat × Int × Int × sgl_surf × Nat
  | 0, str, _, x_off, y, surf, breaks =>
    if str.getD 0 0 = 0 then (walk_status.returned, str, x_off, y, surf, breaks)
    else (walk_status.out_of_fuel, str, x_off, y, surf, breaks)
  | fuel + 1, str, unicode, x_off, y, surf, breaks =>
    if str.getD 0 0 = 0 then (walk_status.returned, str, x_off, y, surf, breaks)
    else if str.getD 0 0 = 10 then
      draw_string_mult_line_loop d n font area x color alpha line_margin fuel (str.drop 1)
        unicode x (wrap16 (y + (font.font_height + line_margin : Nat))) surf (breaks + 1)
    else
      match next_glyph n font str unicode with
      | none => (walk_status.fault, str, x_off, y, surf, breaks)
      | some (str1, unicode1, v) =>
        if wrap16 v < 0 then (walk_status.fault, str1, x_off, y, surf, breaks)
        else
          match font.table[(wrap16 v).toNat]? with
          | none => (walk_status.fault, str1, x_off, y, surf, breaks)
          | some g =>
            if x_off + wrap16 ((g.adv_w >>> 4 : Nat)) > area.x2 then
              match sgl_draw_character d surf area x
                  (wrap16 (y + (font.font_height + line_margin : Nat)))
                  (wrap16 v).toNat color alpha font with
              | none => (walk_status.fault, str1, x_off, y, surf, breaks)
              | some out =>
                draw_string_mult_line_loop d n font area x color alpha line_margin fuel str1
                  unicode1 (wrap16 (x + wrap16 ((g.adv_w >>> 4 : Nat))))
                  (wrap16 (y + (font.font_height + line_margin : Nat)))
                  { surf with buffer := out } (breaks + 1)
            else
              match sgl_draw_character d surf area x_off y (wrap16 v).toNat color alpha font with
              | none => (walk_status.fault, str1, x_off, y, surf, breaks)
              | some out =>
                draw_string_mult_line_loop d n font area x color alpha line_margin fuel str1
                  unicode1 (wrap16 (x_off + wrap16 ((g.adv_w >>> 4 : Nat)))) y
                  { surf with buffer := out } breaks

/-- The function `sgl_draw_string_mult_line` of `sgl_draw.c`. -/
def sgl_draw_string_mult_line (d : sgl_pixel_depth) (n fuel : Nat) (surf : sgl_surf)
    (area : sgl_area) (x y : Int) (str : List Nat) (color alpha : Nat) (font : sgl_font)
    (line_margin : Nat) : walk_status × List Nat × Int × Int × sgl_surf × Nat :=
  draw_string_mult_line_loop d n font area x color alpha line_margin fuel str 0 x y surf 0

/-- The bytes are valid UTF-8 sequences, in the words of the specification,
with `k` continuation bytes of the current sequence still to come: a leading
byte `0xxxxxxx`, `110xxxxx`, `1110xxxx` or `11110xxx` is followed by 0, 1, 2
or 3 continuation bytes `10xxxxxx`. -/
def utf8_valid_from : List Nat → Nat → Bool
  | [], k => k = 0
  | b :: rest, 0 =>
    if b < 0x80 then utf8_valid_from rest 0
    else if b &&& 0xE0 = 0xC0 then utf8_valid_from rest 1
    else if b &&& 0xF0 = 0xE0 then utf8_valid_from rest 2
    else if b &&& 0xF8 = 0xF0 then utf8_valid_from rest 3
    else false
  | b :: rest, k + 1 => (b &&& 0xC0 = 0x80) && utf8_valid_from rest k

/-- The string is a sequence of valid UTF-8 sequences. -/
def utf8_valid (str : List Nat) : Prop := utf8_valid_from str 0 = true

instance (str : List Nat) : Decidable (utf8_valid str) := by
  unfold utf8_valid; exact inferInstance

/-- Every code point has a glyph index in the font, and the index is one of
an entry of the table and a value of `int16_t`. -/
def sgl_font.covers (n : Nat) (font : sgl_font) : Prop :=
  ∀ unicode, ∃ v, sgl_search_unicode_ch_index n font unicode = lookup_result.value v ∧
    v < font.table.length ∧ v < 32768

/-- A font with the single glyph `a`, which advances by 10 pixels; every
other code point is drawn with the same glyph. -/
def line_font : sgl_font :=
  { unicode := [{ offset := 97, len := 1, list := none, tab_offset := 0 }], unicode_num := 1
    table := [{ adv_w := 160 }]
    font_height := 12, bpp := 4 }

/-- A surface of 4 by 4 pixels at the origin, holding the color 0. -/
def surf4 : sgl_surf := { buffer := fun _ => 0, x := 0, y := 0, w := 4, h := 4 }

/-- A clean page of 4 by 4 pixels at address 0 whose only child 1 is dirty and
reaches beyond the page, to the column 5 and the row 5. -/
def clipped_scene : Heap := fun p =>
  match p with
  | 0 => { coords := ⟨0, 0, 3, 3⟩, child := some 1, page := true }
  | 1 => { coords := ⟨2, 2, 5, 5⟩, parent := some 0, dirty := true }
  | _ => {}

/-! ## Theorems -/

/-! ### Geometry -/

theorem sgl_area.wf_contains_min {a : sgl_area} (h : a.wf) : a.contains a.x1 a.y1 := by
  obtain ⟨hx, hy⟩ := h
  exact ⟨le_refl _, hx, le_refl _, hy⟩

theorem sgl_area.wf_contains_max {a : sgl_area} (h : a.wf) : a.contains a.x2 a.y2 := by
  obtain ⟨hx, hy⟩ := h
  exact ⟨hx, le_refl _, hy, le_refl _⟩

/-- For a well-formed inner area, enclosure is comparison of the bounds. -/
theorem sgl_area.encloses_iff {outer inner : sgl_area} (h : inner.wf) :
    outer.encloses inner ↔
      outer.x1 ≤ inner.x1 ∧ inner.x2 ≤ outer.x2 ∧ outer.y1 ≤ inner.y1 ∧ inner.y2 ≤ outer.y2 := by
  constructor
  · intro he
    have h1 := he _ _ (sgl_area.wf_contains_min h)
    have h2 := he _ _ (sgl_area.wf_contains_max h)
    unfold sgl_area.contains at h1 h2
    omega
  · rintro ⟨a, b, c, d⟩ x y hxy
    unfold sgl_area.contains at hxy ⊢
    omega

/-- C1: for well-formed areas, `sgl_area_clip` returns false exactly when the
two areas share no integer point; on true the output is the rectangle of the
max of the lower bounds and the min of the upper bounds, whose points are
exactly the common points; on false the output area is left as it was. -/
theorem sgl_area_clip_spec (A B out : sgl_area) (hA : A.wf) (hB : B.wf) :
    ((sgl_area_clip A B out).1 = false ↔ ¬ ∃ x y : Int, A.contains x y ∧ B.contains x y) ∧
    ((sgl_area_clip A B out).1 = true →
      (sgl_area_clip A B out).2 =
        { x1 := max A.x1 B.x1, x2 := min A.x2 B.x2, y1 := max A.y1 B.y1, y2 := min A.y2 B.y2 } ∧
      ∀ x y : Int, (sgl_area_clip A B out).2.contains x y ↔ (A.contains x y ∧ B.contains x y)) ∧
    ((sgl_area_clip A B out).1 = false → (sgl_area_clip A B out).2 = out) := by
  obtain ⟨hAx, hAy⟩ := hA
  obtain ⟨hBx, hBy⟩ := hB
  unfold sgl_area_clip
  by_cases hc : B.y1 > A.y2 ∨ B.y2 < A.y1 ∨ B.x1 > A.x2 ∨ B.x2 < A.x1
  · rw [if_pos hc]
    refine ⟨⟨fun _ => ?_, fun _ => rfl⟩, fun h => by simp at h, fun _ => rfl⟩
    rintro ⟨x, y, ha, hb⟩
    unfold sgl_area.contains at ha hb
    omega
  · rw [if_neg hc]
    refine ⟨⟨fun h => by simp at h, fun h => ?_⟩, fun _ => ⟨rfl, ?_⟩, fun h => by simp at h⟩
    · exfalso
      apply h
      refine ⟨max A.x1 B.x1, max A.y1 B.y1, ?_, ?_⟩ <;>
        unfold sgl_area.contains <;> omega
    · intro x y
      simp only [sgl_area.contains, sgl_max, sgl_min]
      omega

theorem sgl_area_clip_spec_witness :
    (⟨0, 0, 4, 4⟩ : sgl_area).wf ∧ (⟨2, 3, 9, 9⟩ : sgl_area).wf ∧
    (sgl_area_clip ⟨0, 0, 4, 4⟩ ⟨2, 3, 9, 9⟩ ⟨7, 7, 7, 7⟩).2 = ⟨2, 3, 4, 4⟩ :=
  ⟨by decide, by decide,
    ((sgl_area_clip_spec ⟨0, 0, 4, 4⟩ ⟨2, 3, 9, 9⟩ ⟨7, 7, 7, 7⟩ (by decide) (by decide)).2.1
      (by decide)).1⟩

/-- C2 (as stated, refuted): with the ill-formed area `A = (0,5)-(10,3)` the
first `sgl_area_selfclip` of `R = (0,0)-(10,10)` returns true and the second
one, applied to the clipped `R`, returns false. -/
theorem sgl_area_selfclip_not_idempotent :
    (sgl_area_selfclip ⟨0, 0, 10, 10⟩ ⟨0, 5, 10, 3⟩).1 = true ∧
    (sgl_area_selfclip (sgl_area_selfclip ⟨0, 0, 10, 10⟩ ⟨0, 5, 10, 3⟩).2 ⟨0, 5, 10, 3⟩).1
      = false := by
  decide

/-- C2 (amended): for every area `R` and every well-formed area `A`, a second
`sgl_area_selfclip` with the same `A` returns the same boolean as the first
and leaves `R` as the first application left it. -/
theorem sgl_area_selfclip_idempotent (R A : sgl_area) (hA : A.wf) :
    (sgl_area_selfclip (sgl_area_selfclip R A).2 A).1 = (sgl_area_selfclip R A).1 ∧
    (sgl_area_selfclip (sgl_area_selfclip R A).2 A).2 = (sgl_area_selfclip R A).2 := by
  obtain ⟨hAx, hAy⟩ := hA
  by_cases hc : A.y1 > R.y2 ∨ A.y2 < R.y1 ∨ A.x1 > R.x2 ∨ A.x2 < R.x1
  · have h1 : sgl_area_selfclip R A = (false, R) := by
      unfold sgl_area_selfclip; rw [if_pos hc]
    rw [h1]
    exact ⟨by rw [h1], by rw [h1]⟩
  · have h1 : sgl_area_selfclip R A =
        (true, { x1 := sgl_max R.x1 A.x1, x2 := sgl_min R.x2 A.x2,
                 y1 := sgl_max R.y1 A.y1, y2 := sgl_min R.y2 A.y2 }) := by
      unfold sgl_area_selfclip; rw [if_neg hc]
    rw [h1]
    have hc2 : ¬ (A.y1 > sgl_min R.y2 A.y2 ∨ A.y2 < sgl_max R.y1 A.y1 ∨
        A.x1 > sgl_min R.x2 A.x2 ∨ A.x2 < sgl_max R.x1 A.x1) := by
      unfold sgl_min sgl_max; omega
    have h2 : sgl_area_selfclip
        { x1 := sgl_max R.x1 A.x1, x2 := sgl_min R.x2 A.x2,
          y1 := sgl_max R.y1 A.y1, y2 := sgl_min R.y2 A.y2 } A =
        (true, { x1 := sgl_max R.x1 A.x1, x2 := sgl_min R.x2 A.x2,
                 y1 := sgl_max R.y1 A.y1, y2 := sgl_min R.y2 A.y2 }) := by
      unfold sgl_area_selfclip
      rw [if_neg hc2]
      simp only [sgl_min, sgl_max, Prod.mk.injEq, sgl_area.mk.injEq, true_and]
      omega
    rw [h2]
    exact ⟨rfl, rfl⟩

theorem sgl_area_selfclip_idempotent_witness :
    (⟨2, 3, 9, 9⟩ : sgl_area).wf ∧
    (sgl_area_selfclip (sgl_area_selfclip ⟨0, 0, 4, 4⟩ ⟨2, 3, 9, 9⟩).2 ⟨2, 3, 9, 9⟩).2 =
      (sgl_area_selfclip ⟨0, 0, 4, 4⟩ ⟨2, 3, 9, 9⟩).2 :=
  ⟨by decide, (sgl_area_selfclip_idempotent ⟨0, 0, 4, 4⟩ ⟨2, 3, 9, 9⟩ (by decide)).2⟩

/-- C3: for well-formed areas, `sgl_area_merge` yields a rectangle enclosing
both arguments, enclosed by every rectangle that encloses both, independent of
the argument order; `sgl_area_selfmerge` computes the same rectangle. -/
theorem sgl_area_merge_spec (A B : sgl_area) (hA : A.wf) (hB : B.wf) :
    (sgl_area_merge A B).encloses A ∧ (sgl_area_merge A B).encloses B ∧
    (∀ R : sgl_area, R.encloses A → R.encloses B → R.encloses (sgl_area_merge A B)) ∧
    sgl_area_merge A B = sgl_area_merge B A ∧
    sgl_area_selfmerge A B = sgl_area_merge A B := by
  refine ⟨?_, ?_, ?_, ?_, rfl⟩
  · rw [sgl_area.encloses_iff hA]
    simp only [sgl_area_merge, sgl_min, sgl_max]
    omega
  · rw [sgl_area.encloses_iff hB]
    simp only [sgl_area_merge, sgl_min, sgl_max]
    omega
  · intro R hRA hRB
    rw [sgl_area.encloses_iff hA] at hRA
    rw [sgl_area.encloses_iff hB] at hRB
    intro x y hxy
    simp only [sgl_area_merge, sgl_min, sgl_max, sgl_area.contains] at hxy ⊢
    omega
  · simp only [sgl_area_merge, sgl_min, sgl_max, sgl_area.mk.injEq]
    omega

theorem sgl_area_merge_spec_witness :
    (⟨0, 0, 4, 4⟩ : sgl_area).wf ∧ (⟨2, 3, 9, 9⟩ : sgl_area).wf ∧
    sgl_area_merge ⟨0, 0, 4, 4⟩ ⟨2, 3, 9, 9⟩ = sgl_area_merge ⟨2, 3, 9, 9⟩ ⟨0, 0, 4, 4⟩ :=
  ⟨by decide, by decide,
    (sgl_area_merge_spec ⟨0, 0, 4, 4⟩ ⟨2, 3, 9, 9⟩ (by decide) (by decide)).2.2.2.1⟩

/-! ### Dirty accumulator -/

theorem sgl_dirty_area_push_comm (d a b : sgl_area) :
    sgl_dirty_area_push (sgl_dirty_area_push d a) b =
      sgl_dirty_area_push (sgl_dirty_area_push d b) a := by
  simp only [sgl_dirty_area_push, sgl_area_selfmerge, sgl_min, sgl_max, sgl_area.mk.injEq]
  omega

theorem foldl_push_perm {rs rs' : List sgl_area} (h : rs.Perm rs') (d : sgl_area) :
    rs.foldl sgl_dirty_area_push d = rs'.foldl sgl_dirty_area_push d := by
  induction h generalizing d with
  | nil => rfl
  | cons x _ ih => exact ih _
  | swap x y l =>
    simp only [List.foldl_cons]
    rw [sgl_dirty_area_push_comm]
  | trans _ _ ih1 ih2 => exact (ih1 d).trans (ih2 d)

/-- The bounds of the accumulator after a run of pushes, relative to the
accumulator before it. -/
theorem foldl_push_bounds (rs : List sgl_area) (d : sgl_area) :
    ((rs.foldl sgl_dirty_area_push d).x1 ≤ d.x1 ∧ d.x2 ≤ (rs.foldl sgl_dirty_area_push d).x2 ∧
     (rs.foldl sgl_dirty_area_push d).y1 ≤ d.y1 ∧ d.y2 ≤ (rs.foldl sgl_dirty_area_push d).y2) ∧
    (∀ r ∈ rs,
      (rs.foldl sgl_dirty_area_push d).x1 ≤ r.x1 ∧ r.x2 ≤ (rs.foldl sgl_dirty_area_push d).x2 ∧
      (rs.foldl sgl_dirty_area_push d).y1 ≤ r.y1 ∧ r.y2 ≤ (rs.foldl sgl_dirty_area_push d).y2) ∧
    (∀ R : sgl_area,
      (R.x1 ≤ d.x1 ∧ d.x2 ≤ R.x2 ∧ R.y1 ≤ d.y1 ∧ d.y2 ≤ R.y2) →
      (∀ r ∈ rs, R.x1 ≤ r.x1 ∧ r.x2 ≤ R.x2 ∧ R.y1 ≤ r.y1 ∧ r.y2 ≤ R.y2) →
      R.x1 ≤ (rs.foldl sgl_dirty_area_push d).x1 ∧ (rs.foldl sgl_dirty_area_push d).x2 ≤ R.x2 ∧
      R.y1 ≤ (rs.foldl sgl_dirty_area_push d).y1 ∧ (rs.foldl sgl_dirty_area_push d).y2 ≤ R.y2) := by
  induction rs generalizing d with
  | nil =>
    refine ⟨⟨le_refl _, le_refl _, le_refl _, le_refl _⟩, ?_, ?_⟩
    · intro r hr; cases hr
    · intro R hd _; exact hd
  | cons a rs ih =>
    simp only [List.foldl_cons]
    obtain ⟨h1, h2, h3⟩ := ih (sgl_dirty_area_push d a)
    have e1 : (sgl_dirty_area_push d a).x1 = min d.x1 a.x1 := rfl
    have e2 : (sgl_dirty_area_push d a).x2 = max d.x2 a.x2 := rfl
    have e3 : (sgl_dirty_area_push d a).y1 = min d.y1 a.y1 := rfl
    have e4 : (sgl_dirty_area_push d a).y2 = max d.y2 a.y2 := rfl
    rw [e1, e2, e3, e4] at h1 h3
    refine ⟨by omega, ?_, ?_⟩
    · intro r hr
      rcases List.mem_cons.mp hr with rfl | hr
      · omega
      · exact h2 r hr
    · intro R hd hall
      have ha := hall a (List.mem_cons_self _ _)
      apply h3 R (by omega)
      intro r hr
      exact hall r (List.mem_cons_of_mem _ hr)

/-- C4: starting from the empty sentinel of `sgl_area_init`, after
`sgl_dirty_area_push` of a non-empty list of well-formed rectangles whose
bounds lie between `SGL_POS_MIN` and `SGL_POS_MAX`, the accumulator encloses
every pushed rectangle and is enclosed by every rectangle that encloses them
all (it is their bounding box), and every permutation of the list gives the
same accumulator. -/
theorem dirty_after_pushes_bounding_box (SGL_POS_MAX SGL_POS_MIN : Int) (rs : List sgl_area)
    (hne : rs ≠ []) (hwf : ∀ r ∈ rs, r.wf)
    (hrange : ∀ r ∈ rs, r.in_pos_range SGL_POS_MAX SGL_POS_MIN) :
    (∀ r ∈ rs, (dirty_after_pushes SGL_POS_MAX SGL_POS_MIN rs).encloses r) ∧
    (∀ R : sgl_area, (∀ r ∈ rs, R.encloses r) →
      R.encloses (dirty_after_pushes SGL_POS_MAX SGL_POS_MIN rs)) ∧
    (∀ rs' : List sgl_area, rs'.Perm rs →
      dirty_after_pushes SGL_POS_MAX SGL_POS_MIN rs' =
        dirty_after_pushes SGL_POS_MAX SGL_POS_MIN rs) := by
  obtain ⟨_, hmem, hmin⟩ := foldl_push_bounds rs (sgl_area_init SGL_POS_MAX SGL_POS_MIN)
  refine ⟨?_, ?_, ?_⟩
  · intro r hr
    rw [sgl_area.encloses_iff (hwf r hr)]
    exact hmem r hr
  · intro R hR
    obtain ⟨a, ha⟩ := List.exists_mem_of_ne_nil rs hne
    have hRa := (sgl_area.encloses_iff (hwf a ha)).mp (hR a ha)
    have hra := hrange a ha
    have hwa := hwf a ha
    unfold sgl_area.in_pos_range at hra
    unfold sgl_area.wf at hwa
    have hb := hmin R (by simp only [sgl_area_init]; omega)
      (fun r hr => (sgl_area.encloses_iff (hwf r hr)).mp (hR r hr))
    intro x y hxy
    unfold dirty_after_pushes sgl_area.contains at *
    omega
  · intro rs' hp
    exact foldl_push_perm hp _

theorem dirty_after_pushes_bounding_box_witness :
    dirty_after_pushes 8191 (-8192) [⟨5, 6, 7, 8⟩, ⟨1, 2, 3, 4⟩] =
      dirty_after_pushes 8191 (-8192) [⟨1, 2, 3, 4⟩, ⟨5, 6, 7, 8⟩] :=
  (dirty_after_pushes_bounding_box 8191 (-8192) [⟨1, 2, 3, 4⟩, ⟨5, 6, 7, 8⟩]
    (by decide) (by decide) (by decide)).2.2 [⟨5, 6, 7, 8⟩, ⟨1, 2, 3, 4⟩]
    (List.Perm.swap _ _ _)

/-! ### UTF-8 decoding -/

theorem lead2_not_ascii {b : Nat} (h : b &&& 0xE0 = 0xC0) : ¬ b < 0x80 := by
  intro hlt
  have := @Nat.and_le_left b 0xE0
  omega

theorem lead3_not_ascii {b : Nat} (h : b &&& 0xF0 = 0xE0) : ¬ b < 0x80 := by
  intro hlt
  have := @Nat.and_le_left b 0xF0
  omega

theorem lead4_not_ascii {b : Nat} (h : b &&& 0xF8 = 0xF0) : ¬ b < 0x80 := by
  intro hlt
  have := @Nat.and_le_left b 0xF8
  omega

theorem lead3_not_lead2 {b : Nat} (h : b &&& 0xF0 = 0xE0) : ¬ b &&& 0xE0 = 0xC0 := by
  intro h2
  have e1 := congrArg (fun n => Nat.testBit n 5) h
  have e2 := congrArg (fun n => Nat.testBit n 5) h2
  simp only [Nat.testBit_and] at e1 e2
  have c1 : Nat.testBit 0xF0 5 = true := by decide
  have c2 : Nat.testBit 0xE0 5 = true := by decide
  have c3 : Nat.testBit 0xC0 5 = false := by decide
  rw [c1, c2] at e1
  rw [c2, c3] at e2
  simp_all

theorem lead4_not_lead2 {b : Nat} (h : b &&& 0xF8 = 0xF0) : ¬ b &&& 0xE0 = 0xC0 := by
  intro h2
  have e1 := congrArg (fun n => Nat.testBit n 5) h
  have e2 := congrArg (fun n => Nat.testBit n 5) h2
  simp only [Nat.testBit_and] at e1 e2
  have c1 : Nat.testBit 0xF8 5 = true := by decide
  have c2 : Nat.testBit 0xF0 5 = true := by decide
  have c3 : Nat.testBit 0xE0 5 = true := by decide
  have c4 : Nat.testBit 0xC0 5 = false := by decide
  rw [c1, c2] at e1
  rw [c3, c4] at e2
  simp_all

theorem lead4_not_lead3 {b : Nat} (h : b &&& 0xF8 = 0xF0) : ¬ b &&& 0xF0 = 0xE0 := by
  intro h2
  have e1 := congrArg (fun n => Nat.testBit n 4) h
  have e2 := congrArg (fun n => Nat.testBit n 4) h2
  simp only [Nat.testBit_and] at e1 e2
  have c1 : Nat.testBit 0xF8 4 = true := by decide
  have c2 : Nat.testBit 0xF0 4 = true := by decide
  have c3 : Nat.testBit 0xE0 4 = false := by decide
  rw [c1, c2] at e1
  rw [c2, c3] at e2
  simp_all

/-- C10: `sgl_utf8_to_unicode` decodes each of the four standard leading-byte
patterns to the standard length and code point: an ASCII byte to itself with
length 1, and 2-, 3- and 4-byte sequences to the usual combination of the
payload bits with lengths 2, 3 and 4. -/
theorem sgl_utf8_to_unicode_spec (b0 b1 b2 b3 : Nat) (rest : List Nat) (old : Nat) :
    (b0 < 0x80 → sgl_utf8_to_unicode (b0 :: rest) old = (1, b0)) ∧
    (b0 &&& 0xE0 = 0xC0 →
      sgl_utf8_to_unicode (b0 :: b1 :: rest) old =
        (2, ((b0 &&& 0x1F) <<< 6) ||| (b1 &&& 0x3F))) ∧
    (b0 &&& 0xF0 = 0xE0 →
      sgl_utf8_to_unicode (b0 :: b1 :: b2 :: rest) old =
        (3, ((b0 &&& 0x0F) <<< 12) ||| ((b1 &&& 0x3F) <<< 6) ||| (b2 &&& 0x3F))) ∧
    (b0 &&& 0xF8 = 0xF0 →
      sgl_utf8_to_unicode (b0 :: b1 :: b2 :: b3 :: rest) old =
        (4, ((b0 &&& 0x07) <<< 18) ||| ((b1 &&& 0x3F) <<< 12) ||| ((b2 &&& 0x3F) <<< 6)
              ||| (b3 &&& 0x3F))) := by
  refine ⟨?_, ?_, ?_, ?_⟩
  · intro h
    unfold sgl_utf8_to_unicode
    simp only [List.getD_cons_zero]
    rw [if_pos h]
  · intro h
    unfold sgl_utf8_to_unicode
    simp only [List.getD_cons_zero, List.getD_cons_succ]
    rw [if_neg (lead2_not_ascii h), if_pos h]
  · intro h
    unfold sgl_utf8_to_unicode
    simp only [List.getD_cons_zero, List.getD_cons_succ]
    rw [if_neg (lead3_not_ascii h), if_neg (lead3_not_lead2 h), if_pos h]
  · intro h
    unfold sgl_utf8_to_unicode
    simp only [List.getD_cons_zero, List.getD_cons_succ]
    rw [if_neg (lead4_not_ascii h), if_neg (lead4_not_lead2 h), if_neg (lead4_not_lead3 h),
      if_pos h]
    congr 1
    rw [Nat.lor_assoc ((b0 &&& 0x07) <<< 18), Nat.lor_comm ((b2 &&& 0x3F) <<< 6),
      ← Nat.lor_assoc ((b0 &&& 0x07) <<< 18)]

theorem sgl_utf8_to_unicode_spec_witness :
    (0xE2 &&& 0xF0 = 0xE0) ∧
    sgl_utf8_to_unicode [0xE2, 0x82, 0xAC, 0x41] 0 = (3, 0x20AC) :=
  ⟨by decide,
    ((sgl_utf8_to_unicode_spec 0xE2 0x82 0xAC 0 [0x41] 0).2.2.1 (by decide)).trans (by decide)⟩

/-! ### Reordering among siblings -/

/-- C5 (violated by the code): in the parent with children 1, 2, 3,
`sgl_obj_move_up` of the first child 1 returns and leaves the child list
2, 3: node 1 is no longer a child. On the same list `sgl_obj_move_up` of the
middle child, `sgl_obj_move_down`, `sgl_obj_move_top` and
`sgl_obj_move_bottom` return lists of the same three nodes. -/
theorem sgl_obj_move_up_first_child_lost :
    (sgl_obj_children three_children 8 0 = some [1, 2, 3]) ∧
    ((sgl_obj_move_up 8 three_children 1).bind (fun h => sgl_obj_children h 8 0)
      = some [2, 3]) ∧
    ((sgl_obj_move_up 8 three_children 2).bind (fun h => sgl_obj_children h 8 0)
      = some [1, 3, 2]) ∧
    ((sgl_obj_move_down 8 three_children 2).bind (fun h => sgl_obj_children h 8 0)
      = some [2, 1, 3]) ∧
    ((sgl_obj_move_down 8 three_children 3).bind (fun h => sgl_obj_children h 8 0)
      = some [1, 2, 3]) ∧
    ((sgl_obj_move_top 8 three_children 1).bind (fun h => sgl_obj_children h 8 0)
      = some [2, 3, 1]) ∧
    ((sgl_obj_move_top 8 three_children 2).bind (fun h => sgl_obj_children h 8 0)
      = some [1, 3, 2]) ∧
    ((sgl_obj_move_bottom 8 three_children 3).bind (fun h => sgl_obj_children h 8 0)
      = some [3, 1, 2]) ∧
    ((sgl_obj_move_bottom 8 three_children 2).bind (fun h => sgl_obj_children h 8 0)
      = some [2, 1, 3]) := by
  refine ⟨?_, ?_, ?_, ?_, ?_, ?_, ?_, ?_, ?_⟩ <;> decide

/-! ### Moving a subtree -/

theorem wrap16_is_int16 (v : Int) : is_int16 (wrap16 v) := by
  unfold is_int16 wrap16; omega

theorem wrap16_of_int16 {v : Int} (h : is_int16 v) : wrap16 v = v := by
  unfold is_int16 at h; unfold wrap16; omega

theorem Heap.set_same (h : Heap) (p : Nat) (o : sgl_obj) : (h.set p o) p = o := by
  simp [Heap.set]

theorem Heap.set_other (h : Heap) {p q : Nat} (o : sgl_obj) (hne : q ≠ p) :
    (h.set p o) q = h q := by
  simp [Heap.set, hne]

theorem shift_obj_child (a b : Int) (o : sgl_obj) : (shift_obj a b o).child = o.child := rfl

theorem shift_obj_sibling (a b : Int) (o : sgl_obj) :
    (shift_obj a b o).sibling = o.sibling := rfl

/-- Two heaps with the same `child` and `sibling` links are traversed in the
same order. -/
theorem visit_order_congr (fuel : Nat) :
    ∀ (h g : Heap) (stack : List Nat),
      (∀ q, (h q).child = (g q).child ∧ (h q).sibling = (g q).sibling) →
      visit_order fuel h stack = visit_order fuel g stack := by
  induction fuel with
  | zero =>
    intro h g stack _
    cases stack <;> rfl
  | succ n ih =>
    intro h g stack hl
    cases stack with
    | nil => rfl
    | cons p st =>
      simp only [visit_order]
      rw [(hl p).1, (hl p).2, ih h g _ hl]

/-- The loop of `sgl_obj_move_child_pos` applies its body along the visit
order. -/
theorem move_child_pos_loop_eq (a b : Int) (fuel : Nat) :
    ∀ (h : Heap) (stack : List Nat),
      move_child_pos_loop a b fuel h stack =
        (visit_order fuel h stack).map (apply_visits a b h) := by
  induction fuel with
  | zero =>
    intro h stack
    cases stack <;> rfl
  | succ n ih =>
    intro h stack
    cases stack with
    | nil => rfl
    | cons p st =>
      simp only [move_child_pos_loop, visit_order]
      by_cases hlen : (p :: st).length < SGL_OBJ_DEPTH_MAX
      · rw [if_pos hlen, if_pos hlen, ih]
        rw [Heap.set_same, shift_obj_child, shift_obj_sibling]
        have hc : visit_order n (h.set p (shift_obj a b (h p)))
            (push_ptr (h p).child (push_ptr (h p).sibling st)) =
            visit_order n h (push_ptr (h p).child (push_ptr (h p).sibling st)) := by
          apply visit_order_congr
          intro q
          by_cases hq : q = p
          · subst hq
            rw [Heap.set_same]
            exact ⟨rfl, rfl⟩
          · rw [Heap.set_other _ _ hq]
            exact ⟨rfl, rfl⟩
        rw [hc]
        cases visit_order n h (push_ptr (h p).child (push_ptr (h p).sibling st)) with
        | none => rfl
        | some vs => rfl
      · rw [if_neg hlen, if_neg hlen]
        rfl

theorem shift_obj_comm (a b a' b' : Int) (o : sgl_obj) :
    shift_obj a b (shift_obj a' b' o) = shift_obj a' b' (shift_obj a b o) := by
  simp only [shift_obj, sgl_obj.mk.injEq, sgl_area.mk.injEq, wrap16, true_and, and_true]
  omega

theorem set_shift_comm (a b a' b' : Int) (p q : Nat) (h : Heap) :
    (h.set q (shift_obj a' b' (h q))).set p
        (shift_obj a b ((h.set q (shift_obj a' b' (h q))) p)) =
      (h.set p (shift_obj a b (h p))).set q
        (shift_obj a' b' ((h.set p (shift_obj a b (h p))) q)) := by
  funext r
  by_cases hpq : p = q
  · subst hpq
    by_cases hr : r = p
    · subst hr
      simp only [Heap.set_same]
      exact shift_obj_comm a b a' b' (h r)
    · simp only [Heap.set_other _ _ hr]
  · have hqp : q ≠ p := fun e => hpq e.symm
    by_cases hr : r = p
    · subst hr
      rw [Heap.set_same, Heap.set_other _ _ hpq, Heap.set_other _ _ hpq, Heap.set_same]
    · by_cases hr2 : r = q
      · subst hr2
        rw [Heap.set_other _ _ hr, Heap.set_same, Heap.set_same, Heap.set_other _ _ hqp]
      · rw [Heap.set_other _ _ hr, Heap.set_other _ _ hr2, Heap.set_other _ _ hr2,
          Heap.set_other _ _ hr]

theorem apply_visits_cons (a b : Int) (h : Heap) (p : Nat) (vs : List Nat) :
    apply_visits a b h (p :: vs) = apply_visits a b (h.set p (shift_obj a b (h p))) vs := rfl

theorem apply_visits_set_comm (a b a' b' : Int) (p : Nat) (vs : List Nat) :
    ∀ h : Heap,
      (apply_visits a b h vs).set p (shift_obj a' b' ((apply_visits a b h vs) p)) =
        apply_visits a b (h.set p (shift_obj a' b' (h p))) vs := by
  induction vs with
  | nil => intro h; rfl
  | cons q vs ih =>
    intro h
    rw [apply_visits_cons, apply_visits_cons, ih, set_shift_comm]

/-- Moving one object by `(a, b)` and then by `(a', b')`, the two offsets
cancelling modulo `2^16`, restores its coordinates. -/
theorem shift_obj_cancel {a b a' b' : Int} (ha : (a + a') % 65536 = 0)
    (hb : (b + b') % 65536 = 0) {o : sgl_obj}
    (ho : is_int16 o.coords.x1 ∧ is_int16 o.coords.y1 ∧
      is_int16 o.coords.x2 ∧ is_int16 o.coords.y2) :
    (shift_obj a' b' (shift_obj a b o)).coords = o.coords := by
  obtain ⟨h1, h2, h3, h4⟩ := ho
  unfold is_int16 at h1 h2 h3 h4
  cases o with
  | mk coords parent child sibling dirty hide radius =>
    cases coords with
    | mk x1 y1 x2 y2 =>
      simp only [shift_obj, wrap16, sgl_area.mk.injEq] at *
      omega

/-- Running the loop body along the same visit order with cancelling offsets
restores the coordinates of every object. -/
theorem apply_visits_cancel {a b a' b' : Int} (ha : (a + a') % 65536 = 0)
    (hb : (b + b') % 65536 = 0) (vs : List Nat) :
    ∀ h : Heap, h.coords_int16 →
      ∀ q, ((apply_visits a' b' (apply_visits a b h vs) vs) q).coords = (h q).coords := by
  induction vs with
  | nil => intro h _ q; rfl
  | cons p vs ih =>
    intro h hh q
    rw [apply_visits_cons, apply_visits_cons, apply_visits_set_comm]
    have hk : ∀ r, (((h.set p (shift_obj a b (h p))).set p
        (shift_obj a' b' ((h.set p (shift_obj a b (h p))) p))) r).coords = (h r).coords := by
      intro r
      by_cases hr : r = p
      · subst hr
        rw [Heap.set_same, Heap.set_same]
        exact shift_obj_cancel ha hb (hh r)
      · rw [Heap.set_other _ _ hr, Heap.set_other _ _ hr]
    have hk16 : Heap.coords_int16 ((h.set p (shift_obj a b (h p))).set p
        (shift_obj a' b' ((h.set p (shift_obj a b (h p))) p))) := by
      intro r
      rw [hk r]
      exact hh r
    rw [ih _ hk16 q, hk q]

theorem apply_visits_links (a b : Int) (vs : List Nat) :
    ∀ (h : Heap) (q : Nat),
      ((apply_visits a b h vs) q).child = (h q).child ∧
      ((apply_visits a b h vs) q).sibling = (h q).sibling := by
  induction vs with
  | nil => intro h q; exact ⟨rfl, rfl⟩
  | cons p vs ih =>
    intro h q
    rw [apply_visits_cons]
    obtain ⟨h1, h2⟩ := ih (h.set p (shift_obj a b (h p))) q
    rw [h1, h2]
    by_cases hq : q = p
    · subst hq
      rw [Heap.set_same]
      exact ⟨rfl, rfl⟩
    · rw [Heap.set_other _ _ hq]
      exact ⟨rfl, rfl⟩

theorem Represents_congr {h g : Heap}
    (hl : ∀ q, (h q).child = (g q).child ∧ (h q).sibling = (g q).sibling) (t : Shape) :
    ∀ ptr : Option Nat, Represents h ptr t → Represents g ptr t := by
  induction t with
  | nil => intro ptr hr; exact hr
  | node p c s ihc ihs =>
    intro ptr hr
    obtain ⟨h1, h2, h3⟩ := hr
    refine ⟨h1, ?_, ?_⟩
    · rw [← (hl p).1]; exact ihc _ h2
    · rw [← (hl p).2]; exact ihs _ h3

theorem stack_rep_push {h : Heap} {ptr : Option Nat} {t : Shape} {st : List Nat}
    {ts : List Shape} (hr : Represents h ptr t) (hs : StackRep h st ts) :
    StackRep h (push_ptr ptr st) (push_shape t ts) := by
  cases t with
  | nil =>
    have : ptr = none := hr
    subst this
    exact hs
  | node p c s =>
    have hp : ptr = some p := hr.1
    subst hp
    exact ⟨hr, hs⟩

theorem push_shape_length_le (t : Shape) (ts : List Shape) :
    (push_shape t ts).length ≤ ts.length + 1 := by
  cases t <;> simp [push_shape]

theorem stack_fits_push {t : Shape} {ts : List Shape} (hf : StackFits ts)
    (hd : t ≠ Shape.nil → ts.length + t.depth < SGL_OBJ_DEPTH_MAX) :
    StackFits (push_shape t ts) := by
  cases t with
  | nil => exact hf
  | node p c s => exact ⟨hd (by simp), hf⟩

theorem stack_size_push (t : Shape) (ts : List Shape) :
    stack_size (push_shape t ts) = t.size + stack_size ts := by
  cases t with
  | nil => simp [push_shape, Shape.size]
  | node p c s => rfl

theorem stack_preorder_push (t : Shape) (ts : List Shape) :
    stack_preorder (push_shape t ts) = t.preorder ++ stack_preorder ts := by
  cases t with
  | nil => simp [push_shape, Shape.preorder]
  | node p c s => rfl

/-- With fuel for every object of the stack and every forest within the depth
bound, the traversal ends and visits the forests in pre-order. -/
theorem visit_order_of_shape (fuel : Nat) :
    ∀ (h : Heap) (stack : List Nat) (ts : List Shape),
      StackRep h stack ts → StackFits ts → stack_size ts ≤ fuel →
      visit_order fuel h stack = some (stack_preorder ts) := by
  induction fuel with
  | zero =>
    intro h stack ts hr _ hsz
    cases stack with
    | nil =>
      cases ts with
      | nil => rfl
      | cons t ts => exact absurd hr (by simp [StackRep])
    | cons p st =>
      cases ts with
      | nil => exact absurd hr (by simp [StackRep])
      | cons t ts =>
        cases t with
        | nil => exact absurd hr.1 (by simp [Represents])
        | node p' c s =>
          simp only [stack_size, Shape.size] at hsz
          omega
  | succ n ih =>
    intro h stack ts hr hf hsz
    cases stack with
    | nil =>
      cases ts with
      | nil => rfl
      | cons t ts => exact absurd hr (by simp [StackRep])
    | cons p st =>
      cases ts with
      | nil => exact absurd hr (by simp [StackRep])
      | cons t ts =>
        cases t with
        | nil => exact absurd hr.1 (by simp [Represents])
        | node p' c s =>
          obtain ⟨⟨hp, hc, hs⟩, hrest⟩ := hr
          have hpp : p = p' := Option.some.inj hp
          subst hpp
          obtain ⟨hd, hfr⟩ := hf
          have hlen : st.length = ts.length := by
            clear ih hsz hd hfr hc hs hp
            induction st generalizing ts with
            | nil =>
              cases ts with
              | nil => rfl
              | cons t ts => exact absurd hrest (by simp [StackRep])
            | cons q st ihst =>
              cases ts with
              | nil => exact absurd hrest (by simp [StackRep])
              | cons t ts => simp [ihst ts hrest.2]
          simp only [Shape.depth] at hd
          have hassert : (p :: st).length < SGL_OBJ_DEPTH_MAX := by
            simp only [List.length_cons]
            omega
          simp only [visit_order]
          rw [if_pos hassert]
          have hfs : StackFits (push_shape s ts) :=
            stack_fits_push hfr (fun _ => by omega)
          have hfc : StackFits (push_shape c (push_shape s ts)) :=
            stack_fits_push hfs (fun _ => by
              have := push_shape_length_le s ts
              omega)
          have hrec := ih h (push_ptr (h p).child (push_ptr (h p).sibling st))
            (push_shape c (push_shape s ts))
            (stack_rep_push hc (stack_rep_push hs hrest)) hfc
            (by
              rw [stack_size_push, stack_size_push]
              simp only [stack_size, Shape.size] at hsz
              omega)
          rw [hrec, stack_preorder_push, stack_preorder_push]
          simp [stack_preorder, Shape.preorder, List.append_assoc]

/-- On a subtree within the depth bound, `sgl_obj_set_abs_pos` returns, having
run the loop body on the object and then on its descendants in pre-order. -/
theorem sgl_obj_set_abs_pos_eq (h : Heap) (obj : Nat) (abs_x abs_y : Int) (t : Shape)
    (hrep : Represents h (h obj).child t) (hdepth : t.depth < SGL_OBJ_DEPTH_MAX)
    (fuel : Nat) (hfuel : t.size ≤ fuel) :
    sgl_obj_set_abs_pos fuel h obj abs_x abs_y =
      some (apply_visits (wrap16 (abs_x - (h obj).coords.x1))
        (wrap16 (abs_y - (h obj).coords.y1)) h (obj :: t.preorder)) := by
  have hset : sgl_obj_set_abs_pos fuel h obj abs_x abs_y =
      sgl_obj_move_child_pos fuel
        (h.set obj (shift_obj (wrap16 (abs_x - (h obj).coords.x1))
          (wrap16 (abs_y - (h obj).coords.y1)) (h obj))) obj
        (wrap16 (abs_x - (h obj).coords.x1)) (wrap16 (abs_y - (h obj).coords.y1)) := rfl
  rw [hset, apply_visits_cons]
  unfold sgl_obj_move_child_pos
  rw [Heap.set_same, shift_obj_child]
  have hl : ∀ q, (h q).child =
        ((h.set obj (shift_obj (wrap16 (abs_x - (h obj).coords.x1))
          (wrap16 (abs_y - (h obj).coords.y1)) (h obj))) q).child ∧
      (h q).sibling =
        ((h.set obj (shift_obj (wrap16 (abs_x - (h obj).coords.x1))
          (wrap16 (abs_y - (h obj).coords.y1)) (h obj))) q).sibling := by
    intro q
    by_cases hq : q = obj
    · subst hq
      rw [Heap.set_same]
      exact ⟨rfl, rfl⟩
    · rw [Heap.set_other _ _ hq]
      exact ⟨rfl, rfl⟩
  cases t with
  | nil =>
    have hn : (h obj).child = none := hrep
    rw [hn]
    rfl
  | node p c s =>
    have hp : (h obj).child = some p := hrep.1
    rw [hp]
    simp only []
    rw [move_child_pos_loop_eq]
    have hv := visit_order_of_shape fuel _ [p] [Shape.node p c s]
      ⟨Represents_congr hl _ _ (hp ▸ hrep), trivial⟩
      ⟨by simpa using hdepth, trivial⟩
      (by simpa [stack_size] using hfuel)
    rw [hv]
    simp [stack_preorder]

/-- C6: for a node whose subtree is within the depth bound, in a heap of
`int16_t` coordinates, `sgl_obj_set_abs_pos` by `(dx, dy)` and then by
`(-dx, -dy)` both return (given fuel for every descendant) and the second
call restores the coordinates of the node, of every descendant and of every
other object, the arithmetic being 16-bit wrap-around. -/
theorem sgl_obj_set_abs_pos_round_trip (h : Heap) (obj : Nat) (dx dy : Int) (t : Shape)
    (hrep : Represents h (h obj).child t) (hdepth : t.depth < SGL_OBJ_DEPTH_MAX)
    (h16 : h.coords_int16) (fuel : Nat) (hfuel : t.size ≤ fuel) :
    ∃ h1 h2 : Heap,
      sgl_obj_set_abs_pos fuel h obj
        (wrap16 ((h obj).coords.x1 + dx)) (wrap16 ((h obj).coords.y1 + dy)) = some h1 ∧
      sgl_obj_set_abs_pos fuel h1 obj
        (wrap16 ((h1 obj).coords.x1 - dx)) (wrap16 ((h1 obj).coords.y1 - dy)) = some h2 ∧
      ∀ q : Nat, (h2 q).coords = (h q).coords := by
  have e1 := sgl_obj_set_abs_pos_eq h obj (wrap16 ((h obj).coords.x1 + dx))
    (wrap16 ((h obj).coords.y1 + dy)) t hrep hdepth fuel hfuel
  have ha : ∀ v : Int, (wrap16 (wrap16 ((h obj).coords.x1 + dx) - (h obj).coords.x1) +
      wrap16 (wrap16 (v - dx) - v)) % 65536 = 0 := by
    intro v; unfold wrap16; omega
  have hb : ∀ v : Int, (wrap16 (wrap16 ((h obj).coords.y1 + dy) - (h obj).coords.y1) +
      wrap16 (wrap16 (v - dy) - v)) % 65536 = 0 := by
    intro v; unfold wrap16; omega
  generalize wrap16 (wrap16 ((h obj).coords.x1 + dx) - (h obj).coords.x1) = a at e1 ha
  generalize wrap16 (wrap16 ((h obj).coords.y1 + dy) - (h obj).coords.y1) = b at e1 hb
  have hrep1 : Represents (apply_visits a b h (obj :: t.preorder))
      ((apply_visits a b h (obj :: t.preorder)) obj).child t := by
    rw [(apply_visits_links a b (obj :: t.preorder) h obj).1]
    refine Represents_congr (fun q => ?_) _ _ hrep
    obtain ⟨l1, l2⟩ := apply_visits_links a b (obj :: t.preorder) h q
    exact ⟨l1.symm, l2.symm⟩
  have e2 := sgl_obj_set_abs_pos_eq (apply_visits a b h (obj :: t.preorder)) obj
    (wrap16 (((apply_visits a b h (obj :: t.preorder)) obj).coords.x1 - dx))
    (wrap16 (((apply_visits a b h (obj :: t.preorder)) obj).coords.y1 - dy))
    t hrep1 hdepth fuel hfuel
  exact ⟨_, _, e1, e2, fun q => apply_visits_cancel (ha _) (hb _) _ h h16 q⟩

theorem small_tree_coords_int16 : small_tree.coords_int16 := by
  intro p
  match p with
  | 0 => decide
  | 1 => decide
  | 2 => decide
  | 3 => decide
  | _ + 4 =>
    show is_int16 0 ∧ is_int16 0 ∧ is_int16 0 ∧ is_int16 0
    decide

theorem sgl_obj_set_abs_pos_round_trip_witness :
    ∃ h1 h2 : Heap,
      sgl_obj_set_abs_pos 3 small_tree 0
        (wrap16 ((small_tree 0).coords.x1 + 32760)) (wrap16 ((small_tree 0).coords.y1 + 7))
        = some h1 ∧
      sgl_obj_set_abs_pos 3 h1 0
        (wrap16 ((h1 0).coords.x1 - 32760)) (wrap16 ((h1 0).coords.y1 - 7)) = some h2 ∧
      ∀ q : Nat, (h2 q).coords = (small_tree q).coords :=
  sgl_obj_set_abs_pos_round_trip small_tree 0 32760 7
    (Shape.node 1 (Shape.node 3 Shape.nil Shape.nil) (Shape.node 2 Shape.nil Shape.nil))
    (by decide) (by decide) small_tree_coords_int16 3 (by decide)

/-! ### Fill primitives -/

theorem buf_set_same (b : Int → Nat) (i : Int) (v : Nat) : buf_set b i v i = v := by
  simp [buf_set]

theorem buf_set_other (b : Int → Nat) {i j : Int} (v : Nat) (h : j ≠ i) :
    buf_set b i v j = b j := by
  simp [buf_set, h]

theorem buf_set_self (b : Int → Nat) (i : Int) : buf_set b i (b i) = b := by
  funext j
  by_cases h : j = i
  · subst h; exact buf_set_same b j _
  · exact buf_set_other b _ h

/-- The column loop writes only the `n` offsets from `buf` on. -/
theorem for_x_frame (body : Int → Nat → Nat) (n : Nat) :
    ∀ (x buf : Int) (b : Int → Nat) (j : Int), (j < buf ∨ buf + n ≤ j) →
      for_x body n x buf b j = b j := by
  induction n with
  | zero => intro x buf b j _; rfl
  | succ n ih =>
    intro x buf b j hj
    simp only [for_x]
    rw [ih (x + 1) (buf + 1) _ j (by push_cast at hj; omega)]
    exact buf_set_other b _ (by push_cast at hj; omega)

/-- A column loop whose body keeps the pixel it finds leaves the buffer as it
was. -/
theorem for_x_id (body : Int → Nat → Nat) (P : Nat → Prop) (hbody : ∀ x old, P old → body x old = old)
    (n : Nat) :
    ∀ (x buf : Int) (b : Int → Nat), (∀ i, P (b i)) → for_x body n x buf b = b := by
  induction n with
  | zero => intro x buf b _; rfl
  | succ n ih =>
    intro x buf b hb
    simp only [for_x]
    rw [hbody x (b buf) (hb buf), buf_set_self]
    exact ih _ _ b hb

/-- Two column loops over buffers that agree outside a set `E` of offsets,
with bodies that agree at every column whose offset is outside `E`, leave
buffers that agree outside `E`. -/
theorem for_x_agree (f g : Int → Nat → Nat) (E : Int → Prop) (n : Nat) :
    ∀ (x buf : Int) (b1 b2 : Int → Nat),
      (∀ j, ¬ E j → b1 j = b2 j) →
      (∀ k : Nat, k < n → (∀ old, f (x + k) old = g (x + k) old) ∨ E (buf + k)) →
      ∀ j, ¬ E j → for_x f n x buf b1 j = for_x g n x buf b2 j := by
  induction n with
  | zero => intro x buf b1 b2 hb _ j hj; exact hb j hj
  | succ n ih =>
    intro x buf b1 b2 hb hfg j hj
    simp only [for_x]
    apply ih (x + 1) (buf + 1) _ _ _ _ j hj
    · intro i hi
      by_cases hib : i = buf
      · subst hib
        rw [buf_set_same, buf_set_same]
        rcases hfg 0 (Nat.succ_pos n) with h0 | h0
        · have := h0 (b1 i)
          simp only [Nat.cast_zero, add_zero] at this
          rw [this, hb i hi]
        · simp only [Nat.cast_zero, add_zero] at h0
          exact absurd h0 hi
      · rw [buf_set_other _ _ hib, buf_set_other _ _ hib]
        exact hb i hi
    · intro k hk
      have := hfg (k + 1) (Nat.succ_lt_succ hk)
      push_cast at this
      rw [show x + 1 + (k : Int) = x + ((k : Int) + 1) by ring,
        show buf + 1 + (k : Int) = buf + ((k : Int) + 1) by ring]
      exact this

/-- A column loop whose body always stores `c` leaves `c` at the `n` offsets
from `buf` on. -/
theorem for_x_const (body : Int → Nat → Nat) (c : Nat) (n : Nat) :
    ∀ (x buf : Int) (b : Int → Nat),
      (∀ k : Nat, k < n → ∀ old, body (x + k) old = c) →
      ∀ j, buf ≤ j → j < buf + n → for_x body n x buf b j = c := by
  induction n with
  | zero => intro x buf b _ j h1 h2; simp at h2; omega
  | succ n ih =>
    intro x buf b hbody j h1 h2
    simp only [for_x]
    by_cases hj : j = buf
    · subst hj
      rw [for_x_frame body n _ _ _ j (Or.inl (by omega)), buf_set_same]
      have := hbody 0 (Nat.succ_pos n) (b j)
      simpa using this
    · apply ih (x + 1) (buf + 1) _ _ j (by omega) (by push_cast at h2; omega)
      intro k hk old
      have := hbody (k + 1) (Nat.succ_lt_succ hk) old
      push_cast at this
      rw [show x + 1 + (k : Int) = x + ((k : Int) + 1) by ring]
      exact this

/-- The row loop changes only offsets that one of its rows covers. -/
theorem for_y_frame (row : Int → (Int → Nat) → (Int → Nat)) (C : Int → Int → Prop)
    (hrow : ∀ y b j, ¬ C y j → row y b j = b j) (n : Nat) :
    ∀ (y : Int) (b : Int → Nat) (j : Int), (∀ k : Nat, k < n → ¬ C (y + k) j) →
      for_y row n y b j = b j := by
  induction n with
  | zero => intro y b j _; rfl
  | succ n ih =>
    intro y b j hj
    simp only [for_y]
    rw [ih (y + 1) _ j]
    · apply hrow
      have := hj 0 (Nat.succ_pos n)
      simpa using this
    · intro k hk
      have := hj (k + 1) (Nat.succ_lt_succ hk)
      push_cast at this
      rw [show y + 1 + (k : Int) = y + ((k : Int) + 1) by ring]
      exact this

/-- A row loop whose rows keep the buffer leaves the buffer as it was. -/
theorem for_y_id (row : Int → (Int → Nat) → (Int → Nat)) (b : Int → Nat)
    (hrow : ∀ y, row y b = b) (n : Nat) :
    ∀ y : Int, for_y row n y b = b := by
  induction n with
  | zero => intro y; rfl
  | succ n ih =>
    intro y
    simp only [for_y]
    rw [hrow y]
    exact ih _

/-- Two row loops over buffers that agree outside `E`, with rows that keep
the agreement outside `E`, leave buffers that agree outside `E`. -/
theorem for_y_agree (r1 r2 : Int → (Int → Nat) → (Int → Nat)) (E : Int → Prop) (n : Nat) :
    ∀ (y : Int) (b1 b2 : Int → Nat),
      (∀ j, ¬ E j → b1 j = b2 j) →
      (∀ k : Nat, k < n → ∀ c1 c2 : Int → Nat, (∀ j, ¬ E j → c1 j = c2 j) →
        ∀ j, ¬ E j → r1 (y + k) c1 j = r2 (y + k) c2 j) →
      ∀ j, ¬ E j → for_y r1 n y b1 j = for_y r2 n y b2 j := by
  induction n with
  | zero => intro y b1 b2 hb _ j hj; exact hb j hj
  | succ n ih =>
    intro y b1 b2 hb hr j hj
    simp only [for_y]
    apply ih (y + 1) _ _ _ _ j hj
    · have := hr 0 (Nat.succ_pos n) b1 b2 hb
      simpa using this
    · intro k hk c1 c2 hc i hi
      have := hr (k + 1) (Nat.succ_lt_succ hk) c1 c2 hc i hi
      push_cast at this
      rw [show y + 1 + (k : Int) = y + ((k : Int) + 1) by ring]
      exact this

/-- A row loop whose rows store `c` at the offsets they cover and change no
other offset leaves `c` at every offset covered by one of its rows. -/
theorem for_y_const (row : Int → (Int → Nat) → (Int → Nat)) (C : Int → Int → Prop) (c : Nat)
    (hin : ∀ y b j, C y j → row y b j = c)
    (hout : ∀ y b j, ¬ C y j → row y b j = b j) (n : Nat) :
    ∀ (y : Int) (b : Int → Nat) (j : Int), (∃ k : Nat, k < n ∧ C (y + k) j) →
      for_y row n y b j = c := by
  induction n with
  | zero => intro y b j ⟨k, hk, _⟩; omega
  | succ n ih =>
    intro y b j ⟨k, hk, hC⟩
    simp only [for_y]
    by_cases hlater : ∃ k' : Nat, k' < n ∧ C (y + 1 + k') j
    · exact ih (y + 1) _ j hlater
    · rw [for_y_frame row C hout n (y + 1) _ j]
      · apply hin
        cases k with
        | zero => simpa using hC
        | succ k' =>
          exfalso
          apply hlater
          refine ⟨k', by omega, ?_⟩
          push_cast at hC
          rw [show y + 1 + (k' : Int) = y + ((k' : Int) + 1) by ring]
          exact hC
      · intro k' hk' hC'
        exact hlater ⟨k', hk', hC'⟩

theorem sgl_surf.bounds_eq_extent {surf : sgl_surf} (h : surf.wf) :
    surf.bounds = surf.extent := by
  obtain ⟨h1, h2⟩ := h
  simp only [sgl_surf.bounds, sgl_surf.extent, wrap16_of_int16 h1, wrap16_of_int16 h2]

theorem sgl_surf_clip_false {surf : sgl_surf} {a : sgl_area} (z : sgl_area)
    (h : a.y1 > wrap16 (surf.y + surf.h - 1) ∨ a.y2 < surf.y ∨
      a.x1 > wrap16 (surf.x + surf.w - 1) ∨ a.x2 < surf.x) :
    sgl_surf_clip surf a z = (false, z) := by
  simp only [sgl_surf_clip]
  rw [if_pos h]

theorem sgl_surf_clip_true {surf : sgl_surf} {a : sgl_area} (z : sgl_area)
    (h : ¬ (a.y1 > wrap16 (surf.y + surf.h - 1) ∨ a.y2 < surf.y ∨
      a.x1 > wrap16 (surf.x + surf.w - 1) ∨ a.x2 < surf.x)) :
    sgl_surf_clip surf a z =
      (true, { x1 := max surf.x a.x1, x2 := min (wrap16 (surf.x + surf.w - 1)) a.x2,
               y1 := max surf.y a.y1, y2 := min (wrap16 (surf.y + surf.h - 1)) a.y2 }) := by
  simp only [sgl_surf_clip]
  rw [if_neg h]
  rfl

theorem sgl_area_selfclip_false {clip a : sgl_area}
    (h : a.y1 > clip.y2 ∨ a.y2 < clip.y1 ∨ a.x1 > clip.x2 ∨ a.x2 < clip.x1) :
    sgl_area_selfclip clip a = (false, clip) := by
  simp only [sgl_area_selfclip]
  rw [if_pos h]

theorem sgl_area_selfclip_true {clip a : sgl_area}
    (h : ¬ (a.y1 > clip.y2 ∨ a.y2 < clip.y1 ∨ a.x1 > clip.x2 ∨ a.x2 < clip.x1)) :
    sgl_area_selfclip clip a =
      (true, { x1 := max clip.x1 a.x1, x2 := min clip.x2 a.x2,
               y1 := max clip.y1 a.y1, y2 := min clip.y2 a.y2 }) := by
  simp only [sgl_area_selfclip]
  rw [if_neg h]
  rfl

/-- The clip rectangle of a fill primitive: either there is none and the
surface and the two areas have no common point, or it is the rectangle of the
largest lower and the smallest upper bounds. -/
theorem fill_clip_cases (surf : sgl_surf) (A B : sgl_area) :
    (fill_clip surf A B = none ∧
      ∀ x y : Int, ¬ (surf.bounds.contains x y ∧ A.contains x y ∧ B.contains x y)) ∨
    fill_clip surf A B = some
      { x1 := max (max surf.x A.x1) B.x1
        x2 := min (min (wrap16 (surf.x + surf.w - 1)) A.x2) B.x2
        y1 := max (max surf.y A.y1) B.y1
        y2 := min (min (wrap16 (surf.y + surf.h - 1)) A.y2) B.y2 } := by
  by_cases h1 : A.y1 > wrap16 (surf.y + surf.h - 1) ∨ A.y2 < surf.y ∨
      A.x1 > wrap16 (surf.x + surf.w - 1) ∨ A.x2 < surf.x
  · left
    constructor
    · unfold fill_clip
      rw [sgl_surf_clip_false _ h1]
      rfl
    · intro x y ⟨hs, hA, _⟩
      simp only [sgl_surf.bounds, sgl_area.contains] at hs hA
      omega
  · by_cases h2 : B.y1 > min (wrap16 (surf.y + surf.h - 1)) A.y2 ∨ B.y2 < max surf.y A.y1 ∨
        B.x1 > min (wrap16 (surf.x + surf.w - 1)) A.x2 ∨ B.x2 < max surf.x A.x1
    · left
      constructor
      · unfold fill_clip
        rw [sgl_surf_clip_true _ h1]
        rw [sgl_area_selfclip_false h2]
        rfl
      · intro x y ⟨hs, hA, hB⟩
        simp only [sgl_surf.bounds, sgl_area.contains] at hs hA hB
        omega
    · right
      unfold fill_clip
      rw [sgl_surf_clip_true _ h1]
      rw [sgl_area_selfclip_true h2]
      rfl

/-- The clip rectangle of a fill primitive, when there is one, consists of
the points common to the surface and the two areas. -/
theorem fill_clip_contains {surf : sgl_surf} {A B c : sgl_area}
    (hc : fill_clip surf A B = some c) (x y : Int) :
    c.contains x y ↔ (surf.bounds.contains x y ∧ A.contains x y ∧ B.contains x y) := by
  rcases fill_clip_cases surf A B with ⟨h, _⟩ | h
  · rw [h] at hc; cases hc
  · rw [h] at hc
    have := Option.some.inj hc
    subst this
    simp only [sgl_surf.bounds, sgl_area.contains, max_le_iff, le_min_iff]
    constructor
    · intro hh
      omega
    · intro hh
      omega

/-- When the surface and the two areas have a common point, the fill
primitive has a clip rectangle. -/
theorem fill_clip_some {surf : sgl_surf} {A B : sgl_area} {x y : Int}
    (hs : surf.bounds.contains x y) (hA : A.contains x y) (hB : B.contains x y) :
    ∃ c, fill_clip surf A B = some c := by
  rcases fill_clip_cases surf A B with ⟨_, h⟩ | h
  · exact absurd ⟨hs, hA, hB⟩ (h x y)
  · exact ⟨_, h⟩

/-- The clip rectangle does not depend on the order of the two areas. -/
theorem fill_clip_comm {surf : sgl_surf} {A B c1 c2 : sgl_area}
    (h1 : fill_clip surf A B = some c1) (h2 : fill_clip surf B A = some c2) : c1 = c2 := by
  rcases fill_clip_cases surf A B with ⟨h, _⟩ | h
  · rw [h] at h1; cases h1
  · rcases fill_clip_cases surf B A with ⟨h', _⟩ | h'
    · rw [h'] at h2; cases h2
    · rw [h] at h1
      rw [h'] at h2
      have e1 := Option.some.inj h1
      have e2 := Option.some.inj h2
      subst e1
      subst e2
      simp only [sgl_area.mk.injEq]
      refine ⟨?_, ?_, ?_, ?_⟩ <;> omega

/-! ### The loops over the clip rectangle -/

theorem draw_rows_frame (surf : sgl_surf) (clip : sgl_area) (row : Int → Int → Nat → Nat)
    (b : Int → Nat) (j : Int) (hj : ∀ x y : Int, clip.contains x y → j ≠ surf.offset x y) :
    draw_rows surf clip row b j = b j := by
  unfold draw_rows
  apply for_y_frame _
    (fun y i => sgl_surf_get_buf surf (clip.x1 - surf.x) (y - surf.y) ≤ i ∧
      i < sgl_surf_get_buf surf (clip.x1 - surf.x) (y - surf.y) + (clip.x2 - clip.x1 + 1).toNat)
  · intro y b1 i hi
    apply for_x_frame
    omega
  · intro k hk hC
    apply hj (clip.x1 + (j - sgl_surf_get_buf surf (clip.x1 - surf.x) (clip.y1 + k - surf.y)))
      (clip.y1 + k)
    · unfold sgl_area.contains
      omega
    · simp only [sgl_surf.offset, sgl_surf_get_buf]
      ring

theorem draw_rows_const (surf : sgl_surf) (clip : sgl_area) (row : Int → Int → Nat → Nat)
    (c : Nat) (hrow : ∀ y x old, row y x old = c) (b : Int → Nat) (x y : Int)
    (hxy : clip.contains x y) :
    draw_rows surf clip row b (surf.offset x y) = c := by
  unfold draw_rows
  unfold sgl_area.contains at hxy
  apply for_y_const _
    (fun y i => sgl_surf_get_buf surf (clip.x1 - surf.x) (y - surf.y) ≤ i ∧
      i < sgl_surf_get_buf surf (clip.x1 - surf.x) (y - surf.y) + (clip.x2 - clip.x1 + 1).toNat)
  · intro y' b1 i hi
    exact for_x_const _ c _ _ _ _ (fun _ _ old => hrow _ _ old) i hi.1 hi.2
  · intro y' b1 i hi
    apply for_x_frame
    omega
  · refine ⟨(y - clip.y1).toNat, by omega, ?_⟩
    have hy : clip.y1 + ((y - clip.y1).toNat : Int) = y := by omega
    rw [hy]
    simp only [sgl_surf.offset, sgl_surf_get_buf]
    constructor
    · linarith
    · have : ((clip.x2 - clip.x1 + 1).toNat : Int) = clip.x2 - clip.x1 + 1 := by omega
      rw [this]
      linarith

theorem draw_rows_id (surf : sgl_surf) (clip : sgl_area) (row : Int → Int → Nat → Nat)
    (P : Nat → Prop) (hrow : ∀ y x old, P old → row y x old = old) (b : Int → Nat)
    (hb : ∀ i, P (b i)) :
    draw_rows surf clip row b = b := by
  unfold draw_rows
  apply for_y_id
  intro y
  exact for_x_id _ P (hrow y) _ _ _ b hb

theorem draw_rows_agree (surf : sgl_surf) (clip : sgl_area) (f g : Int → Int → Nat → Nat)
    (E : Int → Prop)
    (hfg : ∀ x y : Int, clip.contains x y →
      (∀ old, f y x old = g y x old) ∨ E (surf.offset x y))
    (b1 b2 : Int → Nat) (hb : ∀ j, ¬ E j → b1 j = b2 j) :
    ∀ j, ¬ E j → draw_rows surf clip f b1 j = draw_rows surf clip g b2 j := by
  unfold draw_rows
  apply for_y_agree _ _ E _ _ _ _ hb
  intro k hk c1 c2 hc
  apply for_x_agree _ _ E _ _ _ _ _ hc
  intro k' hk'
  have hcont : clip.contains (clip.x1 + k') (clip.y1 + k) := by
    unfold sgl_area.contains
    omega
  rcases hfg _ _ hcont with h | h
  · exact Or.inl h
  · right
    have e : surf.offset (clip.x1 + k') (clip.y1 + k) =
        sgl_surf_get_buf surf (clip.x1 - surf.x) (clip.y1 + k - surf.y) + k' := by
      simp only [sgl_surf.offset, sgl_surf_get_buf]
      ring
    rw [← e]
    exact h

/-- The dispatch on the two clip calls at the head of each fill primitive. -/
theorem fill_clip_dispatch (surf : sgl_surf) (A B : sgl_area) (row : Int → Int → Nat → Nat) :
    (if (sgl_surf_clip surf A ⟨0, 0, 0, 0⟩).1 = false then surf.buffer
      else if (sgl_area_selfclip (sgl_surf_clip surf A ⟨0, 0, 0, 0⟩).2 B).1 = false then
        surf.buffer
      else draw_rows surf (sgl_area_selfclip (sgl_surf_clip surf A ⟨0, 0, 0, 0⟩).2 B).2 row
        surf.buffer) =
    fill_with surf A B row := by
  unfold fill_with fill_clip
  by_cases h1 : (sgl_surf_clip surf A ⟨0, 0, 0, 0⟩).1 = false
  · rw [if_pos h1, if_pos h1]
  · rw [if_neg h1, if_neg h1]
    by_cases h2 : (sgl_area_selfclip (sgl_surf_clip surf A ⟨0, 0, 0, 0⟩).2 B).1 = false
    · rw [if_pos h2, if_pos h2]
    · rw [if_neg h2, if_neg h2]

theorem fill_clip_dispatch_exists (surf : sgl_surf) (A B : sgl_area)
    (row : Int → Int → Nat → Nat) :
    ∃ row', (if (sgl_surf_clip surf A ⟨0, 0, 0, 0⟩).1 = false then surf.buffer
      else if (sgl_area_selfclip (sgl_surf_clip surf A ⟨0, 0, 0, 0⟩).2 B).1 = false then
        surf.buffer
      else draw_rows surf (sgl_area_selfclip (sgl_surf_clip surf A ⟨0, 0, 0, 0⟩).2 B).2 row
        surf.buffer) =
    fill_with surf A B row' :=
  ⟨row, fill_clip_dispatch surf A B row⟩

/-- A fill primitive changes only pixels at positions common to the surface
and the two areas. -/
theorem fill_with_frame (surf : sgl_surf) (A B : sgl_area) (row : Int → Int → Nat → Nat)
    (j : Int)
    (hj : ∀ x y : Int, surf.bounds.contains x y → A.contains x y → B.contains x y →
      j ≠ surf.offset x y) :
    fill_with surf A B row j = surf.buffer j := by
  unfold fill_with
  cases hc : fill_clip surf A B with
  | none => rfl
  | some clip =>
    simp only []
    apply draw_rows_frame
    intro x y hxy
    obtain ⟨h1, h2, h3⟩ := (fill_clip_contains hc x y).mp hxy
    exact hj x y h1 h2 h3

theorem fill_with_swap_unchanged {surf : sgl_surf} {A B : sgl_area}
    (hnone : fill_clip surf A B = none) (row : Int → Int → Nat → Nat) :
    fill_with surf B A row = surf.buffer := by
  funext j
  apply fill_with_frame
  intro x y h1 h2 h3
  exfalso
  rcases fill_clip_cases surf A B with ⟨_, h⟩ | h
  · exact h x y ⟨h1, h3, h2⟩
  · rw [h] at hnone; cases hnone

/-! ### The color mixer at factor 0 -/

theorem mix_channel_zero (bits shift fg bg : Nat) :
    mix_channel bits shift fg bg 0 = bg % 2 ^ bits := by
  unfold mix_channel
  simp only [Nat.cast_zero, mul_zero, Int.zero_ediv, add_zero]
  have : ((bg : Int) % (2 ^ bits : Int)) = ((bg % 2 ^ bits : Nat) : Int) := by
    push_cast
    rfl
  rw [this]
  exact Int.toNat_ofNat _

theorem mask565_cover (i : Nat) (hi : i < 16) :
    (Nat.testBit 0x07e0f81f i || Nat.testBit 0x07e0f81f (16 + i)) = true := by
  interval_cases i <;> decide

theorem mixer565_zero (fg bg : Nat) (hbg : bg < 2 ^ 16) :
    sgl_color_mixer sgl_pixel_depth.RGB565 fg bg 0 = bg := by
  simp only [sgl_color_mixer, Nat.zero_shiftRight, mul_zero, Nat.zero_mod, add_zero]
  have hsh : (bg <<< 16) % 2 ^ 32 = bg <<< 16 := by
    apply Nat.mod_eq_of_lt
    rw [Nat.shiftLeft_eq]
    omega
  rw [hsh]
  have hlt : (bg ||| bg <<< 16) &&& 0x07e0f81f < 2 ^ 32 :=
    lt_of_le_of_lt Nat.and_le_right (by decide)
  rw [Nat.mod_eq_of_lt hlt, Nat.and_assoc, Nat.and_self]
  apply Nat.eq_of_testBit_eq
  intro i
  simp only [Nat.testBit_mod_two_pow, Nat.testBit_or, Nat.testBit_and, Nat.testBit_shiftRight,
    Nat.testBit_shiftLeft]
  by_cases hi : i < 16
  · have h1 : bg.testBit (16 + i) = false :=
      Nat.testBit_lt_two_pow (lt_of_lt_of_le hbg (Nat.pow_le_pow_right (by decide) (by omega)))
    have h2 := mask565_cover i hi
    have h3 : decide (i ≥ 16) = false := by simp; omega
    simp only [hi, h1, h3, decide_True, Bool.true_and, Bool.false_and, Bool.or_false,
      Nat.add_sub_cancel_left, ge_iff_le, le_add_iff_nonneg_right, zero_le]
    cases hb : bg.testBit i <;> simp_all
  · have h1 : bg.testBit i = false :=
      Nat.testBit_lt_two_pow (lt_of_lt_of_le hbg (Nat.pow_le_pow_right (by decide) (by omega)))
    simp [hi, h1]

/-- With factor 0 the mixer returns the background color. -/
theorem sgl_color_mixer_zero (d : sgl_pixel_depth) (fg bg : Nat) (hbg : is_color d bg) :
    sgl_color_mixer d fg bg 0 = bg := by
  cases d with
  | RGB565 => exact mixer565_zero fg bg hbg
  | RGB233 =>
    simp only [is_color, sgl_pixel_depth.bits] at hbg
    simp only [sgl_color_mixer, Nat.zero_shiftRight, mix_channel_zero]
    omega
  | RGB888 =>
    simp only [is_color, sgl_pixel_depth.bits] at hbg
    simp only [sgl_color_mixer, mix_channel_zero]
    omega
  | ARGB8888 =>
    simp only [is_color, sgl_pixel_depth.bits] at hbg
    simp only [sgl_color_mixer, mix_channel_zero]
    omega


/-! ### Flat and rounded fills -/

theorem sgl_draw_fill_rect_eq (d : sgl_pixel_depth) (surf : sgl_surf) (area rect : sgl_area)
    (color alpha : Nat) :
    sgl_draw_fill_rect d surf area rect color alpha =
      fill_with surf rect area
        (fun _ _ old =>
          if alpha = SGL_ALPHA_MAX then color
          else if alpha > SGL_ALPHA_MIN then sgl_color_mixer d color old alpha
          else old) := by
  exact fill_clip_dispatch surf rect area _

/-- C7: for every surface, clip area, rect and color, `sgl_draw_fill_rect`
with alpha 0 leaves every pixel of the buffer as it was, and with alpha 255
every pixel whose position lies in the bounds of the surface, in the clip
area and in the rect holds exactly the given color afterwards. The bounds are
the rectangle `x .. x + w - 1`, `y .. y + h - 1` whenever its right and bottom
edge are `int16_t` positions. -/
theorem sgl_draw_fill_rect_alpha_extremes (d : sgl_pixel_depth) (surf : sgl_surf)
    (area rect : sgl_area) (color : Nat) :
    sgl_draw_fill_rect d surf area rect color 0 = surf.buffer ∧
    (∀ x y : Int, surf.bounds.contains x y → area.contains x y → rect.contains x y →
      sgl_draw_fill_rect d surf area rect color 255 (surf.offset x y) = color) ∧
    (surf.wf → surf.bounds = surf.extent) := by
  refine ⟨?_, ?_, sgl_surf.bounds_eq_extent⟩
  · rw [sgl_draw_fill_rect_eq]
    unfold fill_with
    cases fill_clip surf rect area with
    | none => rfl
    | some clip =>
      exact draw_rows_id surf clip _ (fun _ => True)
        (fun _ _ old _ => by simp [SGL_ALPHA_MAX, SGL_ALPHA_MIN]) _ (fun _ => trivial)
  · intro x y hs ha hr
    rw [sgl_draw_fill_rect_eq]
    unfold fill_with
    obtain ⟨clip, hc⟩ := fill_clip_some hs hr ha
    rw [hc]
    exact draw_rows_const surf clip _ color (fun _ _ old => by simp [SGL_ALPHA_MAX]) _ x y
      ((fill_clip_contains hc x y).mpr ⟨hs, hr, ha⟩)

theorem sgl_draw_fill_rect_alpha_extremes_witness :
    one_pixel_surf.bounds.contains 0 0 ∧
    sgl_draw_fill_rect sgl_pixel_depth.RGB565 one_pixel_surf ⟨0, 0, 5, 5⟩ ⟨-3, -3, 0, 0⟩
      0x1234 255 (one_pixel_surf.offset 0 0) = 0x1234 ∧
    one_pixel_surf.bounds = one_pixel_surf.extent :=
  ⟨by decide,
    (sgl_draw_fill_rect_alpha_extremes sgl_pixel_depth.RGB565 one_pixel_surf ⟨0, 0, 5, 5⟩
      ⟨-3, -3, 0, 0⟩ 0x1234).2.1 0 0 (by decide) (by decide) (by decide),
    (sgl_draw_fill_rect_alpha_extremes sgl_pixel_depth.RGB565 one_pixel_surf ⟨0, 0, 5, 5⟩
      ⟨-3, -3, 0, 0⟩ 0x1234).2.2 (by decide)⟩

theorem sgl_draw_fill_round_rect_eq (d : sgl_pixel_depth) (surf : sgl_surf)
    (area rect : sgl_area) (radius : Int) (color alpha : Nat) :
    sgl_draw_fill_round_rect d surf area rect radius color alpha =
      fill_with surf area rect (fill_round_rect_row d rect radius color alpha) := by
  exact fill_clip_dispatch surf area rect (fill_round_rect_row d rect radius color alpha)

theorem sgl_draw_fill_rect_with_border_eq (d : sgl_pixel_depth) (surf : sgl_surf)
    (area rect : sgl_area) (color border_color : Nat) (border_width : Int) (alpha : Nat) :
    ∃ row, sgl_draw_fill_rect_with_border d surf area rect color border_color border_width alpha
      = fill_with surf rect area row := by
  exact fill_clip_dispatch_exists surf rect area _

theorem sgl_draw_fill_round_rect_with_border_eq (d : sgl_pixel_depth) (surf : sgl_surf)
    (area rect : sgl_area) (radius : Int) (color border_color : Nat) (border_width : Int)
    (alpha : Nat) :
    ∃ row, sgl_draw_fill_round_rect_with_border d surf area rect radius color border_color
      border_width alpha = fill_with surf area rect row := by
  exact fill_clip_dispatch_exists surf area rect _

theorem fill_with_changes_only (surf : sgl_surf) (area rect : sgl_area)
    (row : Int → Int → Nat → Nat) :
    changes_only_within surf area rect (fill_with surf area rect row) ∧
    changes_only_within surf area rect (fill_with surf rect area row) := by
  refine ⟨⟨?_, ?_⟩, ⟨?_, ?_⟩⟩
  · intro j hj
    by_contra hne
    apply hj
    apply fill_with_frame
    intro x y h1 h2 h3 he
    exact hne ⟨x, y, h1, h2, h3, he⟩
  · intro hne
    funext j
    apply fill_with_frame
    intro x y h1 h2 h3 _
    exact hne ⟨x, y, h1, h2, h3⟩
  · intro j hj
    by_contra hne
    apply hj
    apply fill_with_frame
    intro x y h1 h2 h3 he
    exact hne ⟨x, y, h1, h3, h2, he⟩
  · intro hne
    funext j
    apply fill_with_frame
    intro x y h1 h2 h3 _
    exact hne ⟨x, y, h1, h3, h2⟩

/-- C9: each of `sgl_draw_fill_rect`, `sgl_draw_fill_rect_with_border`,
`sgl_draw_fill_round_rect` and `sgl_draw_fill_round_rect_with_border` changes
only buffer pixels whose position lies in the bounds of the surface, in the
clip area and in the target rect, and leaves the buffer unchanged when these
three have no common position. The bounds are the rectangle `x .. x + w - 1`,
`y .. y + h - 1` whenever its right and bottom edge are `int16_t` positions. -/
theorem fill_primitives_frame (d : sgl_pixel_depth) (surf : sgl_surf) (area rect : sgl_area)
    (radius : Int) (color border_color : Nat) (border_width : Int) (alpha : Nat) :
    changes_only_within surf area rect (sgl_draw_fill_rect d surf area rect color alpha) ∧
    changes_only_within surf area rect
      (sgl_draw_fill_rect_with_border d surf area rect color border_color border_width alpha) ∧
    changes_only_within surf area rect
      (sgl_draw_fill_round_rect d surf area rect radius color alpha) ∧
    changes_only_within surf area rect
      (sgl_draw_fill_round_rect_with_border d surf area rect radius color border_color
        border_width alpha) ∧
    (surf.wf → surf.bounds = surf.extent) := by
  refine ⟨?_, ?_, ?_, ?_, sgl_surf.bounds_eq_extent⟩
  · rw [sgl_draw_fill_rect_eq]
    exact (fill_with_changes_only surf area rect _).2
  · obtain ⟨row, h⟩ := sgl_draw_fill_rect_with_border_eq d surf area rect color border_color
      border_width alpha
    rw [h]
    exact (fill_with_changes_only surf area rect _).2
  · rw [sgl_draw_fill_round_rect_eq]
    exact (fill_with_changes_only surf area rect _).1
  · obtain ⟨row, h⟩ := sgl_draw_fill_round_rect_with_border_eq d surf area rect radius color
      border_color border_width alpha
    rw [h]
    exact (fill_with_changes_only surf area rect _).1

theorem fill_primitives_frame_witness :
    one_pixel_surf.wf ∧ one_pixel_surf.bounds = one_pixel_surf.extent ∧
    changes_only_within one_pixel_surf ⟨0, 0, 5, 5⟩ ⟨-3, -3, 0, 0⟩
      (sgl_draw_fill_round_rect_with_border sgl_pixel_depth.RGB565 one_pixel_surf ⟨0, 0, 5, 5⟩
        ⟨-3, -3, 0, 0⟩ 1 0x1234 0xFFFF 1 128) :=
  ⟨by decide,
    (fill_primitives_frame sgl_pixel_depth.RGB565 one_pixel_surf ⟨0, 0, 5, 5⟩ ⟨-3, -3, 0, 0⟩
      1 0x1234 0xFFFF 1 128).2.2.2.2 (by decide),
    (fill_primitives_frame sgl_pixel_depth.RGB565 one_pixel_surf ⟨0, 0, 5, 5⟩ ⟨-3, -3, 0, 0⟩
      1 0x1234 0xFFFF 1 128).2.2.2.1⟩

/-! ### Rounded fill with radius 0 -/

/-- C8 (as stated, refuted): on the one-pixel surface holding color 0, in
RGB565, `sgl_draw_fill_round_rect` with radius 0, color `0xFFFF` and alpha 255
leaves `0xF7BE` in the pixel (a corner of the rect), where `sgl_draw_fill_rect`
leaves `0xFFFF`. -/
theorem sgl_draw_fill_round_rect_radius_zero_differs :
    sgl_draw_fill_round_rect sgl_pixel_depth.RGB565 one_pixel_surf ⟨0, 0, 0, 0⟩ ⟨0, 0, 0, 0⟩
      0 0xFFFF 255 0 = 0xF7BE ∧
    sgl_draw_fill_rect sgl_pixel_depth.RGB565 one_pixel_surf ⟨0, 0, 0, 0⟩ ⟨0, 0, 0, 0⟩
      0xFFFF 255 0 = 0xFFFF ∧
    sgl_draw_fill_round_rect sgl_pixel_depth.RGB565 one_pixel_surf ⟨0, 0, 0, 0⟩ ⟨0, 0, 0, 0⟩
      0 0xFFFF 255 ≠
    sgl_draw_fill_rect sgl_pixel_depth.RGB565 one_pixel_surf ⟨0, 0, 0, 0⟩ ⟨0, 0, 0, 0⟩
      0xFFFF 255 := by
  have h1 : sgl_draw_fill_round_rect sgl_pixel_depth.RGB565 one_pixel_surf ⟨0, 0, 0, 0⟩
      ⟨0, 0, 0, 0⟩ 0 0xFFFF 255 0 = 0xF7BE := by decide
  have h2 : sgl_draw_fill_rect sgl_pixel_depth.RGB565 one_pixel_surf ⟨0, 0, 0, 0⟩ ⟨0, 0, 0, 0⟩
      0xFFFF 255 0 = 0xFFFF := by decide
  refine ⟨h1, h2, fun he => ?_⟩
  have h3 := congrFun he 0
  rw [h1, h2] at h3
  exact absurd h3 (by decide)

/-- With alpha 0 the loop body of `sgl_draw_fill_round_rect` keeps the pixel
it finds. -/
theorem fill_round_rect_row_alpha_zero (d : sgl_pixel_depth) (rect : sgl_area) (radius : Int)
    (color : Nat) (y x : Int) (old : Nat) (hold : is_color d old) :
    fill_round_rect_row d rect radius color 0 y x old = old := by
  have hb : ∀ c, blend d c old 0 = old := by
    intro c
    unfold blend
    rw [if_neg (by decide)]
    exact sgl_color_mixer_zero d c old hold
  have hm : ∀ c, sgl_color_mixer d c old 0 = old := fun c => sgl_color_mixer_zero d c old hold
  unfold fill_round_rect_row
  by_cases hy : y > rect.y1 + radius ∧ y < rect.y2 - radius
  · rw [if_pos hy]
    exact hb _
  · rw [if_neg hy]
    by_cases hx : x > rect.x1 + radius ∧ x < rect.x2 - radius
    · rw [if_pos hx]
      exact hb _
    · rw [if_neg hx]
      generalize sgl_pow2 (x - (if x > rect.x1 + radius then rect.x2 - radius
          else rect.x1 + radius))
        + sgl_pow2 (y - (if y > rect.y1 + radius then rect.y2 - radius
          else rect.y1 + radius)) = real_r2
      by_cases h1 : real_r2 ≥ sgl_pow2 (radius + 1)
      · rw [if_pos h1]
      · rw [if_neg h1]
        by_cases h2 : real_r2 ≥ sgl_pow2 radius
        · rw [if_pos h2, if_neg (by decide)]
          exact hm _
        · rw [if_neg h2]
          exact hb _

/-- With radius 0 and a non-zero alpha, away from the corners of the rect the
loop body of `sgl_draw_fill_round_rect` is the loop body of
`sgl_draw_fill_rect`. -/
theorem fill_round_rect_row_radius_zero (d : sgl_pixel_depth) (rect : sgl_area)
    (color alpha : Nat) (halpha : alpha ≠ 0) (x y : Int) (hxy : rect.contains x y) :
    (∀ old, fill_round_rect_row d rect 0 color alpha y x old =
      (if alpha = SGL_ALPHA_MAX then color
        else if alpha > SGL_ALPHA_MIN then sgl_color_mixer d color old alpha
        else old)) ∨
    ((x = rect.x1 ∨ x = rect.x2) ∧ (y = rect.y1 ∨ y = rect.y2)) := by
  have hb : ∀ old, blend d color old alpha =
      (if alpha = SGL_ALPHA_MAX then color
        else if alpha > SGL_ALPHA_MIN then sgl_color_mixer d color old alpha
        else old) := by
    intro old
    unfold blend
    have : alpha > SGL_ALPHA_MIN := Nat.pos_of_ne_zero halpha
    rw [if_pos this]
  unfold sgl_area.contains at hxy
  by_cases hy : y > rect.y1 + 0 ∧ y < rect.y2 - 0
  · left
    intro old
    unfold fill_round_rect_row
    rw [if_pos hy]
    exact hb old
  · by_cases hx : x > rect.x1 + 0 ∧ x < rect.x2 - 0
    · left
      intro old
      unfold fill_round_rect_row
      rw [if_neg hy, if_pos hx]
      exact hb old
    · right
      omega

/-- C8 (amended): on a buffer of valid colors, `sgl_draw_fill_round_rect`
with radius 0 leaves every buffer pixel that is not the pixel of one of the
four corner positions of the rect (a corner outside the surface or outside
the clip area has no pixel) as `sgl_draw_fill_rect` leaves it, for every
surface, clip area, rect, color and alpha; with alpha 0 the two buffers are
equal at every pixel. -/
theorem sgl_draw_fill_round_rect_radius_zero (d : sgl_pixel_depth) (surf : sgl_surf)
    (area rect : sgl_area) (color alpha : Nat) (hbuf : ∀ i, is_color d (surf.buffer i)) :
    (∀ j : Int, ¬ is_corner_offset surf area rect j →
      sgl_draw_fill_round_rect d surf area rect 0 color alpha j =
        sgl_draw_fill_rect d surf area rect color alpha j) ∧
    (alpha = 0 →
      sgl_draw_fill_round_rect d surf area rect 0 color alpha =
        sgl_draw_fill_rect d surf area rect color alpha) := by
  rw [sgl_draw_fill_round_rect_eq, sgl_draw_fill_rect_eq]
  have hzero : alpha = 0 →
      fill_with surf area rect (fill_round_rect_row d rect 0 color alpha) =
        fill_with surf rect area
          (fun _ _ old =>
            if alpha = SGL_ALPHA_MAX then color
            else if alpha > SGL_ALPHA_MIN then sgl_color_mixer d color old alpha
            else old) := by
    intro h0
    subst h0
    have e1 : fill_with surf area rect (fill_round_rect_row d rect 0 color 0) = surf.buffer := by
      unfold fill_with
      cases fill_clip surf area rect with
      | none => rfl
      | some clip =>
        exact draw_rows_id surf clip _ (is_color d)
          (fun y x old ho => fill_round_rect_row_alpha_zero d rect 0 color y x old ho) _ hbuf
    have e2 : fill_with surf rect area
        (fun _ _ old =>
          if 0 = SGL_ALPHA_MAX then color
          else if 0 > SGL_ALPHA_MIN then sgl_color_mixer d color old 0
          else old) = surf.buffer := by
      unfold fill_with
      cases fill_clip surf rect area with
      | none => rfl
      | some clip =>
        exact draw_rows_id surf clip _ (fun _ => True)
          (fun _ _ old _ => by simp [SGL_ALPHA_MAX, SGL_ALPHA_MIN]) _ (fun _ => trivial)
    rw [e1, e2]
  refine ⟨?_, hzero⟩
  intro j hj
  by_cases h0 : alpha = 0
  · rw [hzero h0]
  · cases hc1 : fill_clip surf area rect with
    | none =>
      rw [fill_with_swap_unchanged hc1]
      unfold fill_with
      rw [hc1]
    | some c1 =>
      cases hc2 : fill_clip surf rect area with
      | none =>
        rw [fill_with_swap_unchanged hc2]
        unfold fill_with
        rw [hc2]
      | some c2 =>
        have hcc := fill_clip_comm hc1 hc2
        subst hcc
        unfold fill_with
        rw [hc1, hc2]
        apply draw_rows_agree surf c1 _ _ (is_corner_offset surf area rect) _ _ _
          (fun _ _ => rfl) j hj
        intro x y hxy
        obtain ⟨hb, ha, hr⟩ := (fill_clip_contains hc1 x y).mp hxy
        rcases fill_round_rect_row_radius_zero d rect color alpha h0 x y hr with h | h
        · exact Or.inl h
        · exact Or.inr ⟨x, y, h.1, h.2, hb, ha, rfl⟩

/-- On the surface of 4 by 4 pixels the pixel at `(1, 1)` is not a corner
pixel of the rect `(0, 0, 5, 3)`, whose corners at the column 5 lie outside
the surface although the offset of `(5, 0)` is the offset of `(1, 1)`. -/
theorem surf4_inner_pixel :
    ¬ is_corner_offset surf4 ⟨0, 0, 3, 3⟩ ⟨0, 0, 5, 3⟩ (surf4.offset 1 1) := by
  rintro ⟨x, y, hx, hy, hb, _, e⟩
  have hb1 : x ≤ 3 := by
    have := hb.2.1
    exact this
  simp only [sgl_surf.offset, sgl_surf_get_buf, surf4] at e
  rcases hx with rfl | rfl
  · rcases hy with rfl | rfl
    · exact absurd e (by decide)
    · exact absurd e (by decide)
  · exact absurd hb1 (by decide)

theorem sgl_draw_fill_round_rect_radius_zero_witness :
    (∀ i, is_color sgl_pixel_depth.RGB565 (surf4.buffer i)) ∧
    surf4.offset 5 0 = surf4.offset 1 1 ∧
    ¬ is_corner_offset surf4 ⟨0, 0, 3, 3⟩ ⟨0, 0, 5, 3⟩ (surf4.offset 1 1) ∧
    sgl_draw_fill_round_rect sgl_pixel_depth.RGB565 surf4 ⟨0, 0, 3, 3⟩ ⟨0, 0, 5, 3⟩
      0 0xFFFF 255 (surf4.offset 1 1) =
    sgl_draw_fill_rect sgl_pixel_depth.RGB565 surf4 ⟨0, 0, 3, 3⟩ ⟨0, 0, 5, 3⟩
      0xFFFF 255 (surf4.offset 1 1) :=
  ⟨fun _ => show is_color sgl_pixel_depth.RGB565 0 from by decide, by decide,
    surf4_inner_pixel,
    (sgl_draw_fill_round_rect_radius_zero sgl_pixel_depth.RGB565 surf4 ⟨0, 0, 3, 3⟩
      ⟨0, 0, 5, 3⟩ 0xFFFF 255
      (fun _ => show is_color sgl_pixel_depth.RGB565 0 from by decide)).1 _ surf4_inner_pixel⟩

/-! ### Glyph index search -/

/-- C11: the font `two_range_font` is well-formed (sorted ranges, strictly
increasing sparse list) and holds the code point 10 at position 1 of its
sparse range, so its glyph index is 1; `sgl_search_unicode_ch_index` returns
0 for it, for every bound on the iterations of the binary search. -/
theorem sgl_search_unicode_ch_index_misses_sparse_code_point :
    two_range_font.wf ∧ glyph_index_spec two_range_font.unicode 10 = some 1 ∧
    ∀ fuel : Nat,
      sgl_search_unicode_ch_index fuel two_range_font 10 = lookup_result.value 0 :=
  ⟨by decide, by decide, fun _ => rfl⟩

/-- C12: the font `one_glyph_font` is well-formed and does not hold the code
point 3, which is smaller than the first entry of its sparse list of length
1; `sgl_search_unicode_ch_index` reads the list at index `0x7FFFFFFF`. -/
theorem sgl_search_unicode_ch_index_reads_outside_list :
    one_glyph_font.wf ∧ glyph_index_spec one_glyph_font.unicode 3 = none ∧
    ∀ fuel : Nat,
      sgl_search_unicode_ch_index (fuel + 2) one_glyph_font 3 =
        lookup_result.list_out_of_bounds 0x7FFFFFFF :=
  ⟨by decide, by decide, fun _ => rfl⟩

/-! ### Corner radius -/

/-- C13 (counterexample): on a rect of 10 by 10 pixels the request 65535
stores the radius 4095, above `min(width, height) / 2 = 5`; on a rect of
10000 by 10000 pixels the request 4096, below `min(width, height) / 2 = 5000`,
stores the radius 0. -/
theorem sgl_obj_set_radius_not_clamped :
    square_heap 0 = { coords := ⟨0, 0, 9, 9⟩ } ∧
    ((sgl_obj_set_radius square_heap 0 65535) 0).radius = 4095 ∧
    wide_heap 0 = { coords := ⟨0, 0, 9999, 9999⟩ } ∧
    ((sgl_obj_set_radius wide_heap 0 4096) 0).radius = 0 := by
  decide

/-- C13 (amended): for a node with a well-formed rect of width and height at
most 32767 and a requested radius whose bit 15 is clear (in particular every
request below 32768), the radius stored by `sgl_obj_set_radius` is at most
`min(width, height) / 2`, and it equals the request when the request is below
`min(width, height) / 2` and below 4096. -/
theorem sgl_obj_set_radius_clamped (h : Heap) (obj : Nat) (radius : Nat)
    (hwf : (h obj).coords.wf)
    (hw : (h obj).coords.x2 - (h obj).coords.x1 + 1 ≤ 32767)
    (hh : (h obj).coords.y2 - (h obj).coords.y1 + 1 ≤ 32767)
    (hr : radius % 65536 < 32768) :
    (((sgl_obj_set_radius h obj radius) obj).radius : Int) ≤
      min ((h obj).coords.x2 - (h obj).coords.x1 + 1)
        ((h obj).coords.y2 - (h obj).coords.y1 + 1) / 2 ∧
    ((radius : Int) < min ((h obj).coords.x2 - (h obj).coords.x1 + 1)
        ((h obj).coords.y2 - (h obj).coords.y1 + 1) / 2 → radius < 4096 →
      ((sgl_obj_set_radius h obj radius) obj).radius = radius) := by
  obtain ⟨hx, hy⟩ := hwf
  have hw1 : 1 ≤ (h obj).coords.x2 - (h obj).coords.x1 + 1 := by omega
  have hh1 : 1 ≤ (h obj).coords.y2 - (h obj).coords.y1 + 1 := by omega
  unfold sgl_obj_set_radius
  simp only [Heap.set_same]
  generalize (h obj).coords.x2 - (h obj).coords.x1 + 1 = w at hw hw1
  generalize (h obj).coords.y2 - (h obj).coords.y1 + 1 = hgt at hh hh1
  have ew : wrap16 w = w := wrap16_of_int16 ⟨by omega, by omega⟩
  have eh : wrap16 hgt = hgt := wrap16_of_int16 ⟨by omega, by omega⟩
  have er : wrap16 (radius : Int) = (radius : Int) % 65536 := by
    unfold wrap16; omega
  rw [ew, eh, er]
  have hd : (if w > hgt then hgt else w) = min w hgt := by
    by_cases hc : w > hgt
    · rw [if_pos hc, min_eq_right (le_of_lt hc)]
    · rw [if_neg hc, min_eq_left (not_lt.mp hc)]
  rw [hd]
  have hd1 : 1 ≤ min w hgt := le_min hw1 hh1
  have hd2 : min w hgt ≤ 32767 := le_trans (min_le_left _ _) hw
  generalize min w hgt = d at hd1 hd2
  have t1 : Int.tdiv d 2 = d / 2 := Int.tdiv_eq_ediv (by omega) (by decide)
  have t2 : Int.tdiv (d - 1) 2 = (d - 1) / 2 := Int.tdiv_eq_ediv (by omega) (by decide)
  rw [t1, t2]
  by_cases hge : (radius : Int) % 65536 ≥ d / 2
  · rw [if_pos hge]
    constructor
    · by_cases ho : sgl_is_odd d = true
      · rw [if_pos ho]
        show (((d / 2 % 4096).toNat : Nat) : Int) ≤ d / 2
        omega
      · rw [if_neg ho]
        show ((((d - 1) / 2 % 4096).toNat : Nat) : Int) ≤ d / 2
        omega
    · intro hlt _
      omega
  · rw [if_neg hge]
    constructor
    · show ((((radius : Int) % 4096).toNat : Nat) : Int) ≤ d / 2
      omega
    · intro _ h4
      show ((radius : Int) % 4096).toNat = radius
      omega

theorem sgl_obj_set_radius_clamped_witness :
    (((sgl_obj_set_radius small_tree 1 7) 1).radius : Int) ≤
      min ((small_tree 1).coords.x2 - (small_tree 1).coords.x1 + 1)
        ((small_tree 1).coords.y2 - (small_tree 1).coords.y1 + 1) / 2 ∧
    (((7 : Nat) : Int) < min ((small_tree 1).coords.x2 - (small_tree 1).coords.x1 + 1)
        ((small_tree 1).coords.y2 - (small_tree 1).coords.y1 + 1) / 2 → 7 < 4096 →
      ((sgl_obj_set_radius small_tree 1 7) 1).radius = 7) :=
  sgl_obj_set_radius_clamped small_tree 1 7 (by decide) (by decide) (by decide) (by decide)

/-! ### Outcome of the subtree move -/

/-- The loop that gives no result on a failed assertion is the run that
keeps the object memory, restricted to the runs that return. -/
theorem move_child_pos_loop_eq_run (a b : Int) (fuel : Nat) :
    ∀ (h : Heap) (stack : List Nat),
      move_child_pos_loop a b fuel h stack =
        if (move_child_pos_run a b fuel h stack).1 = walk_status.returned then
          some (move_child_pos_run a b fuel h stack).2
        else none := by
  induction fuel with
  | zero =>
    intro h stack
    cases stack <;> rfl
  | succ n ih =>
    intro h stack
    cases stack with
    | nil => rfl
    | cons p st =>
      simp only [move_child_pos_loop, move_child_pos_run]
      by_cases hlen : (p :: st).length < SGL_OBJ_DEPTH_MAX
      · rw [if_pos hlen, if_pos hlen, ih]
      · rw [if_neg hlen, if_neg hlen]
        rfl

/-- When the assertion fails, the loop body has run on a list of objects
that, together with the entries of the initial stack, number at least
`SGL_OBJ_DEPTH_MAX`. -/
theorem move_child_pos_run_failed (a b : Int) (fuel : Nat) :
    ∀ (h : Heap) (stack : List Nat),
      (move_child_pos_run a b fuel h stack).1 = walk_status.assert_failed →
      ∃ vs : List Nat, (move_child_pos_run a b fuel h stack).2 = apply_visits a b h vs ∧
        SGL_OBJ_DEPTH_MAX ≤ stack.length + vs.length := by
  induction fuel with
  | zero =>
    intro h stack hf
    cases stack with
    | nil => exact absurd hf (by simp [move_child_pos_run])
    | cons p st => exact absurd hf (by simp [move_child_pos_run])
  | succ n ih =>
    intro h stack hf
    cases stack with
    | nil => exact absurd hf (by simp [move_child_pos_run])
    | cons p st =>
      simp only [move_child_pos_run] at hf ⊢
      by_cases hlen : (p :: st).length < SGL_OBJ_DEPTH_MAX
      · rw [if_pos hlen] at hf ⊢
        obtain ⟨vs, hv, hl⟩ := ih _ _ hf
        refine ⟨p :: vs, ?_, ?_⟩
        · rw [hv, apply_visits_cons]
        · have h1 : (push_ptr ((h.set p (shift_obj a b (h p))) p).child
              (push_ptr ((h.set p (shift_obj a b (h p))) p).sibling st)).length ≤
              st.length + 2 := by
            cases ((h.set p (shift_obj a b (h p))) p).child <;>
              cases ((h.set p (shift_obj a b (h p))) p).sibling <;>
              simp [push_ptr]
          simp only [List.length_cons] at hl ⊢
          omega
      · rw [if_neg hlen]
        exact ⟨[], rfl, by simpa using hlen⟩

/-- Running the loop body along a list of distinct objects changes each of
them once and no other object. -/
theorem apply_visits_nodup (a b : Int) (vs : List Nat) :
    ∀ (h : Heap), vs.Nodup →
      (∀ q ∈ vs, (apply_visits a b h vs) q = shift_obj a b (h q)) ∧
      (∀ q, q ∉ vs → (apply_visits a b h vs) q = h q) := by
  induction vs with
  | nil =>
    intro h _
    exact ⟨fun q hq => absurd hq (List.not_mem_nil q), fun q _ => rfl⟩
  | cons p vs ih =>
    intro h hn
    rw [List.nodup_cons] at hn
    obtain ⟨i1, i2⟩ := ih (h.set p (shift_obj a b (h p))) hn.2
    constructor
    · intro q hq
      rw [apply_visits_cons]
      rcases List.mem_cons.mp hq with hqp | hqv
      · subst hqp
        rw [i2 q hn.1, Heap.set_same]
      · have hne : q ≠ p := fun e => hn.1 (e ▸ hqv)
        rw [i1 q hqv, Heap.set_other _ _ hne]
    · intro q hq
      rw [apply_visits_cons]
      have hne : q ≠ p := fun e => hq (e ▸ List.mem_cons_self _ _)
      have hnv : q ∉ vs := fun e => hq (List.mem_cons_of_mem _ e)
      rw [i2 q hnv, Heap.set_other _ _ hne]

/-- C14 (counterexample): on `comb_heap`, whose chain of children is deeper
than `SGL_OBJ_DEPTH_MAX`, the move of the children of object 0 by `(1, 1)`
ends in the failed assertion with the rect of the descendant 1 moved and the
rect of the descendant 16 not moved. -/
theorem sgl_obj_move_child_pos_partial :
    (sgl_obj_move_child_pos_run 40 comb_heap 0 1 1).1 = walk_status.assert_failed ∧
    (comb_heap 1).coords = ⟨0, 0, 0, 0⟩ ∧
    (((sgl_obj_move_child_pos_run 40 comb_heap 0 1 1).2) 1).coords = ⟨1, 1, 1, 1⟩ ∧
    (((sgl_obj_move_child_pos_run 40 comb_heap 0 1 1).2) 16).coords = ⟨0, 0, 0, 0⟩ := by
  decide

/-- C14 (amended): when the forest `t` of the descendants of `obj` has fewer
than `SGL_OBJ_DEPTH_MAX` levels and consists of distinct objects,
`sgl_obj_move_child_pos` returns with every descendant passed through the loop
body once (its rect offset by `(ofs_x, ofs_y)` in 16-bit arithmetic) and no
other object changed; and whenever the run ends in the failed assertion, the
loop body has already run on at least `SGL_OBJ_DEPTH_MAX - 1` objects. -/
theorem sgl_obj_move_child_pos_outcome (h : Heap) (obj : Nat) (ofs_x ofs_y : Int) (fuel : Nat) :
    (∀ t : Shape, Represents h (h obj).child t → t.depth < SGL_OBJ_DEPTH_MAX →
      t.size ≤ fuel → t.preorder.Nodup →
      (sgl_obj_move_child_pos_run fuel h obj ofs_x ofs_y).1 = walk_status.returned ∧
      (∀ q ∈ t.preorder,
        (sgl_obj_move_child_pos_run fuel h obj ofs_x ofs_y).2 q = shift_obj ofs_x ofs_y (h q)) ∧
      (∀ q, q ∉ t.preorder →
        (sgl_obj_move_child_pos_run fuel h obj ofs_x ofs_y).2 q = h q)) ∧
    ((sgl_obj_move_child_pos_run fuel h obj ofs_x ofs_y).1 = walk_status.assert_failed →
      ∃ vs : List Nat,
        (sgl_obj_move_child_pos_run fuel h obj ofs_x ofs_y).2 = apply_visits ofs_x ofs_y h vs ∧
        SGL_OBJ_DEPTH_MAX - 1 ≤ vs.length) := by
  constructor
  · intro t hrep hdepth hfuel hnd
    cases t with
    | nil =>
      have hn : (h obj).child = none := hrep
      unfold sgl_obj_move_child_pos_run
      rw [hn]
      exact ⟨rfl, fun q hq => absurd hq (List.not_mem_nil q), fun q _ => rfl⟩
    | node p c s =>
      have hp : (h obj).child = some p := hrep.1
      have hv := visit_order_of_shape fuel h [p] [Shape.node p c s]
        ⟨hp ▸ hrep, trivial⟩ ⟨by simpa using hdepth, trivial⟩
        (by simpa [stack_size] using hfuel)
      have hloop := move_child_pos_loop_eq ofs_x ofs_y fuel h [p]
      rw [hv, move_child_pos_loop_eq_run] at hloop
      have hpre : stack_preorder [Shape.node p c s] = (Shape.node p c s).preorder := by
        simp [stack_preorder]
      rw [hpre] at hloop
      unfold sgl_obj_move_child_pos_run
      rw [hp]
      simp only []
      by_cases hst : (move_child_pos_run ofs_x ofs_y fuel h [p]).1 = walk_status.returned
      · rw [if_pos hst] at hloop
        have he : (move_child_pos_run ofs_x ofs_y fuel h [p]).2 =
            apply_visits ofs_x ofs_y h (Shape.node p c s).preorder := by
          simpa using hloop
        obtain ⟨i1, i2⟩ := apply_visits_nodup ofs_x ofs_y _ h hnd
        rw [he]
        exact ⟨hst, i1, i2⟩
      · rw [if_neg hst] at hloop
        exact absurd hloop (by simp)
  · intro hf
    unfold sgl_obj_move_child_pos_run at hf ⊢
    cases hc : (h obj).child with
    | none =>
      rw [hc] at hf
      exact absurd hf (by simp)
    | some c =>
      rw [hc] at hf
      simp only [] at hf ⊢
      obtain ⟨vs, hv, hl⟩ := move_child_pos_run_failed ofs_x ofs_y fuel h [c] hf
      refine ⟨vs, hv, ?_⟩
      simp only [List.length_cons, List.length_nil] at hl
      omega

theorem sgl_obj_move_child_pos_outcome_witness :
    ((sgl_obj_move_child_pos_run 3 small_tree 0 5 7).1 = walk_status.returned ∧
      (∀ q ∈ [1, 3, 2],
        (sgl_obj_move_child_pos_run 3 small_tree 0 5 7).2 q = shift_obj 5 7 (small_tree q)) ∧
      (∀ q, q ∉ [1, 3, 2] →
        (sgl_obj_move_child_pos_run 3 small_tree 0 5 7).2 q = small_tree q)) ∧
    (∃ vs : List Nat,
      (sgl_obj_move_child_pos_run 40 comb_heap 0 1 1).2 = apply_visits 1 1 comb_heap vs ∧
      SGL_OBJ_DEPTH_MAX - 1 ≤ vs.length) :=
  ⟨(sgl_obj_move_child_pos_outcome small_tree 0 5 7 3).1
      (Shape.node 1 (Shape.node 3 Shape.nil Shape.nil) (Shape.node 2 Shape.nil Shape.nil))
      (by decide) (by decide) (by decide) (by decide),
    (sgl_obj_move_child_pos_outcome comb_heap 0 1 1 40).2 (by decide)⟩

/-! ### The dirty walk and the draw pass on scenes -/

/-- C15: in `hidden_scene` the hidden child 1 is flagged destroyed by
`sgl_obj_delete`; the run of `sgl_dirty_area_calculate` that follows returns
`false`, leaves the dirty accumulator empty and leaves the object 1 in the
child list of its parent. -/
theorem sgl_dirty_area_calculate_skips_hidden_destroyed :
    ((sgl_obj_delete hidden_scene 1) 1).destroyed = true ∧
    (sgl_dirty_area_calculate 8 8 (sgl_obj_delete hidden_scene 1)
      (sgl_area_init 32767 (-32768)) [] 0).1 = walk_status.returned ∧
    (sgl_dirty_area_calculate 8 8 (sgl_obj_delete hidden_scene 1)
      (sgl_area_init 32767 (-32768)) [] 0).2.changed = false ∧
    (sgl_dirty_area_calculate 8 8 (sgl_obj_delete hidden_scene 1)
      (sgl_area_init 32767 (-32768)) [] 0).2.dirty = sgl_area_init 32767 (-32768) ∧
    sgl_obj_children (sgl_dirty_area_calculate 8 8 (sgl_obj_delete hidden_scene 1)
      (sgl_area_init 32767 (-32768)) [] 0).2.heap 8 0 = some [1, 2] ∧
    (sgl_dirty_area_calculate 8 8 (sgl_obj_delete hidden_scene 1)
      (sgl_area_init 32767 (-32768)) [] 0).2.freed = [] := by
  decide

/-- C18: in the draw pass of `overhang_scene` the draw callback of the object
2 is called with the dirty rect `(0, 0, 3, 3)` as its area, while the
intersection of the rect of its parent with the dirty rect is
`(0, 0, 3, 0)`. -/
theorem draw_obj_slice_area_is_dirty_rect :
    (sgl_task_handle_sync overhang_construct 32767 (-32768) 8 8 8
      (sgl_system.start overhang_scene 4 4 16)).1 = walk_status.returned ∧
    (sgl_task_handle_sync overhang_construct 32767 (-32768) 8 8 8
      (sgl_system.start overhang_scene 4 4 16)).2.draw.calls =
      [{ obj := 0, slice := ⟨0, 0, 3, 3⟩, area := ⟨0, 0, 3, 3⟩ },
       { obj := 1, slice := ⟨0, 0, 3, 3⟩, area := ⟨0, 0, 3, 3⟩ },
       { obj := 2, slice := ⟨0, 0, 3, 3⟩, area := ⟨0, 0, 3, 3⟩ }] ∧
    (overhang_scene 2).parent = some 1 ∧
    sgl_area_clip (overhang_scene 1).coords ⟨0, 0, 3, 3⟩ ⟨0, 0, 0, 0⟩ = (true, ⟨0, 0, 3, 0⟩) := by
  decide

/-- C19: for `overhang_scene`, whose dirty rect is 4 pixels wide, the pixel
handed to the flush for the coordinate `(1, 2)` is 2 with a buffer of 16
pixels (one slice) and 7 with a buffer of 4 pixels (four slices). -/
theorem sgl_draw_task_output_depends_on_capacity :
    (sgl_task_handle_sync overhang_construct 32767 (-32768) 8 8 8
      (sgl_system.start overhang_scene 4 4 16)).1 = walk_status.returned ∧
    flushed_pixel (sgl_task_handle_sync overhang_construct 32767 (-32768) 8 8 8
      (sgl_system.start overhang_scene 4 4 16)).2.draw.flushes 1 2 = some 2 ∧
    (sgl_task_handle_sync overhang_construct 32767 (-32768) 8 8 8
      (sgl_system.start overhang_scene 4 4 4)).1 = walk_status.returned ∧
    flushed_pixel (sgl_task_handle_sync overhang_construct 32767 (-32768) 8 8 8
      (sgl_system.start overhang_scene 4 4 4)).2.draw.flushes 1 2 = some 7 := by
  decide!

/-- C20: in `offscreen_scene` the accumulated dirty rect `(10, 10, 11, 11)`
does not intersect the rect of the root; the task handler ends in the failed
assertion of `sgl_draw_task`. -/
theorem sgl_draw_task_asserts_on_offscreen_dirty :
    (sgl_dirty_area_calculate 8 8 offscreen_scene (sgl_area_init 32767 (-32768)) [] 0).2.dirty =
      ⟨10, 10, 11, 11⟩ ∧
    (sgl_area_selfclip ⟨10, 10, 11, 11⟩ (offscreen_scene 0).coords).1 = false ∧
    (sgl_task_handle_sync overhang_construct 32767 (-32768) 8 8 8
      (sgl_system.start offscreen_scene 4 4 16)).1 = walk_status.assert_failed := by
  decide

/-! ### The dirty walk on a tree -/

theorem lseg_append (h : Heap) (l : List Nat) (x : Nat) :
    ∀ (ptr last : Option Nat),
      lseg h ptr (l ++ [x]) last ↔ (lseg h ptr l (some x) ∧ (h x).sibling = last) := by
  induction l with
  | nil =>
    intro ptr last
    exact Iff.rfl
  | cons q l ih =>
    intro ptr last
    show (ptr = some q ∧ lseg h (h q).sibling (l ++ [x]) last) ↔
      ((ptr = some q ∧ lseg h (h q).sibling l (some x)) ∧ (h x).sibling = last)
    rw [ih]
    constructor
    · rintro ⟨h1, h2, h3⟩; exact ⟨⟨h1, h2⟩, h3⟩
    · rintro ⟨⟨h1, h2⟩, h3⟩; exact ⟨h1, h2, h3⟩

theorem lseg_congr {h g : Heap} (l : List Nat) :
    ∀ (ptr last : Option Nat), (∀ q ∈ l, (g q).sibling = (h q).sibling) →
      lseg h ptr l last → lseg g ptr l last := by
  induction l with
  | nil => intro ptr last _ hl; exact hl
  | cons q l ih =>
    intro ptr last hq hl
    refine ⟨hl.1, ?_⟩
    rw [hq q (List.mem_cons_self _ _)]
    exact ih _ _ (fun r hr => hq r (List.mem_cons_of_mem _ hr)) hl.2

theorem Represents_local {h g : Heap} (t : Shape) :
    ∀ ptr : Option Nat,
      (∀ q ∈ t.preorder, (g q).child = (h q).child ∧ (g q).sibling = (h q).sibling) →
      Represents h ptr t → Represents g ptr t := by
  induction t with
  | nil => intro ptr _ hr; exact hr
  | node p c s ihc ihs =>
    intro ptr hl hr
    obtain ⟨h1, h2, h3⟩ := hr
    have hp := hl p (by simp [Shape.preorder])
    refine ⟨h1, ?_, ?_⟩
    · rw [hp.1]
      exact ihc _ (fun q hq => hl q (by simp [Shape.preorder, hq])) h2
    · rw [hp.2]
      exact ihs _ (fun q hq => hl q (by simp [Shape.preorder, hq])) h3

/-- A run of the loop of `sgl_obj_free` frees the objects the traversal
visits. -/
theorem free_loop_of_visit (h : Heap) (fuel : Nat) :
    ∀ (stack vs freed : List Nat), visit_order fuel h stack = some vs →
      free_loop h fuel stack freed = (walk_status.returned, freed ++ vs) := by
  induction fuel with
  | zero =>
    intro stack vs freed hv
    cases stack with
    | nil =>
      simp only [visit_order, Option.some.injEq] at hv
      subst hv
      simp [free_loop]
    | cons p st => simp [visit_order] at hv
  | succ n ih =>
    intro stack vs freed hv
    cases stack with
    | nil =>
      simp only [visit_order, Option.some.injEq] at hv
      subst hv
      simp [free_loop]
    | cons p st =>
      simp only [visit_order] at hv
      by_cases hlen : (p :: st).length < SGL_OBJ_DEPTH_MAX
      · rw [if_pos hlen] at hv
        cases hrec : visit_order n h (push_ptr (h p).child (push_ptr (h p).sibling st)) with
        | none => rw [hrec] at hv; simp at hv
        | some ws =>
          rw [hrec] at hv
          simp only [Option.map_some', Option.some.injEq] at hv
          subst hv
          simp only [free_loop]
          rw [if_pos hlen, ih _ _ _ hrec]
          simp
      · rw [if_neg hlen] at hv
        simp at hv

/-- The search of `sgl_obj_remove` ends at the object whose sibling is `obj`,
when the chain to it does not hold `obj`. -/
theorem remove_find_lseg (h : Heap) (obj x : Nat) (hx : (h x).sibling = some obj) :
    ∀ (l : List Nat) (first fuel : Nat), lseg h (some first) l (some x) →
      obj ∉ l → obj ≠ x → l.length < fuel → remove_find h obj fuel first = some x := by
  intro l
  induction l with
  | nil =>
    intro first fuel hl _ _ hf
    have : first = x := Option.some.inj hl
    subst this
    cases fuel with
    | zero => omega
    | succ n => simp [remove_find, hx]
  | cons q l ih =>
    intro first fuel hl hn hne hf
    obtain ⟨h1, h2⟩ := hl
    have hq : first = q := Option.some.inj h1
    subst hq
    cases fuel with
    | zero => simp at hf
    | succ n =>
      have hsib : ∃ y, (h first).sibling = some y ∧ y ≠ obj := by
        cases l with
        | nil => exact ⟨x, h2, fun e => hne e.symm⟩
        | cons r l => exact ⟨r, h2.1, fun e => hn (by simp [e])⟩
      obtain ⟨y, hy, hyo⟩ := hsib
      simp only [remove_find, hy]
      rw [if_neg (fun e => hyo (Option.some.inj e))]
      rw [hy] at h2
      exact ih y n h2 (fun e => hn (List.mem_cons_of_mem _ e)) hne (by simpa using hf)

/-- The function `sgl_obj_remove` on an object `p` that the chain of the
children of its parent `P` reaches through the objects of `l`: the chain
then continues at the former sibling of `p`. -/
theorem sgl_obj_remove_spec (h : Heap) (P p : Nat) (l : List Nat) (n : Nat)
    (hpar : (h p).parent = some P) (hseg : lseg h (h P).child l (some p))
    (hpl : p ∉ l) (hPl : P ∉ l) (hPp : P ≠ p) (hnd : l.Nodup) (hn : l.length ≤ n) :
    ∃ h1 : Heap, sgl_obj_remove n h p = some h1 ∧
      lseg h1 (h1 P).child l (h p).sibling ∧
      (h1 p).sibling = none ∧ (h1 p).child = (h p).child ∧
      (∀ q, q ≠ p → q ≠ P → q ∉ l → h1 q = h q) ∧
      frame_parent (h P) (h1 P) ∧
      (∀ q ∈ l, frame_sibling (h q) (h1 q)) := by
  rcases List.eq_nil_or_concat l with hnil | ⟨l0, x, hl⟩
  · subst hnil
    have hc : (h P).child = some p := hseg
    refine ⟨(h.set P { h P with child := (h p).sibling }).set p
      { (h.set P { h P with child := (h p).sibling }) p with sibling := none }, ?_, ?_, ?_, ?_, ?_, ?_, ?_⟩
    · unfold sgl_obj_remove
      rw [hpar]
      simp only [hc, ne_eq, not_true_eq_false, if_false]
    · show _ = _
      rw [Heap.set_other _ _ hPp, Heap.set_same]
    · rw [Heap.set_same]
    · rw [Heap.set_same, Heap.set_other _ _ (Ne.symm hPp)]
    · intro q hqp hqP _
      rw [Heap.set_other _ _ hqp, Heap.set_other _ _ hqP]
    · rw [Heap.set_other _ _ hPp, Heap.set_same]
      exact ⟨rfl, rfl, rfl, rfl⟩
    · intro q hq
      exact absurd hq (List.not_mem_nil q)
  · rw [List.concat_eq_append] at hl
    subst hl
    obtain ⟨hs0, hx⟩ := (lseg_append h l0 x _ _).mp hseg
    have hxp : x ≠ p := fun e => hpl (by simp [e])
    have hxP : x ≠ P := fun e => hPl (by simp [e])
    have hpl0 : p ∉ l0 := fun e => hpl (by simp [e])
    obtain ⟨first, hfirst, hfp⟩ : ∃ first, (h P).child = some first ∧ first ≠ p := by
      cases l0 with
      | nil => exact ⟨x, hs0, hxp⟩
      | cons q r => exact ⟨q, hs0.1, fun e => hpl (by simp [e])⟩
    have hfind : remove_find h p n first = some x := by
      rw [hfirst] at hs0
      refine remove_find_lseg h p x hx l0 first n hs0 hpl0 (Ne.symm hxp) ?_
      simp only [List.length_append, List.length_singleton] at hn
      omega
    refine ⟨(h.set x { h x with sibling := (h p).sibling }).set p
      { (h.set x { h x with sibling := (h p).sibling }) p with sibling := none }, ?_, ?_, ?_, ?_, ?_, ?_, ?_⟩
    · unfold sgl_obj_remove
      rw [hpar]
      simp only [hfirst, ne_eq, Option.some.injEq, hfp, not_false_eq_true, if_true, hfind]
    · rw [Heap.set_other _ _ hPp, Heap.set_other _ _ (Ne.symm hxP)]
      rw [lseg_append]
      constructor
      · refine lseg_congr l0 _ _ (fun q hq => ?_) hs0
        have hqx : q ≠ x := by
          intro e
          subst e
          have := List.nodup_append.mp hnd
          exact this.2.2 hq (by simp) 
        have hqp : q ≠ p := fun e => hpl0 (e ▸ hq)
        rw [Heap.set_other _ _ hqp, Heap.set_other _ _ hqx]
      · rw [Heap.set_other _ _ hxp, Heap.set_same]
    · rw [Heap.set_same]
    · rw [Heap.set_same, Heap.set_other _ _ (Ne.symm hxp)]
    · intro q hqp _ hql
      have hqx : q ≠ x := fun e => hql (by simp [e])
      rw [Heap.set_other _ _ hqp, Heap.set_other _ _ hqx]
    · rw [Heap.set_other _ _ hPp, Heap.set_other _ _ (Ne.symm hxP)]
      exact ⟨rfl, rfl, rfl, rfl⟩
    · intro q hq
      have hqp : q ≠ p := fun e => hpl (e ▸ hq)
      rw [Heap.set_other _ _ hqp]
      by_cases hqx : q = x
      · subst hqx
        rw [Heap.set_same]
        exact ⟨rfl, rfl, rfl⟩
      · rw [Heap.set_other _ _ hqx]
        exact ⟨rfl, rfl, rfl⟩

theorem frame_parent_trans {a b c : sgl_obj} (h1 : frame_parent a b) (h2 : frame_parent b c) :
    frame_parent a c :=
  ⟨h2.1.trans h1.1, h2.2.1.trans h1.2.1, h2.2.2.1.trans h1.2.2.1, h2.2.2.2.trans h1.2.2.2⟩

theorem frame_sibling_trans {a b c : sgl_obj} (h1 : frame_sibling a b)
    (h2 : frame_sibling b c) : frame_sibling a c :=
  ⟨h2.1.trans h1.1, h2.2.1.trans h1.2.1, h2.2.2.trans h1.2.2⟩

theorem Pruned_congr (h : Heap) {g g' : Heap} (t : Shape) :
    ∀ ptr : Option Nat, (∀ q ∈ t.preorder, g' q = g q) → Pruned h g ptr t →
      Pruned h g' ptr t := by
  induction t with
  | nil => intro ptr _ hp; exact hp
  | node p c s ihc ihs =>
    intro ptr hq hp
    have hpp : g' p = g p := hq p (by simp [Shape.preorder])
    have hqc : ∀ q ∈ c.preorder, g' q = g q := fun q hm => hq q (by simp [Shape.preorder, hm])
    have hqs : ∀ q ∈ s.preorder, g' q = g q := fun q hm => hq q (by simp [Shape.preorder, hm])
    simp only [Pruned] at hp ⊢
    rw [hpp]
    rcases hp with ⟨a1, a2, a3, a4, a5, a6⟩ | ⟨a1, a2, a3⟩ | ⟨a1, a2, a3, a4, a5, a6, a7⟩
    · exact Or.inl ⟨a1, a2, a3, a4, fun q hm => (hqc q hm).trans (a5 q hm), ihs _ hqs a6⟩
    · exact Or.inr (Or.inl ⟨a1, a2, ihs _ hqs a3⟩)
    · exact Or.inr (Or.inr ⟨a1, a2, a3, a4, a5, ihc _ hqc a6, ihs _ hqs a7⟩)

theorem Pruned_node (h g : Heap) (ptr : Option Nat) (p : Nat) (c s : Shape) :
    Pruned h g ptr (Shape.node p c s) ↔
    (((h p).hide = true ∧ ptr = some p ∧ (g p).hide = true ∧ (g p).child = (h p).child ∧
      (∀ q ∈ c.preorder, g q = h q) ∧ Pruned h g (g p).sibling s) ∨
    ((h p).hide = false ∧ (h p).destroyed = true ∧ Pruned h g ptr s) ∨
    ((h p).hide = false ∧ (h p).destroyed = false ∧ ptr = some p ∧ (g p).hide = false ∧
      (g p).dirty = false ∧ Pruned h g (g p).child c ∧ Pruned h g (g p).sibling s)) :=
  Iff.rfl

theorem walk_step_hidden (n fuel : Nat) (s : walk_state) (p : Nat) (st : List Nat)
    (ha : (p :: st).length < SGL_OBJ_DEPTH_MAX) (hh : (s.heap p).hide = true) :
    dirty_area_calculate_loop n (fuel + 1) s (p :: st) =
      dirty_area_calculate_loop n fuel s (push_ptr (s.heap p).sibling st) := by
  simp only [dirty_area_calculate_loop]
  rw [if_pos ha, if_pos hh]

theorem walk_step_destroyed (n fuel : Nat) (s : walk_state) (p : Nat) (st : List Nat)
    (ha : (p :: st).length < SGL_OBJ_DEPTH_MAX) (hh : (s.heap p).hide = false)
    (hd : (s.heap p).destroyed = true) (h1 : Heap) (hr : sgl_obj_remove n s.heap p = some h1)
    (fr : List Nat) (hf : sgl_obj_free n h1 p s.freed = (walk_status.returned, fr)) :
    dirty_area_calculate_loop n (fuel + 1) s (p :: st) =
      dirty_area_calculate_loop n fuel
        { heap := h1
          dirty := sgl_dirty_area_push s.dirty (s.heap p).coords
          changed := true
          freed := fr }
        (push_ptr (s.heap p).sibling st) := by
  simp only [dirty_area_calculate_loop]
  rw [if_pos ha, if_neg (by simp [hh]), if_pos hd]
  simp only [hr, hf, if_true]

theorem walk_step_dirty (n fuel : Nat) (s : walk_state) (p : Nat) (st : List Nat)
    (ha : (p :: st).length < SGL_OBJ_DEPTH_MAX) (hh : (s.heap p).hide = false)
    (hd : (s.heap p).destroyed = false) (hdirty : (s.heap p).dirty = true) :
    dirty_area_calculate_loop n (fuel + 1) s (p :: st) =
      dirty_area_calculate_loop n fuel
        { heap := s.heap.set p { s.heap p with dirty := false }
          dirty := sgl_dirty_area_push s.dirty (s.heap p).coords
          changed := true
          freed := s.freed }
        (push_ptr (s.heap p).child (push_ptr (s.heap p).sibling st)) := by
  simp only [dirty_area_calculate_loop]
  rw [if_pos ha, if_neg (by simp [hh]), if_neg (by simp [hd]), if_pos hdirty]

theorem walk_step_clean (n fuel : Nat) (s : walk_state) (p : Nat) (st : List Nat)
    (ha : (p :: st).length < SGL_OBJ_DEPTH_MAX) (hh : (s.heap p).hide = false)
    (hd : (s.heap p).destroyed = false) (hdirty : (s.heap p).dirty = false) :
    dirty_area_calculate_loop n (fuel + 1) s (p :: st) =
      dirty_area_calculate_loop n fuel s
        (push_ptr (s.heap p).child (push_ptr (s.heap p).sibling st)) := by
  simp only [dirty_area_calculate_loop]
  rw [if_pos ha, if_neg (by simp [hh]), if_neg (by simp [hd]), if_neg (by simp [hdirty])]

theorem push_ptr_length_le (ptr : Option Nat) (st : List Nat) :
    (push_ptr ptr st).length ≤ st.length + 1 := by
  cases ptr <;> simp [push_ptr]

/-- The dirty walk on a forest: with the forest on top of the stack the loop
comes, after one iteration per visited object, to the rest of the stack, in a
state that the flags of the forest determine. `P` is the parent of the forest
and `l` the earlier siblings that are still in the child list of `P`. -/
theorem walk_forest (n : Nat) (h0 : Heap) (t : Shape) :
    ∀ (P : Nat) (l : List Nat) (ptr : Option Nat) (st : List Nat) (s : walk_state),
      Represents h0 ptr t → Parents h0 P t →
      (∀ q ∈ t.preorder, s.heap q = h0 q) →
      t.preorder.Nodup → P ∉ t.preorder → (∀ q ∈ l, q ∉ t.preorder) → P ∉ l → l.Nodup →
      lseg s.heap (s.heap P).child l ptr →
      (t ≠ Shape.nil → st.length + t.depth < SGL_OBJ_DEPTH_MAX) →
      l.length + t.size ≤ n →
      ∃ (k : Nat) (s' : walk_state) (ptr' : Option Nat),
        k ≤ t.size ∧
        (∀ fuel, dirty_area_calculate_loop n (fuel + k) s (push_ptr ptr st) =
          dirty_area_calculate_loop n fuel s' st) ∧
        s'.changed = (s.changed || any_flagged h0 t) ∧
        s'.dirty = (pushed h0 t).foldl sgl_dirty_area_push s.dirty ∧
        lseg s'.heap (s'.heap P).child l ptr' ∧ Pruned h0 s'.heap ptr' t ∧
        (∀ q, q ∉ t.preorder → q ≠ P → q ∉ l → s'.heap q = s.heap q) ∧
        frame_parent (s.heap P) (s'.heap P) ∧
        (∀ q ∈ l, frame_sibling (s.heap q) (s'.heap q)) := by
  induction t with
  | nil =>
    intro P l ptr st s hrep _ _ _ _ _ _ _ hseg _ _
    have hn : ptr = none := hrep
    subst hn
    exact ⟨0, s, none, le_refl _, fun _ => rfl, by simp [any_flagged], by simp [pushed], hseg,
      rfl, fun _ _ _ _ => rfl, ⟨rfl, rfl, rfl, rfl⟩, fun _ _ => ⟨rfl, rfl, rfl⟩⟩
  | node p c sb ihc ihs =>
    intro P l ptr st s hrep hpar hun hnd hP hl hPl hlnd hseg hdepth hn
    obtain ⟨hptr, hrc, hrs⟩ := hrep
    subst hptr
    obtain ⟨hpp, hparc, hpars⟩ := hpar
    have hpre : (Shape.node p c sb).preorder = p :: (c.preorder ++ sb.preorder) := rfl
    rw [hpre] at hnd hun hP hl
    have hnd1 := List.nodup_cons.mp hnd
    have hnd2 := List.nodup_append.mp hnd1.2
    have hpc : p ∉ c.preorder := fun e => hnd1.1 (List.mem_append_left _ e)
    have hps : p ∉ sb.preorder := fun e => hnd1.1 (List.mem_append_right _ e)
    have hcs : ∀ q ∈ c.preorder, q ∉ sb.preorder := fun q hq hq' => hnd2.2.2 hq hq'
    have hPp : P ≠ p := fun e => hP (by simp [e])
    have hPc : P ∉ c.preorder := fun e => hP (by simp [e])
    have hPs : P ∉ sb.preorder := fun e => hP (by simp [e])
    have hlp : p ∉ l := fun e => hl p e (by simp)
    have hlc : ∀ q ∈ l, q ∉ c.preorder := fun q hq e => hl q hq (by simp [e])
    have hls : ∀ q ∈ l, q ∉ sb.preorder := fun q hq e => hl q hq (by simp [e])
    have hsp : s.heap p = h0 p := hun p (by simp)
    have hunc : ∀ q ∈ c.preorder, s.heap q = h0 q := fun q hq => hun q (by simp [hq])
    have huns : ∀ q ∈ sb.preorder, s.heap q = h0 q := fun q hq => hun q (by simp [hq])
    have hdep : st.length + max (c.depth + 1) sb.depth < SGL_OBJ_DEPTH_MAX :=
      hdepth (fun e => Shape.noConfusion e)
    have hassert : (p :: st).length < SGL_OBJ_DEPTH_MAX := by
      simp only [List.length_cons]
      have : 1 ≤ max (c.depth + 1) sb.depth := le_max_of_le_left (by omega)
      omega
    have hsize : l.length + (1 + c.size + sb.size) ≤ n := hn
    have hdeps : sb ≠ Shape.nil → st.length + sb.depth < SGL_OBJ_DEPTH_MAX := by
      intro _
      have : sb.depth ≤ max (c.depth + 1) sb.depth := le_max_right _ _
      omega
    have hlpnd : (l ++ [p]).Nodup := by
      rw [List.nodup_append]
      exact ⟨hlnd, by simp, by
        intro a ha hb
        simp only [List.mem_singleton] at hb
        subst hb
        exact hlp ha⟩
    have hPlp : P ∉ l ++ [p] := by
      simp only [List.mem_append, List.mem_singleton, not_or]
      exact ⟨hPl, hPp⟩
    have hlps : ∀ q ∈ l ++ [p], q ∉ sb.preorder := by
      intro q hq
      simp only [List.mem_append, List.mem_singleton] at hq
      rcases hq with hq | hq
      · exact hls q hq
      · subst hq; exact hps
    simp only [push_ptr]
    by_cases hh : (h0 p).hide = true
    · ----- hidden object: the walk goes on with the siblings
      have hsegs : lseg s.heap (s.heap P).child (l ++ [p]) (h0 p).sibling :=
        (lseg_append _ _ _ _ _).mpr ⟨hseg, by rw [hsp]⟩
      obtain ⟨k, s', ptr', hk, hrun, hch, hdi, hseg', hpr, hfr, hfP, hfl⟩ :=
        ihs P (l ++ [p]) (h0 p).sibling st s hrs hpars huns hnd2.2.1 hPs hlps hPlp hlpnd hsegs
          hdeps (by simp only [List.length_append, List.length_singleton]; omega)
      obtain ⟨hseg1, hsib1⟩ := (lseg_append _ _ _ _ _).mp hseg'
      have hfp := hfl p (by simp)
      refine ⟨k + 1, s', some p, by simp only [Shape.size]; omega, ?_, ?_, ?_, hseg1, ?_, ?_,
        hfP, fun q hq => hfl q (by simp [hq])⟩
      · intro fuel
        rw [← Nat.add_assoc, walk_step_hidden n _ s p st hassert (by rw [hsp]; exact hh), hsp]
        exact hrun fuel
      · rw [hch]
        simp [any_flagged, hh]
      · rw [hdi]
        simp [pushed, hh]
      · rw [Pruned_node]
        refine Or.inl ⟨hh, rfl, ?_, ?_, ?_, ?_⟩
        · rw [hfp.2.2, hsp]; exact hh
        · rw [hfp.1, hsp]
        · intro q hq
          rw [hfr q (hcs q hq) (fun e => hPc (e ▸ hq)) (by
            simp only [List.mem_append, List.mem_singleton, not_or]
            exact ⟨fun e => hlc q e hq, fun e => hpc (e ▸ hq)⟩)]
          exact hunc q hq
        · rw [hsib1]; exact hpr
      · intro q hq hqP hql
        simp only [Shape.preorder, List.mem_cons, List.mem_append, not_or] at hq
        exact hfr q hq.2.2 hqP (by
          simp only [List.mem_append, List.mem_singleton, not_or]
          exact ⟨hql, hq.1⟩)
    · have hh' : (h0 p).hide = false := by simpa using hh
      by_cases hd : (h0 p).destroyed = true
      · ----- destroyed object: unlinked and freed, the walk goes on with the siblings
        obtain ⟨h1, hrem, hseg1, hsib1, hchild1, hfr1, hfP1, hfl1⟩ :=
          sgl_obj_remove_spec s.heap P p l n (by rw [hsp]; exact hpp) hseg hlp hPl hPp hlnd
            (by omega)
        have h1c : ∀ q ∈ c.preorder, h1 q = h0 q := fun q hq => by
          rw [hfr1 q (fun e => hpc (e ▸ hq)) (fun e => hPc (e ▸ hq)) (fun e => hlc q e hq)]
          exact hunc q hq
        have h1s : ∀ q ∈ sb.preorder, h1 q = h0 q := fun q hq => by
          rw [hfr1 q (fun e => hps (e ▸ hq)) (fun e => hPs (e ▸ hq)) (fun e => hls q e hq)]
          exact huns q hq
        have hrepc : Represents h1 (h1 p).child c := by
          rw [hchild1, hsp]
          exact Represents_local c _ (fun q hq => by rw [h1c q hq]; exact ⟨rfl, rfl⟩) hrc
        have hvis := visit_order_of_shape n h1 [p] [Shape.node p c Shape.nil]
          ⟨⟨rfl, hrepc, hsib1⟩, trivial⟩
          ⟨by
            simp only [List.length_nil, Shape.depth, Nat.zero_add]
            have : c.depth + 1 ≤ max (c.depth + 1) sb.depth := le_max_left _ _
            have : max (c.depth + 1) 0 = c.depth + 1 := by simp
            omega, trivial⟩
          (by simp only [stack_size, Shape.size]; omega)
        have hfree := free_loop_of_visit h1 n [p] _ s.freed hvis
        have hseg1' : lseg h1 (h1 P).child l (h0 p).sibling := by rw [← hsp]; exact hseg1
        obtain ⟨k, s', ptr', hk, hrun, hch, hdi, hseg', hpr, hfr, hfP, hfl⟩ :=
          ihs P l (h0 p).sibling st
            { heap := h1
              dirty := sgl_dirty_area_push s.dirty (s.heap p).coords
              changed := true
              freed := s.freed ++ stack_preorder [Shape.node p c Shape.nil] }
            hrs hpars h1s hnd2.2.1 hPs hls hPl hlnd hseg1' hdeps (by omega)
        refine ⟨k + 1, s', ptr', by simp only [Shape.size]; omega, ?_, ?_, ?_, hseg', ?_, ?_,
          frame_parent_trans hfP1 hfP, fun q hq => frame_sibling_trans (hfl1 q hq) (hfl q hq)⟩
        · intro fuel
          rw [← Nat.add_assoc, walk_step_destroyed n _ s p st hassert (by rw [hsp]; exact hh')
            (by rw [hsp]; exact hd) h1 hrem _ hfree, hsp]
          rw [hsp] at hrun
          exact hrun fuel
        · rw [hch]
          simp [any_flagged, hh', hd]
        · rw [hdi, hsp]
          simp [pushed, hh', hd]
        · rw [Pruned_node]
          exact Or.inr (Or.inl ⟨hh', hd, hpr⟩)
        · intro q hq hqP hql
          simp only [Shape.preorder, List.mem_cons, List.mem_append, not_or] at hq
          rw [hfr q hq.2.2 hqP hql]
          exact hfr1 q hq.1 hqP hql
      · have hd' : (h0 p).destroyed = false := by simpa using hd
        ----- an object that stays: its children, then its siblings
        obtain ⟨s1, b1, b2, b3, b4, b5, b6, b7, b8⟩ : ∃ s1 : walk_state,
            (s1.heap p).dirty = false ∧ (s1.heap p).hide = false ∧
            (s1.heap p).child = (h0 p).child ∧ (s1.heap p).sibling = (h0 p).sibling ∧
            (∀ q, q ≠ p → s1.heap q = s.heap q) ∧
            (∀ fuel, dirty_area_calculate_loop n (fuel + 1) s (p :: st) =
              dirty_area_calculate_loop n fuel s1
                (push_ptr (h0 p).child (push_ptr (h0 p).sibling st))) ∧
            s1.changed = (s.changed || (h0 p).dirty) ∧
            s1.dirty = (if (h0 p).dirty then [(h0 p).coords] else []).foldl
              sgl_dirty_area_push s.dirty := by
          by_cases hdirty : (h0 p).dirty = true
          · refine ⟨{ heap := s.heap.set p { s.heap p with dirty := false }
                      dirty := sgl_dirty_area_push s.dirty (s.heap p).coords
                      changed := true
                      freed := s.freed }, ?_, ?_, ?_, ?_, ?_, ?_, ?_, ?_⟩
            · simp only [Heap.set_same]
            · simp only [Heap.set_same]
              rw [hsp]
              exact hh'
            · simp only [Heap.set_same]
              rw [hsp]
            · simp only [Heap.set_same]
              rw [hsp]
            · intro q hq
              simp only [Heap.set_other _ _ hq]
            · intro fuel
              rw [walk_step_dirty n fuel s p st hassert (by rw [hsp]; exact hh')
                (by rw [hsp]; exact hd') (by rw [hsp]; exact hdirty), hsp]
            · simp [hdirty]
            · simp [hdirty, hsp]
          · have hdirty' : (h0 p).dirty = false := by simpa using hdirty
            refine ⟨s, ?_, ?_, ?_, ?_, ?_, ?_, ?_, ?_⟩
            · rw [hsp]; exact hdirty'
            · rw [hsp]; exact hh'
            · rw [hsp]
            · rw [hsp]
            · intro q _; rfl
            · intro fuel
              rw [walk_step_clean n fuel s p st hassert (by rw [hsp]; exact hh')
                (by rw [hsp]; exact hd') (by rw [hsp]; exact hdirty'), hsp]
            · simp [hdirty']
            · simp [hdirty']
        have hs1c : ∀ q ∈ c.preorder, s1.heap q = h0 q := fun q hq => by
          rw [b5 q (fun e => hpc (e ▸ hq))]; exact hunc q hq
        have hdepc : c ≠ Shape.nil →
            (push_ptr (h0 p).sibling st).length + c.depth < SGL_OBJ_DEPTH_MAX := by
          intro _
          have := push_ptr_length_le (h0 p).sibling st
          have : c.depth + 1 ≤ max (c.depth + 1) sb.depth := le_max_left _ _
          omega
        obtain ⟨kc, s2, ptrc, hkc, hrunc, hchc, hdic, hsegc, hprc, hfrc, hfPc, _⟩ :=
          ihc p [] (h0 p).child (push_ptr (h0 p).sibling st) s1 hrc hparc hs1c hnd2.1 hpc
            (fun q hq => absurd hq (List.not_mem_nil q)) (List.not_mem_nil p) List.nodup_nil
            b3 hdepc (by simp only [List.length_nil]; omega)
        have hchild2 : (s2.heap p).child = ptrc := hsegc
        have hs2s : ∀ q ∈ sb.preorder, s2.heap q = h0 q := fun q hq => by
          rw [hfrc q (fun e => hcs q e hq) (fun e => hps (e ▸ hq)) (List.not_mem_nil q),
            b5 q (fun e => hps (e ▸ hq))]
          exact huns q hq
        have hs2P : s2.heap P = s.heap P := by
          rw [hfrc P hPc hPp (List.not_mem_nil P), b5 P hPp]
        have hs2l : ∀ q ∈ l, s2.heap q = s.heap q := fun q hq => by
          rw [hfrc q (hlc q hq) (fun e => hlp (e ▸ hq)) (List.not_mem_nil q),
            b5 q (fun e => hlp (e ▸ hq))]
        have hsegs : lseg s2.heap (s2.heap P).child (l ++ [p]) (h0 p).sibling := by
          rw [lseg_append]
          refine ⟨?_, ?_⟩
          · rw [hs2P]
            exact lseg_congr l _ _ (fun q hq => by rw [hs2l q hq]) hseg
          · rw [hfPc.1, b4]
        obtain ⟨ks, s3, ptrs, hks, hruns, hchs, hdis, hsegs', hprs, hfrs, hfPs, hfls⟩ :=
          ihs P (l ++ [p]) (h0 p).sibling st s2 hrs hpars hs2s hnd2.2.1 hPs hlps hPlp hlpnd
            hsegs hdeps (by simp only [List.length_append, List.length_singleton]; omega)
        obtain ⟨hseg3, hsib3⟩ := (lseg_append _ _ _ _ _).mp hsegs'
        have hfp3 := hfls p (by simp)
        refine ⟨kc + ks + 1, s3, some p, by simp only [Shape.size]; omega, ?_, ?_, ?_, hseg3,
          ?_, ?_, ?_, ?_⟩
        · intro fuel
          have e : fuel + (kc + ks + 1) = (fuel + ks + kc) + 1 := by omega
          rw [e, b6, hrunc (fuel + ks), hruns fuel]
        · rw [hchs, hchc, b7]
          simp [any_flagged, hh', hd', Bool.or_assoc]
        · rw [hdis, hdic, b8]
          simp [pushed, hh', hd', List.foldl_append]
        · rw [Pruned_node]
          refine Or.inr (Or.inr ⟨hh', hd', rfl, ?_, ?_, ?_, ?_⟩)
          · rw [hfp3.2.2, hfPc.2.2.1, b2]
          · rw [hfp3.2.1, hfPc.2.1, b1]
          · rw [hfp3.1, hchild2]
            refine Pruned_congr h0 c ptrc (fun q hq => ?_) hprc
            exact hfrs q (hcs q hq) (fun e => hPc (e ▸ hq)) (by
              simp only [List.mem_append, List.mem_singleton, not_or]
              exact ⟨fun e => hlc q e hq, fun e => hpc (e ▸ hq)⟩)
          · rw [hsib3]; exact hprs
        · intro q hq hqP hql
          simp only [Shape.preorder, List.mem_cons, List.mem_append, not_or] at hq
          rw [hfrs q hq.2.2 hqP (by
            simp only [List.mem_append, List.mem_singleton, not_or]
            exact ⟨hql, hq.1⟩),
            hfrc q hq.2.1 hq.1 (List.not_mem_nil q), b5 q hq.1]
        · rw [← hs2P]; exact hfPs
        · intro q hq
          rw [← hs2l q hq]
          exact hfls q (by simp [hq])

/-- On a forest without a flagged visible object the dirty walk changes
nothing. -/
theorem walk_forest_clean (n : Nat) (t : Shape) :
    ∀ (ptr : Option Nat) (st : List Nat) (s : walk_state),
      Represents s.heap ptr t → any_flagged s.heap t = false →
      (t ≠ Shape.nil → st.length + t.depth < SGL_OBJ_DEPTH_MAX) →
      ∃ k, k ≤ t.size ∧ ∀ fuel, dirty_area_calculate_loop n (fuel + k) s (push_ptr ptr st) =
        dirty_area_calculate_loop n fuel s st := by
  induction t with
  | nil =>
    intro ptr st s hrep _ _
    have hn : ptr = none := hrep
    subst hn
    exact ⟨0, le_refl _, fun _ => rfl⟩
  | node p c sb ihc ihs =>
    intro ptr st s hrep hf hdepth
    obtain ⟨hptr, hrc, hrs⟩ := hrep
    subst hptr
    have hdep : st.length + max (c.depth + 1) sb.depth < SGL_OBJ_DEPTH_MAX :=
      hdepth (fun e => Shape.noConfusion e)
    have hassert : (p :: st).length < SGL_OBJ_DEPTH_MAX := by
      simp only [List.length_cons]
      have : 1 ≤ max (c.depth + 1) sb.depth := le_max_of_le_left (by omega)
      omega
    have hdeps : sb ≠ Shape.nil → st.length + sb.depth < SGL_OBJ_DEPTH_MAX := by
      intro _
      have : sb.depth ≤ max (c.depth + 1) sb.depth := le_max_right _ _
      omega
    simp only [any_flagged, Bool.or_eq_false_iff, Bool.and_eq_false_iff,
      Bool.not_eq_false'] at hf
    obtain ⟨hf1, hfs⟩ := hf
    obtain ⟨ks, hks, hruns⟩ := ihs (s.heap p).sibling st s hrs hfs hdeps
    simp only [push_ptr]
    rcases hf1 with hh | ⟨⟨hd, hdirty⟩, hfc⟩
    · refine ⟨ks + 1, by simp only [Shape.size]; omega, fun fuel => ?_⟩
      rw [← Nat.add_assoc, walk_step_hidden n _ s p st hassert hh]
      exact hruns fuel
    · by_cases hh : (s.heap p).hide = true
      · refine ⟨ks + 1, by simp only [Shape.size]; omega, fun fuel => ?_⟩
        rw [← Nat.add_assoc, walk_step_hidden n _ s p st hassert hh]
        exact hruns fuel
      · have hh' : (s.heap p).hide = false := by simpa using hh
        have hdepc : c ≠ Shape.nil →
            (push_ptr (s.heap p).sibling st).length + c.depth < SGL_OBJ_DEPTH_MAX := by
          intro _
          have := push_ptr_length_le (s.heap p).sibling st
          have : c.depth + 1 ≤ max (c.depth + 1) sb.depth := le_max_left _ _
          omega
        obtain ⟨kc, hkc, hrunc⟩ := ihc (s.heap p).child (push_ptr (s.heap p).sibling st) s
          hrc hfc hdepc
        refine ⟨kc + ks + 1, by simp only [Shape.size]; omega, fun fuel => ?_⟩
        have e : fuel + (kc + ks + 1) = (fuel + ks + kc) + 1 := by omega
        rw [e, walk_step_clean n _ s p st hassert hh' hd hdirty, hrunc (fuel + ks), hruns fuel]

/-- The flag `any_flagged` says that a visible object is dirty or destroyed. -/
theorem any_flagged_iff (h : Heap) (t : Shape) :
    any_flagged h t = true ↔
      ∃ q, visible_in h t q ∧ ((h q).dirty = true ∨ (h q).destroyed = true) := by
  induction t with
  | nil => simp [any_flagged, visible_in]
  | node p c s ihc ihs =>
    simp only [any_flagged, Bool.or_eq_true, Bool.and_eq_true, Bool.not_eq_true',
      visible_in, ihc, ihs]
    constructor
    · rintro (⟨hh, (hd | hd) | ⟨q, hq, hf⟩⟩ | ⟨q, hq, hf⟩)
      · exact ⟨p, Or.inl ⟨hh, Or.inl rfl⟩, Or.inr hd⟩
      · exact ⟨p, Or.inl ⟨hh, Or.inl rfl⟩, Or.inl hd⟩
      · exact ⟨q, Or.inl ⟨hh, Or.inr hq⟩, hf⟩
      · exact ⟨q, Or.inr hq, hf⟩
    · rintro ⟨q, (⟨hh, (rfl | hq)⟩ | hq), hf⟩
      · rcases hf with hf | hf
        · exact Or.inl ⟨hh, Or.inl (Or.inr hf)⟩
        · exact Or.inl ⟨hh, Or.inl (Or.inl hf)⟩
      · exact Or.inl ⟨hh, Or.inr ⟨q, hq, hf⟩⟩
      · exact Or.inr ⟨q, hq, hf⟩

theorem dirty_area_calculate_loop_nil (n fuel : Nat) (s : walk_state) :
    dirty_area_calculate_loop n fuel s [] = (walk_status.returned, s) := by
  cases fuel <;> rfl

/-- The dirty walk on a tree returns, and the state it leaves is the one the
flags of the tree determine. -/
theorem walk_tree (h : Heap) (root : Nat) (c : Shape) (hwf : page_tree h root c) (n fuel : Nat)
    (hn : c.size ≤ n) (hfuel : c.size < fuel) (dirty : sgl_area) (freed : List Nat) :
    ∃ s' : walk_state,
      sgl_dirty_area_calculate n fuel h dirty freed root = (walk_status.returned, s') ∧
      s'.changed = any_flagged h (Shape.node root c Shape.nil) ∧
      s'.dirty = (pushed h (Shape.node root c Shape.nil)).foldl sgl_dirty_area_push dirty ∧
      (s'.heap root).coords = (h root).coords ∧
      Pruned h s'.heap (some root) (Shape.node root c Shape.nil) := by
  obtain ⟨hrep, hsib, hpar, hnd, hdepth, hdes⟩ := hwf
  have hnd1 := List.nodup_cons.mp hnd
  obtain ⟨f, hf⟩ : ∃ f, fuel = f + 1 := ⟨fuel - 1, by omega⟩
  subst hf
  have hassert : ([root] : List Nat).length < SGL_OBJ_DEPTH_MAX := by simp [SGL_OBJ_DEPTH_MAX]
  unfold sgl_dirty_area_calculate
  by_cases hh : (h root).hide = true
  · refine ⟨{ heap := h, dirty := dirty, changed := false, freed := freed }, ?_, ?_, ?_, rfl, ?_⟩
    · rw [walk_step_hidden n f _ root [] hassert hh]
      show dirty_area_calculate_loop n f _ (push_ptr (h root).sibling []) = _
      rw [hsib]
      exact dirty_area_calculate_loop_nil n f _
    · simp [any_flagged, hh]
    · simp [pushed, hh]
    · rw [Pruned_node]
      exact Or.inl ⟨hh, rfl, hh, rfl, fun _ _ => rfl, hsib⟩
  · have hh' : (h root).hide = false := by simpa using hh
    obtain ⟨s1, b1, b2, b3, b4, b4c, b5, b6, b7, b8⟩ : ∃ s1 : walk_state,
        (s1.heap root).dirty = false ∧ (s1.heap root).hide = false ∧
        (s1.heap root).child = (h root).child ∧ (s1.heap root).sibling = (h root).sibling ∧
        (s1.heap root).coords = (h root).coords ∧
        (∀ q, q ≠ root → s1.heap q = h q) ∧
        (dirty_area_calculate_loop n (f + 1)
            { heap := h, dirty := dirty, changed := false, freed := freed } [root] =
          dirty_area_calculate_loop n f s1
            (push_ptr (h root).child (push_ptr (h root).sibling []))) ∧
        s1.changed = (h root).dirty ∧
        s1.dirty = (if (h root).dirty then [(h root).coords] else []).foldl
          sgl_dirty_area_push dirty := by
      by_cases hdirty : (h root).dirty = true
      · refine ⟨{ heap := h.set root { h root with dirty := false }
                  dirty := sgl_dirty_area_push dirty (h root).coords
                  changed := true
                  freed := freed }, ?_, ?_, ?_, ?_, ?_, ?_, ?_, ?_, ?_⟩
        · simp only [Heap.set_same]
        · simp only [Heap.set_same]
          exact hh'
        · simp only [Heap.set_same]
        · simp only [Heap.set_same]
        · simp only [Heap.set_same]
        · intro q hq
          simp only [Heap.set_other _ _ hq]
        · exact walk_step_dirty n f _ root [] hassert hh' hdes hdirty
        · simp [hdirty]
        · simp [hdirty]
      · have hdirty' : (h root).dirty = false := by simpa using hdirty
        refine ⟨{ heap := h, dirty := dirty, changed := false, freed := freed },
          hdirty', hh', rfl, rfl, rfl, fun _ _ => rfl, ?_, ?_, ?_⟩
        · exact walk_step_clean n f _ root [] hassert hh' hdes hdirty'
        · simp [hdirty']
        · simp [hdirty']
    have hs1c : ∀ q ∈ c.preorder, s1.heap q = h q := fun q hq =>
      b5 q (fun e => hnd1.1 (e ▸ hq))
    obtain ⟨k, s', ptr', hk, hrun, hch, hdi, hseg, hpr, hfr, hfP, _⟩ :=
      walk_forest n h c root [] (h root).child [] s1 hrep hpar hs1c hnd1.2 hnd1.1
        (fun q hq => absurd hq (List.not_mem_nil q)) (List.not_mem_nil root) List.nodup_nil
        b3 (fun _ => by simp only [List.length_nil]; omega) (by simp only [List.length_nil]; omega)
    have hchild' : (s'.heap root).child = ptr' := hseg
    refine ⟨s', ?_, ?_, ?_, ?_, ?_⟩
    · rw [b6, hsib]
      have e : f = (f - k) + k := by omega
      rw [e]
      show dirty_area_calculate_loop n (f - k + k) s1 (push_ptr (h root).child []) = _
      rw [hrun (f - k)]
      exact dirty_area_calculate_loop_nil n _ _
    · rw [hch, b7]
      simp [any_flagged, hh', hdes]
    · rw [hdi, b8]
      simp [pushed, hh', hdes, List.foldl_append]
    · rw [hfP.2.2.2, b4c]
    · rw [Pruned_node]
      refine Or.inr (Or.inr ⟨hh', hdes, rfl, ?_, ?_, ?_, ?_⟩)
      · rw [hfP.2.2.1, b2]
      · rw [hfP.2.1, b1]
      · rw [hchild']; exact hpr
      · rw [hfP.1, b4, hsib]
        rfl

/-- On a tree without a flagged visible object the dirty walk returns the
state it started from, with `changed` false. -/
theorem walk_tree_clean (h : Heap) (root : Nat) (c : Shape) (hwf : page_tree h root c)
    (hf : any_flagged h (Shape.node root c Shape.nil) = false) (n fuel : Nat)
    (hfuel : c.size < fuel) (dirty : sgl_area) (freed : List Nat) :
    sgl_dirty_area_calculate n fuel h dirty freed root =
      (walk_status.returned,
        { heap := h, dirty := dirty, changed := false, freed := freed }) := by
  obtain ⟨hrep, hsib, hpar, hnd, hdepth, hdes⟩ := hwf
  obtain ⟨f, hf1⟩ : ∃ f, fuel = f + 1 := ⟨fuel - 1, by omega⟩
  subst hf1
  have hassert : ([root] : List Nat).length < SGL_OBJ_DEPTH_MAX := by simp [SGL_OBJ_DEPTH_MAX]
  unfold sgl_dirty_area_calculate
  by_cases hh : (h root).hide = true
  · rw [walk_step_hidden n f _ root [] hassert hh]
    show dirty_area_calculate_loop n f _ (push_ptr (h root).sibling []) = _
    rw [hsib]
    exact dirty_area_calculate_loop_nil n f _
  · have hh1 : (h root).hide = false := by simpa using hh
    simp only [any_flagged, hh1, Bool.not_false, Bool.true_and, Bool.or_false,
      Bool.or_eq_false_iff] at hf
    obtain ⟨⟨_, hdirty⟩, hfc⟩ := hf
    rw [walk_step_clean n f _ root [] hassert hh1 hdes hdirty]
    show dirty_area_calculate_loop n f _
      (push_ptr (h root).child (push_ptr (h root).sibling [])) = _
    rw [hsib]
    obtain ⟨k, hk, hrun⟩ := walk_forest_clean n c (h root).child []
      { heap := h, dirty := dirty, changed := false, freed := freed } hrep hfc
      (fun _ => by simpa using hdepth)
    have e : f = (f - k) + k := by omega
    rw [e]
    show dirty_area_calculate_loop n (f - k + k) _ (push_ptr (h root).child []) = _
    rw [hrun (f - k)]
    exact dirty_area_calculate_loop_nil n _ _

/-- C16: on the tree of a page (every object at depth 15 at most, the root
being at depth 0 and not flagged destroyed) `sgl_dirty_area_calculate`
returns; its result is true exactly when
some object that is neither hidden nor below a hidden object is dirty or
destroyed; and when the result is false the object memory and the dirty
accumulator are unchanged and `sgl_task_handle_sync` returns the system state
it was called in, in particular the same record of draw callback calls and
flushes. -/
theorem sgl_dirty_area_calculate_changed (s : sgl_system) (c : Shape)
    (hwf : page_tree s.heap s.active c) (n fuel : Nat) (hn : c.size ≤ n) (hfuel : c.size < fuel) :
    (sgl_dirty_area_calculate n fuel s.heap s.dirty s.freed s.active).1 =
      walk_status.returned ∧
    ((sgl_dirty_area_calculate n fuel s.heap s.dirty s.freed s.active).2.changed = true ↔
      ∃ q, visible_in s.heap (Shape.node s.active c Shape.nil) q ∧
        ((s.heap q).dirty = true ∨ (s.heap q).destroyed = true)) ∧
    ((sgl_dirty_area_calculate n fuel s.heap s.dirty s.freed s.active).2.changed = false →
      (sgl_dirty_area_calculate n fuel s.heap s.dirty s.freed s.active).2.heap = s.heap ∧
      (sgl_dirty_area_calculate n fuel s.heap s.dirty s.freed s.active).2.dirty = s.dirty ∧
      ∀ (construct : Nat → Option construct_cb) (SGL_POS_MAX SGL_POS_MIN : Int) (rows : Nat),
        sgl_task_handle_sync construct SGL_POS_MAX SGL_POS_MIN n fuel rows s =
          (walk_status.returned, s)) := by
  obtain ⟨s', hrun, hch, _, _, _⟩ := walk_tree s.heap s.active c hwf n fuel hn hfuel s.dirty s.freed
  refine ⟨by rw [hrun], ?_, ?_⟩
  · rw [hrun]
    show s'.changed = true ↔ _
    rw [hch]
    exact any_flagged_iff _ _
  · intro hfalse
    rw [hrun] at hfalse
    have hf : any_flagged s.heap (Shape.node s.active c Shape.nil) = false := by
      rw [← hch]; exact hfalse
    have hclean := walk_tree_clean s.heap s.active c hwf hf n fuel hfuel s.dirty s.freed
    refine ⟨by rw [hclean], by rw [hclean], ?_⟩
    intro construct M m rows
    unfold sgl_task_handle_sync
    simp only [hclean]
    rfl

theorem sgl_dirty_area_calculate_changed_witness :
    (sgl_dirty_area_calculate 8 8 hidden_scene (sgl_area_init 32767 (-32768)) [] 0).1 =
      walk_status.returned ∧
    ((sgl_dirty_area_calculate 8 8 hidden_scene (sgl_area_init 32767 (-32768)) [] 0).2.changed
        = true ↔
      ∃ q, visible_in hidden_scene
          (Shape.node 0 (Shape.node 1 Shape.nil (Shape.node 2 Shape.nil Shape.nil)) Shape.nil) q ∧
        ((hidden_scene q).dirty = true ∨ (hidden_scene q).destroyed = true)) ∧
    ((sgl_dirty_area_calculate 8 8 hidden_scene (sgl_area_init 32767 (-32768)) [] 0).2.heap =
        hidden_scene ∧
      (sgl_dirty_area_calculate 8 8 hidden_scene (sgl_area_init 32767 (-32768)) [] 0).2.dirty =
        sgl_area_init 32767 (-32768) ∧
      ∀ (construct : Nat → Option construct_cb) (SGL_POS_MAX SGL_POS_MIN : Int) (rows : Nat),
        sgl_task_handle_sync construct SGL_POS_MAX SGL_POS_MIN 8 8 rows
            (sgl_system.start hidden_scene 4 4 16) =
          (walk_status.returned, sgl_system.start hidden_scene 4 4 16)) := by
  have t := sgl_dirty_area_calculate_changed (sgl_system.start hidden_scene 4 4 16)
    (Shape.node 1 Shape.nil (Shape.node 2 Shape.nil Shape.nil)) (by decide) 8 8
    (by decide) (by decide)
  exact ⟨t.1, t.2.1, t.2.2 (by decide)⟩

/-- The forest the dirty walk leaves has a shape, within the shape it
started from, in which every visible object is clean. -/
theorem Pruned_shape (h g : Heap) (t : Shape) :
    ∀ (ptr0 ptr : Option Nat), Represents h ptr0 t → Pruned h g ptr t →
      ∃ u : Shape, Represents g ptr u ∧ u.depth ≤ t.depth ∧ u.size ≤ t.size ∧
        (∀ q ∈ u.preorder, q ∈ t.preorder) ∧ all_visible_clean g u := by
  induction t with
  | nil =>
    intro ptr0 ptr _ hp
    exact ⟨Shape.nil, hp, le_refl _, le_refl _, fun _ hq => hq, trivial⟩
  | node p c s ihc ihs =>
    intro ptr0 ptr hrep hp
    obtain ⟨_, hrc, hrs⟩ := hrep
    rw [Pruned_node] at hp
    rcases hp with ⟨a1, a2, a3, a4, a5, a6⟩ | ⟨a1, a2, a3⟩ | ⟨a1, a2, a3, a4, a5, a6, a7⟩
    · obtain ⟨us, r1, r2, r3, r4, r5⟩ := ihs _ _ hrs a6
      refine ⟨Shape.node p c us, ⟨a2, ?_, r1⟩, ?_, ?_, ?_, ⟨Or.inl a3, r5⟩⟩
      · rw [a4]
        exact Represents_local c _ (fun q hq => by rw [a5 q hq]; exact ⟨rfl, rfl⟩) hrc
      · simp only [Shape.depth]
        exact max_le_max (le_refl _) r2
      · simp only [Shape.size]; omega
      · intro q hq
        simp only [Shape.preorder, List.mem_cons, List.mem_append] at hq ⊢
        rcases hq with hq | hq | hq
        · exact Or.inl hq
        · exact Or.inr (Or.inl hq)
        · exact Or.inr (Or.inr (r4 q hq))
    · obtain ⟨us, r1, r2, r3, r4, r5⟩ := ihs _ _ hrs a3
      refine ⟨us, r1, ?_, ?_, ?_, r5⟩
      · simp only [Shape.depth]
        exact le_trans r2 (le_max_right _ _)
      · simp only [Shape.size]; omega
      · intro q hq
        simp only [Shape.preorder, List.mem_cons, List.mem_append]
        exact Or.inr (Or.inr (r4 q hq))
    · obtain ⟨uc, c1, c2, c3, c4, c5⟩ := ihc _ _ hrc a6
      obtain ⟨us, r1, r2, r3, r4, r5⟩ := ihs _ _ hrs a7
      refine ⟨Shape.node p uc us, ⟨a3, c1, r1⟩, ?_, ?_, ?_, ⟨Or.inr ⟨a5, c5⟩, r5⟩⟩
      · simp only [Shape.depth]
        exact max_le_max (by omega) r2
      · simp only [Shape.size]; omega
      · intro q hq
        simp only [Shape.preorder, List.mem_cons, List.mem_append] at hq ⊢
        rcases hq with hq | hq | hq
        · exact Or.inl hq
        · exact Or.inr (Or.inl (c4 q hq))
        · exact Or.inr (Or.inr (r4 q hq))

/-- Every rect the dirty walk unions into the accumulator is the rect of an
object of the forest. -/
theorem pushed_mem (h : Heap) (t : Shape) :
    ∀ r ∈ pushed h t, ∃ q ∈ t.preorder, r = (h q).coords := by
  induction t with
  | nil => intro r hr; simp [pushed] at hr
  | node p c s ihc ihs =>
    intro r hr
    simp only [pushed, List.mem_append] at hr
    simp only [Shape.preorder, List.mem_cons, List.mem_append]
    rcases hr with hr | hr
    · by_cases hh : (h p).hide = true
      · rw [if_pos hh] at hr
        simp at hr
      · rw [if_neg hh] at hr
        by_cases hd : (h p).destroyed = true
        · rw [if_pos hd] at hr
          simp only [List.mem_singleton] at hr
          exact ⟨p, Or.inl rfl, hr⟩
        · rw [if_neg hd] at hr
          simp only [List.mem_append] at hr
          rcases hr with hr | hr
          · by_cases hdi : (h p).dirty = true
            · rw [if_pos hdi] at hr
              simp only [List.mem_singleton] at hr
              exact ⟨p, Or.inl rfl, hr⟩
            · rw [if_neg hdi] at hr
              simp at hr
          · obtain ⟨q, hq, e⟩ := ihc r hr
            exact ⟨q, Or.inr (Or.inl hq), e⟩
    · obtain ⟨q, hq, e⟩ := ihs r hr
      exact ⟨q, Or.inr (Or.inr hq), e⟩

theorem pushed_ne_nil (h : Heap) (t : Shape) (hf : any_flagged h t = true) :
    pushed h t ≠ [] := by
  induction t with
  | nil => simp [any_flagged] at hf
  | node p c s ihc ihs =>
    simp only [any_flagged, Bool.or_eq_true, Bool.and_eq_true, Bool.not_eq_true'] at hf
    simp only [pushed, ne_eq, List.append_eq_nil]
    rintro ⟨e1, e2⟩
    rcases hf with ⟨hh, hf⟩ | hf
    · rw [if_neg (by simp [hh])] at e1
      rcases hf with (hd | hdi) | hc
      · rw [if_pos hd] at e1
        simp at e1
      · by_cases hd : (h p).destroyed = true
        · rw [if_pos hd] at e1
          simp at e1
        · rw [if_neg hd, if_pos hdi] at e1
          simp at e1
      · by_cases hd : (h p).destroyed = true
        · rw [if_pos hd] at e1
          simp at e1
        · rw [if_neg hd] at e1
          simp only [List.append_eq_nil] at e1
          exact ihc hc e1.2
    · exact ihs hf e2

/-- Unions of rects that lie on the screen keep the accumulator on the
screen, and after one union of well-formed rects it is well-formed. -/
theorem foldl_push_on_screen (xres yres : Int) (rs : List sgl_area) :
    ∀ d : sgl_area, d.on_screen xres yres → (∀ r ∈ rs, r.wf ∧ r.on_screen xres yres) →
      (rs.foldl sgl_dirty_area_push d).on_screen xres yres ∧
      ((d.wf ∨ rs ≠ []) → (rs.foldl sgl_dirty_area_push d).wf) := by
  induction rs with
  | nil =>
    intro d hd _
    exact ⟨hd, fun hw => hw.elim id (fun e => absurd rfl e)⟩
  | cons r rs ih =>
    intro d hd hr
    obtain ⟨⟨rw1, rw2⟩, r1, r2, r3, r4⟩ := hr r (List.mem_cons_self _ _)
    obtain ⟨d1, d2, d3, d4⟩ := hd
    have hs : (sgl_dirty_area_push d r).on_screen xres yres := by
      simp only [sgl_area.on_screen, sgl_dirty_area_push, sgl_area_selfmerge, sgl_min, sgl_max]
      exact ⟨le_min d1 r1, le_min d2 r2, max_lt d3 r3, max_lt d4 r4⟩
    have hw : (sgl_dirty_area_push d r).wf := by
      simp only [sgl_area.wf, sgl_dirty_area_push, sgl_area_selfmerge, sgl_min, sgl_max]
      exact ⟨le_trans (min_le_right _ _) (le_trans rw1 (le_max_right _ _)),
        le_trans (min_le_right _ _) (le_trans rw2 (le_max_right _ _))⟩
    obtain ⟨i1, i2⟩ := ih _ hs (fun q hq => hr q (List.mem_cons_of_mem _ hq))
    exact ⟨i1, fun _ => i2 (Or.inl hw)⟩

theorem stack_rep_length {h : Heap} :
    ∀ (st : List Nat) (ts : List Shape), StackRep h st ts → st.length = ts.length := by
  intro st
  induction st with
  | nil =>
    intro ts hr
    cases ts with
    | nil => rfl
    | cons t ts => exact absurd hr (by simp [StackRep])
  | cons q st ih =>
    intro ts hr
    cases ts with
    | nil => exact absurd hr (by simp [StackRep])
    | cons t ts => simp [ih ts hr.2]

/-- On a stack of forests within the depth bound whose objects all have a draw
callback, the loop of `draw_obj_slice` returns; it changes the content of the
buffer and adds to the record of the calls, nothing else. -/
theorem draw_obj_slice_loop_returns (construct : Nat → Option construct_cb) (h : Heap)
    (area : sgl_area) (fuel : Nat) :
    ∀ (stack : List Nat) (ts : List Shape) (s : draw_state),
      StackRep h stack ts → StackFits ts → stack_size ts ≤ fuel →
      (∀ q ∈ stack_preorder ts, construct q ≠ none) →
      (draw_obj_slice_loop construct h area fuel s stack).1 = walk_status.returned ∧
      same_geometry s.surf (draw_obj_slice_loop construct h area fuel s stack).2.surf ∧
      (draw_obj_slice_loop construct h area fuel s stack).2.flushes = s.flushes := by
  induction fuel with
  | zero =>
    intro stack ts s hr _ hsz _
    cases stack with
    | nil => exact ⟨rfl, ⟨rfl, rfl, rfl, rfl, rfl, rfl, rfl⟩, rfl⟩
    | cons p st =>
      cases ts with
      | nil => exact absurd hr (by simp [StackRep])
      | cons t ts =>
        cases t with
        | nil => exact absurd hr.1 (by simp [Represents])
        | node p' c sb =>
          simp only [stack_size, Shape.size] at hsz
          omega
  | succ n ih =>
    intro stack ts s hr hf hsz hcb
    cases stack with
    | nil => exact ⟨rfl, ⟨rfl, rfl, rfl, rfl, rfl, rfl, rfl⟩, rfl⟩
    | cons p st =>
      cases ts with
      | nil => exact absurd hr (by simp [StackRep])
      | cons t ts =>
        cases t with
        | nil => exact absurd hr.1 (by simp [Represents])
        | node p' c sb =>
          obtain ⟨⟨hp, hc, hs⟩, hrest⟩ := hr
          have hpp : p = p' := Option.some.inj hp
          subst hpp
          obtain ⟨hd, hfr⟩ := hf
          have hlen : st.length = ts.length := stack_rep_length st ts hrest
          simp only [Shape.depth] at hd
          have hassert : (p :: st).length < SGL_OBJ_DEPTH_MAX := by
            simp only [List.length_cons]
            have : 1 ≤ max (c.depth + 1) sb.depth := le_max_of_le_left (by omega)
            omega
          have hfs : StackFits (push_shape sb ts) :=
            stack_fits_push hfr (fun _ => by
              have : sb.depth ≤ max (c.depth + 1) sb.depth := le_max_right _ _
              omega)
          have hfc : StackFits (push_shape c (push_shape sb ts)) :=
            stack_fits_push hfs (fun _ => by
              have := push_shape_length_le sb ts
              have : c.depth + 1 ≤ max (c.depth + 1) sb.depth := le_max_left _ _
              omega)
          simp only [stack_size, Shape.size] at hsz
          have hcbs : ∀ q ∈ stack_preorder (push_shape sb ts), construct q ≠ none := by
            intro q hq
            rw [stack_preorder_push] at hq
            apply hcb q
            simp only [stack_preorder, Shape.preorder, List.mem_append, List.mem_cons] at hq ⊢
            rcases hq with hq | hq
            · exact Or.inl (Or.inr (Or.inr hq))
            · exact Or.inr hq
          have hcbc : ∀ q ∈ stack_preorder (push_shape c (push_shape sb ts)),
              construct q ≠ none := by
            intro q hq
            rw [stack_preorder_push, stack_preorder_push] at hq
            apply hcb q
            simp only [stack_preorder, Shape.preorder, List.mem_append, List.mem_cons] at hq ⊢
            rcases hq with hq | hq | hq
            · exact Or.inl (Or.inr (Or.inl hq))
            · exact Or.inl (Or.inr (Or.inr hq))
            · exact Or.inr hq
          have hskip := fun s1 : draw_state =>
            ih (push_ptr (h p).sibling st) (push_shape sb ts) s1 (stack_rep_push hs hrest) hfs
              (by rw [stack_size_push]; omega) hcbs
          simp only [draw_obj_slice_loop]
          rw [if_pos hassert]
          by_cases hh : (h p).hide = true
          · rw [if_pos hh]
            exact hskip s
          · rw [if_neg hh]
            by_cases ho : sgl_surf_area_is_overlap s.surf (h p).coords = true
            · rw [if_pos ho]
              obtain ⟨cb, hcbp⟩ : ∃ cb, construct p = some cb := by
                have := hcb p (by simp [stack_preorder, Shape.preorder])
                cases hx : construct p with
                | none => exact absurd hx this
                | some cb => exact ⟨cb, rfl⟩
              simp only [hcbp]
              exact ih (push_ptr (h p).child (push_ptr (h p).sibling st))
                (push_shape c (push_shape sb ts)) _
                (stack_rep_push hc (stack_rep_push hs hrest)) hfc
                (by rw [stack_size_push, stack_size_push]; omega) hcbc
            · rw [if_neg ho]
              exact hskip s

/-- The result of `sgl_area_selfclip` on a well-formed area on the screen and
a well-formed rect is a well-formed area on the screen. -/
theorem sgl_area_selfclip_on_screen (d r : sgl_area) (xres yres : Int)
    (hd : d.on_screen xres yres) (hdw : d.wf) (hrw : r.wf) :
    (sgl_area_selfclip d r).2.on_screen xres yres ∧ (sgl_area_selfclip d r).2.wf := by
  unfold sgl_area_selfclip
  by_cases hc : r.y1 > d.y2 ∨ r.y2 < d.y1 ∨ r.x1 > d.x2 ∨ r.x2 < d.x1
  · rw [if_pos hc]
    exact ⟨hd, hdw⟩
  · rw [if_neg hc]
    simp only [not_or, not_lt, gt_iff_lt] at hc
    obtain ⟨c1, c2, c3, c4⟩ := hc
    obtain ⟨d1, d2, d3, d4⟩ := hd
    obtain ⟨w1, w2⟩ := hdw
    obtain ⟨v1, v2⟩ := hrw
    simp only [sgl_area.on_screen, sgl_area.wf, sgl_min, sgl_max]
    refine ⟨⟨le_max_of_le_left d1, le_max_of_le_left d2, lt_of_le_of_lt (min_le_left _ _) d3,
      lt_of_le_of_lt (min_le_left _ _) d4⟩, ?_, ?_⟩
    · exact max_le (le_min w1 c4) (le_min c3 v1)
    · exact max_le (le_min w2 c2) (le_min c1 v2)

/-! ### The square-root error on squares -/

theorem sqrt_error_loop_succ (fuel x fpr bsh : Nat) :
    sqrt_error_loop (fuel + 1) x fpr bsh =
      if bsh >>> 1 = 0 then
        (if x ≥ (bsh + fpr) % 2 ^ 32 then (bsh + (bsh + fpr) % 2 ^ 32) % 2 ^ 32 else fpr)
      else
        sqrt_error_loop fuel
          (((if x ≥ (bsh + fpr) % 2 ^ 32 then (x + 2 ^ 32 - (bsh + fpr) % 2 ^ 32) % 2 ^ 32
            else x) <<< 1) % 2 ^ 32)
          (if x ≥ (bsh + fpr) % 2 ^ 32 then (bsh + (bsh + fpr) % 2 ^ 32) % 2 ^ 32 else fpr)
          (bsh >>> 1) := rfl

/-- Arithmetic of one step of the digit-by-digit square root: with
`x * p + R * R = K * K` and `R ≤ K < R + 2 * p`, the remainder `x` is at most
`4 * K` and the test `x ≥ p + 2 * R` decides whether `R + p ≤ K`. -/
theorem sqrt_step_facts (K R x p : Nat) (hp : 0 < p) (hinv : x * p + R * R = K * K)
    (hRK : R ≤ K) (hKlt : K < R + 2 * p) :
    x ≤ 4 * K ∧ (p + 2 * R ≤ x ↔ R + p ≤ K) := by
  obtain ⟨d, hd⟩ := Nat.exists_eq_add_of_le hRK
  subst hd
  have hxp : x * p = d * (2 * R + d) := by nlinarith
  have hd2 : d ≤ 2 * p := by omega
  constructor
  · have h1 : d * (2 * R + d) ≤ (2 * p) * (2 * R + d) := Nat.mul_le_mul_right _ hd2
    have h2 : x * p ≤ (2 * (2 * R + d)) * p := by nlinarith
    have h3 : x ≤ 2 * (2 * R + d) := Nat.le_of_mul_le_mul_right h2 hp
    omega
  · constructor
    · intro hx
      by_contra hcon
      have hdp : d + 1 ≤ p := by omega
      have h1 : (p + 2 * R) * p ≤ x * p := Nat.mul_le_mul_right _ hx
      have h2 : d * (2 * R + d) < p * (2 * R + p) := by nlinarith
      nlinarith
    · intro hk
      have hdp : p ≤ d := by omega
      have h1 : p * (2 * R + p) ≤ d * (2 * R + d) := by nlinarith
      have h2 : (p + 2 * R) * p ≤ x * p := by nlinarith
      exact Nat.le_of_mul_le_mul_right h2 hp

/-- The loop of `sgl_sqrt_error` finds the root of a square exactly: with
`x * 2 ^ j + R * R = K * K` and `R ≤ K < R + 2 ^ (j + 1)` it ends with
`fpr = 2 * K`, the accepted bits being those of `K`. -/
theorem sqrt_error_loop_square (K : Nat) (hK : K < 2 ^ 30) :
    ∀ (fuel j R x : Nat), x * 2 ^ j + R * R = K * K → R ≤ K → K < R + 2 * 2 ^ j →
      j ≤ 28 → j < fuel →
      sqrt_error_loop fuel x (2 * R) (2 ^ j) = 2 * K := by
  intro fuel
  induction fuel with
  | zero => intro j R x _ _ _ _ hf; omega
  | succ n ih =>
    intro j R x hinv hRK hKlt hj hf
    have hp : 0 < 2 ^ j := Nat.pos_of_ne_zero (by positivity)
    have hp28 : 2 ^ j ≤ 2 ^ 28 := Nat.pow_le_pow_right (by decide) hj
    obtain ⟨hx4, hacc⟩ := sqrt_step_facts K R x (2 ^ j) hp hinv hRK hKlt
    have hbod : (2 ^ j + 2 * R) % 2 ^ 32 = 2 ^ j + 2 * R := Nat.mod_eq_of_lt (by omega)
    rw [sqrt_error_loop_succ, hbod]
    cases j with
    | zero =>
      have e1 : (2 ^ 0) >>> 1 = 0 := by decide
      rw [if_pos e1]
      simp only [pow_zero] at hacc hKlt ⊢
      by_cases ha : x ≥ 1 + 2 * R
      · rw [if_pos ha]
        have := hacc.mp ha
        rw [Nat.mod_eq_of_lt (by omega)]
        omega
      · rw [if_neg ha]
        have : ¬ R + 1 ≤ K := fun e => ha (hacc.mpr e)
        omega
    | succ i =>
      have e1 : (2 ^ (i + 1)) >>> 1 = 2 ^ i := by
        rw [Nat.shiftRight_eq_div_pow, pow_succ]
        simp
      have hq : 0 < 2 ^ i := Nat.pos_of_ne_zero (by positivity)
      rw [e1, if_neg (by omega)]
      have hpow : 2 ^ (i + 1) = 2 * 2 ^ i := by rw [pow_succ]; ring
      rw [hpow] at hinv hKlt hacc hp28 ⊢
      generalize hqd : 2 ^ i = q at hinv hKlt hacc hp28 hq ⊢
      by_cases ha : x ≥ 2 * q + 2 * R
      · rw [if_pos ha, if_pos ha]
        have hk := hacc.mp ha
        have ex1 : (x + 2 ^ 32 - (2 * q + 2 * R)) % 2 ^ 32 = x - (2 * q + 2 * R) := by
          have : x + 2 ^ 32 - (2 * q + 2 * R) = (x - (2 * q + 2 * R)) + 2 ^ 32 := by omega
          rw [this, Nat.add_mod_right]
          exact Nat.mod_eq_of_lt (by omega)
        have hinv' : (2 * (x - (2 * q + 2 * R))) * q + (R + 2 * q) * (R + 2 * q) = K * K := by
          obtain ⟨e, he⟩ := Nat.exists_eq_add_of_le ha
          rw [he, Nat.add_sub_cancel_left]
          rw [he] at hinv
          nlinarith
        obtain ⟨hx4', _⟩ := sqrt_step_facts K (R + 2 * q) (2 * (x - (2 * q + 2 * R))) q hq hinv'
          hk (by omega)
        have ex2 : ((x - (2 * q + 2 * R)) <<< 1) % 2 ^ 32 = 2 * (x - (2 * q + 2 * R)) := by
          rw [Nat.shiftLeft_eq, pow_one, Nat.mul_comm]
          exact Nat.mod_eq_of_lt (by omega)
        have ef : (2 * q + (2 * q + 2 * R)) % 2 ^ 32 = 2 * (R + 2 * q) := by
          rw [Nat.mod_eq_of_lt (by omega)]
          ring
        rw [ex1, ex2, ef]
        subst hqd
        exact ih i (R + 2 * 2 ^ i) _ hinv' hk (by omega) (by omega) (by omega)
      · rw [if_neg ha, if_neg ha]
        have hk : ¬ R + 2 * q ≤ K := fun e => ha (hacc.mpr e)
        have hinv' : (2 * x) * q + R * R = K * K := by nlinarith
        obtain ⟨hx4', _⟩ := sqrt_step_facts K R (2 * x) q hq hinv' hRK (by omega)
        have ex2 : (x <<< 1) % 2 ^ 32 = 2 * x := by
          rw [Nat.shiftLeft_eq, pow_one, Nat.mul_comm]
          exact Nat.mod_eq_of_lt (by omega)
        rw [ex2]
        subst hqd
        exact ih i R _ hinv' hRK (by omega) (by omega) (by omega)

/-- A 32-bit value without a bit in common with a mask that holds the bits
`n .. 31` is below `2 ^ n`. -/
theorem lt_of_land_mask (x mask n : Nat) (hx : x < 2 ^ 32)
    (hm : ∀ i, n ≤ i → i < 32 → mask.testBit i = true) (h : x &&& mask = 0) : x < 2 ^ n := by
  apply Nat.lt_pow_two_of_testBit
  intro i hi
  by_cases h32 : i < 32
  · have hb : (x &&& mask).testBit i = false := by rw [h]; exact Nat.zero_testBit i
    rw [Nat.testBit_and, hm i hi h32] at hb
    simpa using hb
  · exact Nat.testBit_lt_two_pow
      (lt_of_lt_of_le hx (Nat.pow_le_pow_right (by decide) (by omega)))

/-- One step of the count of leading zeros in `sgl_sqrt_error`: the shifted
value stays `x * 2 ^ index` and stays a 32-bit value. -/
theorem sqrt_index_step (x xp idx s mask : Nat) (hI : xp = x * 2 ^ idx ∧ xp < 2 ^ 32)
    (hs : s ≤ 32) (hmask : xp &&& mask = 0 → xp < 2 ^ (32 - s)) :
    (if xp &&& mask = 0 then (xp <<< s) % 2 ^ 32 else xp) =
        x * 2 ^ (if xp &&& mask = 0 then idx + s else idx) ∧
      (if xp &&& mask = 0 then (xp <<< s) % 2 ^ 32 else xp) < 2 ^ 32 := by
  by_cases hc : xp &&& mask = 0
  · rw [if_pos hc, if_pos hc]
    have hlt := hmask hc
    have h1 : xp * 2 ^ s < 2 ^ 32 := by
      have : 2 ^ (32 - s) * 2 ^ s = 2 ^ 32 := by rw [← pow_add]; congr 1; omega
      calc xp * 2 ^ s < 2 ^ (32 - s) * 2 ^ s :=
            Nat.mul_lt_mul_of_pos_right hlt (Nat.pos_of_ne_zero (by positivity))
        _ = 2 ^ 32 := this
    rw [Nat.shiftLeft_eq, Nat.mod_eq_of_lt h1]
    refine ⟨?_, h1⟩
    rw [hI.1, pow_add, Nat.mul_assoc]
  · rw [if_neg hc, if_neg hc]
    exact hI

set_option maxRecDepth 100000 in
theorem sqrt_error_table_square (k : Nat) (hk : k ≤ 32) :
    sqrt_error_table.getD (k * k) 0 = 0 := by
  interval_cases k <;> decide

/-- The table `sqrt_error_init_table` gives a shift of at most 7 that is
large enough for the value. -/
theorem sqrt_error_init_bound (idx x : Nat) (hidx : idx ≤ 31) (hx : x < 2 ^ 30)
    (hlt : x * 2 ^ idx < 2 ^ 32) :
    sqrt_error_init_table.getD (31 - idx) 0 ≤ 7 ∧
    x < 2 ^ (2 * sqrt_error_init_table.getD (31 - idx) 0 + 16) := by
  interval_cases idx <;> simp [sqrt_error_init_table] at hlt ⊢ <;> omega

/-- The result of `sgl_sqrt_error` on a square whose root fits the shift. -/
theorem sqrt_error_result (k osh : Nat) (hosh : osh ≤ 7) (hk : k * k < 2 ^ (2 * osh + 16)) :
    (sqrt_error_loop 32 (k * k) 0 ((1 <<< (2 * osh + 14)) % 2 ^ 32) >>> osh) % 256 = 0 := by
  have hklt : k < 2 ^ (osh + 8) := by
    by_contra hcon
    have h1 : 2 ^ (osh + 8) ≤ k := by omega
    have h2 : 2 ^ (osh + 8) * 2 ^ (osh + 8) ≤ k * k := Nat.mul_le_mul h1 h1
    have h3 : 2 ^ (osh + 8) * 2 ^ (osh + 8) = 2 ^ (2 * osh + 16) := by
      rw [← pow_add]; congr 1; omega
    omega
  have hb : (1 <<< (2 * osh + 14)) % 2 ^ 32 = 2 ^ (2 * osh + 14) := by
    rw [Nat.shiftLeft_eq, one_mul]
    exact Nat.mod_eq_of_lt (Nat.pow_lt_pow_right (by decide) (by omega))
  have hK30 : k * 2 ^ (osh + 7) < 2 ^ 30 := by
    have h1 : k * 2 ^ (osh + 7) < 2 ^ (osh + 8) * 2 ^ (osh + 7) :=
      Nat.mul_lt_mul_of_pos_right hklt (Nat.pos_of_ne_zero (by positivity))
    have h2 : 2 ^ (osh + 8) * 2 ^ (osh + 7) = 2 ^ (2 * osh + 15) := by
      rw [← pow_add]; congr 1; omega
    have h3 : 2 ^ (2 * osh + 15) ≤ 2 ^ 29 := Nat.pow_le_pow_right (by decide) (by omega)
    omega
  have hsq : 2 ^ (osh + 7) * 2 ^ (osh + 7) = 2 ^ (2 * osh + 14) := by
    rw [← pow_add]; congr 1; omega
  have hloop := sqrt_error_loop_square (k * 2 ^ (osh + 7)) hK30 32 (2 * osh + 14) 0 (k * k)
    (by
      rw [← hsq]
      ring)
    (Nat.zero_le _)
    (by
      have h1 : k * 2 ^ (osh + 7) < 2 ^ (osh + 8) * 2 ^ (osh + 7) :=
        Nat.mul_lt_mul_of_pos_right hklt (Nat.pos_of_ne_zero (by positivity))
      have h2 : 2 ^ (osh + 8) * 2 ^ (osh + 7) = 2 * 2 ^ (2 * osh + 14) := by
        rw [← pow_succ', ← pow_add]; congr 1; omega
      omega)
    (by omega) (by omega)
  rw [hb]
  rw [Nat.mul_zero] at hloop
  rw [hloop, Nat.shiftRight_eq_div_pow]
  have h4 : 2 * (k * 2 ^ (osh + 7)) = (k * 256) * 2 ^ osh := by
    rw [pow_add]
    ring
  rw [h4, Nat.mul_div_cancel _ (Nat.pos_of_ne_zero (by positivity))]
  exact Nat.mul_mod_left _ _

/-- The function `sgl_sqrt_error` returns 0 on the square of every
non-negative `int16_t` value. -/
theorem sgl_sqrt_error_square (k : Nat) (hk : k ≤ 32767) : sgl_sqrt_error (k * k) = 0 := by
  by_cases hsmall : k ≤ 32
  · unfold sgl_sqrt_error
    rw [if_pos (by nlinarith)]
    exact sqrt_error_table_square k hsmall
  · have hx1 : ¬ k * k < 1025 := by nlinarith
    have hx2 : ¬ k * k > 2 ^ 30 := by nlinarith
    have hx30 : k * k < 2 ^ 30 := by nlinarith
    have hx32 : k * k < 2 ^ 32 := by omega
    have hpos : 0 < k * k := by nlinarith
    unfold sgl_sqrt_error
    rw [if_neg hx1, if_neg hx2]
    lift_lets
    intro index0 xp0 index1 xp1 index2 xp2 index3 xp3 index4 xp4 index5 osh bsh
    obtain ⟨e1, l1⟩ : xp1 = (k * k) * 2 ^ index1 ∧ xp1 < 2 ^ 32 :=
      sqrt_index_step (k * k) (k * k) 0 16 0xFFFF0000 ⟨by simp, hx32⟩ (by decide)
        (fun h => lt_of_land_mask _ _ 16 hx32 (by intro i h1 h2; interval_cases i <;> rfl) h)
    obtain ⟨e2, l2⟩ : xp2 = (k * k) * 2 ^ index2 ∧ xp2 < 2 ^ 32 :=
      sqrt_index_step (k * k) xp1 index1 8 0xFF000000 ⟨e1, l1⟩ (by decide)
        (fun h => lt_of_land_mask _ _ 24 l1 (by intro i h1 h2; interval_cases i <;> rfl) h)
    obtain ⟨e3, l3⟩ : xp3 = (k * k) * 2 ^ index3 ∧ xp3 < 2 ^ 32 :=
      sqrt_index_step (k * k) xp2 index2 4 0xF0000000 ⟨e2, l2⟩ (by decide)
        (fun h => lt_of_land_mask _ _ 28 l2 (by intro i h1 h2; interval_cases i <;> rfl) h)
    obtain ⟨e4, l4⟩ : xp4 = (k * k) * 2 ^ index4 ∧ xp4 < 2 ^ 32 :=
      sqrt_index_step (k * k) xp3 index3 2 0xC0000000 ⟨e3, l3⟩ (by decide)
        (fun h => lt_of_land_mask _ _ 30 l3 (by intro i h1 h2; interval_cases i <;> rfl) h)
    have h5 : k * k * 2 ^ index5 < 2 ^ 32 := by
      show k * k * 2 ^ (if xp4 &&& 0x80000000 = 0 then index4 + 1 else index4) < 2 ^ 32
      by_cases c5 : xp4 &&& 0x80000000 = 0
      · rw [if_pos c5]
        have := lt_of_land_mask xp4 _ 31 l4 (by intro i h1 h2; interval_cases i; rfl) c5
        rw [pow_succ, ← Nat.mul_assoc, ← e4]
        omega
      · rw [if_neg c5, ← e4]
        exact l4
    have hidx : index5 ≤ 31 := by
      by_contra hcon
      have h1 : 2 ^ 32 ≤ 2 ^ index5 := Nat.pow_le_pow_right (by decide) (by omega)
      have h2 : 1 * 2 ^ index5 ≤ k * k * 2 ^ index5 := Nat.mul_le_mul_right _ hpos
      omega
    obtain ⟨b1, b2⟩ := sqrt_error_init_bound index5 (k * k) hidx hx30 h5
    exact sqrt_error_result k osh b1 b2

/-! ### One pixel of the loops over the clip rectangle -/

/-- The column loop leaves in the `k`-th pixel of its range what the body
makes of the pixel it finds there. -/
theorem for_x_at (body : Int → Nat → Nat) (n : Nat) :
    ∀ (x buf : Int) (b : Int → Nat) (k : Nat), k < n →
      for_x body n x buf b (buf + k) = body (x + k) (b (buf + k)) := by
  induction n with
  | zero => intro x buf b k hk; omega
  | succ n ih =>
    intro x buf b k hk
    simp only [for_x]
    cases k with
    | zero =>
      simp only [Nat.cast_zero, add_zero]
      rw [for_x_frame body n _ _ _ buf (Or.inl (by omega)), buf_set_same]
    | succ k =>
      have e1 : buf + ((k + 1 : Nat) : Int) = buf + 1 + (k : Int) := by push_cast; ring
      have e2 : x + ((k + 1 : Nat) : Int) = x + 1 + (k : Int) := by push_cast; ring
      rw [e1, e2, ih (x + 1) (buf + 1) _ k (by omega), buf_set_other _ _ (by omega)]

/-- The row loop leaves at the offset `j` what the row `y0` writes there, when
no other row touches `j`. -/
theorem for_y_at (row : Int → (Int → Nat) → (Int → Nat)) (j y0 : Int) (c : Nat)
    (hin : ∀ b, row y0 b j = c) (hout : ∀ y1 b, y1 ≠ y0 → row y1 b j = b j) (n : Nat) :
    ∀ (y : Int) (b : Int → Nat), y ≤ y0 → y0 < y + n → for_y row n y b j = c := by
  induction n with
  | zero => intro y b h1 h2; simp at h2; omega
  | succ n ih =>
    intro y b h1 h2
    simp only [for_y]
    by_cases hy : y = y0
    · subst hy
      rw [for_y_frame row (fun y1 j1 => j1 ≠ j ∨ y1 = y) ?_ n (y + 1) _ j ?_]
      · exact hin b
      · intro y1 b1 j1 hC
        simp only [not_or, not_not] at hC
        rw [hC.1]
        exact hout y1 b1 hC.2
      · intro k _ hC
        rcases hC with hC | hC
        · exact hC rfl
        · omega
    · exact ih (y + 1) _ (by omega) (by push_cast at h2; omega)

/-- The loops over the clip rectangle leave in the pixel at `(x, y)` of the
clip rectangle the value `c`, when the loop body at `(x, y)` writes `c`
whatever it finds and the rows of the clip rectangle are not longer than the
rows of the surface. -/
theorem draw_rows_at (surf : sgl_surf) (clip : sgl_area) (row : Int → Int → Nat → Nat)
    (b : Int → Nat) (x y : Int) (c : Nat) (hxy : clip.contains x y)
    (hw : clip.x2 - clip.x1 + 1 ≤ surf.w) (hrow : ∀ old, row y x old = c) :
    draw_rows surf clip row b (surf.offset x y) = c := by
  unfold draw_rows
  unfold sgl_area.contains at hxy
  obtain ⟨hx1, hx2, hy1, hy2⟩ := hxy
  have hk : ((x - clip.x1).toNat : Int) = x - clip.x1 := Int.toNat_of_nonneg (by omega)
  have hm : ((clip.x2 - clip.x1 + 1).toNat : Int) = clip.x2 - clip.x1 + 1 :=
    Int.toNat_of_nonneg (by omega)
  have hn : ((clip.y2 - clip.y1 + 1).toNat : Int) = clip.y2 - clip.y1 + 1 :=
    Int.toNat_of_nonneg (by omega)
  apply for_y_at _ _ y c
  · intro b1
    have hj : surf.offset x y =
        sgl_surf_get_buf surf (clip.x1 - surf.x) (y - surf.y) + ((x - clip.x1).toNat : Int) := by
      rw [hk]
      simp only [sgl_surf.offset, sgl_surf_get_buf]
      ring
    rw [hj, for_x_at (row y) _ _ _ _ _ (by omega), hk]
    have : clip.x1 + (x - clip.x1) = x := by ring
    rw [this]
    exact hrow _
  · intro y1 b1 hne
    apply for_x_frame
    rw [hm]
    simp only [sgl_surf.offset, sgl_surf_get_buf]
    rcases lt_or_gt_of_ne hne with hlt | hgt
    · right
      have : (y1 - surf.y + 1) * surf.w ≤ (y - surf.y) * surf.w :=
        Int.mul_le_mul_of_nonneg_right (by omega) (by omega)
      nlinarith
    · left
      have : (y - surf.y + 1) * surf.w ≤ (y1 - surf.y) * surf.w :=
        Int.mul_le_mul_of_nonneg_right (by omega) (by omega)
      nlinarith
  · exact hy1
  · rw [hn]; omega

/-- The sum of the squares of the distances to the corner centre, one of
which is 0 and the other at most `k`, is the square of a natural number up
to `k`. -/
theorem corner_square (dx dy k : Int) (hz : dx = 0 ∨ dy = 0)
    (hdx : -k ≤ dx ∧ dx ≤ k) (hdy : -k ≤ dy ∧ dy ≤ k) :
    ∃ t : Nat, (t : Int) ≤ k ∧ sgl_pow2 dx + sgl_pow2 dy = (t : Int) * (t : Int) := by
  unfold sgl_pow2
  rcases hz with hz | hz
  · subst hz
    refine ⟨dy.natAbs, by omega, ?_⟩
    rw [Int.natAbs_mul_self']
    ring
  · subst hz
    refine ⟨dx.natAbs, by omega, ?_⟩
    rw [Int.natAbs_mul_self']
    ring

/-- The value the corner branch of `sgl_draw_fill_round_rect_with_border`
writes at alpha 255 for a squared distance `t * t` with `t ≤ k`, where
`k = radius - border_width`: the fill color. -/
theorem corner_value (d : sgl_pixel_depth) (color border_color old : Nat) (radius k : Int)
    (t : Nat) (hcolor : is_color d color) (hk : 0 ≤ k) (hkr : k ≤ radius)
    (hr : radius ≤ 32767) (ht : (t : Int) ≤ k) (real : Int) (hreal : real = (t : Int) * t) :
    (if real ≥ sgl_pow2 (radius + 1) then old
      else if real < sgl_pow2 (sgl_max (k + 1) 0 - 1) then blend d color old 255
      else if real < sgl_pow2 (sgl_max (k + 1) 0) then
        (if 255 = SGL_ALPHA_MAX then
          sgl_color_mixer d border_color color (sgl_sqrt_error real.toNat)
        else
          sgl_color_mixer d
            (sgl_color_mixer d border_color color (sgl_sqrt_error real.toNat)) old 255)
      else if real > sgl_pow2 radius then
        (if 255 = SGL_ALPHA_MAX then
          sgl_color_mixer d border_color old
            ((SGL_ALPHA_MAX - sgl_sqrt_error real.toNat) % 256)
        else
          sgl_color_mixer d
            (sgl_color_mixer d border_color old
              ((SGL_ALPHA_MAX - sgl_sqrt_error real.toNat) % 256)) old 255)
      else blend d border_color old 255) = color := by
  have hmax : sgl_max (k + 1) 0 = k + 1 := by
    unfold sgl_max
    exact max_eq_left (by omega)
  rw [hmax]
  unfold sgl_pow2
  have ht0 : (0 : Int) ≤ t := Int.ofNat_nonneg t
  have h1 : ¬ real ≥ (radius + 1) * (radius + 1) := by
    rw [hreal]
    nlinarith
  rw [if_neg h1]
  by_cases hlt : (t : Int) < k
  · have h2 : real < (k + 1 - 1) * (k + 1 - 1) := by
      rw [hreal]
      nlinarith
    rw [if_pos h2]
    simp [blend, SGL_ALPHA_MAX]
  · have htk : (t : Int) = k := by omega
    have h2 : ¬ real < (k + 1 - 1) * (k + 1 - 1) := by
      rw [hreal, htk]
      nlinarith
    have h3 : real < (k + 1) * (k + 1) := by
      rw [hreal, htk]
      nlinarith
    rw [if_neg h2, if_pos h3, if_pos (by rfl)]
    have h4 : real.toNat = t * t := by
      rw [hreal]
      exact Int.toNat_of_nonneg (by positivity) |> fun h => by
        have : ((t * t : Nat) : Int) = (t : Int) * t := by push_cast; ring
        omega
    rw [h4, sgl_sqrt_error_square t (by omega)]
    exact sgl_color_mixer_zero d border_color color hcolor

/-- C21: for `sgl_draw_fill_round_rect_with_border` at alpha 255 with
`0 < border_width ≤ radius` (a `uint8_t` border and an `int16_t` radius; the
bound `radius ≤ min(width, height) / 2` is not needed), on a surface whose
right and bottom edge are `int16_t` positions, every pixel of the surface and
of the clip area that is at least `border_width` pixels away from the four
edges of the rect and outside the four corner squares of side `radius` holds
exactly the fill color afterwards. -/
theorem sgl_draw_fill_round_rect_with_border_interior (d : sgl_pixel_depth) (surf : sgl_surf)
    (area rect : sgl_area) (radius : Int) (color border_color : Nat) (border_width : Int)
    (hsurf : surf.wf) (hcolor : is_color d color)
    (hb0 : 0 < border_width) (hb1 : border_width ≤ radius) (hb2 : border_width ≤ 255)
    (hr : radius ≤ 32767)
    (x y : Int) (hs : surf.bounds.contains x y) (ha : area.contains x y)
    (hx1 : rect.x1 + border_width ≤ x) (hx2 : x ≤ rect.x2 - border_width)
    (hy1 : rect.y1 + border_width ≤ y) (hy2 : y ≤ rect.y2 - border_width)
    (htl : ¬ (x < rect.x1 + radius ∧ y < rect.y1 + radius))
    (htr : ¬ (x > rect.x2 - radius ∧ y < rect.y1 + radius))
    (hbl : ¬ (x < rect.x1 + radius ∧ y > rect.y2 - radius))
    (hbr : ¬ (x > rect.x2 - radius ∧ y > rect.y2 - radius)) :
    sgl_draw_fill_round_rect_with_border d surf area rect radius color border_color
      border_width 255 (surf.offset x y) = color := by
  have hrc : rect.contains x y := by
    unfold sgl_area.contains
    omega
  obtain ⟨clip, hc⟩ := fill_clip_some hs ha hrc
  have hclip := (fill_clip_contains hc x y).mpr ⟨hs, ha, hrc⟩
  have hw : clip.x2 - clip.x1 + 1 ≤ surf.w := by
    rcases fill_clip_cases surf area rect with ⟨h, _⟩ | h
    · rw [h] at hc; cases hc
    · rw [h] at hc
      have := Option.some.inj hc
      subst this
      have e := wrap16_of_int16 hsurf.1
      simp only []
      rw [e]
      have h1 : surf.x ≤ max (max surf.x area.x1) rect.x1 :=
        le_trans (le_max_left _ _) (le_max_left _ _)
      have h2 : min (min (surf.x + surf.w - 1) area.x2) rect.x2 ≤ surf.x + surf.w - 1 :=
        le_trans (min_le_left _ _) (min_le_left _ _)
      omega
  unfold sgl_draw_fill_round_rect_with_border
  simp only []
  rw [fill_clip_dispatch surf area rect _]
  unfold fill_with
  rw [hc]
  simp only []
  apply draw_rows_at surf clip _ _ x y color hclip hw
  intro old
  by_cases hA : y > rect.y1 + radius ∧ y < rect.y2 - radius
  · rw [if_pos hA, if_neg (by omega)]
    simp [blend, SGL_ALPHA_MAX]
  · rw [if_neg hA]
    by_cases hB : x > rect.x1 + radius ∧ x < rect.x2 - radius
    · rw [if_pos hB, if_neg (by omega)]
      simp [blend, SGL_ALPHA_MAX]
    · rw [if_neg hB]
      obtain ⟨t, ht, hreal⟩ := corner_square
        (x - (if x > rect.x1 + radius then rect.x2 - radius else rect.x1 + radius))
        (y - (if y > rect.y1 + radius then rect.y2 - radius else rect.y1 + radius))
        (radius - border_width)
        (by
          by_cases c1 : x > rect.x1 + radius <;> by_cases c2 : y > rect.y1 + radius
          · rw [if_pos c1, if_pos c2]; omega
          · rw [if_pos c1, if_neg c2]; omega
          · rw [if_neg c1, if_pos c2]; omega
          · rw [if_neg c1, if_neg c2]; omega)
        (by
          by_cases c1 : x > rect.x1 + radius
          · rw [if_pos c1]; omega
          · rw [if_neg c1]; omega)
        (by
          by_cases c2 : y > rect.y1 + radius
          · rw [if_pos c2]; omega
          · rw [if_neg c2]; omega)
      exact corner_value d color border_color old radius (radius - border_width) t hcolor
        (by omega) (by omega) hr ht _ hreal

theorem sgl_draw_fill_round_rect_with_border_interior_witness :
    sgl_draw_fill_round_rect_with_border sgl_pixel_depth.RGB565 demo_surf ⟨0, 0, 239, 283⟩
      ⟨53, 120, 184, 299⟩ 20 0 0xFFFF 3 255 (demo_surf.offset 56 140) = 0 :=
  sgl_draw_fill_round_rect_with_border_interior sgl_pixel_depth.RGB565 demo_surf
    ⟨0, 0, 239, 283⟩ ⟨53, 120, 184, 299⟩ 20 0 0xFFFF 3 (by decide) (by decide) (by decide)
    (by decide) (by decide) (by decide) 56 140 (by decide) (by decide) (by decide) (by decide)
    (by decide) (by decide) (by decide) (by decide) (by decide) (by decide)

/-! ### Hiding an object -/

/-- C22: in `clean_scene` no object is dirty; `sgl_obj_set_hidden` on the
visible object 1 sets its hidden flag and unions its rect `(0, 0, 1, 1)` into
the dirty accumulator at once, but sets no dirty flag, so in the next tick
`sgl_dirty_area_calculate` returns false and `sgl_task_handle` returns
without calling `sgl_draw_task`, whatever that function does: the state is
the one before the tick, the dirty accumulator still holding the rect. -/
theorem sgl_task_handle_skips_draw_after_hide :
    (hidden_ctx.heap 1).hide = true ∧ hidden_ctx.dirty = ⟨0, 0, 1, 1⟩ ∧
    (core.sgl_dirty_area_calculate 8 hidden_ctx.heap hidden_ctx.dirty 0).1 =
      walk_status.returned ∧
    (core.sgl_dirty_area_calculate 8 hidden_ctx.heap hidden_ctx.dirty 0).2.changed = false ∧
    ∀ (draw_task : sgl_ctx → walk_status × sgl_ctx) (tick : Nat), 10 ≤ tick →
      ((core.sgl_task_handle draw_task 32767 (-32768) 10 tick 8 hidden_ctx).1 =
        walk_status.returned ∧
      (core.sgl_task_handle draw_task 32767 (-32768) 10 tick 8 hidden_ctx).2.dirty =
        ⟨0, 0, 1, 1⟩ ∧
      (core.sgl_task_handle draw_task 32767 (-32768) 10 tick 8 hidden_ctx).2.draw.calls = [] ∧
      (core.sgl_task_handle draw_task 32767 (-32768) 10 tick 8 hidden_ctx).2.draw.flushes.length
        = 0) := by
  refine ⟨by decide, by decide, by decide, by decide, ?_⟩
  intro draw_task tick htick
  have h1 : (core.sgl_dirty_area_calculate 8 hidden_ctx.heap hidden_ctx.dirty
      hidden_ctx.page).1 = walk_status.returned := by decide
  have h2 : (core.sgl_dirty_area_calculate 8 hidden_ctx.heap hidden_ctx.dirty
      hidden_ctx.page).2.changed = false := by decide
  have h3 : (core.sgl_dirty_area_calculate 8 hidden_ctx.heap hidden_ctx.dirty
      hidden_ctx.page).2.dirty = ⟨0, 0, 1, 1⟩ := by decide
  unfold core.sgl_task_handle
  rw [if_neg (by omega)]
  simp only []
  rw [if_pos h1, if_neg (by rw [h2]; decide)]
  exact ⟨rfl, h3, rfl, rfl⟩

/-! ### Which operations set the dirty flag -/

theorem lseg_det (h : Heap) (l1 : List Nat) :
    ∀ (ptr : Option Nat) (l2 : List Nat), lseg h ptr l1 none → lseg h ptr l2 none → l1 = l2 := by
  induction l1 with
  | nil =>
    intro ptr l2 h1 h2
    cases l2 with
    | nil => rfl
    | cons q l2 =>
      have e1 : ptr = none := h1
      have e2 : ptr = some q := h2.1
      rw [e1] at e2
      exact absurd e2 (by simp)
  | cons q l1 ih =>
    intro ptr l2 h1 h2
    cases l2 with
    | nil =>
      have e1 : ptr = none := h2
      have e2 : ptr = some q := h1.1
      rw [e1] at e2
      exact absurd e2 (by simp)
    | cons q2 l2 =>
      have e1 : ptr = some q := h1.1
      have e2 : ptr = some q2 := h2.1
      have e : q = q2 := Option.some.inj (e1.symm.trans e2)
      subst e
      rw [ih _ l2 h1.2 h2.2]

theorem lseg_split (h : Heap) (a b : List Nat) :
    ∀ (ptr last : Option Nat),
      lseg h ptr (a ++ b) last ↔ ∃ mid, lseg h ptr a mid ∧ lseg h mid b last := by
  induction a with
  | nil =>
    intro ptr last
    constructor
    · intro hl
      exact ⟨ptr, rfl, hl⟩
    · rintro ⟨mid, h1, h2⟩
      have e : ptr = mid := h1
      rw [e]
      exact h2
  | cons q a ih =>
    intro ptr last
    show (ptr = some q ∧ lseg h (h q).sibling (a ++ b) last) ↔
      ∃ mid, (ptr = some q ∧ lseg h (h q).sibling a mid) ∧ lseg h mid b last
    rw [ih]
    constructor
    · rintro ⟨h1, mid, h2, h3⟩
      exact ⟨mid, ⟨h1, h2⟩, h3⟩
    · rintro ⟨mid, ⟨h1, h2⟩, h3⟩
      exact ⟨h1, mid, h2, h3⟩

/-- A sibling chain that ends in `NULL` passes through distinct objects. -/
theorem lseg_nodup (h : Heap) (l : List Nat) :
    ∀ ptr : Option Nat, lseg h ptr l none → l.Nodup := by
  induction l with
  | nil => intro _ _; exact List.nodup_nil
  | cons q l ih =>
    intro ptr hl
    refine List.nodup_cons.mpr ⟨?_, ih _ hl.2⟩
    intro hq
    obtain ⟨a, b, hab⟩ := List.append_of_mem hq
    have h2 := hl.2
    rw [hab] at h2
    obtain ⟨mid, _, hm⟩ := (lseg_split h a (q :: b) _ _).mp h2
    have hb : lseg h (h q).sibling b none := hm.2
    have e := lseg_det h _ _ _ h2 hb
    have := congrArg List.length e
    simp at this
    omega

theorem sgl_obj_set_dirty_dirty (h : Heap) (obj : Nat) :
    ((sgl_obj_set_dirty h obj) obj).dirty = true := by
  simp [sgl_obj_set_dirty, Heap.set]

theorem apply_visits_dirty (a b : Int) (q : Nat) (vs : List Nat) :
    ∀ h : Heap, (h q).dirty = true → (apply_visits a b h vs q).dirty = true := by
  induction vs with
  | nil => intro h hq; exact hq
  | cons p vs ih =>
    intro h hq
    rw [apply_visits_cons]
    apply ih
    by_cases e : q = p
    · subst e
      rw [Heap.set_same]
      rfl
    · rw [Heap.set_other _ _ e]
      exact hq

theorem move_up_loop_dirty (h : Heap) (obj next : Nat) (hs : (h obj).sibling = some next) :
    ∀ (l : List Nat) (ptr : Option Nat) (fuel : Nat), lseg h ptr l none → l.length ≤ fuel →
      ∃ g, move_up_loop h obj fuel ptr = some g ∧ (g = h ∨ (g obj).dirty = true) := by
  intro l
  induction l with
  | nil =>
    intro ptr fuel hl _
    have e : ptr = none := hl
    subst e
    refine ⟨h, ?_, Or.inl rfl⟩
    cases fuel <;> rfl
  | cons q l ih =>
    intro ptr fuel hl hf
    have e : ptr = some q := hl.1
    subst e
    cases fuel with
    | zero => simp at hf
    | succ n =>
      simp only [move_up_loop]
      by_cases hq : (h q).sibling = some obj
      · rw [if_pos hq, hs]
        exact ⟨_, rfl, Or.inr (sgl_obj_set_dirty_dirty _ _)⟩
      · rw [if_neg hq]
        exact ih _ n hl.2 (by simpa using hf)

theorem move_down_loop_dirty (h : Heap) (obj : Nat) :
    ∀ (rest : List Nat) (g : Nat) (fuel : Nat), lseg h (h g).sibling rest none → obj ∈ rest →
      (h g).sibling ≠ some obj → rest.length < fuel →
      ∃ r, move_down_loop h obj fuel (some g) = some r ∧ (r obj).dirty = true := by
  intro rest
  induction rest with
  | nil => intro g fuel _ hm; exact absurd hm (List.not_mem_nil _)
  | cons p rest ih =>
    intro g fuel hl hm hne hf
    have hg : (h g).sibling = some p := hl.1
    have hpo : obj ≠ p := fun e => hne (by rw [hg, e])
    have hm2 : obj ∈ rest := by
      rcases List.mem_cons.mp hm with e | e
      · exact absurd e hpo
      · exact e
    cases fuel with
    | zero => simp at hf
    | succ n =>
      simp only [move_down_loop, hg]
      by_cases hp : (h p).sibling = some obj
      · rw [if_pos hp]
        exact ⟨_, rfl, sgl_obj_set_dirty_dirty _ _⟩
      · rw [if_neg hp]
        exact ih p n hl.2 hm2 hp (by simpa using hf)

theorem move_bottom_find_some (h : Heap) (obj : Nat) :
    ∀ (l : List Nat) (ptr : Option Nat) (fuel : Nat), lseg h ptr l none → obj ∈ l →
      ptr ≠ some obj → l.length ≤ fuel →
      ∃ prev, move_bottom_find h obj fuel ptr = some (some prev) := by
  intro l
  induction l with
  | nil => intro _ _ _ hm; exact absurd hm (List.not_mem_nil _)
  | cons q l ih =>
    intro ptr fuel hl hm hne hf
    have e : ptr = some q := hl.1
    subst e
    have hqo : obj ≠ q := fun e => hne (by rw [e])
    have hm2 : obj ∈ l := by
      rcases List.mem_cons.mp hm with e | e
      · exact absurd e hqo
      · exact e
    cases fuel with
    | zero => simp at hf
    | succ n =>
      simp only [move_bottom_find]
      by_cases hq : (h q).sibling = some obj
      · rw [if_pos hq]
        exact ⟨q, rfl⟩
      · rw [if_neg hq]
        exact ih _ n hl.2 hm2 hq (by simpa using hf)

theorem move_top_find_front (h : Heap) (obj : Nat) (b : List Nat) (last : Option Nat) :
    ∀ (a : List Nat) (ptr prev : Option Nat) (fuel : Nat),
      lseg h ptr (a ++ obj :: b) last → obj ∉ a → a.length < fuel →
      move_top_find h obj fuel prev ptr = some (a.foldl (fun _ q => some q) prev) := by
  intro a
  induction a with
  | nil =>
    intro ptr prev fuel hl _ hf
    have e : ptr = some obj := hl.1
    subst e
    cases fuel with
    | zero => simp at hf
    | succ n => simp [move_top_find]
  | cons q a ih =>
    intro ptr prev fuel hl hn hf
    have e : ptr = some q := hl.1
    subst e
    have hqo : q ≠ obj := fun e => hn (by simp [e])
    cases fuel with
    | zero => simp at hf
    | succ n =>
      simp only [move_top_find]
      rw [if_neg hqo, ih _ (some q) n hl.2 (fun e => hn (List.mem_cons_of_mem _ e))
        (by simpa using hf)]
      rfl

theorem move_top_last_some (h : Heap) :
    ∀ (l : List Nat) (first : Nat) (fuel : Nat), lseg h (some first) l none → l.length ≤ fuel →
      ∃ last, move_top_last h fuel first = some last := by
  intro l
  induction l with
  | nil =>
    intro first fuel hl _
    exact absurd hl (by simp [lseg])
  | cons q l ih =>
    intro first fuel hl hf
    have e : first = q := Option.some.inj hl.1
    subst e
    cases fuel with
    | zero => simp at hf
    | succ n =>
      simp only [move_top_last]
      cases hs : (h first).sibling with
      | none => exact ⟨first, rfl⟩
      | some nx =>
        have h2 := hl.2
        rw [hs] at h2
        exact ih nx n h2 (by simpa using hf)

theorem move_top_tail (h1 : Heap) (P obj fuel : Nat) (l : List Nat)
    (hl : lseg h1 (h1 P).child l none) (hf : l.length ≤ fuel) :
    ∃ g, (match (h1 P).child with
        | none =>
          let h2 := h1.set P { h1 P with child := some obj }
          let h3 := h2.set obj { h2 obj with sibling := none }
          some (sgl_obj_set_dirty h3 obj)
        | some first =>
          match move_top_last h1 fuel first with
          | none => none
          | some last =>
            let h2 := h1.set last { h1 last with sibling := some obj }
            let h3 := h2.set obj { h2 obj with sibling := none }
            some (sgl_obj_set_dirty h3 obj)) = some g ∧ (g obj).dirty = true := by
  cases hc : (h1 P).child with
  | none => exact ⟨_, rfl, sgl_obj_set_dirty_dirty _ _⟩
  | some first =>
    rw [hc] at hl
    obtain ⟨last, hlast⟩ := move_top_last_some h1 l first fuel hl hf
    simp only [hlast]
    exact ⟨_, rfl, sgl_obj_set_dirty_dirty _ _⟩

theorem sgl_obj_move_up_dirty (h : Heap) (P obj : Nat) (l : List Nat) (fuel : Nat)
    (hpar : (h obj).parent = some P) (hl : lseg h (h P).child l none)
    (hf : l.length < fuel) :
    ∃ g, sgl_obj_move_up fuel h obj = some g ∧ (g = h ∨ (g obj).dirty = true) := by
  unfold sgl_obj_move_up
  rw [hpar]
  cases hs : (h obj).sibling with
  | none => exact ⟨h, rfl, Or.inl rfl⟩
  | some next =>
    simp only []
    by_cases hc : (h P).child = some obj
    · rw [if_pos hc]
      exact ⟨_, rfl, Or.inr (sgl_obj_set_dirty_dirty _ _)⟩
    · rw [if_neg hc]
      exact move_up_loop_dirty h obj next hs l _ fuel hl (by omega)

theorem sgl_obj_move_down_dirty (h : Heap) (P obj : Nat) (l : List Nat) (fuel : Nat)
    (hpar : (h obj).parent = some P) (hl : lseg h (h P).child l none) (hmem : obj ∈ l)
    (hf : l.length < fuel) :
    ∃ g, sgl_obj_move_down fuel h obj = some g ∧ (g = h ∨ (g obj).dirty = true) := by
  unfold sgl_obj_move_down
  rw [hpar]
  simp only []
  by_cases hc : (h P).child = some obj ∨ (h obj).sibling = none
  · rw [if_pos hc]
    exact ⟨h, rfl, Or.inl rfl⟩
  · rw [if_neg hc]
    cases l with
    | nil => exact absurd hmem (List.not_mem_nil _)
    | cons first rest =>
      have hfirst : (h P).child = some first := hl.1
      have hne : first ≠ obj := fun e => hc (Or.inl (by rw [hfirst, e]))
      have hm2 : obj ∈ rest := by
        rcases List.mem_cons.mp hmem with e | e
        · exact absurd e.symm hne
        · exact e
      rw [hfirst]
      simp only []
      by_cases hq : (h first).sibling = some obj
      · rw [if_pos hq]
        exact ⟨_, rfl, Or.inr (sgl_obj_set_dirty_dirty _ _)⟩
      · rw [if_neg hq]
        obtain ⟨r, hr, hd⟩ := move_down_loop_dirty h obj rest first fuel hl.2 hm2 hq
          (by simp at hf; omega)
        exact ⟨r, hr, Or.inr hd⟩

theorem sgl_obj_move_bottom_dirty (h : Heap) (P obj : Nat) (l : List Nat) (fuel : Nat)
    (hpar : (h obj).parent = some P) (hl : lseg h (h P).child l none) (hmem : obj ∈ l)
    (hf : l.length < fuel) :
    ∃ g, sgl_obj_move_bottom fuel h obj = some g ∧ (g = h ∨ (g obj).dirty = true) := by
  unfold sgl_obj_move_bottom
  rw [hpar]
  simp only []
  by_cases hc : (h P).child = some obj
  · rw [if_pos hc]
    exact ⟨h, rfl, Or.inl rfl⟩
  · rw [if_neg hc]
    obtain ⟨prev, hp⟩ := move_bottom_find_some h obj l _ fuel hl hmem hc (by omega)
    rw [hp]
    exact ⟨_, rfl, Or.inr (sgl_obj_set_dirty_dirty _ _)⟩

theorem sgl_obj_move_top_dirty (h : Heap) (P obj : Nat) (l : List Nat) (fuel : Nat)
    (hpar : (h obj).parent = some P) (hl : lseg h (h P).child l none) (hmem : obj ∈ l)
    (hf : l.length < fuel) :
    ∃ g, sgl_obj_move_top fuel h obj = some g ∧ (g = h ∨ (g obj).dirty = true) := by
  unfold sgl_obj_move_top
  rw [hpar]
  simp only []
  by_cases hs : (h obj).sibling = none
  · rw [if_pos hs]
    exact ⟨h, rfl, Or.inl rfl⟩
  · rw [if_neg hs]
    obtain ⟨a, b, hab⟩ := List.append_of_mem hmem
    subst hab
    have hnd := lseg_nodup h _ _ hl
    obtain ⟨mid, ha, hb⟩ := (lseg_split h a (obj :: b) _ _).mp hl
    have hmid : mid = some obj := hb.1
    subst hmid
    have hb2 : lseg h (h obj).sibling b none := hb.2
    have hoa : obj ∉ a := fun e => (List.nodup_append.mp hnd).2.2 e (List.mem_cons_self _ _)
    have hlen : a.length + b.length + 1 < fuel := by
      simp only [List.length_append, List.length_cons] at hf
      omega
    rw [move_top_find_front h obj b none a _ none fuel hl hoa (by omega)]
    rcases List.eq_nil_or_concat a with hnil | ⟨a0, x, hax⟩
    · subst hnil
      have hchain : lseg (h.set P { h P with child := (h obj).sibling })
          ((h.set P { h P with child := (h obj).sibling }) P).child b none := by
        rw [Heap.set_same]
        refine lseg_congr b _ _ (fun q _ => ?_) hb2
        by_cases e : q = P
        · subst e
          rw [Heap.set_same]
        · rw [Heap.set_other _ _ e]
      obtain ⟨g, hg, hd⟩ := move_top_tail _ P obj fuel b hchain (by omega)
      exact ⟨g, hg, Or.inr hd⟩
    · rw [List.concat_eq_append] at hax
      subst hax
      have hfold : (a0 ++ [x]).foldl (fun _ q => some q) (none : Option Nat) = some x := by
        simp [List.foldl_append]
      rw [hfold]
      obtain ⟨ha0, hx⟩ := (lseg_append h a0 x _ _).mp ha
      have hnd1 := List.nodup_append.mp hnd
      have hnda := List.nodup_append.mp hnd1.1
      have hxa0 : x ∉ a0 := fun e => hnda.2.2 e (List.mem_singleton_self _)
      have hxb : x ∉ b := fun e =>
        hnd1.2.2 (List.mem_append_right _ (List.mem_singleton_self _))
          (List.mem_cons_of_mem _ e)
      have hchild : ((h.set x { h x with sibling := (h obj).sibling }) P).child =
          (h P).child := by
        by_cases e : P = x
        · subst e
          rw [Heap.set_same]
        · rw [Heap.set_other _ _ e]
      have hchain : lseg (h.set x { h x with sibling := (h obj).sibling })
          ((h.set x { h x with sibling := (h obj).sibling }) P).child (a0 ++ x :: b) none := by
        rw [hchild, lseg_split]
        refine ⟨some x, ?_, rfl, ?_⟩
        · refine lseg_congr a0 _ _ (fun q hq => ?_) ha0
          rw [Heap.set_other _ _ (fun (e : q = x) => hxa0 (e ▸ hq))]
        · rw [Heap.set_same]
          refine lseg_congr b _ _ (fun q hq => ?_) hb2
          rw [Heap.set_other _ _ (fun (e : q = x) => hxb (e ▸ hq))]
      obtain ⟨g, hg, hd⟩ := move_top_tail _ P obj fuel (a0 ++ x :: b) hchain (by
        simp only [List.length_append, List.length_cons, List.length_nil] at hlen ⊢
        omega)
      exact ⟨g, hg, Or.inr hd⟩

/-- C23: on clean objects, `sgl_obj_size_zoom`, `sgl_obj_set_radius` and
`sgl_obj_set_pos_align_ref` with a sibling as the reference change the rect
or the radius of the object and return with its dirty flag still clear. -/
theorem mutators_leave_dirty_clear :
    (align_heap 2).dirty = false ∧
    ((sgl_obj_size_zoom align_heap 2 1) 2).coords = ⟨-1, -1, 5, 5⟩ ∧
    ((sgl_obj_size_zoom align_heap 2 1) 2).dirty = false ∧
    ((sgl_obj_set_radius align_heap 2 1) 2).radius = 1 ∧
    ((sgl_obj_set_radius align_heap 2 1) 2).dirty = false ∧
    (sgl_obj_set_pos_align_ref 8 align_heap 1 2 sgl_align_type.SGL_ALIGN_VERT_LEFT).map
      (fun g => ((g 2).coords, (g 2).dirty)) = some (⟨10, 0, 14, 4⟩, false) := by
  decide

/-- C23 (amended): for an object `obj` in the child list of its parent, the
list ending in `NULL`, and a subtree below `obj` within the depth bound,
`sgl_obj_set_abs_pos` returns with the dirty flag of `obj` set; each of
`sgl_obj_move_up`, `sgl_obj_move_down`, `sgl_obj_move_top` and
`sgl_obj_move_bottom` returns, and either left the whole object memory as it
was or set the dirty flag of `obj`; `sgl_obj_set_radius` leaves the dirty
flag as it was. -/
theorem mutators_set_dirty (h : Heap) (P obj : Nat) (l : List Nat) (t : Shape) (fuel : Nat)
    (abs_x abs_y : Int) (radius : Nat)
    (hpar : (h obj).parent = some P) (hl : lseg h (h P).child l none) (hmem : obj ∈ l)
    (hfuel : l.length < fuel)
    (hrep : Represents h (h obj).child t) (hdepth : t.depth < SGL_OBJ_DEPTH_MAX)
    (hsize : t.size ≤ fuel) :
    (∃ g, sgl_obj_set_abs_pos fuel h obj abs_x abs_y = some g ∧ (g obj).dirty = true) ∧
    (∃ g, sgl_obj_move_up fuel h obj = some g ∧ (g = h ∨ (g obj).dirty = true)) ∧
    (∃ g, sgl_obj_move_down fuel h obj = some g ∧ (g = h ∨ (g obj).dirty = true)) ∧
    (∃ g, sgl_obj_move_top fuel h obj = some g ∧ (g = h ∨ (g obj).dirty = true)) ∧
    (∃ g, sgl_obj_move_bottom fuel h obj = some g ∧ (g = h ∨ (g obj).dirty = true)) ∧
    ((sgl_obj_set_radius h obj radius) obj).dirty = (h obj).dirty := by
  refine ⟨?_, sgl_obj_move_up_dirty h P obj l fuel hpar hl hfuel,
    sgl_obj_move_down_dirty h P obj l fuel hpar hl hmem hfuel,
    sgl_obj_move_top_dirty h P obj l fuel hpar hl hmem hfuel,
    sgl_obj_move_bottom_dirty h P obj l fuel hpar hl hmem hfuel, ?_⟩
  · refine ⟨_, sgl_obj_set_abs_pos_eq h obj abs_x abs_y t hrep hdepth fuel hsize, ?_⟩
    rw [apply_visits_cons]
    apply apply_visits_dirty
    rw [Heap.set_same]
    rfl
  · simp [sgl_obj_set_radius, Heap.set]

theorem mutators_set_dirty_witness :
    (∃ g, sgl_obj_set_abs_pos 8 three_children 2 5 5 = some g ∧ (g 2).dirty = true) ∧
    (∃ g, sgl_obj_move_up 8 three_children 2 = some g ∧
      (g = three_children ∨ (g 2).dirty = true)) ∧
    (∃ g, sgl_obj_move_down 8 three_children 2 = some g ∧
      (g = three_children ∨ (g 2).dirty = true)) ∧
    (∃ g, sgl_obj_move_top 8 three_children 2 = some g ∧
      (g = three_children ∨ (g 2).dirty = true)) ∧
    (∃ g, sgl_obj_move_bottom 8 three_children 2 = some g ∧
      (g = three_children ∨ (g 2).dirty = true)) ∧
    ((sgl_obj_set_radius three_children 2 3) 2).dirty = (three_children 2).dirty :=
  mutators_set_dirty three_children 0 2 [1, 2, 3] Shape.nil 8 5 5 3 (by decide) (by decide)
    (by decide) (by decide) (by decide) (by decide) (by decide)

/-! ### Alignment to a sibling -/

/-- C29: with the reference 1 at `(10, 10, 29, 29)` and the object 2 at
`(0, 0, 4, 4)`, both children of 0, `SGL_ALIGN_VERT_RIGHT` puts the object at
the columns 24 to 28 and `SGL_ALIGN_HORIZ_BOT` at the rows 24 to 28: the
right and bottom edges are one pixel short of those of the reference, 29.
The alignment to the parent by `sgl_obj_set_pos_align` puts the right edge
on the right edge 99 of the parent. -/
theorem sgl_obj_set_pos_align_ref_right_one_short :
    (sgl_obj_set_pos_align_ref 8 align_heap 1 2 sgl_align_type.SGL_ALIGN_VERT_RIGHT).map
      (fun g => (g 2).coords) = some ⟨24, 0, 28, 4⟩ ∧
    (sgl_obj_set_pos_align_ref 8 align_heap 1 2 sgl_align_type.SGL_ALIGN_HORIZ_BOT).map
      (fun g => (g 2).coords) = some ⟨0, 24, 4, 28⟩ ∧
    (align_heap 1).coords = ⟨10, 10, 29, 29⟩ ∧
    (sgl_obj_set_pos_align_ref 8 align_heap 1 2 sgl_align_type.SGL_ALIGN_VERT_LEFT).map
      (fun g => (g 2).coords) = some ⟨10, 0, 14, 4⟩ ∧
    (sgl_obj_set_pos_align 8 align_heap 2 sgl_align_type.SGL_ALIGN_BOT_RIGHT).map
      (fun g => (g 2).coords) = some ⟨95, 95, 99, 99⟩ := by
  decide

/-! ### Registration of the frame buffer device -/

/-- C24: with `CONFIG_SGL_DEBUG` set, as in `sgl_config.h`, the call of
`sgl_fbdev_register` with a `NULL` descriptor does not return: the statement
`SGL_ASSERT(0)` before `return -1` enters the assert handler. -/
theorem sgl_fbdev_register_null_asserts :
    (sgl_fbdev_register true (sgl_system.start small_tree 0 0 0) none).1 = none :=
  rfl

/-- C24 (amended): for a descriptor that is `NULL` or whose `buffer[0]` is
`NULL`, whose `flush_area` is `NULL` or whose `buffer_size` is 0,
`sgl_fbdev_register` leaves `sgl_system` unchanged and returns -1 when
assertions are compiled out, and does not return when `CONFIG_SGL_DEBUG` is
set. For any other descriptor, of a resolution from 1 to 32767 in each
direction, it returns 0 with the surface at `x1 = 0`, `y1 = 0`,
`x2 = xres - 1`, `y2 = yres - 1`, `w = xres`, `size = buffer_size` and with
`fb_swap = 0`. -/
theorem sgl_fbdev_register_outcome (debug : Bool) (s : sgl_system) (fbinfo : Option sgl_fbinfo)
    (hres : ∀ f, fbinfo = some f →
      0 < f.xres ∧ f.xres ≤ 32767 ∧ 0 < f.yres ∧ f.yres ≤ 32767) :
    ((fbinfo = none ∨ ∃ f, fbinfo = some f ∧
        (f.buffer0 = none ∨ f.flush_area = false ∨ f.buffer_size = 0)) →
      sgl_fbdev_register debug s fbinfo = (if debug then none else some (-1), s)) ∧
    (∀ f buf, fbinfo = some f → f.buffer0 = some buf → f.flush_area = true →
      f.buffer_size ≠ 0 →
      (sgl_fbdev_register debug s fbinfo).1 = some 0 ∧
      (sgl_fbdev_register debug s fbinfo).2.draw.surf.x = 0 ∧
      (sgl_fbdev_register debug s fbinfo).2.draw.surf.y = 0 ∧
      (sgl_fbdev_register debug s fbinfo).2.draw.surf.x2 = f.xres - 1 ∧
      (sgl_fbdev_register debug s fbinfo).2.draw.surf.y2 = f.yres - 1 ∧
      (sgl_fbdev_register debug s fbinfo).2.draw.surf.w = f.xres ∧
      (sgl_fbdev_register debug s fbinfo).2.draw.surf.size = f.buffer_size ∧
      (sgl_fbdev_register debug s fbinfo).2.fb_swap = 0) := by
  have hfail : (if SGL_ASSERT debug false then ((some (-1) : Option Int), s) else (none, s)) =
      (if debug then none else some (-1), s) := by
    cases debug <;> rfl
  constructor
  · rintro (h | ⟨f, hf, h⟩)
    · subst h
      exact hfail
    · subst hf
      unfold sgl_fbdev_register
      simp only []
      rcases h with h | h | h
      · rw [h]
        exact hfail
      · cases hb : f.buffer0 with
        | none => exact hfail
        | some buf =>
          simp only []
          rw [if_pos h]
          exact hfail
      · cases hb : f.buffer0 with
        | none => exact hfail
        | some buf =>
          simp only []
          by_cases h2 : f.flush_area = false
          · rw [if_pos h2]
            exact hfail
          · rw [if_neg h2, if_pos h]
            exact hfail
  · intro f buf hf hb hfl hsz
    subst hf
    obtain ⟨h1, h2, h3, h4⟩ := hres f rfl
    unfold sgl_fbdev_register
    simp only [hb]
    rw [if_neg (by rw [hfl]; decide), if_neg hsz]
    refine ⟨rfl, rfl, rfl, ?_, ?_, rfl, rfl, rfl⟩
    · exact wrap16_of_int16 ⟨by omega, by omega⟩
    · exact wrap16_of_int16 ⟨by omega, by omega⟩

theorem sgl_fbdev_register_outcome_witness :
    sgl_fbdev_register true (sgl_system.start small_tree 0 0 0) none =
      (none, sgl_system.start small_tree 0 0 0) ∧
    (sgl_fbdev_register true (sgl_system.start small_tree 0 0 0) (some demo_fbinfo)).1 =
      some 0 ∧
    (sgl_fbdev_register true (sgl_system.start small_tree 0 0 0)
      (some demo_fbinfo)).2.draw.surf.x2 = 3 := by
  have t := sgl_fbdev_register_outcome true (sgl_system.start small_tree 0 0 0) none
    (fun f hf => by cases hf)
  have u := sgl_fbdev_register_outcome true (sgl_system.start small_tree 0 0 0)
    (some demo_fbinfo) (fun f hf => by cases hf; decide)
  have v := u.2 demo_fbinfo (fun _ => 0) rfl rfl rfl (by decide)
  exact ⟨t.1 (Or.inl rfl), v.1, v.2.2.2.1⟩

/-! ### Adding and removing a child -/

theorem add_child_tail_lseg (h : Heap) (x : Nat) (hx : (h x).sibling = none) :
    ∀ (l : List Nat) (first fuel : Nat), lseg h (some first) l (some x) → l.length < fuel →
      add_child_tail h fuel first = some x := by
  intro l
  induction l with
  | nil =>
    intro first fuel hl hf
    have e : first = x := Option.some.inj hl
    subst e
    cases fuel with
    | zero => omega
    | succ n => simp [add_child_tail, hx]
  | cons q l ih =>
    intro first fuel hl hf
    have e : first = q := Option.some.inj hl.1
    subst e
    cases fuel with
    | zero => simp at hf
    | succ n =>
      have hsib : ∃ y, (h first).sibling = some y := by
        cases l with
        | nil => exact ⟨x, hl.2⟩
        | cons r l => exact ⟨r, hl.2.1⟩
      obtain ⟨y, hy⟩ := hsib
      have h2 := hl.2
      rw [hy] at h2
      simp only [add_child_tail, hy]
      exact ih y n h2 (by simpa using hf)

/-- C25: for a parent `P` whose child list is `l`, ending in `NULL`, and an
object `o` outside the list with `o.sibling = NULL` (`P` is not its own
child and is not `o`), `sgl_obj_add_child` returns with the child list
`l ++ [o]` and `o.parent = P`, and `sgl_obj_remove` of `o` then returns with
the child list `l` and `o.sibling = NULL`. -/
theorem sgl_obj_add_child_remove (h : Heap) (P o : Nat) (l : List Nat) (fuel : Nat)
    (hl : lseg h (h P).child l none) (ho : o ∉ l) (hs : (h o).sibling = none)
    (hPl : P ∉ l) (hPo : P ≠ o) (hf : l.length < fuel) :
    ∃ h1, sgl_obj_add_child fuel h P o = some h1 ∧
      lseg h1 (h1 P).child (l ++ [o]) none ∧ (h1 o).parent = some P ∧
      ∃ h2, sgl_obj_remove fuel h1 o = some h2 ∧
        lseg h2 (h2 P).child l none ∧ (h2 o).sibling = none := by
  have hnd := lseg_nodup h l _ hl
  have key : ∃ h1, sgl_obj_add_child fuel h P o = some h1 ∧
      lseg h1 (h1 P).child (l ++ [o]) none ∧ (h1 o).parent = some P := by
    rcases List.eq_nil_or_concat l with hnil | ⟨l0, x, hlx⟩
    · subst hnil
      have hc : (h P).child = none := hl
      refine ⟨(h.set P { h P with child := some o }).set o
        { (h.set P { h P with child := some o }) o with parent := some P }, ?_, ?_, ?_⟩
      · unfold sgl_obj_add_child
        rw [hc]
      · refine ⟨?_, ?_⟩
        · rw [Heap.set_other _ _ hPo, Heap.set_same]
        · show _ = _
          rw [Heap.set_same]
          show ((h.set P { h P with child := some o }) o).sibling = none
          rw [Heap.set_other _ _ (Ne.symm hPo)]
          exact hs
      · rw [Heap.set_same]
    · rw [List.concat_eq_append] at hlx
      subst hlx
      obtain ⟨hl0, hx⟩ := (lseg_append h l0 x _ _).mp hl
      have hxo : x ≠ o := fun e => ho (by simp [e])
      have hxP : x ≠ P := fun e => hPl (by simp [e])
      obtain ⟨first, hfirst⟩ : ∃ first, (h P).child = some first := by
        cases l0 with
        | nil => exact ⟨x, hl0⟩
        | cons q r => exact ⟨q, hl0.1⟩
      have htail : add_child_tail h fuel first = some x := by
        rw [hfirst] at hl0
        refine add_child_tail_lseg h x hx l0 first fuel hl0 ?_
        simp only [List.length_append, List.length_singleton] at hf
        omega
      refine ⟨(h.set x { h x with sibling := some o }).set o
        { (h.set x { h x with sibling := some o }) o with parent := some P }, ?_, ?_, ?_⟩
      · unfold sgl_obj_add_child
        rw [hfirst]
        simp only [htail]
      · rw [Heap.set_other _ _ hPo, Heap.set_other _ _ (Ne.symm hxP)]
        rw [lseg_append, lseg_append]
        refine ⟨⟨?_, ?_⟩, ?_⟩
        · refine lseg_congr l0 _ _ (fun q hq => ?_) hl0
          have hqo : q ≠ o := fun e => ho (by simp [← e, hq])
          have hqx : q ≠ x := by
            intro e
            subst e
            exact (List.nodup_append.mp hnd).2.2 hq (by simp)
          rw [Heap.set_other _ _ hqo, Heap.set_other _ _ hqx]
        · rw [Heap.set_other _ _ hxo, Heap.set_same]
        · rw [Heap.set_same]
          show ((h.set x { h x with sibling := some o }) o).sibling = none
          rw [Heap.set_other _ _ (Ne.symm hxo)]
          exact hs
      · rw [Heap.set_same]
  obtain ⟨h1, ha, hl1, hp1⟩ := key
  obtain ⟨hseg, hsib⟩ := (lseg_append h1 l o _ _).mp hl1
  obtain ⟨h2, hr, hl2, hs2, _⟩ := sgl_obj_remove_spec h1 P o l fuel hp1 hseg ho hPl hPo hnd
    (by omega)
  rw [hsib] at hl2
  exact ⟨h1, ha, hl1, hp1, h2, hr, hl2, hs2⟩

theorem sgl_obj_add_child_remove_witness :
    ∃ h1, sgl_obj_add_child 8 three_children 0 4 = some h1 ∧
      lseg h1 (h1 0).child ([1, 2, 3] ++ [4]) none ∧ (h1 4).parent = some 0 ∧
      ∃ h2, sgl_obj_remove 8 h1 4 = some h2 ∧
        lseg h2 (h2 0).child [1, 2, 3] none ∧ (h2 4).sibling = none :=
  sgl_obj_add_child_remove three_children 0 4 [1, 2, 3] 8 (by decide) (by decide) (by decide)
    (by decide) (by decide) (by decide)

/-! ### Moving the last child down -/

/-- C26: for the children `[1, 2, 3]` of the parent 0, `sgl_obj_move_down` of
the last child 3 returns with the child list still `[1, 2, 3]` and the dirty
flag of 3 clear, where the swap with the predecessor would give `[1, 3, 2]`;
`sgl_obj_move_down` of the middle child 2 gives `[2, 1, 3]`. -/
theorem sgl_obj_move_down_last_child_stays :
    (sgl_obj_move_down 8 three_children 3).bind (fun g => sgl_obj_children g 8 0) =
      some [1, 2, 3] ∧
    (sgl_obj_move_down 8 three_children 3).map (fun g => (g 3).dirty) = some false ∧
    (sgl_obj_move_down 8 three_children 2).bind (fun g => sgl_obj_children g 8 0) =
      some [2, 1, 3] := by
  decide

/-! ### Pixmap fill -/

/-- C28: for the rect `(0, 0, 2, 2)` and a pixmap of 3 by 3 pixels, on a
surface of 3 by 3 pixels, `sgl_draw_fill_rect_pixmap` starts the row 0 at the
source position `(-1, -1)`, that is at the index `2 ^ 32 - 4` of the bitmap,
outside the pixmap; the pixel `(0, 0)` does not receive the pixmap pixel
`(0, 0)`, which holds 1, and the pixel `(1, 1)` receives neither the pixmap
pixel `(1, 1)`, which holds 5. -/
theorem sgl_draw_fill_rect_pixmap_odd_size_shifted :
    sgl_pixmap_get_buf pixmap3 (1 - (1 - 0 + 1)) (1 - (1 - 0 + 1)) = 4294967292 ∧
    sgl_draw_fill_rect_pixmap sgl_pixel_depth.RGB565 surf3 ⟨0, 0, 2, 2⟩ ⟨0, 0, 2, 2⟩ pixmap3 255
      (surf3.offset 0 0) = pixmap3.bitmap 4294967292 ∧
    pixmap3.bitmap (0 * 3 + 0) = 1 ∧
    sgl_draw_fill_rect_pixmap sgl_pixel_depth.RGB565 surf3 ⟨0, 0, 2, 2⟩ ⟨0, 0, 2, 2⟩ pixmap3 255
      (surf3.offset 0 0) = 0 ∧
    sgl_draw_fill_rect_pixmap sgl_pixel_depth.RGB565 surf3 ⟨0, 0, 2, 2⟩ ⟨0, 0, 2, 2⟩ pixmap3 255
      (surf3.offset 1 1) ≠ pixmap3.bitmap (1 * 3 + 1) := by
  decide

/-! ### Angle of a vector -/

/-- C30: `sgl_atan2_angle(-1, 46)` is 360, outside `[0, 359]`. -/
theorem sgl_atan2_angle_returns_360 : sgl_atan2_angle (-1) 46 = some 360 := by
  decide

/-! ### Drawing a character -/

/-- The row loop leaves at the offset `j` what the row `y0` makes of the
pixel it finds there, when no other row touches `j`. -/
theorem for_y_val (row : Int → (Int → Nat) → (Int → Nat)) (j y0 : Int) (f : Nat → Nat)
    (hin : ∀ b, row y0 b j = f (b j)) (hout : ∀ y1 b, y1 ≠ y0 → row y1 b j = b j) (n : Nat) :
    ∀ (y : Int) (b : Int → Nat), y ≤ y0 → y0 < y + n → for_y row n y b j = f (b j) := by
  induction n with
  | zero => intro y b h1 h2; simp at h2; omega
  | succ n ih =>
    intro y b h1 h2
    simp only [for_y]
    by_cases hy : y = y0
    · subst hy
      rw [for_y_frame row (fun y1 j1 => j1 ≠ j ∨ y1 = y) ?_ n (y + 1) _ j ?_]
      · exact hin b
      · intro y1 b1 j1 hC
        simp only [not_or, not_not] at hC
        rw [hC.1]
        exact hout y1 b1 hC.2
      · intro k _ hC
        rcases hC with hC | hC
        · exact hC rfl
        · omega
    · rw [ih (y + 1) _ (by omega) (by push_cast at h2; omega), hout y b hy]

/-- The loops over the clip rectangle leave in the pixel at `(x, y)` of the
clip rectangle what the loop body at `(x, y)` makes of the pixel the buffer
held there before, when the rows of the clip rectangle are not longer than
the rows of the surface. -/
theorem draw_rows_val (surf : sgl_surf) (clip : sgl_area) (row : Int → Int → Nat → Nat)
    (b : Int → Nat) (x y : Int) (hxy : clip.contains x y)
    (hw : clip.x2 - clip.x1 + 1 ≤ surf.w) :
    draw_rows surf clip row b (surf.offset x y) = row y x (b (surf.offset x y)) := by
  unfold draw_rows
  unfold sgl_area.contains at hxy
  obtain ⟨hx1, hx2, hy1, hy2⟩ := hxy
  have hk : ((x - clip.x1).toNat : Int) = x - clip.x1 := Int.toNat_of_nonneg (by omega)
  have hm : ((clip.x2 - clip.x1 + 1).toNat : Int) = clip.x2 - clip.x1 + 1 :=
    Int.toNat_of_nonneg (by omega)
  have hn : ((clip.y2 - clip.y1 + 1).toNat : Int) = clip.y2 - clip.y1 + 1 :=
    Int.toNat_of_nonneg (by omega)
  apply for_y_val _ _ y (row y x)
  · intro b1
    have hj : surf.offset x y =
        sgl_surf_get_buf surf (clip.x1 - surf.x) (y - surf.y) + ((x - clip.x1).toNat : Int) := by
      rw [hk]
      simp only [sgl_surf.offset, sgl_surf_get_buf]
      ring
    rw [hj, for_x_at (row y) _ _ _ _ _ (by omega), hk]
    have : clip.x1 + (x - clip.x1) = x := by ring
    rw [this]
  · intro y1 b1 hne
    apply for_x_frame
    rw [hm]
    simp only [sgl_surf.offset, sgl_surf_get_buf]
    rcases lt_or_gt_of_ne hne with hlt | hgt
    · right
      have : (y1 - surf.y + 1) * surf.w ≤ (y - surf.y) * surf.w :=
        Int.mul_le_mul_of_nonneg_right (by omega) (by omega)
      nlinarith
    · left
      have : (y - surf.y + 1) * surf.w ≤ (y1 - surf.y) * surf.w :=
        Int.mul_le_mul_of_nonneg_right (by omega) (by omega)
      nlinarith
  · exact hy1
  · rw [hn]; omega

theorem opa4_table_eq (v : Nat) (hv : v < 16) : opa4_table.getD v 0 = 17 * v := by
  interval_cases v <;> rfl

theorem opa2_table_eq (v : Nat) (hv : v < 4) : opa2_table.getD v 0 = 85 * v := by
  interval_cases v <;> rfl

/-- The table lookup of `sgl_draw_character` gives the 8-bit alpha of the
coverage value of the pixel. -/
theorem character_alpha_dot_eq (font : sgl_font) (g : sgl_font_table) (i : Nat)
    (hb : font.bpp = 2 ∨ font.bpp = 4) (hi : i < 65536) :
    character_alpha_dot font g i =
      coverage_alpha font.bpp (glyph_coverage font.bitmap g.bitmap_index font.bpp i) := by
  unfold character_alpha_dot coverage_alpha glyph_coverage
  rcases hb with hb | hb
  · rw [hb]
    simp only [show (2 : Nat) ≠ 4 by decide, if_false, if_true]
    have e1 : (i >>> 2) % 65536 = i * 2 / 8 := by
      rw [Nat.shiftRight_eq_div_pow]
      omega
    have e2 : i &&& 0x3 = i % 4 := Nat.and_pow_two_sub_one_eq_mod i 2
    rw [e1, e2]
    generalize font.bitmap.getD (g.bitmap_index + i * 2 / 8) 0 % 256 = dot
    have e3 : (3 - i % 4) * 2 % 256 = 8 - 2 - i * 2 % 8 := by omega
    rw [e3, Nat.shiftRight_eq_div_pow]
    have e4 : ∀ t : Nat, t &&& 0x03 = t % 2 ^ 2 := fun t => Nat.and_pow_two_sub_one_eq_mod t 2
    rw [e4]
    exact opa2_table_eq _ (Nat.mod_lt _ (by decide))
  · rw [hb]
    simp only [if_true]
    have e1 : (i >>> 1) % 65536 = i * 4 / 8 := by
      rw [Nat.shiftRight_eq_div_pow]
      omega
    have e2 : i &&& 1 = i % 2 := Nat.and_one_is_mod i
    rw [e1, e2]
    have hd : font.bitmap.getD (g.bitmap_index + i * 4 / 8) 0 % 256 < 256 :=
      Nat.mod_lt _ (by decide)
    generalize font.bitmap.getD (g.bitmap_index + i * 4 / 8) 0 % 256 = dot at hd
    have e4 : dot &&& 0x0F = dot % 2 ^ 4 := Nat.and_pow_two_sub_one_eq_mod dot 4
    rw [e4, Nat.shiftRight_eq_div_pow]
    by_cases hodd : i % 2 = 1
    · rw [if_pos (by omega)]
      have : 8 - 4 - i * 4 % 8 = 0 := by omega
      rw [this]
      simp only [pow_zero, Nat.div_one]
      exact opa4_table_eq _ (Nat.mod_lt _ (by decide))
    · rw [if_neg (by omega)]
      have : 8 - 4 - i * 4 % 8 = 4 := by omega
      rw [this]
      have hlt : dot / 2 ^ 4 < 16 := by
        have : (2 : Nat) ^ 4 = 16 := by decide
        rw [this]
        omega
      rw [Nat.mod_eq_of_lt (show dot / 2 ^ 4 < 2 ^ 4 from hlt)]
      exact opa4_table_eq _ hlt

theorem fill_clip_width {surf : sgl_surf} {A B clip : sgl_area} (hsurf : surf.wf)
    (hc : fill_clip surf A B = some clip) : clip.x2 - clip.x1 + 1 ≤ surf.w := by
  rcases fill_clip_cases surf A B with ⟨h, _⟩ | h
  · rw [h] at hc; cases hc
  · rw [h] at hc
    have := Option.some.inj hc
    subst this
    have e := wrap16_of_int16 hsurf.1
    simp only []
    rw [e]
    have h1 : surf.x ≤ max (max surf.x A.x1) B.x1 :=
      le_trans (le_max_left _ _) (le_max_left _ _)
    have h2 : min (min (surf.x + surf.w - 1) A.x2) B.x2 ≤ surf.x + surf.w - 1 :=
      le_trans (min_le_left _ _) (min_le_left _ _)
    omega

/-- C27: for a font of 2 or 4 bits per pixel and a glyph `g` of at most 255
by 255 pixels whose box at `(x, y)` has `int16_t` edges, on a surface whose
right and bottom edge are `int16_t` positions, `sgl_draw_character` returns,
and every pixel `(px, py)` of the surface, of the clip area and of the glyph
box holds `sgl_color_mixer (sgl_color_mixer color old cov) old alpha`
afterwards, `old` being the pixel before the call and `cov` the 8-bit alpha
of the coverage value of the glyph at that pixel. -/
theorem sgl_draw_character_pixel (d : sgl_pixel_depth) (surf : sgl_surf) (area : sgl_area)
    (x y : Int) (ch_index color alpha : Nat) (font : sgl_font) (g : sgl_font_table)
    (px py : Int)
    (hg : font.table[ch_index]? = some g) (hb : font.bpp = 2 ∨ font.bpp = 4)
    (hw : g.box_w ≤ 255) (hh : g.box_h ≤ 255) (hsurf : surf.wf)
    (hbox : is_int16 (glyph_box font g x y).x1 ∧ is_int16 (glyph_box font g x y).x2 ∧
      is_int16 (glyph_box font g x y).y1 ∧ is_int16 (glyph_box font g x y).y2)
    (hs : surf.bounds.contains px py) (ha : area.contains px py)
    (hgb : (glyph_box font g x y).contains px py) :
    ∃ out, sgl_draw_character d surf area x y ch_index color alpha font = some out ∧
      out (surf.offset px py) =
        sgl_color_mixer d
          (sgl_color_mixer d color (surf.buffer (surf.offset px py))
            (coverage_alpha font.bpp
              (glyph_coverage font.bitmap g.bitmap_index font.bpp
                ((py - (glyph_box font g x y).y1).toNat * g.box_w +
                  (px - (glyph_box font g x y).x1).toNat))))
          (surf.buffer (surf.offset px py)) alpha := by
  have hw' : g.box_w % 256 = g.box_w := Nat.mod_eq_of_lt (by omega)
  have hh' : g.box_h % 256 = g.box_h := Nat.mod_eq_of_lt (by omega)
  have htr : glyph_text_rect font g x y = glyph_box font g x y := by
    obtain ⟨b1, b2, b3, b4⟩ := hbox
    unfold glyph_box at b1 b2 b3 b4
    simp only [] at b1 b2 b3 b4
    unfold glyph_text_rect glyph_box
    simp only [hw', hh']
    rw [wrap16_of_int16 b1, wrap16_of_int16 b2, wrap16_of_int16 b3, wrap16_of_int16 b4]
  unfold sgl_draw_character
  rw [hg]
  simp only []
  refine ⟨_, rfl, ?_⟩
  rw [htr, hw', fill_clip_dispatch surf (glyph_box font g x y) area _]
  obtain ⟨clip, hc⟩ := fill_clip_some hs hgb ha
  have hclip := (fill_clip_contains hc px py).mpr ⟨hs, hgb, ha⟩
  unfold fill_with
  rw [hc]
  simp only []
  rw [draw_rows_val surf clip _ _ px py hclip (fill_clip_width hsurf hc)]
  unfold sgl_area.contains at hgb
  obtain ⟨g1, g2, g3, g4⟩ := hgb
  have hy0 : 0 ≤ py - (glyph_box font g x y).y1 := by omega
  have hx0 : 0 ≤ px - (glyph_box font g x y).x1 := by omega
  have hy1 : py - (glyph_box font g x y).y1 < g.box_h := by
    have : (glyph_box font g x y).y2 = (glyph_box font g x y).y1 + g.box_h - 1 := by
      unfold glyph_box
      simp only []
      ring
    omega
  have hx1 : px - (glyph_box font g x y).x1 < g.box_w := by
    have : (glyph_box font g x y).x2 = (glyph_box font g x y).x1 + g.box_w - 1 := rfl
    omega
  have ry : (py - (glyph_box font g x y).y1) % 2 ^ 32 = py - (glyph_box font g x y).y1 :=
    Int.emod_eq_of_lt hy0 (by omega)
  have rx : (px - (glyph_box font g x y).x1) % 2 ^ 32 = px - (glyph_box font g x y).x1 :=
    Int.emod_eq_of_lt hx0 (by omega)
  rw [ry, rx]
  have hyn : (py - (glyph_box font g x y).y1).toNat < g.box_h := by omega
  have hxn : (px - (glyph_box font g x y).x1).toNat < g.box_w := by omega
  have hprod : (py - (glyph_box font g x y).y1).toNat * g.box_w ≤ 254 * 255 :=
    Nat.mul_le_mul (by omega) hw
  have hlt : (py - (glyph_box font g x y).y1).toNat * g.box_w +
      (px - (glyph_box font g x y).x1).toNat < 65536 := by omega
  rw [Nat.mod_eq_of_lt (by omega), character_alpha_dot_eq font g _ hb hlt]

theorem sgl_draw_character_pixel_witness :
    ∃ out, sgl_draw_character sgl_pixel_depth.RGB565 demo_surf ⟨0, 0, 239, 283⟩ 10 10 0 0xFFFF
        255 tiny_font = some out ∧
      out (demo_surf.offset 11 13) =
        sgl_color_mixer sgl_pixel_depth.RGB565
          (sgl_color_mixer sgl_pixel_depth.RGB565 0xFFFF
            (demo_surf.buffer (demo_surf.offset 11 13))
            (coverage_alpha tiny_font.bpp
              (glyph_coverage tiny_font.bitmap 0 tiny_font.bpp
                ((13 - (glyph_box tiny_font
                    { bitmap_index := 0, adv_w := 64, box_h := 2, box_w := 3 } 10 10).y1).toNat *
                    3 +
                  (11 - (glyph_box tiny_font
                    { bitmap_index := 0, adv_w := 64, box_h := 2, box_w := 3 } 10 10).x1).toNat))))
          (demo_surf.buffer (demo_surf.offset 11 13)) 255 :=
  sgl_draw_character_pixel sgl_pixel_depth.RGB565 demo_surf ⟨0, 0, 239, 283⟩ 10 10 0 0xFFFF 255
    tiny_font { bitmap_index := 0, adv_w := 64, box_h := 2, box_w := 3 } 11 13
    (by decide) (by decide) (by decide) (by decide) (by decide) (by decide) (by decide)
    (by decide) (by decide)

/-! ### The order of the draw callbacks -/

theorem stack_drawn_push (h : Heap) (ov : sgl_area → Bool) (t : Shape) (ts : List Shape) :
    stack_drawn h ov (push_shape t ts) = drawn h ov t ++ stack_drawn h ov ts := by
  cases t with
  | nil => simp [push_shape, drawn]
  | node p c s => rfl

/-- On a stack of forests within the depth bound whose objects all have a draw
callback, the loop of `draw_obj_slice` adds to the record the calls for the
objects of `stack_drawn`, in this order. -/
theorem draw_obj_slice_loop_calls (construct : Nat → Option construct_cb) (h : Heap)
    (area : sgl_area) (fuel : Nat) :
    ∀ (stack : List Nat) (ts : List Shape) (s : draw_state),
      StackRep h stack ts → StackFits ts → stack_size ts ≤ fuel →
      (∀ q ∈ stack_preorder ts, construct q ≠ none) →
      (draw_obj_slice_loop construct h area fuel s stack).2.calls =
        s.calls ++ (stack_drawn h (sgl_surf_area_is_overlap s.surf) ts).map
          (slice_call s.surf area) := by
  induction fuel with
  | zero =>
    intro stack ts s hr _ hsz _
    cases stack with
    | nil =>
      cases ts with
      | nil => simp [draw_obj_slice_loop, stack_drawn]
      | cons t ts => exact absurd hr (by simp [StackRep])
    | cons p st =>
      cases ts with
      | nil => exact absurd hr (by simp [StackRep])
      | cons t ts =>
        cases t with
        | nil => exact absurd hr.1 (by simp [Represents])
        | node p' c sb =>
          simp only [stack_size, Shape.size] at hsz
          omega
  | succ n ih =>
    intro stack ts s hr hf hsz hcb
    cases stack with
    | nil =>
      cases ts with
      | nil => simp [draw_obj_slice_loop, stack_drawn]
      | cons t ts => exact absurd hr (by simp [StackRep])
    | cons p st =>
      cases ts with
      | nil => exact absurd hr (by simp [StackRep])
      | cons t ts =>
        cases t with
        | nil => exact absurd hr.1 (by simp [Represents])
        | node p' c sb =>
          obtain ⟨⟨hp, hc, hs⟩, hrest⟩ := hr
          have hpp : p = p' := Option.some.inj hp
          subst hpp
          obtain ⟨hd, hfr⟩ := hf
          have hlen : st.length = ts.length := stack_rep_length st ts hrest
          simp only [Shape.depth] at hd
          have hassert : (p :: st).length < SGL_OBJ_DEPTH_MAX := by
            simp only [List.length_cons]
            have : 1 ≤ max (c.depth + 1) sb.depth := le_max_of_le_left (by omega)
            omega
          have hfs : StackFits (push_shape sb ts) :=
            stack_fits_push hfr (fun _ => by
              have : sb.depth ≤ max (c.depth + 1) sb.depth := le_max_right _ _
              omega)
          have hfc : StackFits (push_shape c (push_shape sb ts)) :=
            stack_fits_push hfs (fun _ => by
              have := push_shape_length_le sb ts
              have : c.depth + 1 ≤ max (c.depth + 1) sb.depth := le_max_left _ _
              omega)
          simp only [stack_size, Shape.size] at hsz
          have hcbs : ∀ q ∈ stack_preorder (push_shape sb ts), construct q ≠ none := by
            intro q hq
            rw [stack_preorder_push] at hq
            apply hcb q
            simp only [stack_preorder, Shape.preorder, List.mem_append, List.mem_cons] at hq ⊢
            rcases hq with hq | hq
            · exact Or.inl (Or.inr (Or.inr hq))
            · exact Or.inr hq
          have hcbc : ∀ q ∈ stack_preorder (push_shape c (push_shape sb ts)),
              construct q ≠ none := by
            intro q hq
            rw [stack_preorder_push, stack_preorder_push] at hq
            apply hcb q
            simp only [stack_preorder, Shape.preorder, List.mem_append, List.mem_cons] at hq ⊢
            rcases hq with hq | hq | hq
            · exact Or.inl (Or.inr (Or.inl hq))
            · exact Or.inl (Or.inr (Or.inr hq))
            · exact Or.inr hq
          have hskip := ih (push_ptr (h p).sibling st) (push_shape sb ts) s
            (stack_rep_push hs hrest) hfs (by rw [stack_size_push]; omega) hcbs
          simp only [draw_obj_slice_loop]
          rw [if_pos hassert]
          by_cases hh : (h p).hide = true
          · rw [if_pos hh, hskip, stack_drawn_push]
            simp only [stack_drawn, drawn]
            rw [if_pos (Or.inl hh)]
            rfl
          · rw [if_neg hh]
            by_cases ho : sgl_surf_area_is_overlap s.surf (h p).coords = true
            · rw [if_pos ho]
              obtain ⟨cb, hcbp⟩ : ∃ cb, construct p = some cb := by
                have := hcb p (by simp [stack_preorder, Shape.preorder])
                cases hx : construct p with
                | none => exact absurd hx this
                | some cb => exact ⟨cb, rfl⟩
              simp only [hcbp]
              rw [ih (push_ptr (h p).child (push_ptr (h p).sibling st))
                (push_shape c (push_shape sb ts)) _
                (stack_rep_push hc (stack_rep_push hs hrest)) hfc
                (by rw [stack_size_push, stack_size_push]; omega) hcbc]
              rw [stack_drawn_push, stack_drawn_push]
              simp only [stack_drawn, drawn]
              rw [if_neg (by
                intro e
                rcases e with e | e
                · exact hh e
                · rw [ho] at e
                  exact Bool.noConfusion e)]
              have e1 : sgl_surf_area_is_overlap
                  { s.surf with buffer := cb s.surf (h p) area } =
                  sgl_surf_area_is_overlap s.surf := rfl
              have e2 : slice_call { s.surf with buffer := cb s.surf (h p) area } area =
                  slice_call s.surf area := rfl
              simp only [e1, e2, List.map_append, List.map_cons, List.append_assoc,
                List.cons_append, List.nil_append, List.singleton_append]
              rfl
            · rw [if_neg ho, hskip, stack_drawn_push]
              simp only [stack_drawn, drawn]
              rw [if_pos (Or.inr (by simpa using ho))]
              rfl

theorem draw_obj_slice_loop_nil (construct : Nat → Option construct_cb) (h : Heap)
    (area : sgl_area) (fuel : Nat) (s : draw_state) :
    draw_obj_slice_loop construct h area fuel s [] = (walk_status.returned, s) := by
  cases fuel <;> rfl

/-- C34: for the tree of a page in which every object is at depth 15 at most
(the forest below the root has at most 15 levels) and every object has a
draw callback, `sgl_dirty_area_calculate`, `draw_obj_slice` and `sgl_obj_free`
return: the assertion `top < SGL_OBJ_DEPTH_MAX` holds in every iteration and
the loops end. In an iteration in which the assertion holds the two pushes
write at indices below `SGL_OBJ_DEPTH_MAX`. -/
theorem walks_within_stack (construct : Nat → Option construct_cb) (n fuel : Nat) (h : Heap)
    (root : Nat) (c : Shape) (dirty area : sgl_area) (freed : List Nat) (s : draw_state)
    (hwf : page_tree h root c) (hcb : ∀ q ∈ root :: c.preorder, construct q ≠ none)
    (hn : c.size ≤ n) (hfuel : c.size < fuel) :
    (sgl_dirty_area_calculate n fuel h dirty freed root).1 = walk_status.returned ∧
    (draw_obj_slice construct h fuel root s area).1 = walk_status.returned ∧
    (sgl_obj_free fuel h root freed).1 = walk_status.returned ∧
    ∀ (p : Nat) (st : List Nat) (a : Option Nat), (p :: st).length < SGL_OBJ_DEPTH_MAX →
      st.length < SGL_OBJ_DEPTH_MAX ∧ (push_ptr a st).length < SGL_OBJ_DEPTH_MAX := by
  obtain ⟨hrep, hsib, hpar, hnd, hdepth, hdes⟩ := hwf
  have hnd1 := List.nodup_cons.mp hnd
  obtain ⟨f, hf⟩ : ∃ f, fuel = f + 1 := ⟨fuel - 1, by omega⟩
  subst hf
  have hassert : ([root] : List Nat).length < SGL_OBJ_DEPTH_MAX := by simp [SGL_OBJ_DEPTH_MAX]
  have hstack : StackRep h (push_ptr (h root).child []) (push_shape c []) :=
    stack_rep_push hrep trivial
  have hfits : StackFits (push_shape c []) :=
    stack_fits_push trivial (fun _ => by simpa using hdepth)
  have hssize : stack_size (push_shape c []) ≤ f := by
    rw [stack_size_push]
    simp only [stack_size]
    omega
  refine ⟨?_, ?_, ?_, ?_⟩
  · unfold sgl_dirty_area_calculate
    by_cases hh : (h root).hide = true
    · rw [walk_step_hidden n f _ root [] hassert hh]
      show (dirty_area_calculate_loop n f _ (push_ptr (h root).sibling [])).1 = _
      rw [hsib]
      show (dirty_area_calculate_loop n f _ []).1 = _
      rw [dirty_area_calculate_loop_nil]
    · have hh' : (h root).hide = false := by simpa using hh
      have key : ∀ s1 : walk_state, (s1.heap root).child = (h root).child →
          (∀ q, q ≠ root → s1.heap q = h q) →
          (dirty_area_calculate_loop n f s1 (push_ptr (h root).child [])).1 =
            walk_status.returned := by
        intro s1 b3 b5
        have hs1c : ∀ q ∈ c.preorder, s1.heap q = h q := fun q hq =>
          b5 q (fun e => hnd1.1 (e ▸ hq))
        obtain ⟨k, s', ptr', hk, hrun, _⟩ :=
          walk_forest n h c root [] (h root).child [] s1 hrep hpar hs1c hnd1.2 hnd1.1
            (fun q hq => absurd hq (List.not_mem_nil q)) (List.not_mem_nil root)
            List.nodup_nil b3 (fun _ => by simpa using hdepth)
            (by simp only [List.length_nil]; omega)
        have e : f = (f - k) + k := by omega
        rw [e, hrun (f - k), dirty_area_calculate_loop_nil]
      by_cases hdirty : (h root).dirty = true
      · rw [walk_step_dirty n f _ root [] hassert hh' hdes hdirty]
        show (dirty_area_calculate_loop n f _
          (push_ptr (h root).child (push_ptr (h root).sibling []))).1 = _
        rw [hsib]
        exact key _ (by simp only [Heap.set_same])
          (fun q hq => by simp only [Heap.set_other _ _ hq])
      · have hdirty' : (h root).dirty = false := by simpa using hdirty
        rw [walk_step_clean n f _ root [] hassert hh' hdes hdirty']
        show (dirty_area_calculate_loop n f _
          (push_ptr (h root).child (push_ptr (h root).sibling []))).1 = _
        rw [hsib]
        exact key _ rfl (fun _ _ => rfl)
  · unfold draw_obj_slice
    have hloop : (draw_obj_slice_loop construct h area (f + 1) s [root]).1 =
        walk_status.returned := by
      simp only [draw_obj_slice_loop]
      rw [if_pos hassert, hsib]
      by_cases hh : (h root).hide = true
      · rw [if_pos hh]
        show (draw_obj_slice_loop construct h area f s []).1 = _
        rw [draw_obj_slice_loop_nil]
      · rw [if_neg hh]
        by_cases ho : sgl_surf_area_is_overlap s.surf (h root).coords = true
        · rw [if_pos ho]
          obtain ⟨cb, hcbp⟩ : ∃ cb, construct root = some cb := by
            have := hcb root (List.mem_cons_self _ _)
            cases hx : construct root with
            | none => exact absurd hx this
            | some cb => exact ⟨cb, rfl⟩
          simp only [hcbp]
          exact (draw_obj_slice_loop_returns construct h area f
            (push_ptr (h root).child []) (push_shape c []) _ hstack hfits hssize
            (by
              intro q hq
              rw [stack_preorder_push] at hq
              apply hcb q
              simp only [stack_preorder, List.append_nil] at hq
              exact List.mem_cons_of_mem _ hq)).1
        · rw [if_neg ho]
          show (draw_obj_slice_loop construct h area f s []).1 = _
          rw [draw_obj_slice_loop_nil]
    simp only []
    rw [if_pos hloop]
  · unfold sgl_obj_free
    simp only [free_loop]
    rw [if_pos hassert, hsib]
    have hv := visit_order_of_shape f h (push_ptr (h root).child []) (push_shape c [])
      hstack hfits hssize
    show (free_loop h f (push_ptr (h root).child []) (freed ++ [root])).1 = _
    rw [free_loop_of_visit h f _ _ _ hv]
  · intro p st a hlen
    have := push_ptr_length_le a st
    simp only [List.length_cons] at hlen
    omega

theorem walks_within_stack_witness :
    (sgl_dirty_area_calculate 16 16 deep_heap ⟨0, 0, 0, 0⟩ [] 0).1 = walk_status.returned ∧
    (draw_obj_slice plain_construct deep_heap 16 0
      (sgl_system.start deep_heap 4 4 16).draw ⟨0, 0, 3, 3⟩).1 = walk_status.returned ∧
    (sgl_obj_free 16 deep_heap 0 []).1 = walk_status.returned ∧
    ∀ (p : Nat) (st : List Nat) (a : Option Nat), (p :: st).length < SGL_OBJ_DEPTH_MAX →
      st.length < SGL_OBJ_DEPTH_MAX ∧ (push_ptr a st).length < SGL_OBJ_DEPTH_MAX :=
  walks_within_stack plain_construct 16 16 deep_heap 0 (chain_shape 15 0) ⟨0, 0, 0, 0⟩
    ⟨0, 0, 3, 3⟩ [] (sgl_system.start deep_heap 4 4 16).draw (by decide)
    (fun _ _ => by simp [plain_construct]) (by decide) (by decide)

/-! ### The wait for the frame buffer -/

/-- The wait ends when the consumer reports the frame buffer ready within the
polls left, and it changes the count of the polls only. -/
theorem flush_wait_loop_ready :
    ∀ (fuel : Nat) (s : draw_state), (∃ m, m < fuel ∧ s.busy (s.polls + m) = false) →
      (flush_wait_loop fuel s).1 = walk_status.returned ∧
      ∃ k, (flush_wait_loop fuel s).2 = { s with polls := s.polls + k } := by
  intro fuel
  induction fuel with
  | zero =>
    rintro s ⟨m, hm, _⟩
    omega
  | succ f ih =>
    rintro s ⟨m, hm, hb⟩
    simp only [flush_wait_loop, sgl_fbdev_flush_wait_ready]
    by_cases hc : s.busy s.polls = true
    · rw [if_pos hc]
      have hm0 : m ≠ 0 := by
        rintro rfl
        rw [Nat.add_zero, hc] at hb
        exact Bool.noConfusion hb
      obtain ⟨r1, k, r2⟩ := ih { s with polls := s.polls + 1 } ⟨m - 1, by omega, by
        show s.busy (s.polls + 1 + (m - 1)) = false
        rw [show s.polls + 1 + (m - 1) = s.polls + m by omega]
        exact hb⟩
      refine ⟨r1, 1 + k, ?_⟩
      rw [r2]
      show ({ s with polls := s.polls + 1 + k } : draw_state) = _
      rw [Nat.add_assoc]
    · rw [if_neg hc]
      exact ⟨rfl, 1, rfl⟩

/-- While the consumer never reports the frame buffer ready the wait does not
end, whatever the number of polls. -/
theorem flush_wait_loop_stalls :
    ∀ (fuel : Nat) (s : draw_state), (∀ k, s.busy k = true) →
      (flush_wait_loop fuel s).1 = walk_status.out_of_fuel := by
  intro fuel
  induction fuel with
  | zero => intro s _; rfl
  | succ f ih =>
    intro s hb
    simp only [flush_wait_loop, sgl_fbdev_flush_wait_ready]
    rw [if_pos (hb _)]
    exact ih _ hb

/-- The walk of `draw_obj_slice` leaves the flush consumer as it is. -/
theorem draw_obj_slice_loop_busy (construct : Nat → Option construct_cb) (h : Heap)
    (area : sgl_area) :
    ∀ (fuel : Nat) (s : draw_state) (stack : List Nat),
      (draw_obj_slice_loop construct h area fuel s stack).2.busy = s.busy := by
  intro fuel
  induction fuel with
  | zero => intro s stack; cases stack <;> rfl
  | succ n ih =>
    intro s stack
    cases stack with
    | nil => rfl
    | cons p st =>
      simp only [draw_obj_slice_loop]
      by_cases ha : (p :: st).length < SGL_OBJ_DEPTH_MAX
      · rw [if_pos ha]
        by_cases hh : (h p).hide = true
        · rw [if_pos hh]
          exact ih _ _
        · rw [if_neg hh]
          by_cases ho : sgl_surf_area_is_overlap s.surf (h p).coords = true
          · rw [if_pos ho]
            cases construct p with
            | none => rfl
            | some cb => exact ih _ _
          · rw [if_neg ho]
            exact ih _ _
      · rw [if_neg ha]

theorem draw_obj_slice_busy (construct : Nat → Option construct_cb) (h : Heap)
    (fuel obj : Nat) (s : draw_state) (area : sgl_area) :
    (draw_obj_slice construct h fuel obj s area).2.busy = s.busy := by
  unfold draw_obj_slice
  simp only []
  by_cases hr : (draw_obj_slice_loop construct h area fuel s [obj]).1 = walk_status.returned
  · rw [if_pos hr]
    exact draw_obj_slice_loop_busy construct h area fuel s [obj]
  · rw [if_neg hr]
    exact draw_obj_slice_loop_busy construct h area fuel s [obj]

/-! ### One slice of the tree of a page -/

/-- On the tree of a page (objects at depth 15 at most) whose objects all have
a draw callback, `draw_obj_slice` returns, having called the callbacks of the
objects of `drawn` in this order and then flushed the slice of the surface
once; it leaves the position and the size of the surface and the flush
consumer as they are. -/
theorem draw_obj_slice_page (construct : Nat → Option construct_cb) (h : Heap)
    (fuel root : Nat) (area : sgl_area) (c : Shape)
    (hrep : Represents h (h root).child c) (hsib : (h root).sibling = none)
    (hdepth : c.depth < SGL_OBJ_DEPTH_MAX) (hsize : c.size < fuel)
    (hcb : ∀ q ∈ root :: c.preorder, construct q ≠ none) (s : draw_state) :
    (draw_obj_slice construct h fuel root s area).1 = walk_status.returned ∧
    same_geometry s.surf (draw_obj_slice construct h fuel root s area).2.surf ∧
    (draw_obj_slice construct h fuel root s area).2.calls =
      s.calls ++ (drawn h (sgl_surf_area_is_overlap s.surf) (Shape.node root c Shape.nil)).map
        (slice_call s.surf area) ∧
    (∃ px, (draw_obj_slice construct h fuel root s area).2.flushes =
      s.flushes ++ [{ area := ⟨s.surf.x, s.surf.y, s.surf.x2, s.surf.y2⟩, pixels := px }]) ∧
    (draw_obj_slice construct h fuel root s area).2.busy = s.busy := by
  obtain ⟨f, hf⟩ : ∃ f, fuel = f + 1 := ⟨fuel - 1, by omega⟩
  subst hf
  have hassert : ([root] : List Nat).length < SGL_OBJ_DEPTH_MAX := by simp [SGL_OBJ_DEPTH_MAX]
  have hstack : StackRep h (push_ptr (h root).child []) (push_shape c []) :=
    stack_rep_push hrep trivial
  have hfits : StackFits (push_shape c []) :=
    stack_fits_push trivial (fun _ => by simpa using hdepth)
  have hssize : stack_size (push_shape c []) ≤ f := by
    rw [stack_size_push]
    simp only [stack_size]
    omega
  have hcbc : ∀ q ∈ stack_preorder (push_shape c []), construct q ≠ none := by
    intro q hq
    rw [stack_preorder_push] at hq
    apply hcb q
    simp only [stack_preorder, List.append_nil] at hq
    exact List.mem_cons_of_mem _ hq
  have hloop : (draw_obj_slice_loop construct h area (f + 1) s [root]).1 =
        walk_status.returned ∧
      same_geometry s.surf (draw_obj_slice_loop construct h area (f + 1) s [root]).2.surf ∧
      (draw_obj_slice_loop construct h area (f + 1) s [root]).2.flushes = s.flushes ∧
      (draw_obj_slice_loop construct h area (f + 1) s [root]).2.calls =
        s.calls ++ (drawn h (sgl_surf_area_is_overlap s.surf)
          (Shape.node root c Shape.nil)).map (slice_call s.surf area) := by
    simp only [draw_obj_slice_loop]
    rw [if_pos hassert, hsib]
    by_cases hh : (h root).hide = true
    · rw [if_pos hh]
      show (draw_obj_slice_loop construct h area f s []).1 = _ ∧
        same_geometry s.surf (draw_obj_slice_loop construct h area f s []).2.surf ∧
        (draw_obj_slice_loop construct h area f s []).2.flushes = _ ∧
        (draw_obj_slice_loop construct h area f s []).2.calls = _
      rw [draw_obj_slice_loop_nil]
      refine ⟨rfl, ⟨rfl, rfl, rfl, rfl, rfl, rfl, rfl⟩, rfl, ?_⟩
      simp only [drawn]
      rw [if_pos (Or.inl hh)]
      simp
    · rw [if_neg hh]
      by_cases ho : sgl_surf_area_is_overlap s.surf (h root).coords = true
      · rw [if_pos ho]
        obtain ⟨cb, hcbp⟩ : ∃ cb, construct root = some cb := by
          have := hcb root (List.mem_cons_self _ _)
          cases hx : construct root with
          | none => exact absurd hx this
          | some cb => exact ⟨cb, rfl⟩
        simp only [hcbp]
        have hl := draw_obj_slice_loop_returns construct h area f
          (push_ptr (h root).child []) (push_shape c [])
          { s with
            surf := { s.surf with buffer := cb s.surf (h root) area }
            calls := s.calls ++
              [{ obj := root, slice := ⟨s.surf.x, s.surf.y, s.surf.x2, s.surf.y2⟩,
                 area := area }] }
          hstack hfits hssize hcbc
        have hc := draw_obj_slice_loop_calls construct h area f
          (push_ptr (h root).child []) (push_shape c [])
          { s with
            surf := { s.surf with buffer := cb s.surf (h root) area }
            calls := s.calls ++
              [{ obj := root, slice := ⟨s.surf.x, s.surf.y, s.surf.x2, s.surf.y2⟩,
                 area := area }] }
          hstack hfits hssize hcbc
        show (draw_obj_slice_loop construct h area f _ (push_ptr (h root).child [])).1 = _ ∧
          same_geometry s.surf
            (draw_obj_slice_loop construct h area f _ (push_ptr (h root).child [])).2.surf ∧
          (draw_obj_slice_loop construct h area f _ (push_ptr (h root).child [])).2.flushes = _ ∧
          (draw_obj_slice_loop construct h area f _ (push_ptr (h root).child [])).2.calls = _
        refine ⟨hl.1, hl.2.1, hl.2.2, ?_⟩
        rw [hc, stack_drawn_push]
        simp only [stack_drawn, drawn, List.append_nil]
        rw [if_neg (by
          intro e
          rcases e with e | e
          · exact hh e
          · rw [ho] at e
            exact Bool.noConfusion e)]
        have e1 : sgl_surf_area_is_overlap
            { s.surf with buffer := cb s.surf (h root) area } =
            sgl_surf_area_is_overlap s.surf := rfl
        have e2 : slice_call { s.surf with buffer := cb s.surf (h root) area } area =
            slice_call s.surf area := rfl
        simp only [e1, e2, List.map_append, List.map_cons, List.append_assoc,
          List.cons_append, List.nil_append, List.singleton_append]
        rfl
      · rw [if_neg ho]
        show (draw_obj_slice_loop construct h area f s []).1 = _ ∧
          same_geometry s.surf (draw_obj_slice_loop construct h area f s []).2.surf ∧
          (draw_obj_slice_loop construct h area f s []).2.flushes = _ ∧
          (draw_obj_slice_loop construct h area f s []).2.calls = _
        rw [draw_obj_slice_loop_nil]
        refine ⟨rfl, ⟨rfl, rfl, rfl, rfl, rfl, rfl, rfl⟩, rfl, ?_⟩
        simp only [drawn]
        rw [if_pos (Or.inr (by simpa using ho))]
        simp
  obtain ⟨l1, l2, l3, l4⟩ := hloop
  obtain ⟨g1, g2, g3, g4, g5, g6, g7⟩ := l2
  have hb := draw_obj_slice_busy construct h (f + 1) root s area
  unfold draw_obj_slice at hb ⊢
  simp only [] at hb ⊢
  rw [if_pos l1] at hb ⊢
  refine ⟨rfl, ⟨g1, g2, g3, g4, g5, g6, g7⟩, l4, ?_, hb⟩
  refine ⟨(draw_obj_slice_loop construct h area (f + 1) s [root]).2.surf.buffer, ?_⟩
  show (draw_obj_slice_loop construct h area (f + 1) s [root]).2.flushes ++ _ = _
  rw [l3, g1, g2, g5, g6]

/-! ### Which callbacks a slice invokes -/

/-- The loop over the slices returns when the flush consumer reports the
frame buffer ready at each wait, and the areas it flushes are slices of the
columns of the surface that follow each other from the first row of the
surface to the last row of the dirty rect. -/
theorem draw_task_loop_slices (construct : Nat → Option construct_cb) (h : Heap)
    (fuel head : Nat) (dirty : sgl_area) (fb_swap : Nat) (c : Shape)
    (hrep : Represents h (h head).child c) (hsib : (h head).sibling = none)
    (hdepth : c.depth < SGL_OBJ_DEPTH_MAX) (hsize : c.size < fuel)
    (hcb : ∀ q ∈ head :: c.preorder, construct q ≠ none) (hy2 : dirty.y2 < 32767) (size : Int) :
    ∀ (rows : Nat) (s : draw_state), 1 ≤ s.surf.h → 0 ≤ s.surf.y →
      s.surf.y ≤ dirty.y2 + 1 → dirty.y2 - s.surf.y + 1 ≤ rows →
      0 ≤ s.surf.x2 - s.surf.x + 1 → (s.surf.x2 - s.surf.x + 1) * s.surf.h ≤ size →
      (∀ k, ∃ m, m < fuel ∧ s.busy (k + m) = false) →
      (draw_task_loop construct h fuel head dirty fb_swap rows s).1 = walk_status.returned ∧
      ∃ new : List flush_call,
        (draw_task_loop construct h fuel head dirty fb_swap rows s).2.flushes =
          s.flushes ++ new ∧
        slices s.surf.x s.surf.x2 size s.surf.y dirty.y2 (new.map (fun f => f.area)) := by
  intro rows
  induction rows with
  | zero =>
    intro s _ _ hle hm _ _ _
    simp only [draw_task_loop]
    simp only [Nat.cast_zero] at hm
    rw [if_neg (by omega)]
    exact ⟨rfl, [], by simp, show s.surf.y = dirty.y2 + 1 by omega⟩
  | succ r ih =>
    intro s hh hy hle hm hw hcap hready
    simp only [draw_task_loop]
    by_cases hle2 : s.surf.y ≤ dirty.y2
    · rw [if_pos hle2]
      have hmin1 : 1 ≤ sgl_min (dirty.y2 - s.surf.y + 1) s.surf.h := by
        unfold sgl_min
        exact le_min (by omega) hh
      have hmin2 : sgl_min (dirty.y2 - s.surf.y + 1) s.surf.h ≤ dirty.y2 - s.surf.y + 1 := by
        unfold sgl_min
        exact min_le_left _ _
      have hmin3 : sgl_min (dirty.y2 - s.surf.y + 1) s.surf.h ≤ s.surf.h := by
        unfold sgl_min
        exact min_le_right _ _
      generalize hdh : sgl_min (dirty.y2 - s.surf.y + 1) s.surf.h = draw_h at hmin1 hmin2 hmin3
      obtain ⟨w1, k, w2⟩ := flush_wait_loop_ready fuel
        { s with surf := { s.surf with y2 := wrap16 (s.surf.y + draw_h - 1) } }
        (hready _)
      rw [if_pos w1, w2]
      generalize hs1 : ({ ({ ({ s with
            surf := { s.surf with y2 := wrap16 (s.surf.y + draw_h - 1) } } : draw_state) with
          polls := s.polls + k } : draw_state) with
        fb_status := s.fb_status &&& (2 - fb_swap) } : draw_state) = s1
      have s1surf : s1.surf = { s.surf with y2 := wrap16 (s.surf.y + draw_h - 1) } := by
        rw [← hs1]
      have s1fl : s1.flushes = s.flushes := by rw [← hs1]
      have s1busy : s1.busy = s.busy := by rw [← hs1]
      obtain ⟨r1, r2, _, ⟨px, r4⟩, r5⟩ :=
        draw_obj_slice_page construct h fuel head dirty c hrep hsib hdepth hsize hcb s1
      rw [if_pos r1]
      obtain ⟨g1, g2, g3, g4, g5, g6, g7⟩ := r2
      rw [s1surf] at g1 g2 g3 g4 g5 g6 g7
      simp only [] at g1 g2 g3 g4 g5 g6 g7
      have v1 : wrap16 (s.surf.y + draw_h - 1) = s.surf.y + draw_h - 1 :=
        wrap16_of_int16 ⟨by omega, by omega⟩
      have v2 : wrap16 (s.surf.y + draw_h) = s.surf.y + draw_h :=
        wrap16_of_int16 ⟨by omega, by omega⟩
      generalize hr : (draw_obj_slice construct h fuel head s1 dirty).2 = r2s
        at r4 r5 g1 g2 g3 g4 g5 g6 g7
      obtain ⟨i1, new, i2, i3⟩ := ih
        { r2s with surf := { r2s.surf with y := wrap16 (r2s.surf.y + draw_h) } }
        (by show 1 ≤ r2s.surf.h
            rw [g4]; exact hh)
        (by show 0 ≤ wrap16 (r2s.surf.y + draw_h)
            rw [g2, v2]; omega)
        (by show wrap16 (r2s.surf.y + draw_h) ≤ _
            rw [g2, v2]; omega)
        (by show dirty.y2 - wrap16 (r2s.surf.y + draw_h) + 1 ≤ _
            rw [g2, v2]
            push_cast at hm
            omega)
        (by show 0 ≤ r2s.surf.x2 - r2s.surf.x + 1
            rw [g5, g1]; exact hw)
        (by show (r2s.surf.x2 - r2s.surf.x + 1) * r2s.surf.h ≤ size
            rw [g5, g1, g4]; exact hcap)
        (by intro k1
            show ∃ m, m < fuel ∧ r2s.busy (k1 + m) = false
            rw [r5, s1busy]
            exact hready k1)
      refine ⟨i1, (flush_call.mk ⟨s.surf.x, s.surf.y, s.surf.x2,
        wrap16 (s.surf.y + draw_h - 1)⟩ px) :: new, ?_, ?_⟩
      · rw [i2]
        show r2s.flushes ++ new = _
        rw [r4, s1fl, s1surf]
        simp
      · simp only [List.map_cons]
        refine ⟨rfl, rfl, rfl, ?_, ?_, ?_, ?_⟩
        · show s.surf.y ≤ wrap16 (s.surf.y + draw_h - 1)
          rw [v1]; omega
        · show wrap16 (s.surf.y + draw_h - 1) ≤ dirty.y2
          rw [v1]; omega
        · show (s.surf.x2 - s.surf.x + 1) * (wrap16 (s.surf.y + draw_h - 1) - s.surf.y + 1) ≤ size
          rw [v1]
          have e : s.surf.y + draw_h - 1 - s.surf.y + 1 = draw_h := by ring
          rw [e]
          exact le_trans (Int.mul_le_mul_of_nonneg_left hmin3 hw) hcap
        · have e : wrap16 (s.surf.y + draw_h - 1) + 1 = s.surf.y + draw_h := by
            rw [v1]; ring
          show slices s.surf.x s.surf.x2 size (wrap16 (s.surf.y + draw_h - 1) + 1) dirty.y2 _
          rw [e]
          have i3' := i3
          simp only [] at i3'
          rw [g1, g5, g2, v2] at i3'
          exact i3'
    · rw [if_neg hle2]
      exact ⟨rfl, [], by simp, show s.surf.y = dirty.y2 + 1 by omega⟩

/-- C31: on the tree of a page (objects at depth 15 at most) whose objects all
have a draw callback, for a well-formed dirty rect on the screen whose width
(after the clip to the page) is at most the capacity of the buffer, and a
flush consumer that reports the frame buffer ready at each wait,
`sgl_draw_task` returns, and the areas it flushes are slices of the columns
of the dirty rect that follow each other from its first to its last row,
each of at least one row and of at most `size` pixels. -/
theorem sgl_draw_task_slices (construct : Nat → Option construct_cb)
    (SGL_POS_MAX SGL_POS_MIN : Int) (fuel rows : Nat) (s : sgl_system) (c : Shape)
    (hwf : page_tree s.heap s.active c)
    (hcb : ∀ q ∈ s.active :: c.preorder, construct q ≠ none)
    (hready : ∀ k, ∃ j, j < fuel ∧ s.draw.busy (k + j) = false)
    (hd : s.dirty.on_screen s.xres s.yres) (hdw : s.dirty.wf)
    (hrw : (s.heap s.active).coords.wf) (hyres : s.yres ≤ 32767)
    (hcap : (sgl_area_selfclip s.dirty (s.heap s.active).coords).2.x2 -
      (sgl_area_selfclip s.dirty (s.heap s.active).coords).2.x1 + 1 ≤ s.draw.surf.size)
    (hfuel : c.size < fuel) (hrows : s.yres ≤ rows) :
    (sgl_draw_task construct SGL_POS_MAX SGL_POS_MIN fuel rows s).1 = walk_status.returned ∧
    ∃ new : List flush_call,
      (sgl_draw_task construct SGL_POS_MAX SGL_POS_MIN fuel rows s).2.draw.flushes =
        s.draw.flushes ++ new ∧
      slices (sgl_area_selfclip s.dirty (s.heap s.active).coords).2.x1
        (sgl_area_selfclip s.dirty (s.heap s.active).coords).2.x2 s.draw.surf.size
        (sgl_area_selfclip s.dirty (s.heap s.active).coords).2.y1
        (sgl_area_selfclip s.dirty (s.heap s.active).coords).2.y2
        (new.map (fun f => f.area)) := by
  obtain ⟨hrep, hsib, _, _, hdepth, _⟩ := hwf
  obtain ⟨⟨e1, e2, e3, e4⟩, f1, f2⟩ :=
    sgl_area_selfclip_on_screen s.dirty (s.heap s.active).coords s.xres s.yres hd hdw hrw
  unfold sgl_draw_task
  simp only []
  generalize (sgl_area_selfclip s.dirty (s.heap s.active).coords).2 = dirty
    at e1 e2 e3 e4 f1 f2 hcap
  rw [if_pos ⟨e1, e2, e3, e4⟩, if_pos (by omega)]
  have hdiv : 1 ≤ (s.draw.surf.size : Int) / (dirty.x2 - dirty.x1 + 1) :=
    Int.le_ediv_of_mul_le (by omega) (by omega)
  have hmod : (dirty.y2 - dirty.y1 + 1) % 2 ^ 32 = dirty.y2 - dirty.y1 + 1 :=
    Int.emod_eq_of_lt (by omega) (by omega)
  have hloop := draw_task_loop_slices construct s.heap fuel s.active dirty s.fb_swap
    c hrep hsib hdepth hfuel hcb (by omega) s.draw.surf.size rows
    { s.draw with
      surf := { s.draw.surf with
        x := dirty.x1
        y := dirty.y1
        x2 := dirty.x2
        w := dirty.x2 - dirty.x1 + 1
        h := sgl_min ((s.draw.surf.size : Int) / (dirty.x2 - dirty.x1 + 1))
          ((dirty.y2 - dirty.y1 + 1) % 2 ^ 32) } }
    (by
      show 1 ≤ sgl_min _ _
      unfold sgl_min
      refine le_min hdiv ?_
      rw [hmod]
      omega)
    e2
    (by show dirty.y1 ≤ dirty.y2 + 1; omega)
    (by show dirty.y2 - dirty.y1 + 1 ≤ _; omega)
    (by show 0 ≤ dirty.x2 - dirty.x1 + 1; omega)
    (by
      show (dirty.x2 - dirty.x1 + 1) * sgl_min _ _ ≤ _
      unfold sgl_min
      refine le_trans (Int.mul_le_mul_of_nonneg_left (min_le_left _ _) (by omega)) ?_
      exact Int.mul_ediv_self_le (by omega))
    hready
  rw [if_pos hloop.1]
  obtain ⟨_, new, h1, h2⟩ := hloop
  exact ⟨rfl, new, h1, h2⟩

theorem sgl_draw_task_slices_witness :
    (sgl_draw_task plain_construct 32767 (-32768) 8 8 slice_system).1 =
      walk_status.returned ∧
    ∃ new : List flush_call,
      (sgl_draw_task plain_construct 32767 (-32768) 8 8 slice_system).2.draw.flushes =
        slice_system.draw.flushes ++ new ∧
      slices (sgl_area_selfclip slice_system.dirty
          (slice_system.heap slice_system.active).coords).2.x1
        (sgl_area_selfclip slice_system.dirty
          (slice_system.heap slice_system.active).coords).2.x2 slice_system.draw.surf.size
        (sgl_area_selfclip slice_system.dirty
          (slice_system.heap slice_system.active).coords).2.y1
        (sgl_area_selfclip slice_system.dirty
          (slice_system.heap slice_system.active).coords).2.y2
        (new.map (fun f => f.area)) :=
  sgl_draw_task_slices plain_construct 32767 (-32768) 8 8 slice_system
    (Shape.node 1 (Shape.node 2 Shape.nil Shape.nil) Shape.nil)
    (by decide) (fun _ _ => by simp [plain_construct]) (fun _ => ⟨0, by decide, rfl⟩)
    (by decide) (by decide) (by decide) (by decide) (by decide) (by decide) (by decide)

/-! ### The dirty accumulator after a draw pass -/

/-- The draw pass leaves the object memory as it is. -/
theorem sgl_draw_task_heap (construct : Nat → Option construct_cb)
    (SGL_POS_MAX SGL_POS_MIN : Int) (fuel rows : Nat) (s : sgl_system) :
    (sgl_draw_task construct SGL_POS_MAX SGL_POS_MIN fuel rows s).2.heap = s.heap := by
  unfold sgl_draw_task
  simp only []
  split_ifs <;> rfl

/-- A draw pass that returns has reset the dirty accumulator. -/
theorem sgl_draw_task_reset (construct : Nat → Option construct_cb)
    (SGL_POS_MAX SGL_POS_MIN : Int) (fuel rows : Nat) (s : sgl_system)
    (hret : (sgl_draw_task construct SGL_POS_MAX SGL_POS_MIN fuel rows s).1 =
      walk_status.returned) :
    (sgl_draw_task construct SGL_POS_MAX SGL_POS_MIN fuel rows s).2.dirty =
      sgl_area_init SGL_POS_MAX SGL_POS_MIN := by
  unfold sgl_draw_task at hret ⊢
  simp only [] at hret ⊢
  split_ifs at hret ⊢ with h1 h2 h3
  · rfl
  · exact absurd hret h3

/-- The draw pass returns on the tree of a page whose objects all have a draw
callback, with a flush consumer that reports the frame buffer ready at each
wait, when the dirty accumulator, clipped to the page, lies on the screen,
has a column, and fits the buffer with one row if it has a row. -/
theorem sgl_draw_task_page_returns (construct : Nat → Option construct_cb)
    (SGL_POS_MAX SGL_POS_MIN : Int) (fuel rows : Nat) (s : sgl_system) (c : Shape)
    (hrep : Represents s.heap (s.heap s.active).child c)
    (hsib : (s.heap s.active).sibling = none)
    (hdepth : c.depth < SGL_OBJ_DEPTH_MAX) (hsize : c.size < fuel)
    (hcb : ∀ q ∈ s.active :: c.preorder, construct q ≠ none)
    (hready : ∀ k, ∃ j, j < fuel ∧ s.draw.busy (k + j) = false)
    (hon : (sgl_area_selfclip s.dirty (s.heap s.active).coords).2.on_screen s.xres s.yres)
    (hwidth : 0 < (sgl_area_selfclip s.dirty (s.heap s.active).coords).2.x2 -
      (sgl_area_selfclip s.dirty (s.heap s.active).coords).2.x1 + 1)
    (hcap : (sgl_area_selfclip s.dirty (s.heap s.active).coords).2.y1 ≤
        (sgl_area_selfclip s.dirty (s.heap s.active).coords).2.y2 →
      (sgl_area_selfclip s.dirty (s.heap s.active).coords).2.x2 -
        (sgl_area_selfclip s.dirty (s.heap s.active).coords).2.x1 + 1 ≤ s.draw.surf.size)
    (hyres : s.yres ≤ 32767) (hrows : s.yres ≤ rows) :
    (sgl_draw_task construct SGL_POS_MAX SGL_POS_MIN fuel rows s).1 =
      walk_status.returned := by
  unfold sgl_draw_task
  simp only []
  generalize (sgl_area_selfclip s.dirty (s.heap s.active).coords).2 = dirty
    at hon hwidth hcap
  obtain ⟨e1, e2, e3, e4⟩ := hon
  rw [if_pos ⟨e1, e2, e3, e4⟩, if_pos hwidth]
  have hloop : (draw_task_loop construct s.heap fuel s.active dirty s.fb_swap rows
      { s.draw with
        surf := { s.draw.surf with
          x := dirty.x1
          y := dirty.y1
          x2 := dirty.x2
          w := dirty.x2 - dirty.x1 + 1
          h := sgl_min ((s.draw.surf.size : Int) / (dirty.x2 - dirty.x1 + 1))
            ((dirty.y2 - dirty.y1 + 1) % 2 ^ 32) } }).1 = walk_status.returned := by
    by_cases hy : dirty.y1 ≤ dirty.y2
    · have hcap1 := hcap hy
      have hdiv : 1 ≤ (s.draw.surf.size : Int) / (dirty.x2 - dirty.x1 + 1) :=
        Int.le_ediv_of_mul_le (by omega) (by omega)
      have hmod : (dirty.y2 - dirty.y1 + 1) % 2 ^ 32 = dirty.y2 - dirty.y1 + 1 :=
        Int.emod_eq_of_lt (by omega) (by omega)
      exact (draw_task_loop_slices construct s.heap fuel s.active dirty s.fb_swap
        c hrep hsib hdepth hsize hcb (by omega)
        ((dirty.x2 - dirty.x1 + 1) *
          sgl_min ((s.draw.surf.size : Int) / (dirty.x2 - dirty.x1 + 1))
            ((dirty.y2 - dirty.y1 + 1) % 2 ^ 32)) rows
        { s.draw with
          surf := { s.draw.surf with
            x := dirty.x1
            y := dirty.y1
            x2 := dirty.x2
            w := dirty.x2 - dirty.x1 + 1
            h := sgl_min ((s.draw.surf.size : Int) / (dirty.x2 - dirty.x1 + 1))
              ((dirty.y2 - dirty.y1 + 1) % 2 ^ 32) } }
        (by
          show 1 ≤ sgl_min _ _
          unfold sgl_min
          refine le_min hdiv ?_
          rw [hmod]
          omega)
        e2
        (by show dirty.y1 ≤ dirty.y2 + 1; omega)
        (by show dirty.y2 - dirty.y1 + 1 ≤ _; omega)
        (by show 0 ≤ dirty.x2 - dirty.x1 + 1; omega)
        (le_refl _)
        hready).1
    · cases rows with
      | zero =>
        simp only [draw_task_loop]
        rw [if_neg hy]
      | succ r =>
        simp only [draw_task_loop]
        rw [if_neg hy]
  rw [if_pos hloop]

/-- C17: for a call of `sgl_task_handle_sync` on the tree of a page (objects at
depth 15 at most) whose dirty walk returns true, that is a call that performs
a draw pass: after it every object of the tree that is neither hidden nor
below a hidden object has its dirty flag clear; if the call returns, the
dirty accumulator is the empty sentinel; and the call returns when every
object has a draw callback, the flush consumer reports the frame buffer ready
at each wait, and the accumulator the walk has built, clipped to the rect of
the page, lies on the screen, has a column, and fits the buffer with one row
if it has a row. -/
theorem sgl_task_handle_sync_resets_dirty (construct : Nat → Option construct_cb)
    (SGL_POS_MAX SGL_POS_MIN : Int) (n fuel rows : Nat) (s : sgl_system) (c : Shape)
    (hwf : page_tree s.heap s.active c)
    (hpass : (sgl_dirty_area_calculate n fuel s.heap s.dirty s.freed s.active).2.changed = true)
    (hn : c.size ≤ n) (hfuel : c.size < fuel) :
    (∃ u : Shape,
      Represents (sgl_task_handle_sync construct SGL_POS_MAX SGL_POS_MIN n fuel rows s).2.heap
        (some s.active) u ∧
      all_visible_clean
        (sgl_task_handle_sync construct SGL_POS_MAX SGL_POS_MIN n fuel rows s).2.heap u) ∧
    ((sgl_task_handle_sync construct SGL_POS_MAX SGL_POS_MIN n fuel rows s).1 =
        walk_status.returned →
      (sgl_task_handle_sync construct SGL_POS_MAX SGL_POS_MIN n fuel rows s).2.dirty =
        sgl_area_init SGL_POS_MAX SGL_POS_MIN) ∧
    ((∀ q ∈ s.active :: c.preorder, construct q ≠ none) →
      (∀ k, ∃ j, j < fuel ∧ s.draw.busy (k + j) = false) →
      (sgl_area_selfclip (sgl_dirty_area_calculate n fuel s.heap s.dirty s.freed s.active).2.dirty
        (s.heap s.active).coords).2.on_screen s.xres s.yres →
      0 < (sgl_area_selfclip
          (sgl_dirty_area_calculate n fuel s.heap s.dirty s.freed s.active).2.dirty
          (s.heap s.active).coords).2.x2 -
        (sgl_area_selfclip
          (sgl_dirty_area_calculate n fuel s.heap s.dirty s.freed s.active).2.dirty
          (s.heap s.active).coords).2.x1 + 1 →
      ((sgl_area_selfclip
          (sgl_dirty_area_calculate n fuel s.heap s.dirty s.freed s.active).2.dirty
          (s.heap s.active).coords).2.y1 ≤
        (sgl_area_selfclip
          (sgl_dirty_area_calculate n fuel s.heap s.dirty s.freed s.active).2.dirty
          (s.heap s.active).coords).2.y2 →
        (sgl_area_selfclip
            (sgl_dirty_area_calculate n fuel s.heap s.dirty s.freed s.active).2.dirty
            (s.heap s.active).coords).2.x2 -
          (sgl_area_selfclip
            (sgl_dirty_area_calculate n fuel s.heap s.dirty s.freed s.active).2.dirty
            (s.heap s.active).coords).2.x1 + 1 ≤ s.draw.surf.size) →
      s.yres ≤ 32767 → s.yres ≤ rows →
      (sgl_task_handle_sync construct SGL_POS_MAX SGL_POS_MIN n fuel rows s).1 =
        walk_status.returned) := by
  obtain ⟨s', hrun, hch, hdi, hcoords, hpr⟩ :=
    walk_tree s.heap s.active c hwf n fuel hn hfuel s.dirty s.freed
  rw [hrun] at hpass ⊢
  have hpass' : s'.changed = true := hpass
  have hflag : any_flagged s.heap (Shape.node s.active c Shape.nil) = true := by
    rw [← hch]; exact hpass'
  obtain ⟨hrep, hsib, hpar, hnd, hdepth, hdes⟩ := hwf
  have hvis : (s.heap s.active).hide = false := by
    cases hc : (s.heap s.active).hide with
    | false => rfl
    | true => simp [any_flagged, hc] at hflag
  rw [Pruned_node] at hpr
  rcases hpr with ⟨a1, _⟩ | ⟨_, a2, _⟩ | ⟨a1, a2, a3, a4, a5, a6, a7⟩
  · rw [hvis] at a1
    exact Bool.noConfusion a1
  · rw [hdes] at a2
    exact Bool.noConfusion a2
  · obtain ⟨uc, c1, c2, c3, c4, c5⟩ := Pruned_shape s.heap s'.heap c _ _ hrep a6
    have hsib1 : (s'.heap s.active).sibling = none := a7
    have hsync : sgl_task_handle_sync construct SGL_POS_MAX SGL_POS_MIN n fuel rows s =
        sgl_draw_task construct SGL_POS_MAX SGL_POS_MIN fuel rows
          { s with heap := s'.heap, dirty := s'.dirty, freed := s'.freed } := by
      unfold sgl_task_handle_sync
      simp only [hrun, hpass', if_true]
    rw [hsync]
    refine ⟨⟨Shape.node s.active uc Shape.nil, ?_, ?_⟩, ?_, ?_⟩
    · rw [sgl_draw_task_heap]
      exact ⟨rfl, c1, hsib1⟩
    · rw [sgl_draw_task_heap]
      exact ⟨Or.inr ⟨a5, c5⟩, trivial⟩
    · exact sgl_draw_task_reset construct SGL_POS_MAX SGL_POS_MIN fuel rows _
    · intro hcb hready hon hwidth hcap hyres hrows
      refine sgl_draw_task_page_returns construct SGL_POS_MAX SGL_POS_MIN fuel rows
        { s with heap := s'.heap, dirty := s'.dirty, freed := s'.freed } uc c1 hsib1
        (lt_of_le_of_lt c2 hdepth) (by omega) ?_ hready ?_ ?_ ?_ hyres hrows
      · intro q hq
        apply hcb q
        rcases List.mem_cons.mp hq with e | e
        · exact e ▸ List.mem_cons_self _ _
        · exact List.mem_cons_of_mem _ (c4 q e)
      · show (sgl_area_selfclip s'.dirty (s'.heap s.active).coords).2.on_screen s.xres s.yres
        rw [hcoords]
        exact hon
      · show 0 < (sgl_area_selfclip s'.dirty (s'.heap s.active).coords).2.x2 -
          (sgl_area_selfclip s'.dirty (s'.heap s.active).coords).2.x1 + 1
        rw [hcoords]
        exact hwidth
      · show (sgl_area_selfclip s'.dirty (s'.heap s.active).coords).2.y1 ≤
            (sgl_area_selfclip s'.dirty (s'.heap s.active).coords).2.y2 →
          (sgl_area_selfclip s'.dirty (s'.heap s.active).coords).2.x2 -
            (sgl_area_selfclip s'.dirty (s'.heap s.active).coords).2.x1 + 1 ≤ s.draw.surf.size
        rw [hcoords]
        exact hcap

theorem sgl_task_handle_sync_resets_dirty_witness :
    page_tree clipped_scene 0 (Shape.node 1 Shape.nil Shape.nil) ∧
    (sgl_dirty_area_calculate 8 8 clipped_scene (sgl_area_init 32767 (-32768)) [] 0).2.dirty =
      ⟨2, 2, 5, 5⟩ ∧
    (sgl_task_handle_sync plain_construct 32767 (-32768) 8 8 8
      (sgl_system.start clipped_scene 4 4 16)).1 = walk_status.returned ∧
    (sgl_task_handle_sync plain_construct 32767 (-32768) 8 8 8
      (sgl_system.start clipped_scene 4 4 16)).2.dirty = sgl_area_init 32767 (-32768) ∧
    ∃ u : Shape,
      Represents (sgl_task_handle_sync plain_construct 32767 (-32768) 8 8 8
        (sgl_system.start clipped_scene 4 4 16)).2.heap (some 0) u ∧
      all_visible_clean (sgl_task_handle_sync plain_construct 32767 (-32768) 8 8 8
        (sgl_system.start clipped_scene 4 4 16)).2.heap u := by
  have t := sgl_task_handle_sync_resets_dirty plain_construct 32767 (-32768) 8 8 8
    (sgl_system.start clipped_scene 4 4 16) (Shape.node 1 Shape.nil Shape.nil)
    (by decide) (by decide) (by decide) (by decide)
  have r := t.2.2 (fun _ _ => by simp [plain_construct]) (fun _ => ⟨0, by decide, rfl⟩)
    (by decide) (by decide) (by decide) (by decide) (by decide)
  exact ⟨by decide, by decide, r, t.2.1 r, t.1⟩

/-! ### The last row of the dirty rect -/

/-- C32: on a display of 4 by 4 pixels, `sgl_draw_task` of `core/sgl_core.c`
with the dirty rect `(0, 1, 3, 1)` of one row returns without a call of a
draw callback and without a flush; with the dirty rect `(0, 0, 3, 2)` and a
buffer of two rows it flushes the rows 0 to 1 and returns, the row 2 being
neither drawn nor flushed. -/
theorem core_sgl_draw_task_skips_last_row :
    (core.sgl_draw_task plain_construct 4 4 ⟨0, 0, 0, 0⟩ 8 8 (row_ctx ⟨0, 1, 3, 1⟩ 16)).1 =
      walk_status.returned ∧
    (core.sgl_draw_task plain_construct 4 4 ⟨0, 0, 0, 0⟩ 8 8
      (row_ctx ⟨0, 1, 3, 1⟩ 16)).2.draw.calls = [] ∧
    (core.sgl_draw_task plain_construct 4 4 ⟨0, 0, 0, 0⟩ 8 8
      (row_ctx ⟨0, 1, 3, 1⟩ 16)).2.draw.flushes.map (fun f => f.area) = [] ∧
    (core.sgl_draw_task plain_construct 4 4 ⟨0, 0, 0, 0⟩ 8 8 (row_ctx ⟨0, 0, 3, 2⟩ 8)).1 =
      walk_status.returned ∧
    (core.sgl_draw_task plain_construct 4 4 ⟨0, 0, 0, 0⟩ 8 8
      (row_ctx ⟨0, 0, 3, 2⟩ 8)).2.draw.flushes.map (fun f => f.area) = [⟨0, 0, 3, 1⟩] := by
  decide

/-! ### Integer square root -/

/-- One run of the loop of `sgl_sqrt`: with `n` pairs of bits `y` left at the
top of `x` and `root * root + rem` the part already taken, `rem ≤ 2 * root`,
the result is the integer square root of the whole. -/
theorem sqrt_loop_spec (n : Nat) :
    ∀ (k x rem root y : Nat), k + n = 16 → x = y * 4 ^ (16 - n) → y < 4 ^ n →
      rem ≤ 2 * root → root < 2 ^ k →
      sqrt_loop n x rem root * sqrt_loop n x rem root ≤ (root * root + rem) * 4 ^ n + y ∧
      (root * root + rem) * 4 ^ n + y <
        (sqrt_loop n x rem root + 1) * (sqrt_loop n x rem root + 1) ∧
      sqrt_loop n x rem root < 2 ^ 16 := by
  induction n with
  | zero =>
    intro k x rem root y hk _ hy hrem hroot
    simp only [pow_zero, Nat.lt_one_iff] at hy
    subst hy
    have hk16 : k = 16 := by omega
    subst hk16
    simp only [sqrt_loop, pow_zero, mul_one, add_zero]
    refine ⟨by omega, by nlinarith, hroot⟩
  | succ n ih =>
    intro k x rem root y hk hx hy hrem hroot
    have hn : n ≤ 15 := by omega
    have hQP : (4 : Nat) ^ (15 - n) * 4 ^ n = 2 ^ 30 := by
      rw [← pow_add, show 15 - n + n = 15 by omega]
      norm_num
    have hQ4 : (4 : Nat) ^ (16 - n) = 4 * 4 ^ (15 - n) := by
      rw [show 16 - n = (15 - n) + 1 by omega, pow_succ]
      ring
    have hP4 : (4 : Nat) ^ (n + 1) = 4 * 4 ^ n := by rw [pow_succ]; ring
    have hQpos : 0 < (4 : Nat) ^ (15 - n) := Nat.pos_of_ne_zero (by positivity)
    have hPpos : 0 < (4 : Nat) ^ n := Nat.pos_of_ne_zero (by positivity)
    rw [show 16 - (n + 1) = 15 - n by omega] at hx
    rw [hP4] at hy
    have hroot15 : root < 2 ^ 15 :=
      lt_of_lt_of_le hroot (Nat.pow_le_pow_right (by decide) (by omega))
    have hk1 : (2 : Nat) ^ (k + 1) = 2 * 2 ^ k := by rw [pow_succ]; ring
    -- the next pair of bits and the rest of `x`
    have hd : x >>> 30 = y / 4 ^ n := by
      rw [Nat.shiftRight_eq_div_pow, hx, ← hQP, mul_comm (4 ^ (15 - n)) (4 ^ n)]
      exact Nat.mul_div_mul_right y (4 ^ n) hQpos
    have hx1 : (x <<< 2) % 2 ^ 32 = (y % 4 ^ n) * 4 ^ (16 - n) := by
      rw [Nat.shiftLeft_eq, hx, hQ4]
      have e1 : y * 4 ^ (15 - n) * 2 ^ 2 = y * (4 * 4 ^ (15 - n)) := by ring
      have e2 : (2 : Nat) ^ 32 = 4 ^ n * (4 * 4 ^ (15 - n)) := by
        have : (2 : Nat) ^ 32 = 4 * 2 ^ 30 := by norm_num
        rw [this, ← hQP]
        ring
      rw [e1, e2]
      exact Nat.mul_mod_mul_right (4 * 4 ^ (15 - n)) y (4 ^ n)
    have hdlt : y / 4 ^ n < 4 := by
      apply Nat.div_lt_of_lt_mul
      rw [mul_comm]
      exact hy
    have hsplit : 4 ^ n * (y / 4 ^ n) + y % 4 ^ n = y := Nat.div_add_mod y (4 ^ n)
    have hylt : y % 4 ^ n < 4 ^ n := Nat.mod_lt _ hPpos
    generalize hdd : y / 4 ^ n = d at hd hdlt hsplit
    generalize hyy : y % 4 ^ n = y1 at hx1 hsplit hylt
    have hroot1 : (root <<< 1) % 2 ^ 32 = 2 * root := by
      rw [Nat.shiftLeft_eq]
      have : root * 2 ^ 1 = 2 * root := by ring
      rw [this]
      exact Nat.mod_eq_of_lt (by omega)
    have hrem1 : ((rem <<< 2) % 2 ^ 32 + x >>> 30) % 2 ^ 32 = 4 * rem + d := by
      rw [Nat.shiftLeft_eq, hd]
      have : rem * 2 ^ 2 = 4 * rem := by ring
      rw [this, Nat.mod_eq_of_lt (show 4 * rem < 2 ^ 32 by omega)]
      exact Nat.mod_eq_of_lt (by omega)
    have hdiv : (((2 * root) <<< 1) % 2 ^ 32 + 1) % 2 ^ 32 = 4 * root + 1 := by
      rw [Nat.shiftLeft_eq]
      have : 2 * root * 2 ^ 1 = 4 * root := by ring
      rw [this, Nat.mod_eq_of_lt (show 4 * root < 2 ^ 32 by omega)]
      exact Nat.mod_eq_of_lt (by omega)
    simp only [sqrt_loop]
    rw [hroot1, hrem1, hdiv, hx1]
    have hgoal : ∀ R root' rem' : Nat, root' * root' + rem' = 4 * (root * root + rem) + d →
        R * R ≤ (root' * root' + rem') * 4 ^ n + y1 ∧
          (root' * root' + rem') * 4 ^ n + y1 < (R + 1) * (R + 1) ∧ R < 2 ^ 16 →
        R * R ≤ (root * root + rem) * 4 ^ (n + 1) + y ∧
          (root * root + rem) * 4 ^ (n + 1) + y < (R + 1) * (R + 1) ∧ R < 2 ^ 16 := by
      intro R root' rem' he hR
      have e : (root' * root' + rem') * 4 ^ n + y1 = (root * root + rem) * 4 ^ (n + 1) + y := by
        rw [he, hP4, ← hsplit]
        ring
      rw [e] at hR
      exact hR
    by_cases hc : 4 * root + 1 ≤ 4 * rem + d
    · rw [if_pos hc]
      have e1 : (4 * rem + d + 2 ^ 32 - (4 * root + 1)) % 2 ^ 32 = 4 * rem + d - (4 * root + 1) := by
        have : 4 * rem + d + 2 ^ 32 - (4 * root + 1) = (4 * rem + d - (4 * root + 1)) + 2 ^ 32 := by
          omega
        rw [this, Nat.add_mod_right]
        exact Nat.mod_eq_of_lt (by omega)
      have e2 : (2 * root + 1) % 2 ^ 32 = 2 * root + 1 := Nat.mod_eq_of_lt (by omega)
      rw [e1, e2]
      refine hgoal _ (2 * root + 1) (4 * rem + d - (4 * root + 1)) ?_
        (ih (k + 1) _ _ _ y1 (by omega) rfl hylt (by omega) (by rw [hk1]; omega))
      have : (2 * root + 1) * (2 * root + 1) = 4 * (root * root) + (4 * root + 1) := by ring
      rw [this]
      omega
    · rw [if_neg hc]
      refine hgoal _ (2 * root) (4 * rem + d) ?_
        (ih (k + 1) _ _ _ y1 (by omega) rfl hylt (by omega) (by rw [hk1]; omega))
      ring

/-- C36: for every `uint32_t` value `x`, `sgl_sqrt(x)` is the integer square
root of `x`. -/
theorem sgl_sqrt_is_integer_root (x : Nat) (hx : x < 2 ^ 32) :
    sgl_sqrt x * sgl_sqrt x ≤ x ∧ x < (sgl_sqrt x + 1) * (sgl_sqrt x + 1) := by
  have h := sqrt_loop_spec 16 0 x 0 0 x rfl (by simp) (by
    have : (4 : Nat) ^ 16 = 2 ^ 32 := by norm_num
    rw [this]
    exact hx) (by omega) (by simp)
  simp only [mul_zero, add_zero, zero_mul, zero_add] at h
  unfold sgl_sqrt
  rw [Nat.mod_eq_of_lt (show sqrt_loop 16 x 0 0 < 65536 by have := h.2.2; omega)]
  exact ⟨h.1, h.2.1⟩

theorem sgl_sqrt_is_integer_root_witness :
    sgl_sqrt 4294967295 * sgl_sqrt 4294967295 ≤ 4294967295 ∧
      4294967295 < (sgl_sqrt 4294967295 + 1) * (sgl_sqrt 4294967295 + 1) :=
  sgl_sqrt_is_integer_root 4294967295 (by decide)

/-! ### The table of the square-root error -/

theorem sqrt_error_table_checked : sqrt_error_entries_ok sqrt_error_table 0 0 = true := by
  decide!

theorem sqrt_error_entries_sound (l : List Nat) :
    ∀ (x k : Nat), sqrt_error_entries_ok l x k = true → ∀ i : Nat, i < l.length →
      ∃ r : Nat, r * r ≤ 65536 * (x + i) ∧ 65536 * (x + i) < (r + 1) * (r + 1) ∧
        l.getD i 0 = r % 256 := by
  induction l with
  | nil => intro x k _ i hi; simp at hi
  | cons v rest ih =>
    intro x k h i hi
    simp only [sqrt_error_entries_ok, Bool.and_eq_true, decide_eq_true_eq] at h
    obtain ⟨⟨⟨h1, h2⟩, h3⟩, h4⟩ := h
    cases i with
    | zero =>
      refine ⟨256 * (if (k + 1) * (k + 1) ≤ x then k + 1 else k) + v, h2, h3, ?_⟩
      simp only [List.getD_cons_zero]
      omega
    | succ j =>
      obtain ⟨r, r1, r2, r3⟩ := ih (x + 1) _ h4 j (by simpa using hi)
      refine ⟨r, ?_, ?_, ?_⟩
      · rw [show x + (j + 1) = x + 1 + j by ring]; exact r1
      · rw [show x + (j + 1) = x + 1 + j by ring]; exact r2
      · simpa using r3

theorem sqrt_error_table_length : sqrt_error_table.length = 1025 := by
  decide!

/-- C37: for every `x` from 0 to 1024, `sgl_sqrt_error(x)` is the low byte of
the integer square root `r` of `65536 * x`, that is the fractional part of
the square root of `x` in 8 bits, truncated; and it is 0 on the square of
every `n` up to 32. -/
theorem sgl_sqrt_error_small (x : Nat) (hx : x ≤ 1024) :
    (∃ r : Nat, r * r ≤ 65536 * x ∧ 65536 * x < (r + 1) * (r + 1) ∧
      sgl_sqrt_error x = r % 256) ∧
    (∀ n : Nat, n ≤ 32 → sgl_sqrt_error (n * n) = 0) := by
  constructor
  · obtain ⟨r, r1, r2, r3⟩ := sqrt_error_entries_sound sqrt_error_table 0 0
      sqrt_error_table_checked x (by rw [sqrt_error_table_length]; omega)
    rw [zero_add] at r1 r2
    refine ⟨r, r1, r2, ?_⟩
    unfold sgl_sqrt_error
    rw [if_pos (by omega)]
    exact r3
  · intro n hn
    exact sgl_sqrt_error_square n (by omega)

theorem sgl_sqrt_error_small_witness :
    (∃ r : Nat, r * r ≤ 65536 * 2 ∧ 65536 * 2 < (r + 1) * (r + 1) ∧
      sgl_sqrt_error 2 = r % 256) ∧
    (∀ n : Nat, n ≤ 32 → sgl_sqrt_error (n * n) = 0) :=
  sgl_sqrt_error_small 2 (by decide)

/-! ### A leading byte outside the four patterns -/

theorem sgl_utf8_to_unicode_invalid (b : Nat) (rest : List Nat) (old : Nat)
    (hb : (0x80 ≤ b ∧ b ≤ 0xBF) ∨ (0xF8 ≤ b ∧ b ≤ 0xFF)) :
    sgl_utf8_to_unicode (b :: rest) old = (0, old) := by
  unfold sgl_utf8_to_unicode
  simp only [List.getD_cons_zero]
  rcases hb with ⟨h1, h2⟩ | ⟨h1, h2⟩
  · interval_cases b <;> rfl
  · interval_cases b <;> rfl

theorem next_glyph_invalid (n : Nat) (font : sgl_font) (b : Nat) (rest : List Nat)
    (unicode : Nat) (hb : (0x80 ≤ b ∧ b ≤ 0xBF) ∨ (0xF8 ≤ b ∧ b ≤ 0xFF)) :
    next_glyph n font (b :: rest) unicode = none ∨
      ∃ v, next_glyph n font (b :: rest) unicode = some (b :: rest, unicode, v) := by
  unfold next_glyph
  rw [sgl_utf8_to_unicode_invalid b rest unicode hb]
  simp only [List.length_cons, gt_iff_lt, Nat.not_lt_zero, if_false, List.drop_zero]
  cases sgl_search_unicode_ch_index n font unicode with
  | value v => exact Or.inr ⟨v, rfl⟩
  | range_out_of_bounds => exact Or.inl rfl
  | list_out_of_bounds i => exact Or.inl rfl
  | no_fuel => exact Or.inl rfl

theorem string_width_loop_stuck (n : Nat) (font : sgl_font) (b : Nat) (rest : List Nat)
    (hb : (0x80 ≤ b ∧ b ≤ 0xBF) ∨ (0xF8 ≤ b ∧ b ≤ 0xFF)) (fuel : Nat) :
    ∀ (unicode : Nat) (len : Int),
      (string_width_loop n font fuel (b :: rest) unicode len).1 ≠ walk_status.returned ∧
      (string_width_loop n font fuel (b :: rest) unicode len).2.1 = b :: rest := by
  have hb0 : ¬ (b :: rest).getD 0 0 = 0 := by
    simp only [List.getD_cons_zero]
    omega
  induction fuel with
  | zero =>
    intro unicode len
    simp only [string_width_loop]
    rw [if_neg hb0]
    exact ⟨by simp, rfl⟩
  | succ f ih =>
    intro unicode len
    simp only [string_width_loop]
    rw [if_neg hb0]
    rcases next_glyph_invalid n font b rest unicode hb with h | ⟨v, h⟩
    · rw [h]
      exact ⟨by simp, rfl⟩
    · rw [h]
      simp only []
      cases font.table[v]? with
      | none => exact ⟨by simp, rfl⟩
      | some g => exact ih unicode _

theorem draw_string_loop_stuck (d : sgl_pixel_depth) (n : Nat) (font : sgl_font)
    (area : sgl_area) (y : Int) (color alpha : Nat) (b : Nat) (rest : List Nat)
    (hb : (0x80 ≤ b ∧ b ≤ 0xBF) ∨ (0xF8 ≤ b ∧ b ≤ 0xFF)) (fuel : Nat) :
    ∀ (unicode : Nat) (x : Int) (surf : sgl_surf),
      (draw_string_loop d n font area y color alpha fuel (b :: rest) unicode x surf).1 ≠
        walk_status.returned ∧
      (draw_string_loop d n font area y color alpha fuel (b :: rest) unicode x surf).2.1 =
        b :: rest := by
  have hb0 : ¬ (b :: rest).getD 0 0 = 0 := by
    simp only [List.getD_cons_zero]
    omega
  induction fuel with
  | zero =>
    intro unicode x surf
    simp only [draw_string_loop]
    rw [if_neg hb0]
    exact ⟨by simp, rfl⟩
  | succ f ih =>
    intro unicode x surf
    simp only [draw_string_loop]
    rw [if_neg hb0]
    rcases next_glyph_invalid n font b rest unicode hb with h | ⟨v, h⟩
    · rw [h]
      exact ⟨by simp, rfl⟩
    · rw [h]
      simp only []
      cases sgl_draw_character d surf area x y v color alpha font with
      | none => exact ⟨by simp, rfl⟩
      | some out =>
        simp only []
        cases font.table[v]? with
        | none => exact ⟨by simp, rfl⟩
        | some g => exact ih unicode _ _

/-- C38: for a leading byte `b` from `0x80` to `0xBF` or from `0xF8` to `0xFF`,
`sgl_utf8_to_unicode` returns the byte count 0 and leaves the code point as
it was; `sgl_font_get_string_width` and `sgl_draw_string` on a string that
starts with `b` do not return, whatever the number of iterations: the string
pointer stays on `b`. -/
theorem sgl_utf8_to_unicode_invalid_lead (b : Nat) (rest : List Nat)
    (hb : (0x80 ≤ b ∧ b ≤ 0xBF) ∨ (0xF8 ≤ b ∧ b ≤ 0xFF)) :
    (∀ old : Nat, sgl_utf8_to_unicode (b :: rest) old = (0, old)) ∧
    (∀ (n fuel : Nat) (font : sgl_font),
      (sgl_font_get_string_width n fuel (b :: rest) font).1 ≠ walk_status.returned ∧
      (sgl_font_get_string_width n fuel (b :: rest) font).2.1 = b :: rest) ∧
    (∀ (d : sgl_pixel_depth) (n fuel : Nat) (surf : sgl_surf) (area : sgl_area) (x y : Int)
        (color alpha : Nat) (font : sgl_font),
      (sgl_draw_string d n fuel surf area x y (b :: rest) color alpha font).1 ≠
        walk_status.returned ∧
      (sgl_draw_string d n fuel surf area x y (b :: rest) color alpha font).2.1 = b :: rest) :=
  ⟨fun old => sgl_utf8_to_unicode_invalid b rest old hb,
    fun n fuel font => string_width_loop_stuck n font b rest hb fuel 0 0,
    fun d n fuel surf area x y color alpha font =>
      draw_string_loop_stuck d n font area y color alpha b rest hb fuel 0 x surf⟩

theorem sgl_utf8_to_unicode_invalid_lead_witness :
    (∀ old : Nat, sgl_utf8_to_unicode (0x80 :: [0x41]) old = (0, old)) ∧
    (∀ (n fuel : Nat) (font : sgl_font),
      (sgl_font_get_string_width n fuel (0x80 :: [0x41]) font).1 ≠ walk_status.returned ∧
      (sgl_font_get_string_width n fuel (0x80 :: [0x41]) font).2.1 = 0x80 :: [0x41]) ∧
    (∀ (d : sgl_pixel_depth) (n fuel : Nat) (surf : sgl_surf) (area : sgl_area) (x y : Int)
        (color alpha : Nat) (font : sgl_font),
      (sgl_draw_string d n fuel surf area x y (0x80 :: [0x41]) color alpha font).1 ≠
        walk_status.returned ∧
      (sgl_draw_string d n fuel surf area x y (0x80 :: [0x41]) color alpha font).2.1 =
        0x80 :: [0x41]) :=
  sgl_utf8_to_unicode_invalid_lead 0x80 [0x41] (by decide)

/-! ### Compressed glyphs without repeated values -/

/-- At a position that is a multiple of the width, `get_bits` returns the
value of `bpp` bits of the stream at that position, most significant bit
first. -/
theorem get_bits_aligned (input : List Nat) (bpp i : Nat) (hb : bpp = 2 ∨ bpp = 4) :
    get_bits input (i * bpp) bpp = glyph_coverage input 0 bpp i := by
  unfold get_bits glyph_coverage
  have e3 : (i * bpp) >>> 3 = i * bpp / 8 := by
    rw [Nat.shiftRight_eq_div_pow]
  have e7 : (i * bpp) &&& 0x7 = i * bpp % 8 := Nat.and_pow_two_sub_one_eq_mod _ 3
  simp only [e3, e7, zero_add]
  have hd : input.getD (i * bpp / 8) 0 % 256 < 256 := Nat.mod_lt _ (by decide)
  generalize input.getD (i * bpp / 8) 0 % 256 = b0 at hd
  have hd1 : input.getD (i * bpp / 8 + 1) 0 % 256 < 256 := Nat.mod_lt _ (by decide)
  generalize input.getD (i * bpp / 8 + 1) 0 % 256 = b1 at hd1
  have m2 : ∀ t : Nat, t &&& 0x3 = t % 2 ^ 2 := fun t => Nat.and_pow_two_sub_one_eq_mod t 2
  have m4 : ∀ t : Nat, t &&& 0xF = t % 2 ^ 4 := fun t => Nat.and_pow_two_sub_one_eq_mod t 4
  rcases hb with hb | hb
  · subst hb
    simp only [m2]
    by_cases hc : i * 2 % 8 + 2 ≥ 8
    · rw [if_pos hc]
      have h6 : i * 2 % 8 = 6 := by omega
      rw [h6, Nat.shiftLeft_eq, Nat.shiftRight_eq_div_pow]
      simp only [show 16 - 6 - 2 = 8 by rfl, show 8 - 2 - 6 = 0 by rfl, pow_zero, Nat.div_one]
      have : (b0 * 2 ^ 8 + b1) % 65536 / 2 ^ 8 = b0 := by
        have e : (2 : Nat) ^ 8 = 256 := by norm_num
        rw [e]
        omega
      rw [this]
      exact Nat.mod_eq_of_lt (lt_of_lt_of_le (Nat.mod_lt _ (by decide)) (by decide))
    · rw [if_neg hc, Nat.shiftRight_eq_div_pow, show 8 - i * 2 % 8 - 2 = 8 - 2 - i * 2 % 8 by omega]
  · subst hb
    simp only [m4]
    by_cases hc : i * 4 % 8 + 4 ≥ 8
    · rw [if_pos hc]
      have h4 : i * 4 % 8 = 4 := by omega
      rw [h4, Nat.shiftLeft_eq, Nat.shiftRight_eq_div_pow]
      simp only [show 16 - 4 - 4 = 8 by rfl, show 8 - 4 - 4 = 0 by rfl, pow_zero, Nat.div_one]
      have : (b0 * 2 ^ 8 + b1) % 65536 / 2 ^ 8 = b0 := by
        have e : (2 : Nat) ^ 8 = 256 := by norm_num
        rw [e]
        omega
      rw [this]
      exact Nat.mod_eq_of_lt (lt_of_lt_of_le (Nat.mod_lt _ (by decide)) (by decide))
    · rw [if_neg hc, Nat.shiftRight_eq_div_pow, show 8 - i * 4 % 8 - 4 = 8 - 4 - i * 4 % 8 by omega]

/-- The state of the decompression after `k` values of a stream without
equal neighbours. -/
theorem decompress_line_loop_single (input : List Nat) (bpp : Nat) (hb : bpp = 2 ∨ bpp = 4)
    (w : Nat) (hw : w * bpp < 2 ^ 32)
    (hne : ∀ i, i + 1 < w → glyph_coverage input 0 bpp i ≠ glyph_coverage input 0 bpp (i + 1)) :
    ∀ (n k : Nat) (out : List Nat) (pv : Nat), k + n = w →
      (k ≠ 0 → pv = glyph_coverage input 0 bpp (k - 1)) →
      decompress_line_loop n
        { rdp := k * bpp, input := input, bpp := bpp, prev_v := pv, count := 0
          state := sgl_font_rle_state.RLE_STATE_SINGLE } out =
        ({ rdp := w * bpp, input := input, bpp := bpp
           prev_v := if w = 0 then pv else glyph_coverage input 0 bpp (w - 1), count := 0
           state := sgl_font_rle_state.RLE_STATE_SINGLE },
          out ++ (List.range' k n).map (glyph_coverage input 0 bpp)) := by
  have hbpos : 0 < bpp := by rcases hb with h | h <;> omega
  intro n
  induction n with
  | zero =>
    intro k out pv hk hpv
    have hkw : k = w := by omega
    subst hkw
    simp only [decompress_line_loop, List.range'_zero, List.map_nil, List.append_nil]
    by_cases h0 : k = 0
    · rw [if_pos h0]
    · rw [if_neg h0, hpv h0]
  | succ n ih =>
    intro k out pv hk hpv
    have hstep : decompress_step
        { rdp := k * bpp, input := input, bpp := bpp, prev_v := pv, count := 0
          state := sgl_font_rle_state.RLE_STATE_SINGLE } =
        ({ rdp := (k + 1) * bpp, input := input, bpp := bpp
           prev_v := glyph_coverage input 0 bpp k, count := 0
           state := sgl_font_rle_state.RLE_STATE_SINGLE }, glyph_coverage input 0 bpp k) := by
      unfold decompress_step
      simp only []
      rw [get_bits_aligned input bpp k hb]
      have hcond : ¬ (k * bpp ≠ 0 ∧ pv = glyph_coverage input 0 bpp k) := by
        rintro ⟨h1, h2⟩
        have hk0 : k ≠ 0 := fun e => h1 (by rw [e, zero_mul])
        have := hne (k - 1) (by omega)
        rw [show k - 1 + 1 = k by omega] at this
        exact this ((hpv hk0).symm.trans h2)
      rw [if_neg hcond]
      have hlt : k * bpp + bpp < 2 ^ 32 := by
        have : (k + 1) * bpp ≤ w * bpp := Nat.mul_le_mul_right _ (by omega)
        have e : (k + 1) * bpp = k * bpp + bpp := by ring
        omega
      simp only [Nat.mod_eq_of_lt hlt]
      have e : (k + 1) * bpp = k * bpp + bpp := by ring
      rw [e]
    simp only [decompress_line_loop]
    rw [hstep]
    simp only []
    rw [ih (k + 1) _ _ (by omega) (fun _ => by simp)]
    simp only [List.range'_succ, List.map_cons, List.append_assoc, List.singleton_append]
    have hw0 : w ≠ 0 := by omega
    simp only [hw0, if_false]

/-- C40: for 2 or 4 bits per pixel and a stream whose first `w` values
(`w * bpp` below `2 ^ 32`) are such that no two consecutive ones are equal,
`decompress_line` after `font_rle_init` writes to the output pixel `i` the
value of `bpp` bits of the stream at the bit `i * bpp`, most significant bit
first, and the decompression is in the state `RLE_STATE_SINGLE` after every
number `k ≤ w` of pixels. -/
theorem decompress_line_single (input : List Nat) (bpp w : Nat) (hb : bpp = 2 ∨ bpp = 4)
    (hw : w * bpp < 2 ^ 32)
    (hne : ∀ i, i + 1 < w → glyph_coverage input 0 bpp i ≠ glyph_coverage input 0 bpp (i + 1)) :
    (decompress_line (font_rle_init input bpp) w).2 =
      (List.range w).map (glyph_coverage input 0 bpp) ∧
    (∀ i, i < w → (decompress_line (font_rle_init input bpp) w).2.getD i 0 =
      get_bits input (i * bpp) bpp) ∧
    ∀ k : Nat, k ≤ w →
      (decompress_line (font_rle_init input bpp) k).1.state =
        sgl_font_rle_state.RLE_STATE_SINGLE := by
  have hbmod : bpp % 256 = bpp := by rcases hb with h | h <;> subst h <;> rfl
  have hrun : ∀ k : Nat, k ≤ w → decompress_line (font_rle_init input bpp) k =
      ({ rdp := k * bpp, input := input, bpp := bpp
         prev_v := if k = 0 then 0 else glyph_coverage input 0 bpp (k - 1), count := 0
         state := sgl_font_rle_state.RLE_STATE_SINGLE },
        (List.range k).map (glyph_coverage input 0 bpp)) := by
    intro k hk
    unfold decompress_line font_rle_init
    rw [hbmod]
    have h := decompress_line_loop_single input bpp hb k
      (lt_of_le_of_lt (Nat.mul_le_mul_right _ hk) hw)
      (fun i hi => hne i (by omega)) k 0 [] 0 (by omega) (fun h => absurd rfl h)
    simp only [zero_mul, List.nil_append] at h
    rw [Int.toNat_ofNat, h, List.range_eq_range']
  refine ⟨?_, ?_, ?_⟩
  · rw [hrun w (le_refl w)]
  · intro i hi
    rw [hrun w (le_refl w), get_bits_aligned input bpp i hb]
    simp only []
    rw [List.getD_eq_getElem?_getD, List.getElem?_map, List.getElem?_range hi]
    rfl
  · intro k hk
    rw [hrun k hk]

theorem decompress_line_single_witness :
    (decompress_line (font_rle_init [0x12, 0x34, 0x56] 4) (6 : Nat)).2 =
      (List.range 6).map (glyph_coverage [0x12, 0x34, 0x56] 0 4) ∧
    (∀ i, i < 6 → (decompress_line (font_rle_init [0x12, 0x34, 0x56] 4) (6 : Nat)).2.getD i 0 =
      get_bits [0x12, 0x34, 0x56] (i * 4) 4) ∧
    ∀ k : Nat, k ≤ 6 →
      (decompress_line (font_rle_init [0x12, 0x34, 0x56] 4) k).1.state =
        sgl_font_rle_state.RLE_STATE_SINGLE :=
  decompress_line_single [0x12, 0x34, 0x56] 4 6 (Or.inr rfl) (by decide)
    (by intro i hi; have : i < 5 := by omega
        interval_cases i <;> decide)

/-! ### The channels of the RGB565 mixer -/

theorem mask565_bit (i : Nat) (hi : i < 32) :
    Nat.testBit 0x07e0f81f i = decide (i < 5 ∨ (11 ≤ i ∧ i < 16) ∨ (21 ≤ i ∧ i < 27)) := by
  interval_cases i <;> decide

theorem mask565_bit_high (i : Nat) (hi : 32 ≤ i) : Nat.testBit 0x07e0f81f i = false :=
  Nat.testBit_lt_two_pow (lt_of_lt_of_le (by decide : 0x07e0f81f < 2 ^ 32)
    (Nat.pow_le_pow_right (by decide) hi))

/-- The packed form of an RGB565 color: blue in the bits 0 to 4, red in the
bits 11 to 15 and green in the bits 21 to 26. -/
theorem pack565 (c : Nat) (hc : c < 2 ^ 16) :
    (c ||| (c <<< 16) % 2 ^ 32) &&& 0x07e0f81f =
      c % 32 + 2048 * (c / 2048) + 2097152 * (c / 32 % 64) := by
  have hor : c % 32 + 2048 * (c / 2048) + 2097152 * (c / 32 % 64) =
      ((c >>> 5) % 2 ^ 6) <<< 21 ||| (((c >>> 11) % 2 ^ 5) <<< 11 ||| c % 2 ^ 5) := by
    have h1 : c / 2048 < 32 := by omega
    have e1 : ((c >>> 11) % 2 ^ 5) <<< 11 ||| c % 2 ^ 5 = 2048 * (c / 2048) + c % 32 := by
      rw [Nat.shiftLeft_eq, Nat.shiftRight_eq_div_pow, mul_comm]
      have := @Nat.mul_add_lt_is_or 11 (c % 2 ^ 5) (by
        have : c % 2 ^ 5 < 2 ^ 5 := Nat.mod_lt _ (by decide)
        exact lt_of_lt_of_le this (by decide)) (c / 2 ^ 11 % 2 ^ 5)
      rw [← this]
      norm_num
      omega
    rw [e1, Nat.shiftLeft_eq, Nat.shiftRight_eq_div_pow, Nat.mul_comm (c / 2 ^ 5 % 2 ^ 6) (2 ^ 21)]
    have := @Nat.mul_add_lt_is_or 21 (2048 * (c / 2048) + c % 32) (by
      have : (2 : Nat) ^ 21 = 2097152 := by norm_num
      omega) (c / 2 ^ 5 % 2 ^ 6)
    rw [← this]
    norm_num
    omega
  rw [hor]
  have hhi : ∀ k, 16 ≤ k → c.testBit k = false := fun k hk =>
    Nat.testBit_lt_two_pow (lt_of_lt_of_le hc (Nat.pow_le_pow_right (by decide) hk))
  apply Nat.eq_of_testBit_eq
  intro i
  simp only [Nat.testBit_and, Nat.testBit_or, Nat.testBit_mod_two_pow, Nat.testBit_shiftLeft,
    Nat.testBit_shiftRight]
  by_cases hi : i < 32
  · rw [mask565_bit i hi]
    interval_cases i <;> simp [hhi]
  · rw [mask565_bit_high i (by omega)]
    have h1 : ¬ i < 5 := by omega
    have h2 : ¬ i - 11 < 5 := by omega
    have h3 : ¬ i - 21 < 6 := by omega
    simp [h1, h2, h3]

/-- The color read back from the packed form. -/
theorem unpack565 (v : Nat) :
    ((v &&& 0x07e0f81f) ||| (v &&& 0x07e0f81f) >>> 16) % 2 ^ 16 =
      v % 32 + 32 * (v / 2097152 % 64) + 2048 * (v / 2048 % 32) := by
  have hor : v % 32 + 32 * (v / 2097152 % 64) + 2048 * (v / 2048 % 32) =
      ((v >>> 11) % 2 ^ 5) <<< 11 ||| (((v >>> 21) % 2 ^ 6) <<< 5 ||| v % 2 ^ 5) := by
    have e1 : ((v >>> 21) % 2 ^ 6) <<< 5 ||| v % 2 ^ 5 = 32 * (v / 2097152 % 64) + v % 32 := by
      rw [Nat.shiftLeft_eq, Nat.shiftRight_eq_div_pow, mul_comm]
      have := @Nat.mul_add_lt_is_or 5 (v % 2 ^ 5) (Nat.mod_lt _ (by decide))
        (v / 2 ^ 21 % 2 ^ 6)
      rw [← this]
      norm_num
    rw [e1, Nat.shiftLeft_eq, Nat.shiftRight_eq_div_pow, Nat.mul_comm (v / 2 ^ 11 % 2 ^ 5) (2 ^ 11)]
    have := @Nat.mul_add_lt_is_or 11 (32 * (v / 2097152 % 64) + v % 32) (by
      have : (2 : Nat) ^ 11 = 2048 := by norm_num
      omega) (v / 2 ^ 11 % 2 ^ 5)
    rw [← this]
    norm_num
    omega
  rw [hor]
  apply Nat.eq_of_testBit_eq
  intro i
  simp only [Nat.testBit_and, Nat.testBit_or, Nat.testBit_mod_two_pow, Nat.testBit_shiftLeft,
    Nat.testBit_shiftRight]
  by_cases hi : i < 16
  · rw [mask565_bit i (by omega), mask565_bit (16 + i) (by omega)]
    interval_cases i <;> simp
  · have h1 : ¬ i < 5 := by omega
    have h2 : ¬ i - 11 < 5 := by omega
    have h3 : ¬ i - 5 < 6 := by omega
    simp [hi, h1, h2, h3]

/-- The packed computation on the three fields: `n` is the exact weighted sum
of the packed colors, `u` is `(fg - bg) * a` before the reduction to 32 bits
and `t` are the weighted sums of the channels. -/
theorem mix565_fields (bgp n u k tB tR tG v : Nat)
    (hn : n = tB + 2048 * tR + 2097152 * tG)
    (hB : tB ≤ 992) (hR : tR ≤ 992) (hG : tG ≤ 2016)
    (hb : bgp < 134217728)
    (hu : u + 32 * bgp = n + 4294967296 * k)
    (hv : v = (bgp + (u % 2 ^ 32) >>> 5) % 2 ^ 32) :
    v % 32 = tB / 32 ∧ v / 2048 % 32 = tR / 32 ∧ v / 2097152 % 64 = tG / 32 := by
  have e1 : (2 : Nat) ^ 32 = 4294967296 := by norm_num
  have e2 : (2 : Nat) ^ 5 = 32 := by norm_num
  rw [Nat.shiftRight_eq_div_pow, e1, e2] at hv
  have h1 : v = tB / 32 + 64 * tR + 65536 * tG ∨
      v = tB / 32 + 64 * tR + 65536 * tG + 134217728 := by
    omega
  rcases h1 with h1 | h1 <;> refine ⟨?_, ?_, ?_⟩ <;> omega

/-- The channels of the color read back from the packed form. -/
theorem unpack565_fields (v : Nat) :
    color16_blue (v % 32 + 32 * (v / 2097152 % 64) + 2048 * (v / 2048 % 32)) = v % 32 ∧
    color16_green (v % 32 + 32 * (v / 2097152 % 64) + 2048 * (v / 2048 % 32)) =
      v / 2097152 % 64 ∧
    color16_red (v % 32 + 32 * (v / 2097152 % 64) + 2048 * (v / 2048 % 32)) =
      v / 2048 % 32 := by
  have h1 : v % 32 < 32 := Nat.mod_lt _ (by decide)
  have h2 : v / 2097152 % 64 < 64 := Nat.mod_lt _ (by decide)
  have h3 : v / 2048 % 32 < 32 := Nat.mod_lt _ (by decide)
  generalize v % 32 = x at h1
  generalize v / 2097152 % 64 = y at h2
  generalize v / 2048 % 32 = z at h3
  simp only [color16_blue, color16_green, color16_red]
  refine ⟨?_, ?_, ?_⟩ <;> omega

/-- One weighted channel lies between the two channels it mixes. -/
theorem mix_between (f b a : Nat) (ha : a ≤ 32) :
    min f b ≤ (f * a + b * (32 - a)) / 32 ∧ (f * a + b * (32 - a)) / 32 ≤ max f b := by
  obtain ⟨a2, ha2⟩ : ∃ a2, 32 - a = a2 ∧ a + a2 = 32 := ⟨32 - a, rfl, by omega⟩
  rw [ha2.1]
  constructor
  · rw [Nat.le_div_iff_mul_le (by decide)]
    have h1 : min f b * a ≤ f * a := Nat.mul_le_mul_right _ (min_le_left _ _)
    have h2 : min f b * a2 ≤ b * a2 := Nat.mul_le_mul_right _ (min_le_right _ _)
    have h3 : min f b * 32 = min f b * a + min f b * a2 := by rw [← Nat.mul_add, ha2.2]
    omega
  · apply Nat.div_le_of_le_mul
    have h1 : f * a ≤ max f b * a := Nat.mul_le_mul_right _ (le_max_left _ _)
    have h2 : b * a2 ≤ max f b * a2 := Nat.mul_le_mul_right _ (le_max_right _ _)
    have h3 : 32 * max f b = max f b * a + max f b * a2 := by
      rw [← Nat.mul_add, ha2.2, Nat.mul_comm]
    omega

theorem mix_weighted_le (f b a m : Nat) (ha : a ≤ 32) (hf : f ≤ m) (hb : b ≤ m) :
    f * a + b * (32 - a) ≤ 32 * m := by
  have h1 : f * a ≤ m * a := Nat.mul_le_mul_right _ hf
  have h2 : b * (32 - a) ≤ m * (32 - a) := Nat.mul_le_mul_right _ hb
  have h3 : m * a + m * (32 - a) = 32 * m := by
    rw [← Nat.mul_add, Nat.add_sub_cancel' ha, Nat.mul_comm]
  omega

/-- The 32 bit step of the mixer on packed colors is the exact weighted sum up
to a multiple of `2 ^ 32`. -/
theorem mix565_step (fgp bgp a : Nat) (ha : a ≤ 32) (hf : fgp < 2 ^ 32) (hb : bgp < 2 ^ 32) :
    ∃ k, (fgp + 2 ^ 32 - bgp) % 2 ^ 32 * a + 32 * bgp =
      fgp * a + bgp * (32 - a) + 4294967296 * k := by
  obtain ⟨a2, ha2, ha3⟩ : ∃ a2, 32 - a = a2 ∧ 32 = a + a2 := ⟨32 - a, rfl, by omega⟩
  have h32 : 32 * bgp = (a + a2) * bgp := by rw [← ha3]
  rw [ha2, h32]
  clear h32
  rcases Nat.lt_or_ge fgp bgp with h | h
  · obtain ⟨d, rfl⟩ := Nat.exists_eq_add_of_le (Nat.le_of_lt h)
    obtain ⟨e, he⟩ : ∃ e, 2 ^ 32 = e + d := ⟨2 ^ 32 - d, by omega⟩
    have h1 : (fgp + 2 ^ 32 - (fgp + d)) % 2 ^ 32 = e := by omega
    rw [h1]
    refine ⟨a, ?_⟩
    have h2 : (4294967296 : Nat) = e + d := by rw [← he]; norm_num
    rw [h2]
    ring
  · obtain ⟨d, rfl⟩ := Nat.exists_eq_add_of_le h
    have h1 : (bgp + d + 2 ^ 32 - bgp) % 2 ^ 32 = d := by omega
    rw [h1]
    exact ⟨0, by ring⟩

/-- C35: in the RGB565 configuration, for all colors `fg`, `bg` and every
factor from 0 to 255, each channel of `sgl_color_mixer fg bg factor` is
`(fg_c * a + bg_c * (32 - a)) / 32` with `a = factor >> 3`, and lies between
the channel of `bg` and the channel of `fg`. -/
theorem sgl_color_mixer_rgb565_channels (fg bg factor : Nat)
    (hfg : is_color sgl_pixel_depth.RGB565 fg) (hbg : is_color sgl_pixel_depth.RGB565 bg)
    (hf : factor ≤ 255) :
    color16_blue (sgl_color_mixer sgl_pixel_depth.RGB565 fg bg factor) =
      (color16_blue fg * (factor >>> 3) + color16_blue bg * (32 - factor >>> 3)) / 32 ∧
    color16_green (sgl_color_mixer sgl_pixel_depth.RGB565 fg bg factor) =
      (color16_green fg * (factor >>> 3) + color16_green bg * (32 - factor >>> 3)) / 32 ∧
    color16_red (sgl_color_mixer sgl_pixel_depth.RGB565 fg bg factor) =
      (color16_red fg * (factor >>> 3) + color16_red bg * (32 - factor >>> 3)) / 32 ∧
    (min (color16_blue fg) (color16_blue bg) ≤
        color16_blue (sgl_color_mixer sgl_pixel_depth.RGB565 fg bg factor) ∧
      color16_blue (sgl_color_mixer sgl_pixel_depth.RGB565 fg bg factor) ≤
        max (color16_blue fg) (color16_blue bg)) ∧
    (min (color16_green fg) (color16_green bg) ≤
        color16_green (sgl_color_mixer sgl_pixel_depth.RGB565 fg bg factor) ∧
      color16_green (sgl_color_mixer sgl_pixel_depth.RGB565 fg bg factor) ≤
        max (color16_green fg) (color16_green bg)) ∧
    (min (color16_red fg) (color16_red bg) ≤
        color16_red (sgl_color_mixer sgl_pixel_depth.RGB565 fg bg factor) ∧
      color16_red (sgl_color_mixer sgl_pixel_depth.RGB565 fg bg factor) ≤
        max (color16_red fg) (color16_red bg)) := by
  simp only [is_color, sgl_pixel_depth.bits] at hfg hbg
  have ha : factor >>> 3 ≤ 31 := by
    rw [Nat.shiftRight_eq_div_pow]
    have : (2 : Nat) ^ 3 = 8 := by norm_num
    omega
  generalize hae : factor >>> 3 = a at ha
  have hr1 : fg / 2048 % 32 = fg / 2048 := by omega
  have hr2 : bg / 2048 % 32 = bg / 2048 := by omega
  have key : color16_blue (sgl_color_mixer sgl_pixel_depth.RGB565 fg bg factor) =
        (color16_blue fg * a + color16_blue bg * (32 - a)) / 32 ∧
      color16_green (sgl_color_mixer sgl_pixel_depth.RGB565 fg bg factor) =
        (color16_green fg * a + color16_green bg * (32 - a)) / 32 ∧
      color16_red (sgl_color_mixer sgl_pixel_depth.RGB565 fg bg factor) =
        (color16_red fg * a + color16_red bg * (32 - a)) / 32 := by
    simp only [sgl_color_mixer, hae, pack565 fg hfg, pack565 bg hbg, unpack565]
    obtain ⟨k, hk⟩ := mix565_step (fg % 32 + 2048 * (fg / 2048) + 2097152 * (fg / 32 % 64))
      (bg % 32 + 2048 * (bg / 2048) + 2097152 * (bg / 32 % 64)) a (by omega)
      (by have : (2 : Nat) ^ 32 = 4294967296 := by norm_num
          omega)
      (by have : (2 : Nat) ^ 32 = 4294967296 := by norm_num
          omega)
    have hfields := mix565_fields (bg % 32 + 2048 * (bg / 2048) + 2097152 * (bg / 32 % 64))
      ((fg % 32 + 2048 * (fg / 2048) + 2097152 * (fg / 32 % 64)) * a +
        (bg % 32 + 2048 * (bg / 2048) + 2097152 * (bg / 32 % 64)) * (32 - a))
      ((fg % 32 + 2048 * (fg / 2048) + 2097152 * (fg / 32 % 64) + 2 ^ 32 -
        (bg % 32 + 2048 * (bg / 2048) + 2097152 * (bg / 32 % 64))) % 2 ^ 32 * a)
      k (fg % 32 * a + bg % 32 * (32 - a)) (fg / 2048 * a + bg / 2048 * (32 - a))
      (fg / 32 % 64 * a + bg / 32 % 64 * (32 - a)) _ (by ring)
      (mix_weighted_le _ _ a 31 (by omega) (by omega) (by omega))
      (mix_weighted_le _ _ a 31 (by omega) (by omega) (by omega))
      (mix_weighted_le _ _ a 63 (by omega) (by omega) (by omega))
      (by omega) hk rfl
    obtain ⟨f1, f2, f3⟩ := hfields
    obtain ⟨g1, g2, g3⟩ := unpack565_fields
      ((bg % 32 + 2048 * (bg / 2048) + 2097152 * (bg / 32 % 64) +
        (((fg % 32 + 2048 * (fg / 2048) + 2097152 * (fg / 32 % 64) + 2 ^ 32 -
          (bg % 32 + 2048 * (bg / 2048) + 2097152 * (bg / 32 % 64))) % 2 ^ 32 * a) %
            2 ^ 32) >>> 5) % 2 ^ 32)
    rw [g1, g2, g3, f1, f2, f3]
    simp only [color16_blue, color16_green, color16_red, hr1, hr2, and_self]
  obtain ⟨k1, k2, k3⟩ := key
  rw [k1, k2, k3]
  exact ⟨rfl, rfl, rfl, mix_between _ _ a (by omega), mix_between _ _ a (by omega),
    mix_between _ _ a (by omega)⟩

theorem sgl_color_mixer_rgb565_channels_witness :
    is_color sgl_pixel_depth.RGB565 63488 ∧ is_color sgl_pixel_depth.RGB565 31 ∧
    128 ≤ 255 ∧
    color16_red (sgl_color_mixer sgl_pixel_depth.RGB565 63488 31 128) =
      (color16_red 63488 * (128 >>> 3) + color16_red 31 * (32 - 128 >>> 3)) / 32 :=
  ⟨by decide, by decide, by decide,
    (sgl_color_mixer_rgb565_channels 63488 31 128 (by decide) (by decide) (by decide)).2.2.1⟩

/-! ### The lines counted and the lines drawn -/

theorem utf8_valid_from_drop (rest : List Nat) :
    ∀ k, utf8_valid_from rest k = true →
      k ≤ rest.length ∧ utf8_valid_from (rest.drop k) 0 = true := by
  induction rest with
  | nil =>
    intro k h
    cases k with
    | zero => exact ⟨Nat.le_refl _, h⟩
    | succ k => simp [utf8_valid_from] at h
  | cons b rest ih =>
    intro k h
    cases k with
    | zero => exact ⟨Nat.zero_le _, h⟩
    | succ k =>
      simp only [utf8_valid_from, Bool.and_eq_true, decide_eq_true_eq] at h
      obtain ⟨h1, h2⟩ := ih k h.2
      exact ⟨by simp only [List.length_cons]; omega, by simpa using h2⟩

theorem utf8_valid_step (b : Nat) (rest : List Nat) (unicode : Nat)
    (h : utf8_valid (b :: rest)) :
    1 ≤ (sgl_utf8_to_unicode (b :: rest) unicode).1 ∧
    (sgl_utf8_to_unicode (b :: rest) unicode).1 ≤ (b :: rest).length ∧
    utf8_valid ((b :: rest).drop (sgl_utf8_to_unicode (b :: rest) unicode).1) := by
  unfold utf8_valid at h ⊢
  unfold sgl_utf8_to_unicode
  simp only [List.getD_cons_zero]
  simp only [utf8_valid_from] at h
  split_ifs at h ⊢ with h1 h2 h3 h4
  · exact ⟨Nat.le_refl _, by simp, by simpa using h⟩
  · obtain ⟨k1, k2⟩ := utf8_valid_from_drop rest 1 h
    exact ⟨by simp, by simp only [List.length_cons]; omega, by simpa using k2⟩
  · obtain ⟨k1, k2⟩ := utf8_valid_from_drop rest 2 h
    exact ⟨by simp, by simp only [List.length_cons]; omega, by simpa using k2⟩
  · obtain ⟨k1, k2⟩ := utf8_valid_from_drop rest 3 h
    exact ⟨by simp, by simp only [List.length_cons]; omega, by simpa using k2⟩

theorem next_glyph_covers (n : Nat) (font : sgl_font) (str : List Nat) (unicode : Nat)
    (hcov : font.covers n) (hv : utf8_valid str) (h0 : str.getD 0 0 ≠ 0) :
    ∃ str1 unicode1 v, next_glyph n font str unicode = some (str1, unicode1, v) ∧
      v < font.table.length ∧ v < 32768 ∧ str1.length < str.length ∧ utf8_valid str1 := by
  cases str with
  | nil => simp at h0
  | cons b rest =>
    obtain ⟨s1, s2, s3⟩ := utf8_valid_step b rest unicode hv
    obtain ⟨v, e, hv1, hv2⟩ := hcov (sgl_utf8_to_unicode (b :: rest) unicode).2
    refine ⟨(b :: rest).drop (sgl_utf8_to_unicode (b :: rest) unicode).1,
      (sgl_utf8_to_unicode (b :: rest) unicode).2, v, ?_, hv1, hv2, ?_, s3⟩
    · unfold next_glyph
      rw [if_neg (by omega), e]
    · simp only [List.length_drop]
      simp only [List.length_cons] at s2 ⊢
      omega

theorem sgl_draw_character_some (d : sgl_pixel_depth) (surf : sgl_surf) (area : sgl_area)
    (x y : Int) (ch_index color alpha : Nat) (font : sgl_font) (g : sgl_font_table)
    (hg : font.table[ch_index]? = some g) :
    ∃ out, sgl_draw_character d surf area x y ch_index color alpha font = some out := by
  unfold sgl_draw_character
  rw [hg]
  exact ⟨_, rfl⟩

theorem wrap16_wrap16_add (a b : Int) : wrap16 (wrap16 a + b) = wrap16 (a + b) := by
  unfold wrap16; omega

/-- The two loops in step: with the pen of the draw loop at `x + offset_x`
and `lines = breaks + 1`, both loops return and end with `lines = breaks + 1`,
and `y` has advanced by one line step for each break. -/
theorem lines_lockstep (d : sgl_pixel_depth) (n : Nat) (font : sgl_font) (area : sgl_area)
    (x W : Int) (color alpha line_margin : Nat)
    (hcov : font.covers n) (hadv : ∀ g ∈ font.table, g.adv_w < 65536)
    (hx : -32768 ≤ x) (hx2 : area.x2 = x + W - 1) (hx2r : area.x2 ≤ 32767) (hW : W ≤ 32767)
    (hpen : ∀ g ∈ font.table, x + ((g.adv_w >>> 4 : Nat) : Int) ≤ 32767) :
    ∀ (fuel : Nat) (str : List Nat) (unicode : Nat) (offset_x lines y : Int) (surf : sgl_surf)
      (breaks : Nat),
      utf8_valid str → str.length ≤ fuel → 0 ≤ offset_x → x + offset_x ≤ 32767 →
      lines = (breaks : Int) + 1 → lines + str.length ≤ 32767 → is_int16 y →
      (string_height_loop n font W fuel str unicode offset_x lines).1 = walk_status.returned ∧
      (draw_string_mult_line_loop d n font area x color alpha line_margin fuel str unicode
        (x + offset_x) y surf breaks).1 = walk_status.returned ∧
      (string_height_loop n font W fuel str unicode offset_x lines).2.2.2 =
        ((draw_string_mult_line_loop d n font area x color alpha line_margin fuel str unicode
          (x + offset_x) y surf breaks).2.2.2.2.2 : Int) + 1 ∧
      (draw_string_mult_line_loop d n font area x color alpha line_margin fuel str unicode
          (x + offset_x) y surf breaks).2.2.2.1 =
        wrap16 (y +
          (((draw_string_mult_line_loop d n font area x color alpha line_margin fuel str unicode
            (x + offset_x) y surf breaks).2.2.2.2.2 : Int) - breaks) *
            ((font.font_height + line_margin : Nat) : Int)) ∧
      breaks ≤ (draw_string_mult_line_loop d n font area x color alpha line_margin fuel str
        unicode (x + offset_x) y surf breaks).2.2.2.2.2 := by
  intro fuel
  induction fuel with
  | zero =>
    intro str unicode offset_x lines y surf breaks hv hlen ho hxo hl hll hy
    have : str = [] := List.length_eq_zero.mp (Nat.le_zero.mp hlen)
    subst this
    simp only [string_height_loop, draw_string_mult_line_loop, List.getD_nil, if_true,
      sub_self, zero_mul, add_zero, le_refl, and_true, true_and]
    exact ⟨hl, (wrap16_of_int16 hy).symm⟩
  | succ fuel ih =>
    intro str unicode offset_x lines y surf breaks hv hlen ho hxo hl hll hy
    by_cases h0 : str.getD 0 0 = 0
    · simp only [string_height_loop, draw_string_mult_line_loop, h0, if_true,
        sub_self, zero_mul, add_zero, le_refl, and_true, true_and]
      exact ⟨hl, (wrap16_of_int16 hy).symm⟩
    · have hne : 1 ≤ str.length := by
        cases str with
        | nil => simp at h0
        | cons b rest => simp
      have hl1 : wrap16 (lines + 1) = ((breaks + 1 : Nat) : Int) + 1 := by
        push_cast
        rw [wrap16_of_int16 (by unfold is_int16; omega), hl]
      have hstep : ∀ bf : Nat, breaks + 1 ≤ bf →
          wrap16 (wrap16 (y + ((font.font_height + line_margin : Nat) : Int)) +
            ((bf : Int) - ((breaks + 1 : Nat) : Int)) *
              ((font.font_height + line_margin : Nat) : Int)) =
          wrap16 (y + ((bf : Int) - breaks) * ((font.font_height + line_margin : Nat) : Int)) := by
        intro bf _
        rw [wrap16_wrap16_add]
        congr 1
        push_cast
        ring
      by_cases h10 : str.getD 0 0 = 10
      · have hv1 : utf8_valid (str.drop 1) := by
          cases str with
          | nil => simp at h0
          | cons b rest =>
            simp only [List.getD_cons_zero] at h10
            subst h10
            simpa [utf8_valid, utf8_valid_from] using hv
        have hlen1 : (str.drop 1).length ≤ fuel := by
          simp only [List.length_drop]; omega
        have hll1 : (((breaks + 1 : Nat) : Int) + 1) + ((str.drop 1).length : Int) ≤ 32767 := by
          simp only [List.length_drop]; push_cast; omega
        obtain ⟨i1, i2, i3, i4, i5⟩ := ih (str.drop 1) unicode 0
          (((breaks + 1 : Nat) : Int) + 1)
          (wrap16 (y + ((font.font_height + line_margin : Nat) : Int))) surf (breaks + 1) hv1 hlen1
          (le_refl _) (by omega) rfl hll1 (wrap16_is_int16 _)
        simp only [add_zero] at i2 i3 i4 i5
        simp only [string_height_loop, draw_string_mult_line_loop, if_neg h0, if_pos h10, hl1]
        refine ⟨i1, i2, i3, ?_, Nat.le_of_succ_le i5⟩
        rw [i4, hstep _ i5]
      · obtain ⟨str1, unicode1, v, hng, hv1, hv2, hlt, hval⟩ :=
          next_glyph_covers n font str unicode hcov hv h0
        have hwv : wrap16 (v : Int) = v := wrap16_of_int16 (by unfold is_int16; omega)
        have hnn : ¬ ((v : Int) < 0) := by omega
        have hg : font.table[v]? = some (font.table.get ⟨v, hv1⟩) := by
          rw [List.getElem?_eq_getElem hv1]
          rfl
        have hmem : font.table.get ⟨v, hv1⟩ ∈ font.table := List.get_mem _ _ _
        have hcw : (font.table.get ⟨v, hv1⟩).adv_w >>> 4 ≤ 4095 := by
          have := hadv _ hmem
          rw [Nat.shiftRight_eq_div_pow]
          have e : (2 : Nat) ^ 4 = 16 := by norm_num
          omega
        have hp := hpen _ hmem
        generalize font.table.get ⟨v, hv1⟩ = g at hg hmem hcw hp
        generalize hcwd : g.adv_w >>> 4 = cw at hcw hp
        have hwc : wrap16 (cw : Int) = cw := wrap16_of_int16 (by unfold is_int16; omega)
        have hlen1 : str1.length ≤ fuel := by omega
        by_cases hc : offset_x + (cw : Int) ≥ W
        · have hc2 : x + offset_x + (cw : Int) > area.x2 := by omega
          obtain ⟨out, hout⟩ := sgl_draw_character_some d surf area x
            (wrap16 (y + ((font.font_height + line_margin : Nat) : Int))) v color alpha font g
            hg
          have hxo1 : wrap16 (x + (cw : Int)) = x + cw :=
            wrap16_of_int16 (by unfold is_int16; omega)
          obtain ⟨i1, i2, i3, i4, i5⟩ := ih str1 unicode1 (cw : Int)
            (((breaks + 1 : Nat) : Int) + 1)
            (wrap16 (y + ((font.font_height + line_margin : Nat) : Int)))
            { surf with buffer := out } (breaks + 1) hval hlen1
            (by omega) (by omega) rfl (by push_cast; omega) (wrap16_is_int16 _)
          simp only [string_height_loop, draw_string_mult_line_loop, if_neg h0, if_neg h10, hng,
            hwv, if_neg hnn, hg, hcwd, hwc, if_pos hc, if_pos hc2, hl1, zero_add, hout, hxo1,
            Int.toNat_ofNat]
          refine ⟨?_, ?_, ?_, ?_, ?_⟩
          · exact i1
          · exact i2
          · exact i3
          · rw [i4, hstep _ i5]
          · exact Nat.le_of_succ_le i5
        · have hc2 : ¬ (x + offset_x + (cw : Int) > area.x2) := by omega
          obtain ⟨out, hout⟩ := sgl_draw_character_some d surf area (x + offset_x) y v color
            alpha font g hg
          have hxo1 : wrap16 (x + offset_x + (cw : Int)) = x + (offset_x + cw) :=
            (wrap16_of_int16 (by unfold is_int16; omega)).trans (by ring)
          have ho1 : wrap16 (offset_x + (cw : Int)) = offset_x + cw :=
            wrap16_of_int16 (by unfold is_int16; omega)
          obtain ⟨i1, i2, i3, i4, i5⟩ := ih str1 unicode1 (offset_x + (cw : Int)) lines y
            { surf with buffer := out } breaks hval hlen1
            (by omega) (by omega) hl (by omega) hy
          simp only [string_height_loop, draw_string_mult_line_loop, if_neg h0, if_neg h10, hng,
            hwv, if_neg hnn, hg, hcwd, hwc, if_neg hc, if_neg hc2, hout, hxo1, ho1,
            Int.toNat_ofNat]
          exact ⟨i1, i2, i3, i4, i5⟩

theorem line_font_covers (n : Nat) : line_font.covers n := by
  intro unicode
  refine ⟨0, ?_, by decide, by decide⟩
  simp only [sgl_search_unicode_ch_index, line_font, scan_ranges, Nat.sub_self,
    List.getElem?_cons_zero]
  split_ifs with h
  · rfl
  · have h1 : (unicode + 2 ^ 32 - 97) % 2 ^ 32 = 0 := by omega
    rw [h1]
    rfl

/-- C39, counterexample: with the pen near the end of the `int16_t` range the
two counts differ. At `x = area.x1 = 32760` in an area of width 8 and a glyph
that advances by 10 pixels, `sgl_font_get_string_height` counts 3 lines for a
string of two glyphs (result 36 with a line height of 12), while
`sgl_draw_string_mult_line` breaks the line once: `x_off += ch_width` leaves
the range of `int16_t` after the first glyph and the second glyph is not
wrapped. -/
theorem string_height_lines_differ_at_int16_end :
    utf8_valid [97, 97] ∧
    sgl_font_get_string_height 0 2 8 [97, 97] line_font 0 = (walk_status.returned, 3, 36) ∧
    (sgl_draw_string_mult_line sgl_pixel_depth.RGB565 0 2 surf3 ⟨32760, 0, 32767, 100⟩ 32760 0
      [97, 97] 0xFFFF 255 line_font 0).1 = walk_status.returned ∧
    (sgl_draw_string_mult_line sgl_pixel_depth.RGB565 0 2 surf3 ⟨32760, 0, 32767, 100⟩ 32760 0
      [97, 97] 0xFFFF 255 line_font 0).2.2.2.2.2 + 1 = 2 ∧
    (sgl_draw_string_mult_line sgl_pixel_depth.RGB565 0 2 surf3 ⟨32760, 0, 32767, 100⟩ 32760 0
      [97, 97] 0xFFFF 255 line_font 0).2.2.1 = -32756 := by
  refine ⟨by decide, by decide, by decide, by decide, by decide⟩

/-- C39, amended: for a font in which every code point has a glyph and a
string of valid UTF-8 sequences of fewer than 32767 bytes, drawn at
`x = area.x1` into an area of width `W` such that `x` plus the advance of
every glyph stays within `int16_t`, `sgl_font_get_string_height` and
`sgl_draw_string_mult_line` both return, the number of lines the first counts
is the number of lines the second uses (one more than the number of its line
breaks), the returned height is that number times
`font_height + line_space`, and `y` ends that many line steps minus one
below its start. -/
theorem string_height_lines_match (d : sgl_pixel_depth) (n fuel : Nat) (surf : sgl_surf)
    (area : sgl_area) (x y W : Int) (str : List Nat) (color alpha : Nat) (font : sgl_font)
    (line_margin line_space : Nat)
    (hvalid : utf8_valid str) (hcov : font.covers n)
    (hadv : ∀ g ∈ font.table, g.adv_w < 65536)
    (hx : x = area.x1) (hw : area.x2 - area.x1 + 1 = W)
    (hx1 : is_int16 area.x1) (hx2 : is_int16 area.x2) (hW : is_int16 W) (hy : is_int16 y)
    (hpen : ∀ g ∈ font.table, x + ((g.adv_w >>> 4 : Nat) : Int) ≤ 32767)
    (hlen : str.length < 32767) (hfuel : str.length ≤ fuel) :
    (sgl_font_get_string_height n fuel W str font line_space).1 = walk_status.returned ∧
    (sgl_draw_string_mult_line d n fuel surf area x y str color alpha font line_margin).1 =
      walk_status.returned ∧
    (sgl_font_get_string_height n fuel W str font line_space).2.1 =
      ((sgl_draw_string_mult_line d n fuel surf area x y str color alpha font
        line_margin).2.2.2.2.2 : Int) + 1 ∧
    (sgl_font_get_string_height n fuel W str font line_space).2.2 =
      (((sgl_draw_string_mult_line d n fuel surf area x y str color alpha font
        line_margin).2.2.2.2.2 : Int) + 1) * ((font.font_height : Int) + line_space) ∧
    (sgl_draw_string_mult_line d n fuel surf area x y str color alpha font line_margin).2.2.2.1 =
      wrap16 (y +
        ((sgl_draw_string_mult_line d n fuel surf area x y str color alpha font
          line_margin).2.2.2.2.2 : Int) * ((font.font_height + line_margin : Nat) : Int)) := by
  unfold is_int16 at hx1 hx2 hW
  obtain ⟨i1, i2, i3, i4, _⟩ := lines_lockstep d n font area x W color alpha line_margin hcov hadv
    (by omega) (by omega) hx2.2 hW.2 hpen fuel str 0 0 1 y surf 0 hvalid hfuel (le_refl _)
    (by omega) (by simp) (by omega) hy
  simp only [add_zero, Nat.cast_zero, sub_zero] at i2 i3 i4
  simp only [sgl_font_get_string_height, sgl_draw_string_mult_line]
  refine ⟨i1, i2, i3, ?_, i4⟩
  rw [i3]

theorem string_height_lines_match_witness :
    utf8_valid [97, 97, 97] ∧ line_font.covers 0 ∧
    (sgl_font_get_string_height 0 3 25 [97, 97, 97] line_font 2).2.1 =
      ((sgl_draw_string_mult_line sgl_pixel_depth.RGB565 0 3 surf3 ⟨0, 0, 24, 100⟩ 0 0
        [97, 97, 97] 0xFFFF 255 line_font 2).2.2.2.2.2 : Int) + 1 :=
  ⟨by decide, line_font_covers 0,
    (string_height_lines_match sgl_pixel_depth.RGB565 0 3 surf3 ⟨0, 0, 24, 100⟩ 0 0 25
      [97, 97, 97] 0xFFFF 255 line_font 2 2 (by decide) (line_font_covers 0)
      (by decide) rfl (by decide) (by decide) (by decide) (by decide) (by decide)
      (by decide) (by decide) (by decide)).2.2.1⟩

end SglLite
